import Mathlib

/-! Open Salamander internal viewer: searching and selecting.

A shallow embedding of the find command (`CM_FINDNEXT`, `CM_FINDPREV`, `CM_FINDSET`) and of
the mouse selection handlers of `CViewerWindow::WindowProc` (src/viewer3.cpp).

* File offsets are `__int64` in the source and `Int` here; no path of the embedded code comes
  near the 64-bit range.
* The members of `CViewerWindow` that the embedded handlers read or write are the fields of
  the structure `CViewerWindow`; the locals of the find command that outlive its loops
  (`found`, `fatalErr`, `escPressed`, `noNotFound`) are the fields of `FindRun`.
* Everything a handler obtains from outside viewer3.cpp (the file, read errors, the Esc key,
  the line indexer, the regular-expression engine, the dialogs) is a field of `World`.
* Loops carry a fuel argument; a loop that runs out of fuel returns `none`.
-/

namespace Viewer

/-! ## Constants of viewer.h -/

/-- The constant `VIEW_BUFFER_SIZE` (`#define VIEW_BUFFER_SIZE 60000`). -/
def VIEW_BUFFER_SIZE : Int := 60000

/-- The constant `APROX_LINE_LEN` (`#define APROX_LINE_LEN 1000`). -/
def APROX_LINE_LEN : Int := 1000

/-- The constant `FIND_TEXT_LEN` (`#define FIND_TEXT_LEN 201`): the size of the buffers that
hold the search text, terminating zero included. -/
def FIND_TEXT_LEN : Nat := 201

/-- The constant `FIND_LINE_LEN` (`#define FIND_LINE_LEN 10000`). -/
def FIND_LINE_LEN : Int := 10000

/-! ## The data model -/

/-- The contents of a buffer `char [FIND_TEXT_LEN]` (`CFindSetDialog::Text`, and `hex` in
`InitFindDialog`, from which `SearchData` is set): a byte string with room left for the
terminating zero. -/
abbrev FindText := { l : List Nat // l.length < FIND_TEXT_LEN }

/-- The empty search text. -/
def FindText.empty : FindText := ⟨[], by decide⟩

/-- The enumeration `CViewType`. -/
inductive CViewType
  | vtText
  | vtHex
  deriving DecidableEq, Repr

/-- The class `CFindSetDialog`: the options of the Find dialog and its text. -/
structure CFindSetDialog where
  Forward : Bool := true
  WholeWords : Bool := false
  CaseSensitive : Bool := false
  HexMode : Bool := false
  Regular : Bool := false
  Text : FindText := FindText.empty
  deriving DecidableEq

/-- The commands that enter the find handler. -/
inductive FindCmd
  | CM_FINDNEXT
  | CM_FINDPREV
  | CM_FINDSET
  deriving DecidableEq, Repr

/-- The members of `class CViewerWindow` (viewer.h) used by the embedded handlers.
`SearchData` is the byte pattern that the `CSearchData` member was set to; the member `Type` is
named `ViewType` here; `LineOffset` holds a triple per line (begin, end, length in
characters); `FileName` tells whether the member is not `NULL`. The globals `CharWidth` and
`CharHeight` are carried along as fields. -/
structure CViewerWindow where
  OriginX : Int := 0
  SeekY : Int := 0
  MaxSeekY : Int := 0
  ViewSize : Int := 0
  FirstLineSize : Int := 0
  LastLineSize : Int := 0
  StartSelection : Int := -1
  EndSelection : Int := -1
  EndSelectionRow : Int := -1
  MouseDrag : Bool := false
  ChangingSelWithShiftKey : Bool := false
  FindDialog : CFindSetDialog := {}
  SearchData : FindText := FindText.empty
  FindOffset : Int := 0
  LastFindSeekY : Int := 0
  LastFindOffset : Int := 0
  ResetFindOffsetOnNextPaint : Bool := false
  SelectionIsFindResult : Bool := false
  ViewType : CViewType := CViewType.vtText
  Height : Int := 0
  CharHeight : Int := 1
  ScrollToSelection : Bool := false
  ExitTextMode : Bool := false
  WaitForViewerRefresh : Bool := false
  LastSeekY : Int := 0
  LastOriginX : Int := 0
  RepeatCmdAfterRefresh : Int := -1
  EndSelectionPrefX : Int := -1
  LineOffset : List Int := []
  WrapIsBeforeFirstLine : Bool := false
  WrapText : Bool := false
  Width : Int := 0
  CharWidth : Int := 1
  HexOffsetLength : Int := 8
  EnableSetScroll : Bool := true
  ForceTextMode : Bool := false
  FileName : Bool := true
  VScrollWParam : Int := -1
  VScrollWParamOld : Int := -1
  deriving DecidableEq

/-- What `FindPreviousEOL` and `FindNextEOL` hand back: the `BOOL` result, the two offsets
written through the reference parameters (`lineBegin`, `previousLineEnd`, respectively
`lineEnd`, `nextLineBegin`) and `fatalErr`. -/
structure EOLResult where
  ret : Bool
  first : Int
  second : Int
  fatalErr : Bool := false
  deriving DecidableEq, Repr

/-- What `FindBegin` and `ZeroLineSize` hand back: the offset or size, `fatalErr`, and
whether the call raised `ExitTextMode`. -/
structure SeekResult where
  value : Int
  fatalErr : Bool := false
  exitTextMode : Bool := false
  deriving DecidableEq, Repr

/-- What `GetOffset` hands back: the `BOOL` result, the offset, `fatalErr`, `onHexNum`. -/
structure OffsetResult where
  ret : Bool
  off : Int
  fatalErr : Bool := false
  onHexNum : Bool := false
  deriving DecidableEq, Repr

/-- What `ZeroLineSize` and `FindSeekBefore` write through `firstLineEndOff` and
`firstLineCharLen`. -/
structure FirstLine where
  endOff : Int := -1
  charLen : Int := -1
  deriving DecidableEq, Repr

/-- What `GetOffsetOrXAbs` hands back: the offset, the x coordinate of it, `fatalErr`. -/
structure ColumnResult where
  off : Int := 0
  x : Int := 0
  fatalErr : Bool := false
  deriving DecidableEq, Repr

/-- Everything the handlers obtain from code outside viewer3.cpp.

* `file`: the bytes of the viewed file (`FileSize` is its length);
* `readErr n`: the `n`-th call of `Prepare` made by the running command fails;
* `escPoll n`: the `n`-th poll of Esc / of the wait window's close button is positive;
* `LowerCase`, `IsCharAlpha`, `IsCharAlphaNumeric`: the character tables;
* `FindPreviousEOL seek minSeek`, `FindNextEOL seek maxSeek`, `FindBegin seek`,
  `ZeroLineSize SeekY`: the line indexer;
* `RegExpSetFlags`, `RegExpSetLine`, `RegExpSearchForward line start`,
  `RegExpSearchBackward line length`: the regular-expression engine; the search functions
  return `(found, foundLen)`;
* `dialog`: what the Find dialog returns when confirmed;
* `ConvertHexToString`: decoding of a hex search text;
* `MAKEVIS_LEFTRIGHT`, `FAST_LEFTRIGHT`, `CM_LINEUP`, `CM_PAGEUP`: constants defined
  outside src/;
* `LastLineCharLen`: the `firstLineCharLen`, `fatalErr` and `ExitTextMode` of the call
  `FindPreviousEOL(NULL, FileSize, 0, ...)` made by `CM_EXTSEL_FILEEND`;
* `FindSeekBefore seek lines addLineIfSeekIsWrap`, `ZeroLineFirst SeekY` (what
  `ZeroLineSize` writes through `firstLineEndOff` and `firstLineCharLen`): the line indexer;
* `XFromOffset lineBegOff lineCharLen lineEndOff offset` and
  `OffsetFromX suggestedX lineBegOff lineCharLen lineEndOff`: the two uses of
  `GetOffsetOrXAbs` in the text view;
* `Paint`: the handler of `WM_PAINT`, which `UpdateWindow` runs; it recomputes `LineOffset`
  and the sizes of the view. -/
structure World where
  file : List Nat
  readErr : Nat → Bool := fun _ => false
  escPoll : Nat → Bool := fun _ => false
  LowerCase : Nat → Nat := fun c => c
  IsCharAlpha : Nat → Bool := fun _ => false
  IsCharAlphaNumeric : Nat → Bool := fun _ => false
  SearchDataIsGood : Bool := true
  FindPreviousEOL : Int → Int → EOLResult := fun _ _ => ⟨false, 0, 0, false⟩
  FindNextEOL : Int → Int → EOLResult := fun _ _ => ⟨false, 0, 0, false⟩
  FindBegin : Int → SeekResult := fun o => ⟨o, false, false⟩
  ZeroLineSize : Int → SeekResult := fun _ => ⟨0, false, false⟩
  RegExpSetFlags : Bool := true
  RegExpSetLine : Int → Int → Bool := fun _ _ => true
  RegExpSearchForward : List Nat → Int → Int × Int := fun _ _ => (-1, 0)
  RegExpSearchBackward : List Nat → Int → Int × Int := fun _ _ => (-1, 0)
  dialog : Option CFindSetDialog := none
  ConvertHexToString : FindText → FindText := fun t => t
  MAKEVIS_LEFTRIGHT : Int := 0
  FAST_LEFTRIGHT : Int := 1
  CM_LINEUP : Int := 0
  CM_PAGEUP : Int := 0
  LastLineCharLen : SeekResult := ⟨0, false, false⟩
  FindSeekBefore : Int → Int → Bool → SeekResult := fun o _ _ => ⟨o, false, false⟩
  ZeroLineFirst : Int → FirstLine := fun _ => {}
  XFromOffset : Int → Int → Int → Int → ColumnResult := fun _ _ _ o => ⟨o, 0, false⟩
  OffsetFromX : Int → Int → Int → Int → ColumnResult := fun x b _ _ => ⟨b, x, false⟩
  Paint : CViewerWindow → CViewerWindow := fun s => s

/-- The member `FileSize`: the size of the viewed file. -/
def FileSize (w : World) : Int := w.file.length

/-- The byte `*(Buffer + (offset - Seek))` after a successful `Prepare`: the byte of the
file at `offset`. -/
def byteAt (w : World) (offset : Int) : Nat := w.file.getD offset.toNat 0

/-- The bytes `Buffer + (offset - Seek)`, `len` of them. -/
def chunk (w : World) (offset len : Int) : List Nat :=
  (w.file.drop offset.toNat).take len.toNat

/-- Modelled from the spec: `Prepare` is declared in viewer.h and defined outside src/.
It makes `bytes` bytes from `offset` on available in the buffer and returns how many of
them there are, `min(bytes, FileSize - offset)` and never less than zero ("returns the
number of bytes actually available (may be less than requested at EOF)"); a failed read
reports `fatalErr`. `reads` counts the earlier calls of the running command. -/
def Prepare (w : World) (reads : Nat) (offset bytes : Int) : Int × Bool :=
  if w.readErr reads then (0, true)
  else (max 0 (min bytes (FileSize w - offset)), false)

/-- Modelled from the spec: `FatalFileErrorOccured` is declared in viewer.h ("called when a
file error occurs (viewer refresh/clear is required)") and defined outside src/. It puts the
window into the state that waits for `WM_USER_VIEWERREFRESH`, remembering the position
(`LastSeekY`: "SeekY before the error") and the command to repeat. -/
def FatalFileErrorOccured (s : CViewerWindow) (repeatCmd : Int) : CViewerWindow :=
  { s with WaitForViewerRefresh := true, LastSeekY := s.SeekY, LastOriginX := s.OriginX,
           RepeatCmdAfterRefresh := repeatCmd }

/-! ## Literal search: `CSearchData` -/

/-- Comparison of a file byte with a pattern byte under the flag `sfCaseSensitive`. -/
def sameChar (w : World) (caseSensitive : Bool) (a b : Nat) : Bool :=
  if caseSensitive then a == b else w.LowerCase a == w.LowerCase b

/-- The pattern `pat` stands at the beginning of `text`. -/
def matchHere (w : World) (cs : Bool) : List Nat → List Nat → Bool
  | [], _ => true
  | _ :: _, [] => false
  | p :: ps, t :: ts => sameChar w cs t p && matchHere w cs ps ts

/-- Scan of the start positions `i`, `i + 1`, ... (`k` of them) for the first match. -/
def searchUp (w : World) (cs : Bool) (pat text : List Nat) : Nat → Nat → Int
  | _, 0 => -1
  | i, k + 1 => if matchHere w cs pat (text.drop i) then (i : Int)
                else searchUp w cs pat text (i + 1) k

/-- Scan of the start positions `k - 1`, `k - 2`, ..., `0` for the first match. -/
def searchDown (w : World) (cs : Bool) (pat text : List Nat) : Nat → Int
  | 0 => -1
  | k + 1 => if matchHere w cs pat (text.drop k) then (k : Int)
             else searchDown w cs pat text k

/-- Modelled from the spec: `CSearchData::SearchForward(text, length, 0)` belongs to a class
defined outside src/. It returns the start of the first occurrence of the pattern that lies
inside `text`, or -1. -/
def SearchForward (w : World) (cs : Bool) (pat text : List Nat) : Int :=
  searchUp w cs pat text 0 (text.length + 1 - pat.length)

/-- Modelled from the spec: `CSearchData::SearchBackward(text, length)` belongs to a class
defined outside src/. It returns the start of the last occurrence of the pattern that lies
inside `text`, or -1. -/
def SearchBackward (w : World) (cs : Bool) (pat text : List Nat) : Int :=
  searchDown w cs pat text (text.length + 1 - pat.length)

/-- The test `c == '_' || IsCharAlpha(c) || IsCharAlphaNumeric(c)`. -/
def wordChar (w : World) (c : Nat) : Bool :=
  c == 95 || w.IsCharAlpha c || w.IsCharAlphaNumeric c

/-- The message boxes of the find command, by the resource id of their text
(`RegExpError` stands for the text of `RegExp.GetLastErrorText()`). -/
inductive Message
  | IDS_EMPTYMATCH
  | IDS_INVALIDREGEXP
  | RegExpError
  | IDS_FINDTERMINATEDBYUSER
  | IDS_FIND_NOREGEXPMATCH
  | IDS_FIND_NOMATCH
  deriving DecidableEq, Repr

/-- The locals of the find command that outlive its loops, with the number of `Prepare`
calls (`reads`) and of Esc polls (`polls`) made so far and the message boxes shown. -/
structure FindRun where
  found : Int := -1
  fatalErr : Bool := false
  escPressed : Bool := false
  noNotFound : Bool := false
  reads : Nat := 0
  polls : Nat := 0
  messages : List Message := []
  deriving DecidableEq, Repr

/-- The whole-word test of the literal loops (viewer3.cpp 1291-1308 and 1364-1381) for an
occurrence at file offset `pos` of a pattern of length `m`. Returns `fail`, `fatalErr` and
the number of `Prepare` calls afterwards. -/
def wholeWordsLiteral (w : World) (reads : Nat) (pos m : Int) : Bool × Bool × Nat :=
  let before : Bool × Bool × Nat :=
    if pos > 0 then
      let p := Prepare w reads (pos - 1) 1
      (p.1 == 1 && !p.2 && wordChar w (byteAt w (pos - 1)), p.2, reads + 1)
    else (false, false, reads)
  if before.2.1 then (before.1, true, before.2.2)
  else
    let p := Prepare w before.2.2 (pos + m) 1
    (before.1 || (p.1 == 1 && !p.2 && wordChar w (byteAt w (pos + m))), p.2, before.2.2 + 1)

/-- The forward literal loop, viewer3.cpp 1280-1337. -/
def literalForward (w : World) :
    Nat → CViewerWindow → FindRun → Option (CViewerWindow × FindRun)
  | 0, _, _ => none
  | fuel + 1, s, r =>
    let m : Int := s.SearchData.val.length
    let p := Prepare w r.reads s.FindOffset FIND_LINE_LEN
    let r := { r with reads := r.reads + 1 }
    if p.2 then some (s, { r with fatalErr := true })
    else if p.1 ≥ m then
      let found := SearchForward w s.FindDialog.CaseSensitive s.SearchData.val
        (chunk w s.FindOffset p.1)
      let ww : Bool × Bool × Nat :=
        if found ≠ -1 ∧ s.FindDialog.WholeWords then
          wholeWordsLiteral w r.reads (s.FindOffset + found) m
        else (false, false, r.reads)
      let r := { r with found := found, reads := ww.2.2 }
      if ww.2.1 then some (s, { r with fatalErr := true })
      else
        let len := if ww.1 then found + m else p.1
        let r := if ww.1 then { r with found := -1 } else r
        if r.found ≠ -1 then
          some ({ s with StartSelection := s.FindOffset + r.found,
                         EndSelection := s.FindOffset + r.found + m,
                         FindOffset := s.FindOffset + r.found + m,
                         SelectionIsFindResult := true }, r)
        else
          let len := len - (m - 1)
          if len ≥ 0 then
            let s := { s with FindOffset := s.FindOffset + len }
            if w.escPoll r.polls then
              some (s, { r with escPressed := true, polls := r.polls + 1 })
            else literalForward w fuel s { r with polls := r.polls + 1 }
          else some (s, r)
    else some (s, r)

/-- The backward literal loop, viewer3.cpp 1341-1410. -/
def literalBackward (w : World) :
    Nat → CViewerWindow → FindRun → Option (CViewerWindow × FindRun)
  | 0, _, _ => none
  | fuel + 1, s, r =>
    let m : Int := s.SearchData.val.length
    if s.FindOffset > 0 then
      let off0 := s.FindOffset - FIND_LINE_LEN
      let len0 := if off0 < 0 then FIND_LINE_LEN + off0 else FIND_LINE_LEN
      let off := if off0 < 0 then 0 else off0
      let p := Prepare w r.reads off len0
      let r := { r with reads := r.reads + 1 }
      if p.2 then some (s, { r with fatalErr := true })
      else if p.1 ≥ m then
        let found := SearchBackward w s.FindDialog.CaseSensitive s.SearchData.val
          (chunk w off p.1)
        let ww : Bool × Bool × Nat :=
          if found ≠ -1 ∧ s.FindDialog.WholeWords then
            wholeWordsLiteral w r.reads (off + found) m
          else (false, false, r.reads)
        let r := { r with found := found, reads := ww.2.2 }
        if ww.2.1 then some (s, { r with fatalErr := true })
        else
          let len := if ww.1 then p.1 - found else p.1
          let r := if ww.1 then { r with found := -1 } else r
          if r.found ≠ -1 then
            some ({ s with FindOffset := off + r.found,
                           StartSelection := off + r.found,
                           EndSelection := off + r.found + m,
                           SelectionIsFindResult := true }, r)
          else
            let len := len - (m - 1)
            if len ≥ 0 then
              let s := { s with FindOffset := s.FindOffset - len }
              if w.escPoll r.polls then
                some (s, { r with escPressed := true, polls := r.polls + 1 })
              else literalBackward w fuel s { r with polls := r.polls + 1 }
            else some (s, r)
      else some (s, r)
    else some (s, r)

/-! ## Regular-expression search: one line at a time -/

/-- The whole-word test of the regular-expression loops (viewer3.cpp 1078-1096 and
1191-1209) for a match at `found` of length `foundLen` in the line from `lineBegin` to
`lineEnd`. Returns `fail`, `fatalErr` and the number of `Prepare` calls afterwards. -/
def wholeWordsRegExp (w : World) (reads : Nat) (lineBegin lineEnd found foundLen : Int) :
    Bool × Bool × Nat :=
  let before : Bool × Bool × Nat :=
    if found > 0 then
      let p := Prepare w reads (lineBegin + found - 1) 1
      (p.1 == 1 && !p.2 && wordChar w (byteAt w (lineBegin + found - 1)), p.2, reads + 1)
    else (false, false, reads)
  if before.2.1 then (before.1, true, before.2.2)
  else if found + foundLen < lineEnd - lineBegin then
    let p := Prepare w before.2.2 (lineBegin + found + foundLen) 1
    (before.1 || (p.1 == 1 && !p.2 && wordChar w (byteAt w (lineBegin + found + foundLen))),
      p.2, before.2.2 + 1)
  else (before.1, false, before.2.2)

/-- The retry loop at the label `REGEXP_FIND_NEXT_FORWARD` (viewer3.cpp 1072-1104).
Returns `found`, `foundLen`, `fatalErr` and the number of `Prepare` calls. -/
def regexpFindNextForward (w : World) (wholeWords : Bool) (line : List Nat)
    (lineBegin lineEnd : Int) : Nat → Int → Nat → Option (Int × Int × Bool × Nat)
  | 0, _, _ => none
  | fuel + 1, start, reads =>
    let f := w.RegExpSearchForward line start
    if f.1 ≠ -1 ∧ wholeWords then
      let t := wholeWordsRegExp w reads lineBegin lineEnd f.1 f.2
      if t.2.1 then some (f.1, f.2, true, t.2.2)
      else if t.1 then
        if f.1 + 1 < lineEnd - lineBegin then
          regexpFindNextForward w wholeWords line lineBegin lineEnd fuel (f.1 + 1) t.2.2
        else some (-1, f.2, false, t.2.2)
      else some (f.1, f.2, false, t.2.2)
    else some (f.1, f.2, false, reads)

/-- The retry loop at the label `REGEXP_FIND_NEXT_BACKWARD` (viewer3.cpp 1185-1217). -/
def regexpFindNextBackward (w : World) (wholeWords : Bool) (line : List Nat)
    (lineBegin lineEnd : Int) : Nat → Int → Nat → Option (Int × Int × Bool × Nat)
  | 0, _, _ => none
  | fuel + 1, length, reads =>
    let f := w.RegExpSearchBackward line length
    if f.1 ≠ -1 ∧ wholeWords then
      let t := wholeWordsRegExp w reads lineBegin lineEnd f.1 f.2
      if t.2.1 then some (f.1, f.2, true, t.2.2)
      else if t.1 then
        if f.1 + f.2 - 1 > 0 then
          regexpFindNextBackward w wholeWords line lineBegin lineEnd fuel (f.1 + f.2 - 1) t.2.2
        else some (-1, f.2, false, t.2.2)
      else some (f.1, f.2, false, t.2.2)
    else some (f.1, f.2, false, reads)

/-- The body of the forward loop for the line from `lineBegin` to `lineEnd` (viewer3.cpp
1055-1134). The third component tells whether the body left the loop by `break`. -/
def regexpForwardLine (w : World) (fuel : Nat) (lineBegin lineEnd : Int)
    (s : CViewerWindow) (r : FindRun) : Option (CViewerWindow × FindRun × Bool) :=
  if lineBegin < lineEnd then
    let p := Prepare w r.reads lineBegin (lineEnd - lineBegin)
    let r := { r with reads := r.reads + 1 }
    if p.2 then some (s, { r with fatalErr := true }, true)
    else if p.1 = lineEnd - lineBegin then
      if w.RegExpSetLine lineBegin lineEnd then
        let start := if s.FindOffset > lineBegin then s.FindOffset - lineBegin else 0
        match regexpFindNextForward w s.FindDialog.WholeWords
            (chunk w lineBegin (lineEnd - lineBegin)) lineBegin lineEnd fuel start r.reads with
        | none => none
        | some (found, foundLen, fatalErr, reads) =>
          let r := { r with found := found, reads := reads }
          if fatalErr then some (s, { r with fatalErr := true }, true)
          else if found ≠ -1 then
            if foundLen = 0 then
              some (s, { r with noNotFound := true,
                                messages := r.messages ++ [Message.IDS_EMPTYMATCH] }, true)
            else
              some ({ s with StartSelection := lineBegin + found,
                             EndSelection := lineBegin + found + foundLen,
                             FindOffset := lineBegin + found + foundLen,
                             SelectionIsFindResult := true }, r, true)
          else some (s, r, false)
      else
        some (s, { r with noNotFound := true,
                          messages := r.messages ++ [Message.RegExpError] }, true)
    else some (s, r, false)
  else some (s, r, false)

/-- The forward loop over the lines, `while (lineBegin < FileSize)` (viewer3.cpp
1045-1144). -/
def regexpForward (w : World) :
    Nat → Int → CViewerWindow → FindRun → Option (CViewerWindow × FindRun)
  | 0, _, _, _ => none
  | fuel + 1, lineBegin, s, r =>
    if lineBegin < FileSize w then
      let maxSeek := min (FileSize w) (lineBegin + FIND_LINE_LEN)
      let e := w.FindNextEOL lineBegin maxSeek
      let lineEnd := if e.ret then e.first else maxSeek
      let nextLineBegin := if e.ret then e.second else maxSeek
      if e.fatalErr then some (s, { r with fatalErr := true })
      else
        match regexpForwardLine w (fuel + 1) lineBegin lineEnd s r with
        | none => none
        | some (s, r, true) => some (s, r)
        | some (s, r, false) =>
          if w.escPoll r.polls then
            some (s, { r with escPressed := true, polls := r.polls + 1 })
          else regexpForward w fuel nextLineBegin s { r with polls := r.polls + 1 }
    else some (s, r)

/-- The body of the backward loop for the line from `lineBegin` to `lineEnd` (viewer3.cpp
1168-1247). -/
def regexpBackwardLine (w : World) (fuel : Nat) (lineBegin lineEnd : Int)
    (s : CViewerWindow) (r : FindRun) : Option (CViewerWindow × FindRun × Bool) :=
  if lineBegin < lineEnd then
    let p := Prepare w r.reads lineBegin (lineEnd - lineBegin)
    let r := { r with reads := r.reads + 1 }
    if p.2 then some (s, { r with fatalErr := true }, true)
    else if p.1 = lineEnd - lineBegin then
      if w.RegExpSetLine lineBegin lineEnd then
        let length := if s.FindOffset < lineEnd then s.FindOffset - lineBegin
                      else lineEnd - lineBegin
        match regexpFindNextBackward w s.FindDialog.WholeWords
            (chunk w lineBegin (lineEnd - lineBegin)) lineBegin lineEnd fuel length r.reads with
        | none => none
        | some (found, foundLen, fatalErr, reads) =>
          let r := { r with found := found, reads := reads }
          if fatalErr then some (s, { r with fatalErr := true }, true)
          else if found ≠ -1 then
            if foundLen = 0 then
              some (s, { r with noNotFound := true,
                                messages := r.messages ++ [Message.IDS_EMPTYMATCH] }, true)
            else
              some ({ s with FindOffset := lineBegin + found,
                             StartSelection := lineBegin + found,
                             EndSelection := lineBegin + found + foundLen,
                             SelectionIsFindResult := true }, r, true)
          else some (s, r, false)
      else
        some (s, { r with noNotFound := true,
                          messages := r.messages ++ [Message.RegExpError] }, true)
    else some (s, r, false)
  else some (s, r, false)

/-- The backward loop over the lines, `while (lineEnd > 0)` (viewer3.cpp 1158-1257). -/
def regexpBackward (w : World) :
    Nat → Int → CViewerWindow → FindRun → Option (CViewerWindow × FindRun)
  | 0, _, _, _ => none
  | fuel + 1, lineEnd, s, r =>
    if lineEnd > 0 then
      let e := w.FindPreviousEOL lineEnd (lineEnd - FIND_LINE_LEN)
      let lineBegin := if e.ret then e.first else lineEnd - FIND_LINE_LEN
      let previousLineEnd := if e.ret then e.second else lineEnd - FIND_LINE_LEN
      if e.fatalErr then some (s, { r with fatalErr := true })
      else
        match regexpBackwardLine w (fuel + 1) lineBegin lineEnd s r with
        | none => none
        | some (s, r, true) => some (s, r)
        | some (s, r, false) =>
          if w.escPoll r.polls then
            some (s, { r with escPressed := true, polls := r.polls + 1 })
          else regexpBackward w fuel previousLineEnd s { r with polls := r.polls + 1 }
    else some (s, r)

/-! ## The find command -/

/-- The restoring of `FindOffset` "after moving back and forth" (viewer3.cpp 974-977). -/
def restoreFindOffset (s : CViewerWindow) : CViewerWindow :=
  if s.LastFindSeekY = s.SeekY ∧ s.LastFindOffset ≠ s.FindOffset then
    { s with FindOffset := s.LastFindOffset }
  else s

/-- The inline method `InitFindDialog` of viewer.h: takes over the dialog's contents and
hands the text to `SearchData` (to `RegExp`, which is outside the model, when `Regular`). -/
def InitFindDialog (w : World) (s : CViewerWindow) (dlg : CFindSetDialog) : CViewerWindow :=
  let s := { s with FindDialog := dlg }
  if dlg.Text.val = [] then s
  else if dlg.Regular then s
  else if dlg.HexMode then { s with SearchData := w.ConvertHexToString dlg.Text }
  else { s with SearchData := dlg.Text }

/-- The Find dialog step (viewer3.cpp 979-994). `FindDialog.Execute()` works on the member
itself, so a confirmed dialog leaves its contents in `FindDialog` also when the text is
empty. The second component tells whether the handler goes on to search. -/
def askFindDialog (w : World) (cmd : FindCmd) (s : CViewerWindow) : CViewerWindow × Bool :=
  if cmd = FindCmd.CM_FINDSET ∨ s.FindDialog.Text.val = [] then
    match w.dialog with
    | none => (s, false)
    | some dlg =>
      if dlg.Text.val = [] then ({ s with FindDialog := dlg }, false)
      else
        let forw := s.FindDialog.Forward
        let s := InitFindDialog w s dlg
        if s.FindDialog.Forward ≠ forw then
          ({ s with FindOffset := if s.FindDialog.Forward then s.SeekY
                                  else s.SeekY + s.ViewSize }, true)
        else (s, true)
  else (s, true)

/-- The direction of the search,
`(LOWORD(wParam) != CM_FINDPREV) ^ (!FindDialog.Forward)` (viewer3.cpp 995). -/
def searchForward (cmd : FindCmd) (s : CViewerWindow) : Bool :=
  xor (decide (cmd ≠ FindCmd.CM_FINDPREV)) (!s.FindDialog.Forward)

/-- The cursor adjustment for a change of direction (viewer3.cpp 1000-1007). -/
def adjustFindOffset (forward : Bool) (s : CViewerWindow) : CViewerWindow :=
  if s.StartSelection ≠ s.EndSelection ∧ s.SelectionIsFindResult ∧
      (s.FindOffset = s.StartSelection ∨ s.FindOffset = s.EndSelection) then
    if forward then { s with FindOffset := max s.StartSelection s.EndSelection }
    else { s with FindOffset := min s.StartSelection s.EndSelection }
  else s

/-- The search itself (viewer3.cpp 1025-1413): the regular-expression or the literal loop in
the given direction. During a regular-expression search `Configuration.EOL_NULL` is forced
to `TRUE`, which the line indexer of `World` is understood to honour. -/
def searchLoops (w : World) (fuel : Nat) (forward : Bool) (s : CViewerWindow) :
    Option (CViewerWindow × FindRun) :=
  if s.FindDialog.Regular then
    if w.RegExpSetFlags then
      if forward then
        let e := w.FindPreviousEOL s.FindOffset (s.FindOffset - FIND_LINE_LEN)
        let lineBegin := if e.ret then e.first else s.FindOffset
        if e.fatalErr then some (s, { fatalErr := true })
        else regexpForward w fuel lineBegin s {}
      else
        let e := w.FindNextEOL s.FindOffset (s.FindOffset + FIND_LINE_LEN)
        let lineEnd := if e.ret then e.first else s.FindOffset
        if e.fatalErr then some (s, { fatalErr := true })
        else regexpBackward w fuel lineEnd s {}
    else some (s, { noNotFound := true, messages := [Message.IDS_INVALIDREGEXP] })
  else if w.SearchDataIsGood then
    if forward then literalForward w fuel s {} else literalBackward w fuel s {}
  else some (s, {})

/-- The loop that scrolls up to three lines above the selection (viewer3.cpp 1465-1480).
Returns the window, `fatalErr`, `lineOff` and whether the handler returned from inside. -/
def showSelectionLines (w : World) :
    Nat → Int → Int → CViewerWindow → CViewerWindow × Bool × Int × Bool
  | 0, _, lineOff, s => (s, false, lineOff, false)
  | n + 1, line, lineOff, s =>
    if line < Int.tdiv (Int.tdiv s.Height s.CharHeight - 1) 2 ∧ line < 3 then
      let s := { s with SeekY := lineOff }
      let z := w.ZeroLineSize s.SeekY
      let lineOff := lineOff - z.value
      let s := { s with ExitTextMode := s.ExitTextMode || z.exitTextMode }
      let s := if z.fatalErr then FatalFileErrorOccured s (-1) else s
      if z.fatalErr ∨ s.ExitTextMode then (s, z.fatalErr, lineOff, true)
      else if lineOff ≤ 0 then (s, false, 0, false)
      else showSelectionLines w n (line + 1) lineOff s
    else (s, false, lineOff, false)

/-- The locals `startSel` and `endSel` of viewer3.cpp 1453-1456. -/
def shownSelection (s : CViewerWindow) : Int × Int :=
  let startSel := if s.StartSelection = -1 then 0 else s.StartSelection
  let endSel := if s.EndSelection = -1 then 0 else s.EndSelection
  if startSel = endSel then (0, 0) else (startSel, endSel)

/-- The scrolling that shows the selection, "if possible, scroll up by three lines"
(viewer3.cpp 1459-1481). The third component tells whether the handler returned from
inside (fatal error or `ExitTextMode`). -/
def scrollToSelection (w : World) (startSel : Int) (s : CViewerWindow) (r : FindRun) :
    CViewerWindow × FindRun × Bool :=
  let b := w.FindBegin startSel
  let s := { s with ExitTextMode := s.ExitTextMode || b.exitTextMode }
  let s := if b.fatalErr then FatalFileErrorOccured s (-1) else s
  if b.fatalErr ∨ s.ExitTextMode then (s, { r with fatalErr := b.fatalErr }, true)
  else
    let t := showSelectionLines w 3 0 b.value s
    if t.2.2.2 then (t.1, { r with fatalErr := t.2.1 }, true)
    else ({ t.1 with SeekY := min t.2.2.1 t.1.MaxSeekY }, r, false)

/-- Bringing the selection into view after a match (viewer3.cpp 1453-1483). The third
component tells whether the handler returned from inside. -/
def showSelection (w : World) (s : CViewerWindow) (r : FindRun) :
    CViewerWindow × FindRun × Bool :=
  if (shownSelection s).1 < s.SeekY ∨ (shownSelection s).2 > s.SeekY + s.ViewSize then
    let t := scrollToSelection w (shownSelection s).1 s r
    if t.2.2 then t else ({ t.1 with ScrollToSelection := true }, t.2.1, false)
  else ({ s with ScrollToSelection := true }, r, false)

/-- The end of the find command (viewer3.cpp 1414-1490), entered with the value
`oldFindOffset` captured before the search. -/
def finishFind (w : World) (oldFindOffset : Int) (s : CViewerWindow) (r : FindRun) :
    CViewerWindow × FindRun :=
  if r.fatalErr then (FatalFileErrorOccured s (-1), r)
  else
    let r := if r.escPressed then
        { r with found := -1, noNotFound := true,
                 messages := r.messages ++ [Message.IDS_FINDTERMINATEDBYUSER] }
      else r
    let t : CViewerWindow × FindRun × Bool :=
      if r.found = -1 then
        ({ s with EndSelection := s.StartSelection, FindOffset := oldFindOffset },
         if !r.noNotFound then
           { r with messages := r.messages ++
               [if s.FindDialog.Regular then Message.IDS_FIND_NOREGEXPMATCH
                else Message.IDS_FIND_NOMATCH] }
         else r, false)
      else showSelection w s r
    if t.2.2 then (t.1, t.2.1)
    else ({ t.1 with LastFindSeekY := t.1.SeekY, LastFindOffset := t.1.FindOffset }, t.2.1)

/-- The window with which the search is set up: after the restoring step and the Find
dialog, before the direction adjustment. -/
def searchSetting (w : World) (cmd : FindCmd) (s : CViewerWindow) : CViewerWindow :=
  (askFindDialog w cmd (restoreFindOffset s)).1

/-- Whether the handler gets as far as searching: no block is being dragged and the Find
dialog, if it was opened, was confirmed with a text. -/
def searchStarts (w : World) (cmd : FindCmd) (s : CViewerWindow) : Bool :=
  !s.MouseDrag && (askFindDialog w cmd (restoreFindOffset s)).2

/-- The value `oldFindOffset` that the find command captures (viewer3.cpp 999): the search
cursor after the restoring step and the dialog, before the direction adjustment. -/
def oldFindOffset (w : World) (cmd : FindCmd) (s : CViewerWindow) : Int :=
  (searchSetting w cmd s).FindOffset

/-- The cursor with which the search loop is entered: after the restoring step, the dialog
and the direction adjustment. -/
def startCursor (w : World) (cmd : FindCmd) (s : CViewerWindow) : Int :=
  (adjustFindOffset (searchForward cmd (searchSetting w cmd s)) (searchSetting w cmd s)).FindOffset

/-- The handler of `CM_FINDNEXT`, `CM_FINDPREV` and `CM_FINDSET` (viewer3.cpp 968-1491).
Returns the window afterwards and the locals and message boxes of the run; `none` when a
loop ran out of fuel. -/
def findCommand (w : World) (fuel : Nat) (cmd : FindCmd) (s : CViewerWindow) :
    Option (CViewerWindow × FindRun) :=
  if s.MouseDrag then some (s, {})
  else
    let d := askFindDialog w cmd (restoreFindOffset s)
    if d.2 then
      let forward := searchForward cmd d.1
      match searchLoops w fuel forward (adjustFindOffset forward d.1) with
      | none => none
      | some (s2, r) => some (finishFind w d.1.FindOffset s2 r)
    else some (d.1, {})

/-! ## The left mouse button -/

/-- What the handler of `WM_LBUTTONDOWN` obtains from outside: the Shift key, the two
`GetOffset` calls (the first with `leftMost = TRUE`), `CheckSelectionIsNotTooBig` with its
`msgBoxDisplayed`, the `fatalErr` of `GetSelectedText`, whether the cursor moved by two
pixels or more between the two `GetCursorPos` calls around `DoDragDrop`, and the `y`
coordinate of the click. -/
structure Click where
  shiftPressed : Bool := false
  offLeftMost : OffsetResult
  offDrag : OffsetResult
  notTooBig : Bool := true
  msgBoxDisplayed : Bool := false
  textFatalErr : Bool := false
  moved : Bool := false
  y : Int := 0

/-- The handler of `WM_LBUTTONDOWN` (viewer3.cpp 2700-2796). -/
def OnLButtonDown (c : Click) (s : CViewerWindow) : CViewerWindow :=
  let off := c.offLeftMost.off
  if c.shiftPressed ∨ (c.offLeftMost.ret ∧ ¬ c.offLeftMost.fatalErr) then
    if ¬ c.shiftPressed ∧ s.StartSelection ≠ s.EndSelection ∧
        (off ≥ s.StartSelection ∨ off ≥ s.EndSelection) ∧
        (off < s.StartSelection ∨ off < s.EndSelection) ∧
        (s.ViewType ≠ CViewType.vtHex ∨ (off ≠ s.StartSelection ∧ off ≠ s.EndSelection) ∨
          c.offLeftMost.onHexNum) then
      if c.notTooBig ∧ ¬ c.msgBoxDisplayed then
        if c.textFatalErr then FatalFileErrorOccured s (-1)
        else if ¬ c.moved then
          { s with LastFindSeekY := -1, FindOffset := off, EndSelection := s.StartSelection }
        else s
      else s
    else
      if (c.shiftPressed ∧ s.StartSelection ≠ -1) ∨ (c.offDrag.ret ∧ ¬ c.offDrag.fatalErr) then
        let s := { s with MouseDrag := true, SelectionIsFindResult := false,
                          ChangingSelWithShiftKey := false }
        if c.shiftPressed ∧ s.StartSelection ≠ -1 then { s with EndSelectionRow := -1 }
        else { s with StartSelection := c.offDrag.off, EndSelection := c.offDrag.off,
                      EndSelectionRow := Int.tdiv c.y s.CharHeight }
      else if c.offDrag.fatalErr then FatalFileErrorOccured s (-1)
      else s
  else if c.offLeftMost.fatalErr then FatalFileErrorOccured s (-1)
  else s

/-- Modelled from the spec: `ReleaseMouseDrag` is declared in viewer.h and defined outside
src/. It ends the dragging of the block with the mouse. -/
def ReleaseMouseDrag (s : CViewerWindow) : CViewerWindow :=
  { s with MouseDrag := false }

/-- The handler of `WM_LBUTTONUP` and `WM_CANCELMODE` (viewer3.cpp 2832-2847). -/
def OnLButtonUp (s : CViewerWindow) : CViewerWindow :=
  if s.MouseDrag then
    let s := ReleaseMouseDrag s
    { s with LastFindSeekY := -1,
             FindOffset := if s.EndSelection ≠ -1 then s.EndSelection else 0 }
  else s

/-- The pattern `pat` occurs in the file at offset `p` (under the case flag `cs`). -/
def occursAt (w : World) (cs : Bool) (pat : List Nat) (p : Int) : Bool :=
  decide (0 ≤ p) && matchHere w cs pat (w.file.drop p.toNat)

/-- The whole-word condition at offset `p` for a match of length `m`: the byte before `p`
(when `p > 0`) and the byte at `p + m` (when `p + m < FileSize`) are no word characters. -/
def wholeWordAt (w : World) (m p : Int) : Bool :=
  !(decide (0 < p) && wordChar w (byteAt w (p - 1))) &&
  !(decide (p + m < FileSize w) && wordChar w (byteAt w (p + m)))

/-- An occurrence of `pat` at `p` that the search accepts: any occurrence when `wholeWords`
is off, an occurrence that satisfies the whole-word condition when it is on. -/
def acceptedAt (w : World) (cs wholeWords : Bool) (pat : List Nat) (p : Int) : Bool :=
  occursAt w cs pat p && (!wholeWords || wholeWordAt w pat.length p)


/-- The fields of the run that the search loops leave alone while they scan. -/
def sameFlags (r r' : FindRun) : Prop :=
  r'.fatalErr = r.fatalErr ∧ r'.escPressed = r.escPressed ∧ r'.noNotFound = r.noNotFound ∧
  r'.messages = r.messages

/-- What a forward literal loop started in the window `s` owes for the cursor `c`, stated
for its result `res`: either the least accepted occurrence at or after `c` is selected and
the cursor put behind it, or there is no accepted occurrence at or after `c` and only the
cursor has moved. -/
def ForwardResult (w : World) (s : CViewerWindow) (c : Int) (r : FindRun)
    (res : Option (CViewerWindow × FindRun)) : Prop :=
  (∃ p r', c ≤ p ∧
    acceptedAt w s.FindDialog.CaseSensitive s.FindDialog.WholeWords s.SearchData.val p = true ∧
    (∀ q, c ≤ q → q < p →
      acceptedAt w s.FindDialog.CaseSensitive s.FindDialog.WholeWords s.SearchData.val q = false) ∧
    res = some ({ s with StartSelection := p, EndSelection := p + s.SearchData.val.length,
                         FindOffset := p + s.SearchData.val.length,
                         SelectionIsFindResult := true }, r') ∧
    r'.found ≠ -1 ∧ sameFlags r r') ∨
  (∃ c' r', (∀ q, c ≤ q →
      acceptedAt w s.FindDialog.CaseSensitive s.FindDialog.WholeWords s.SearchData.val q = false) ∧
    res = some ({ s with FindOffset := c' }, r') ∧ r'.found = -1 ∧ sameFlags r r')


/-- What a backward literal loop started in the window `s` owes for the cursor `c`: either
the greatest accepted occurrence that ends at or before `c` is selected and the cursor put
at its start, or no accepted occurrence ends at or before `c` and only the cursor has
moved. -/
def BackwardResult (w : World) (s : CViewerWindow) (c : Int) (r : FindRun)
    (res : Option (CViewerWindow × FindRun)) : Prop :=
  (∃ p r', p + s.SearchData.val.length ≤ c ∧
    acceptedAt w s.FindDialog.CaseSensitive s.FindDialog.WholeWords s.SearchData.val p = true ∧
    (∀ q, p < q → q + s.SearchData.val.length ≤ c →
      acceptedAt w s.FindDialog.CaseSensitive s.FindDialog.WholeWords s.SearchData.val q = false) ∧
    res = some ({ s with FindOffset := p, StartSelection := p,
                         EndSelection := p + s.SearchData.val.length,
                         SelectionIsFindResult := true }, r') ∧
    r'.found ≠ -1 ∧ sameFlags r r') ∨
  (∃ c' r', (∀ q, q + s.SearchData.val.length ≤ c →
      acceptedAt w s.FindDialog.CaseSensitive s.FindDialog.WholeWords s.SearchData.val q = false) ∧
    res = some ({ s with FindOffset := c' }, r') ∧ r'.found = -1 ∧ sameFlags r r')


/-- The members that hold the state of searching and selecting. -/
def searchFields (s : CViewerWindow) :
    Int × Int × Int × Bool × CFindSetDialog × FindText × Bool × Int × Int :=
  (s.StartSelection, s.EndSelection, s.FindOffset, s.SelectionIsFindResult, s.FindDialog,
    s.SearchData, s.MouseDrag, s.LastFindSeekY, s.LastFindOffset)


/-- What a literal loop started in the window `s` with the run `r` may leave behind, for
every world: either only the cursor has moved and the loop ended by an error, by Esc or
without a match, or an occurrence at some `p` was selected and the cursor put behind it
(forward) or at its start (backward). -/
def LiteralOutcome (forward : Bool) (s : CViewerWindow) (r : FindRun) (s' : CViewerWindow)
    (r' : FindRun) : Prop :=
  ((∃ c', s' = { s with FindOffset := c' }) ∧
    (r'.fatalErr = true ∨ r'.escPressed = true ∨ r'.found = -1) ∧
    r'.messages = r.messages ∧ r'.noNotFound = r.noNotFound) ∨
  (∃ p, s' = { s with StartSelection := p, EndSelection := p + s.SearchData.val.length,
                      FindOffset := if forward then p + s.SearchData.val.length else p,
                      SelectionIsFindResult := true } ∧
    r'.found ≠ -1 ∧ sameFlags r r')


/-- The end of the line that the forward regular-expression loop takes for the line
beginning at `lineBegin` (viewer3.cpp 1047-1051): what `FindNextEOL` finds up to `maxSeek`,
or `maxSeek` itself. -/
def lineEndAfter (w : World) (lineBegin : Int) : Int :=
  let maxSeek := min (FileSize w) (lineBegin + FIND_LINE_LEN)
  let e := w.FindNextEOL lineBegin maxSeek
  if e.ret then e.first else maxSeek

/-- The beginning of the line that the backward regular-expression loop takes for the line
ending at `lineEnd` (viewer3.cpp 1160-1164): what `FindPreviousEOL` finds down to
`lineEnd - FIND_LINE_LEN`, or that offset itself. -/
def lineBeginBefore (w : World) (lineEnd : Int) : Int :=
  let e := w.FindPreviousEOL lineEnd (lineEnd - FIND_LINE_LEN)
  if e.ret then e.first else lineEnd - FIND_LINE_LEN

/-- A regular-expression search selected a match: there is a line from `lineBegin` to
`lineEnd`, taken by the loop of the given direction, in which the engine returned
`(found, foundLen)` with `foundLen ≠ 0`, and the window `s'` is `s` with that match
selected and the cursor behind it (forward) or at its start (backward). -/
def RegExpMatch (w : World) (forward : Bool) (s s' : CViewerWindow) (found : Int) : Prop :=
  ∃ lineBegin lineEnd start foundLen,
    (if forward then lineEnd = lineEndAfter w lineBegin
     else lineBegin = lineBeginBefore w lineEnd) ∧
    lineBegin < lineEnd ∧
    (if forward then w.RegExpSearchForward (chunk w lineBegin (lineEnd - lineBegin)) start
     else w.RegExpSearchBackward (chunk w lineBegin (lineEnd - lineBegin)) start)
      = (found, foundLen) ∧
    found ≠ -1 ∧ foundLen ≠ 0 ∧
    s' = { s with StartSelection := lineBegin + found,
                  EndSelection := lineBegin + found + foundLen,
                  FindOffset := if forward then lineBegin + found + foundLen
                                else lineBegin + found,
                  SelectionIsFindResult := true }

/-- What a regular-expression loop started in the window `s` with the run `r` may leave
behind, for every world: the window untouched after a read error, after Esc or the last
line, after an empty match (`IDS_EMPTYMATCH`) or after `SetLine` failed; or a match
selected. -/
def RegExpOutcome (w : World) (forward : Bool) (s : CViewerWindow) (r : FindRun)
    (s' : CViewerWindow) (r' : FindRun) : Prop :=
  (s' = s ∧ r'.fatalErr = true ∧ r'.messages = r.messages) ∨
  (s' = s ∧ r'.fatalErr = r.fatalErr ∧ r'.found = -1 ∧ r'.noNotFound = r.noNotFound ∧
    r'.messages = r.messages) ∨
  (s' = s ∧ r'.fatalErr = r.fatalErr ∧ r'.escPressed = r.escPressed ∧ r'.found ≠ -1 ∧
    r'.noNotFound = true ∧ r'.messages = r.messages ++ [Message.IDS_EMPTYMATCH]) ∨
  (s' = s ∧ r'.fatalErr = r.fatalErr ∧ r'.escPressed = r.escPressed ∧ r'.found = -1 ∧
    r'.noNotFound = true ∧ r'.messages = r.messages ++ [Message.RegExpError]) ∨
  (RegExpMatch w forward s s' r'.found ∧ sameFlags r r')


/-- What the search of the find command (`searchLoops`) may leave behind, for every world:
the outcome of a literal loop, or, for a regular expression, the outcome of a
regular-expression loop or the message about an invalid expression. -/
def SearchOutcome (w : World) (forward : Bool) (s s' : CViewerWindow) (r' : FindRun) : Prop :=
  (s.FindDialog.Regular = false ∧ LiteralOutcome forward s {} s' r') ∨
  (s.FindDialog.Regular = true ∧ RegExpOutcome w forward s {} s' r') ∨
  (s.FindDialog.Regular = true ∧ s' = s ∧
    r' = { noNotFound := true, messages := [Message.IDS_INVALIDREGEXP] })

/-- The bytes of a string, for writing files and patterns as text. -/
def bytes (t : String) : List Nat := t.toList.map Char.toNat

/-- Example: the file of the search-symmetry example. -/
def symmetryFile : World := { file := bytes "abcXYZdefXYZghi" }

/-- Example: a window on a 15-byte file that is shown as a whole, set up to search for
"XYZ", cursor at the beginning. -/
def symmetryWindow : CViewerWindow :=
  { FindDialog := { Text := ⟨bytes "XYZ", by decide⟩, CaseSensitive := true },
    SearchData := ⟨bytes "XYZ", by decide⟩, ViewSize := 15, Height := 100, CharHeight := 10 }


/-- Example: `IsCharAlpha` on the ASCII letters. -/
def asciiAlpha (c : Nat) : Bool := (65 ≤ c && c ≤ 90) || (97 ≤ c && c ≤ 122)

/-- Example: `IsCharAlphaNumeric` on the ASCII letters and digits. -/
def asciiAlphaNumeric (c : Nat) : Bool := asciiAlpha c || (48 ≤ c && c ≤ 57)

/-- Example: the file of the whole-word example. -/
def wholeWordFile : World :=
  { file := bytes "concatenate cat scatter", IsCharAlpha := asciiAlpha,
    IsCharAlphaNumeric := asciiAlphaNumeric }

/-- Example: a window on the 23-byte file, shown as a whole, set up to search for the whole
word "cat", cursor at the beginning. -/
def wholeWordWindow : CViewerWindow :=
  { FindDialog := { Text := ⟨bytes "cat", by decide⟩, WholeWords := true },
    SearchData := ⟨bytes "cat", by decide⟩, ViewSize := 23, Height := 100, CharHeight := 10 }


/-- Example: the window of the search-symmetry example after the forward search has
selected the match at offset 3. -/
def symmetryWindowAfter : CViewerWindow :=
  { symmetryWindow with StartSelection := 3, EndSelection := 6, FindOffset := 6,
                        SelectionIsFindResult := true, LastFindOffset := 6,
                        ScrollToSelection := true }


/-- Example: an eight-byte file and a user who presses Esc when the search polls the
keyboard for the first time. -/
def cancelledFile : World := { file := bytes "abcdefgh", escPoll := fun n => n == 0 }

/-- Example: a window on the eight-byte file, shown as a whole, with the bytes from 3 to 6
selected with the mouse, the cursor at 2, set up to search for "zz". -/
def selectionWindow : CViewerWindow :=
  { FindDialog := { Text := ⟨bytes "zz", by decide⟩ }, SearchData := ⟨bytes "zz", by decide⟩,
    ViewSize := 8, Height := 100, CharHeight := 10, StartSelection := 3, EndSelection := 6,
    FindOffset := 2, LastFindOffset := 2 }

/-- Example: the eight-byte file when the second read of the running command fails. -/
def unreadableFile : World := { file := bytes "abcdefgh", readErr := fun n => n == 1 }


/-- Example: what the search terminated by Esc leaves of `selectionWindow`: the selection
emptied at its start, the cursor back at 2. -/
def selectionWindowAfter : CViewerWindow :=
  { selectionWindow with EndSelection := 3 }

/-- Example: the locals and message boxes of the search terminated by Esc. -/
def cancelledRun : FindRun :=
  { found := -1, escPressed := true, noNotFound := true, reads := 1, polls := 1,
    messages := [Message.IDS_FINDTERMINATEDBYUSER] }

/-- Modelled from the spec: `FindNextEOL` is declared in viewer.h and defined outside src/.
An example of it for a file whose lines end with LF: it reports the first LF at or after
`seek` and before `maxSeek` ("if no EOL appears before `maxOffset`", it finds none). -/
def lineFeedAfter (file : List Nat) (seek maxSeek : Int) : EOLResult :=
  let part := (file.drop seek.toNat).take (maxSeek - seek).toNat
  let i := part.indexOf 10
  if i < part.length then ⟨true, seek + i, seek + i + 1, false⟩ else ⟨false, 0, 0, false⟩

/-- Modelled from the spec: `FindPreviousEOL` is declared in viewer.h and defined outside
src/. An example of it for a file whose lines end with LF: it reports the line beginning
behind the last LF before `seek` and not before `minSeek`, or the beginning of the file
when that is in reach. -/
def lineFeedBefore (file : List Nat) (seek minSeek : Int) : EOLResult :=
  let part := ((file.take seek.toNat).drop (max minSeek 0).toNat).reverse
  let i := part.indexOf 10
  if i < part.length then ⟨true, seek - i, seek - i - 1, false⟩
  else if minSeek ≤ 0 then ⟨true, 0, 0, false⟩ else ⟨false, 0, 0, false⟩

/-- Modelled from the spec: the regular-expression engine is defined outside src/. An
example of its `SearchForward` when compiled for the expression "X": the first "X" at or
after `start`, of length 1. -/
def firstX (line : List Nat) (start : Int) : Int × Int :=
  let rest := line.drop start.toNat
  let i := rest.indexOf 88
  if i < rest.length then (start.toNat + i, 1) else (-1, 0)

/-- Modelled from the spec: the regular-expression engine is defined outside src/. An
example of its `SearchBackward` when compiled for the expression "X": the last "X" that
ends at or before `length`, of length 1. -/
def lastX (line : List Nat) (length : Int) : Int × Int :=
  let part := (line.take length.toNat).reverse
  let i := part.indexOf 88
  if i < part.length then ((part.length : Int) - 1 - i, 1) else (-1, 0)

/-- Example: a file of two lines, "ab" and "Xcd", with its line indexer and the engine
for the expression "X". -/
def regexpFile : World :=
  { file := bytes "ab\nXcd",
    FindNextEOL := lineFeedAfter (bytes "ab\nXcd"),
    FindPreviousEOL := lineFeedBefore (bytes "ab\nXcd"),
    RegExpSearchForward := firstX, RegExpSearchBackward := lastX }

/-- Example: a window on the two-line file, shown as a whole, set up to search for the
regular expression "X", cursor at the beginning. -/
def regexpWindow : CViewerWindow :=
  { FindDialog := { Text := ⟨bytes "X", by decide⟩, Regular := true },
    SearchData := ⟨bytes "X", by decide⟩, ViewSize := 6, Height := 100, CharHeight := 10 }

/-- Example: the window after the regular-expression search has selected the "X" at 3. -/
def regexpWindowAfter : CViewerWindow :=
  { regexpWindow with StartSelection := 3, EndSelection := 4, FindOffset := 4,
                      SelectionIsFindResult := true, LastFindOffset := 4,
                      ScrollToSelection := true }

/-- Example: a left click without Shift on the byte at offset 4, released without moving
the mouse; both `GetOffset` calls return 4. -/
def clickAtFour : Click :=
  { offLeftMost := ⟨true, 4, false, false⟩, offDrag := ⟨true, 4, false, false⟩ }

/-- Example: a left click without Shift on the byte at offset 7, released without moving
the mouse; both `GetOffset` calls return 7. -/
def clickAtSeven : Click :=
  { offLeftMost := ⟨true, 7, false, false⟩, offDrag := ⟨true, 7, false, false⟩ }

/-- Example: `selectionWindow` with the block dragged backward, from 6 to 3. -/
def backwardSelectionWindow : CViewerWindow :=
  { selectionWindow with StartSelection := 6, EndSelection := 3 }

/-! ## Scrolling and the helpers of the navigation commands -/

/-- The constant `BORDER_WIDTH` (`#define BORDER_WIDTH 3`). -/
def BORDER_WIDTH : Int := 3

/-- The element `LineOffset[i]`. -/
def LineOffsetAt (s : CViewerWindow) (i : Int) : Int := s.LineOffset.getD i.toNat 0

/-- The member `LineOffset.Count`. -/
def LineOffsetCount (s : CViewerWindow) : Int := s.LineOffset.length

/-- The call `UpdateWindow(HWindow)` after an invalidation: it runs the handler of
`WM_PAINT`, which in the state that waits for the refresh only validates the window
(viewer3.cpp 426-431). -/
def UpdateWindow (w : World) (s : CViewerWindow) : CViewerWindow :=
  if s.WaitForViewerRefresh then s else w.Paint s

/-- The loop of `GetMaxVisibleLineLen` over the lengths `LineOffset[i]`, `i += 3`
(viewer3.cpp 255-257). -/
def maxLineLenFrom (s : CViewerWindow) (lineOffsetCount : Int) : Nat → Int → Int → Int
  | 0, _, m => m
  | n + 1, i, m =>
    if i < lineOffsetCount then
      maxLineLenFrom s lineOffsetCount n (i + 3) (if m < LineOffsetAt s i then LineOffsetAt s i else m)
    else m

/-- The method `GetMaxVisibleLineLen` (viewer3.cpp 237-266). -/
def GetMaxVisibleLineLen (s : CViewerWindow) (newFirstLineLen : Int) (ignoreFirstLine : Bool) :
    Int :=
  match s.ViewType with
  | CViewType.vtText =>
    let m := if newFirstLineLen ≠ -1 then newFirstLineLen else 0
    let lineOffsetCount :=
      if newFirstLineLen ≠ -1 ∧ LineOffsetCount s ≥ 3 then LineOffsetCount s - 3
      else LineOffsetCount s
    maxLineLenFrom s lineOffsetCount s.LineOffset.length (if ignoreFirstLine then 3 + 2 else 2) m
  | CViewType.vtHex => 62 + 16 - 8 + s.HexOffsetLength

/-- The method `GetMaxOriginX` (viewer3.cpp 268-274). -/
def GetMaxOriginX (s : CViewerWindow) (newFirstLineLen : Int) (ignoreFirstLine : Bool)
    (maxLineLen : Int) : Int :=
  let maxLL := if maxLineLen ≠ -1 then maxLineLen
    else GetMaxVisibleLineLen s newFirstLineLen ignoreFirstLine
  let columns := Int.tdiv (s.Width - BORDER_WIDTH) s.CharWidth
  if maxLL > columns then maxLL - columns else 0

/-- The method `EnsureXVisibleInView` (viewer3.cpp 287-318); the second component is
`fullRedraw`. -/
def EnsureXVisibleInView (w : World) (x : Int) (showPrevChar : Bool) (newFirstLineLen : Int)
    (ignoreFirstLine : Bool) (maxLineLen : Int) (s : CViewerWindow) : CViewerWindow × Bool :=
  let columns := Int.tdiv (s.Width - BORDER_WIDTH) s.CharWidth
  let x := if x > 0 ∧ showPrevChar then x - 1 else x
  let maxOX := GetMaxOriginX s newFirstLineLen ignoreFirstLine maxLineLen
  let t : CViewerWindow × Bool :=
    if x ≥ s.OriginX + columns ∧ maxOX > s.OriginX then
      ({ s with OriginX := if x - columns + w.MAKEVIS_LEFTRIGHT > maxOX then maxOX
                           else x - columns + w.MAKEVIS_LEFTRIGHT }, true)
    else (s, false)
  if x ≥ 0 ∧ x < t.1.OriginX then
    ({ t.1 with OriginX := if x > w.MAKEVIS_LEFTRIGHT then x - w.MAKEVIS_LEFTRIGHT else 0 }, true)
  else t

/-- The method `GetXFromOffsetInText` (viewer3.cpp 132-148): the window, the `BOOL` result
and the x coordinate written through `x`. -/
def GetXFromOffsetInText (w : World) (offset lineInView lineBegOff lineCharLen lineEndOff : Int)
    (s : CViewerWindow) : CViewerWindow × Bool × Int :=
  let b := if lineInView ≠ -1 then LineOffsetAt s (3 * lineInView) else lineBegOff
  let e := if lineInView ≠ -1 then LineOffsetAt s (3 * lineInView + 1) else lineEndOff
  let c := if lineInView ≠ -1 then LineOffsetAt s (3 * lineInView + 2) else lineCharLen
  let r := w.XFromOffset b c e offset
  let s := if r.fatalErr then FatalFileErrorOccured s (-1) else s
  (s, !r.fatalErr && !s.ExitTextMode, r.x)

/-- The method `GetOffsetFromXInText` (viewer3.cpp 150-166): the window, the `BOOL` result,
the x coordinate and the offset. -/
def GetOffsetFromXInText (w : World) (suggestedX lineInView lineBegOff lineCharLen lineEndOff : Int)
    (s : CViewerWindow) : CViewerWindow × Bool × Int × Int :=
  let b := if lineInView ≠ -1 then LineOffsetAt s (3 * lineInView) else lineBegOff
  let e := if lineInView ≠ -1 then LineOffsetAt s (3 * lineInView + 1) else lineEndOff
  let c := if lineInView ≠ -1 then LineOffsetAt s (3 * lineInView + 2) else lineCharLen
  let r := w.OffsetFromX suggestedX b c e
  let s := if r.fatalErr then FatalFileErrorOccured s (-1) else s
  (s, !r.fatalErr && !s.ExitTextMode, r.x, r.off)

/-- What `ScrollViewLineUp` hands back: the `BOOL` result, `scrolled`, and what was written
through `firstLineEndOff` and `firstLineCharLen`. -/
structure ScrollUp where
  ret : Bool
  scrolled : Bool := false
  first : FirstLine := {}
  deriving DecidableEq

/-- The method `ScrollViewLineUp` (viewer3.cpp 168-216). -/
def ScrollViewLineUp (w : World) (repeatCmd : Int) (repaint : Bool) (s : CViewerWindow) :
    CViewerWindow × ScrollUp :=
  if s.SeekY > 0 then
    let z := w.ZeroLineSize s.SeekY
    let first := w.ZeroLineFirst s.SeekY
    let s1 := { s with SeekY := if s.SeekY - z.value < 0 then 0 else s.SeekY - z.value,
                       ExitTextMode := s.ExitTextMode || z.exitTextMode }
    let s2 := if z.fatalErr then FatalFileErrorOccured s1 repeatCmd else s1
    if z.fatalErr ∨ s2.ExitTextMode then (s2, { ret := false, first := first })
    else if s.SeekY ≠ s2.SeekY then
      if repaint then
        let s3 := UpdateWindow w s2
        ({ s3 with EndSelectionRow := if s3.EndSelectionRow ≠ -1 then s3.EndSelectionRow + 1
                                      else s3.EndSelectionRow },
          { ret := true, scrolled := true, first := first })
      else (s2, { ret := true, scrolled := true, first := first })
    else (s2, { ret := true, first := first })
  else (s, { ret := true })

/-- The method `ScrollViewLineDown` (viewer3.cpp 218-235). -/
def ScrollViewLineDown (w : World) (s : CViewerWindow) : CViewerWindow × Bool :=
  if s.SeekY < s.MaxSeekY ∧ s.SeekY ≠ min s.MaxSeekY (s.SeekY + s.FirstLineSize) then
    let s1 := UpdateWindow w { s with SeekY := min s.MaxSeekY (s.SeekY + s.FirstLineSize) }
    ({ s1 with EndSelectionRow := if s1.EndSelectionRow ≠ -1 then s1.EndSelectionRow - 1
                                  else s1.EndSelectionRow }, true)
  else if s.SeekY < s.MaxSeekY then
    ({ s with SeekY := min s.MaxSeekY (s.SeekY + s.FirstLineSize) }, false)
  else (s, false)

/-! ## The navigation commands of `WM_COMMAND` (viewer3.cpp 1907-2496) -/

/-- The commands of the second `switch` of `WM_COMMAND`. -/
inductive NavCmd
  | CM_LINEUP
  | CM_LINEDOWN
  | CM_PAGEUP
  | CM_PAGEDOWN
  | CM_EXTSEL_FILEBEG
  | CM_FILEBEGIN
  | CM_FILEEND
  | CM_EXTSEL_FILEEND
  | CM_LEFT
  | CM_FASTLEFT
  | CM_RIGHT
  | CM_FASTRIGHT
  | CM_EXTSEL_LEFT
  | CM_EXTSEL_RIGHT
  | CM_EXTSEL_HOME
  | CM_EXTSEL_END
  | CM_EXTSEL_UP
  | CM_EXTSEL_DOWN
  deriving DecidableEq, Repr

/-- The locals `ch`, `extSelCh`, `updateView` and `skipCmd` of `WM_COMMAND`, and whether the
handler has left by `return 0`. -/
structure NavFlags where
  ch : Bool := false
  extSelCh : Bool := false
  updateView : Bool := true
  skipCmd : Bool := false
  returned : Bool := false
  deriving DecidableEq, Repr

/-- The test of the `for` loop that looks for the line of the selection end, for the line
whose triple starts at index `i` (viewer3.cpp 2122-2129). -/
def endSelOnLine (s : CViewerWindow) (i : Int) : Bool :=
  decide ((s.EndSelection > LineOffsetAt s i ∨
      (s.EndSelection = LineOffsetAt s i ∧
        (i > 0 ∨ ¬ s.WrapText = true ∨ s.StartSelection > s.EndSelection ∨
          ¬ s.WrapIsBeforeFirstLine = true))) ∧
    (s.EndSelection < LineOffsetAt s (i + 3) ∨
      (s.WrapText = true ∧ s.StartSelection < s.EndSelection ∧
        s.EndSelection = LineOffsetAt s (i + 1))))

/-- The loop `for (int i = 0; i + 3 < LineOffset.Count; i += 3)` (viewer3.cpp 2114-2134):
the index of the first line that passes the test, or -1. -/
def findEndSelLine (s : CViewerWindow) : Nat → Int → Int
  | 0, _ => -1
  | n + 1, i =>
    if i + 3 < LineOffsetCount s then
      if endSelOnLine s i then Int.tdiv i 3 else findEndSelLine s n (i + 3)
    else -1

/-- One pass of the `while (1)` of viewer3.cpp 2112-2161 up to the test whether the view has
to be moved: the `for` loop, and the special case of the last fully visible line. The loop
makes at most `LineOffset.Count / 3` rounds, so `LineOffset.Count` rounds are enough. -/
def endSelLineInView (s : CViewerWindow) : Int :=
  let endSelLineIndex := findEndSelLine s s.LineOffset.length 0
  if endSelLineIndex = -1 ∧ LineOffsetCount s ≥ 3 ∧
      Int.tdiv (LineOffsetCount s) 3 ≤ Int.tdiv s.Height s.CharHeight ∧
      (s.EndSelection > LineOffsetAt s (LineOffsetCount s - 3) ∨
        (s.EndSelection = LineOffsetAt s (LineOffsetCount s - 3) ∧
          (¬ s.WrapText = true ∨ LineOffsetCount s ≥ 6 ∨ s.StartSelection > s.EndSelection ∨
            ¬ s.WrapIsBeforeFirstLine = true))) ∧
      s.EndSelection ≤ LineOffsetAt s (LineOffsetCount s - 2) then
    Int.tdiv (LineOffsetCount s) 3 - 1
  else endSelLineIndex

/-- The `while (1)` of viewer3.cpp 2112-2161: the line of the selection end, after moving
the view to the selection end once if it is on no fully visible line. Returns the window,
`endSelLineIndex`, and whether the handler has left by `return 0`. -/
def locateEndSel (w : World) (s : CViewerWindow) : CViewerWindow × Int × Bool :=
  if endSelLineInView s = -1 then
    let lines := if s.EndSelection > s.SeekY then Int.tdiv s.Height s.CharHeight else 1
    if lines ≤ 0 then (s, -1, false)
    else
      let f := w.FindSeekBefore s.EndSelection lines (s.EndSelection > s.StartSelection)
      let s1 := { s with ExitTextMode := s.ExitTextMode || f.exitTextMode }
      let s2 := if f.fatalErr then FatalFileErrorOccured s1 (-1) else s1
      if f.fatalErr ∨ s2.ExitTextMode then (s2, -1, true)
      else
        let s3 := UpdateWindow w { s2 with SeekY := f.value, OriginX := 0 }
        (s3, endSelLineInView s3, false)
  else (s, endSelLineInView s, false)

/-- The block that follows a move of the selection end to a line that is only partially
visible (viewer3.cpp 2303-2314, 2341-2353, 2425-2436): make the x coordinate visible and
scroll the view down by one line. -/
def scrollDownToEndSel (w : World) (curX : Int) (s : CViewerWindow) : CViewerWindow :=
  let t := EnsureXVisibleInView w curX (s.EndSelection > s.StartSelection) (-1) true (-1) s
  let d := ScrollViewLineDown w t.1
  if d.2 then d.1 else UpdateWindow w d.1

/-- The result of one of the inner `case` blocks of the `CM_EXTSEL_*` commands: the window,
`curX`, and the flags. -/
abbrev ExtSelStep := CViewerWindow × Int × NavFlags

/-- The part `if (scrollUp)` of `CM_EXTSEL_LEFT` and `CM_EXTSEL_HOME` (viewer3.cpp
2240-2281). -/
def extSelScrollUp (w : World) (moveIsDone : Bool) (curX : Int) (s : CViewerWindow) :
    ExtSelStep :=
  let u := ScrollViewLineUp w (-1) false s
  if ¬ u.2.ret = true then (u.1, curX, { returned := true })
  else if u.2.scrolled then
    let s1 : CViewerWindow :=
      if ¬ moveIsDone = true ∧ u.2.first.endOff ≠ -1 ∧ u.1.SeekY ≤ u.2.first.endOff then
        { u.1 with EndSelection :=
            if u.1.WrapText = true ∧ u.2.first.endOff = u.1.EndSelection ∧ u.2.first.endOff > 0
            then u.2.first.endOff - 1 else u.2.first.endOff }
      else u.1
    let g := GetXFromOffsetInText w s1.EndSelection (-1) s1.SeekY u.2.first.charLen
      u.2.first.endOff s1
    if ¬ g.2.1 = true then (g.1, g.2.2, { returned := true })
    else
      let t := EnsureXVisibleInView w g.2.2 (g.1.EndSelection > g.1.StartSelection)
        u.2.first.charLen false (-1) g.1
      (UpdateWindow w t.1, g.2.2, { updateView := false })
  else if moveIsDone then (UpdateWindow w u.1, curX, { updateView := false })
  else (u.1, curX, { updateView := false, skipCmd := true })

/-- The inner `case CM_EXTSEL_LEFT: case CM_EXTSEL_HOME:` (viewer3.cpp 2180-2284) for the
line `endSelLineIndex`. -/
def extSelLeftHome (w : World) (home : Bool) (endSelLineIndex : Int) (s : CViewerWindow) :
    ExtSelStep :=
  if home = true ∨ s.EndSelection > LineOffsetAt s (3 * endSelLineIndex) then
    let s1 := { s with EndSelection := if home then LineOffsetAt s (3 * endSelLineIndex)
                                       else s.EndSelection - 1 }
    if s1.WrapText = true ∧ s1.StartSelection < s1.EndSelection ∧
        s1.EndSelection = LineOffsetAt s1 (3 * endSelLineIndex) ∧
        ((endSelLineIndex > 0 ∧
            s1.EndSelection = LineOffsetAt s1 (3 * (endSelLineIndex - 1) + 1)) ∨
          (endSelLineIndex = 0 ∧ s1.WrapIsBeforeFirstLine = true)) then
      if endSelLineIndex > 0 then
        let g := GetXFromOffsetInText w s1.EndSelection (endSelLineIndex - 1) (-1) (-1) (-1) s1
        if ¬ g.2.1 = true then (g.1, g.2.2, { returned := true }) else (g.1, g.2.2, {})
      else extSelScrollUp w true (-1) s1
    else
      let g := GetXFromOffsetInText w s1.EndSelection endSelLineIndex (-1) (-1) (-1) s1
      if ¬ g.2.1 = true then (g.1, g.2.2, { returned := true }) else (g.1, g.2.2, {})
  else if endSelLineIndex > 0 then
    let newEndSel := LineOffsetAt s (3 * (endSelLineIndex - 1) + 1)
    let s1 := { s with EndSelection :=
      if s.WrapText = true ∧ newEndSel = s.EndSelection ∧ newEndSel > 0 then newEndSel - 1
      else newEndSel }
    let g := GetXFromOffsetInText w s1.EndSelection (endSelLineIndex - 1) (-1) (-1) (-1) s1
    if ¬ g.2.1 = true then (g.1, g.2.2, { returned := true }) else (g.1, g.2.2, {})
  else extSelScrollUp w false (-1) s

/-- The inner `case CM_EXTSEL_RIGHT: case CM_EXTSEL_END:` (viewer3.cpp 2286-2358) for the
line `endSelLineIndex`. -/
def extSelRightEnd (w : World) (toEnd : Bool) (endSelLineIndex : Int) (s : CViewerWindow) :
    ExtSelStep :=
  if toEnd = true ∨ s.EndSelection < LineOffsetAt s (3 * endSelLineIndex + 1) then
    let s1 := { s with EndSelection := if toEnd then LineOffsetAt s (3 * endSelLineIndex + 1)
                                       else s.EndSelection + 1 }
    if s1.WrapText = true ∧ s1.EndSelection < s1.StartSelection ∧
        s1.EndSelection = LineOffsetAt s1 (3 * endSelLineIndex + 1) ∧
        endSelLineIndex + 1 < Int.tdiv (LineOffsetCount s1) 3 ∧
        s1.EndSelection = LineOffsetAt s1 (3 * (endSelLineIndex + 1)) then
      let g := GetXFromOffsetInText w s1.EndSelection (endSelLineIndex + 1) (-1) (-1) (-1) s1
      if ¬ g.2.1 = true then (g.1, g.2.2, { returned := true })
      else if endSelLineIndex + 1 ≥ Int.tdiv g.1.Height g.1.CharHeight then
        (scrollDownToEndSel w g.2.2 g.1, g.2.2, { updateView := false })
      else (g.1, g.2.2, {})
    else
      let g := GetXFromOffsetInText w s1.EndSelection endSelLineIndex (-1) (-1) (-1) s1
      if ¬ g.2.1 = true then (g.1, g.2.2, { returned := true }) else (g.1, g.2.2, {})
  else if endSelLineIndex + 1 < Int.tdiv (LineOffsetCount s) 3 then
    let newEndSel := LineOffsetAt s (3 * (endSelLineIndex + 1))
    let s1 := { s with EndSelection :=
      if s.WrapText = true ∧ newEndSel = s.EndSelection ∧
          newEndSel < LineOffsetAt s (3 * (endSelLineIndex + 1) + 1) then newEndSel + 1
      else newEndSel }
    let g := GetXFromOffsetInText w s1.EndSelection (endSelLineIndex + 1) (-1) (-1) (-1) s1
    if ¬ g.2.1 = true then (g.1, g.2.2, { returned := true })
    else if endSelLineIndex + 1 = Int.tdiv g.1.Height g.1.CharHeight then
      (scrollDownToEndSel w g.2.2 g.1, g.2.2, { updateView := false })
    else (g.1, g.2.2, {})
  else (s, -1, { skipCmd := true })

/-- The beginning of the inner `case CM_EXTSEL_UP: case CM_EXTSEL_DOWN:` (viewer3.cpp
2362-2366): without a preferred x coordinate yet, `EndSelectionPrefX` is set to the x
coordinate of the block end. The second component tells whether the handler goes on. -/
def extSelPrefX (w : World) (endSelLineIndex : Int) (s : CViewerWindow) :
    CViewerWindow × Bool :=
  if s.EndSelectionPrefX = -1 then
    let g := GetXFromOffsetInText w s.EndSelection endSelLineIndex (-1) (-1) (-1) s
    ({ g.1 with EndSelectionPrefX := g.2.2 }, g.2.1)
  else (s, true)

/-- The move of the inner `case CM_EXTSEL_UP: case CM_EXTSEL_DOWN:` (viewer3.cpp 2368-2441)
for the line `endSelLineIndex`. -/
def extSelMove (w : World) (up : Bool) (endSelLineIndex : Int) (s : CViewerWindow) :
    ExtSelStep :=
  if up then
    if endSelLineIndex > 0 then
      let o := GetOffsetFromXInText w s.EndSelectionPrefX (endSelLineIndex - 1) (-1) (-1) (-1) s
      if ¬ o.2.1 = true then (o.1, o.2.2.1, { returned := true })
      else ({ o.1 with EndSelection := o.2.2.2 }, o.2.2.1, {})
    else
      let u := ScrollViewLineUp w (-1) false s
      if ¬ u.2.ret = true then (u.1, -1, { returned := true })
      else if u.2.scrolled then
        if u.2.first.endOff ≠ -1 ∧ u.2.first.charLen ≠ -1 ∧ u.1.SeekY ≤ u.2.first.endOff then
          let o := GetOffsetFromXInText w u.1.EndSelectionPrefX (-1) u.1.SeekY u.2.first.charLen
            u.2.first.endOff u.1
          if ¬ o.2.1 = true then (o.1, o.2.2.1, { returned := true })
          else
            let s1 := { o.1 with EndSelection := o.2.2.2 }
            let t : CViewerWindow :=
              if o.2.2.1 ≠ -1 then
                (EnsureXVisibleInView w o.2.2.1 (s1.EndSelection > s1.StartSelection)
                  u.2.first.charLen false (-1) s1).1
              else s1
            (UpdateWindow w t, o.2.2.1, { updateView := false })
        else (UpdateWindow w u.1, -1, { updateView := false })
      else (u.1, -1, { skipCmd := true })
  else if endSelLineIndex + 1 < Int.tdiv (LineOffsetCount s) 3 then
    let o := GetOffsetFromXInText w s.EndSelectionPrefX (endSelLineIndex + 1) (-1) (-1) (-1) s
    if ¬ o.2.1 = true then (o.1, o.2.2.1, { returned := true })
    else
      let s1 := { o.1 with EndSelection := o.2.2.2 }
      if endSelLineIndex + 1 = Int.tdiv s1.Height s1.CharHeight then
        (scrollDownToEndSel w o.2.2.1 s1, o.2.2.1, { updateView := false })
      else (s1, o.2.2.1, {})
  else (s, -1, { skipCmd := true })

/-- The inner `case CM_EXTSEL_UP: case CM_EXTSEL_DOWN:` (viewer3.cpp 2360-2443) for the line
`endSelLineIndex`. -/
def extSelUpDown (w : World) (up : Bool) (endSelLineIndex : Int) (s : CViewerWindow) :
    ExtSelStep :=
  let p := extSelPrefX w endSelLineIndex s
  if ¬ p.2 = true then (p.1, -1, { returned := true })
  else extSelMove w up endSelLineIndex p.1

/-- The end of the `CM_EXTSEL_*` case after the inner `switch` (viewer3.cpp 2445-2466). -/
def extSelFinish (w : World) (oldEndSel : Int) (r : ExtSelStep) : CViewerWindow × NavFlags :=
  if r.2.2.returned ∨ r.2.2.skipCmd then (r.1, r.2.2)
  else
    let s1 : CViewerWindow :=
      if r.2.2.updateView then
        let t : CViewerWindow :=
          if r.2.1 ≠ -1 then
            (EnsureXVisibleInView w r.2.1 (r.1.EndSelection > r.1.StartSelection) (-1) false
              (-1) r.1).1
          else r.1
        UpdateWindow w t
      else r.1
    ({ s1 with ChangingSelWithShiftKey :=
        if oldEndSel ≠ s1.EndSelection then true else s1.ChangingSelWithShiftKey },
      { updateView := false, extSelCh := true })

/-- The `case` of `CM_EXTSEL_LEFT`, `_RIGHT`, `_HOME`, `_END`, `_UP` and `_DOWN` (viewer3.cpp
2098-2467). -/
def extSelCommand (w : World) (cmd : NavCmd) (s : CViewerWindow) : CViewerWindow × NavFlags :=
  let s0 : CViewerWindow :=
    if cmd = NavCmd.CM_EXTSEL_LEFT ∨ cmd = NavCmd.CM_EXTSEL_RIGHT ∨ cmd = NavCmd.CM_EXTSEL_HOME ∨
        cmd = NavCmd.CM_EXTSEL_END then { s with EndSelectionPrefX := -1 }
    else s
  if s0.StartSelection = s0.EndSelection ∨ s0.MouseDrag = true ∨
      s0.ViewType ≠ CViewType.vtText then (s0, { skipCmd := true })
  else
    let l := locateEndSel w s0
    if l.2.2 then (l.1, { returned := true })
    else if l.2.1 = -1 then (l.1, { skipCmd := true })
    else
      extSelFinish w l.1.EndSelection
        (match cmd with
         | NavCmd.CM_EXTSEL_LEFT => extSelLeftHome w false l.2.1 l.1
         | NavCmd.CM_EXTSEL_HOME => extSelLeftHome w true l.2.1 l.1
         | NavCmd.CM_EXTSEL_RIGHT => extSelRightEnd w false l.2.1 l.1
         | NavCmd.CM_EXTSEL_END => extSelRightEnd w true l.2.1 l.1
         | NavCmd.CM_EXTSEL_UP => extSelUpDown w true l.2.1 l.1
         | NavCmd.CM_EXTSEL_DOWN => extSelUpDown w false l.2.1 l.1
         | _ => (l.1, -1, {}))

/-- The `case CM_FILEBEGIN:`, also reached by falling through from `CM_EXTSEL_FILEBEG`
(viewer3.cpp 1996-2011). -/
def fileBegin (s : CViewerWindow) (f : NavFlags) : CViewerWindow × NavFlags :=
  let s1 : CViewerWindow :=
    if s.FindDialog.Forward then { s with LastFindSeekY := -1, LastFindOffset := 0 } else s
  if s1.SeekY ≠ 0 ∨ s1.OriginX ≠ 0 then
    ({ s1 with EndSelectionRow := -1, SeekY := 0, OriginX := 0 }, { f with ch := true })
  else (s1, f)

/-- The `case CM_EXTSEL_FILEBEG:` (viewer3.cpp 1981-1995). -/
def extSelFileBeg (s : CViewerWindow) : CViewerWindow × NavFlags :=
  if s.StartSelection = s.EndSelection ∨ s.MouseDrag = true then (s, { skipCmd := true })
  else
    fileBegin { s with EndSelectionPrefX := -1,
                       ChangingSelWithShiftKey :=
                         if s.EndSelection ≠ 0 then true else s.ChangingSelWithShiftKey,
                       EndSelection := 0 } { extSelCh := true }

/-- The end of `case CM_FILEEND: case CM_EXTSEL_FILEEND:` (viewer3.cpp 2056-2068). -/
def fileEnd (newOriginX : Int) (s : CViewerWindow) (f : NavFlags) : CViewerWindow × NavFlags :=
  let s1 : CViewerWindow :=
    if ¬ s.FindDialog.Forward = true then { s with LastFindSeekY := -1, LastFindOffset := 0 }
    else s
  if s1.SeekY ≠ s1.MaxSeekY ∨ s1.OriginX ≠ newOriginX then
    ({ s1 with EndSelectionRow := -1, SeekY := s1.MaxSeekY, OriginX := newOriginX },
      { f with ch := true })
  else (s1, f)

/-- The `case CM_FILEEND: case CM_EXTSEL_FILEEND:` (viewer3.cpp 2013-2069). -/
def fileEndCommand (w : World) (ext : Bool) (s : CViewerWindow) : CViewerWindow × NavFlags :=
  if ext then
    if s.StartSelection = s.EndSelection ∨ s.MouseDrag = true then (s, { skipCmd := true })
    else
      let textNoWrap : Bool := decide (s.ViewType = CViewType.vtText ∧ ¬ s.WrapText = true)
      let e := w.LastLineCharLen
      let s1 : CViewerWindow :=
        if textNoWrap then { s with ExitTextMode := s.ExitTextMode || e.exitTextMode } else s
      let s2 : CViewerWindow :=
        if textNoWrap = true ∧ e.fatalErr = true then FatalFileErrorOccured s1 (-1) else s1
      if textNoWrap = true ∧ (e.fatalErr = true ∨ s2.ExitTextMode = true) then
        (s2, { returned := true })
      else
        let newOriginX : Int :=
          if textNoWrap = true ∧ e.value > 0 then
            (EnsureXVisibleInView w e.value true (-1) true e.value
              { s2 with OriginX := if s2.SeekY ≠ s2.MaxSeekY then 0 else s2.OriginX }).1.OriginX
          else 0
        fileEnd newOriginX
          { s2 with EndSelectionPrefX := -1,
                    ChangingSelWithShiftKey :=
                      if s2.EndSelection ≠ FileSize w then true else s2.ChangingSelWithShiftKey,
                    EndSelection := FileSize w } { extSelCh := true }
  else fileEnd 0 s {}

/-- The `case CM_PAGEUP:` (viewer3.cpp 1925-1958). -/
def pageUp (w : World) (s : CViewerWindow) : CViewerWindow × NavFlags :=
  if s.SeekY > 0 then
    let s1 := { s with EndSelectionRow := -1 }
    match s1.ViewType with
    | CViewType.vtHex =>
      let len := s1.ViewSize - s1.LastLineSize
      let len := if Int.tmod len 16 ≠ 0 then len + (16 - Int.tmod len 16) else len
      ({ s1 with SeekY := max 0 (s1.SeekY - max 16 len) }, { ch := true })
    | CViewType.vtText =>
      let f := w.FindSeekBefore s1.SeekY (max 2 (Int.tdiv s1.Height s1.CharHeight)) false
      let s2 := { s1 with ExitTextMode := s1.ExitTextMode || f.exitTextMode }
      let s3 := if f.fatalErr then FatalFileErrorOccured s2 w.CM_PAGEUP else s2
      if f.fatalErr ∨ s3.ExitTextMode then (s3, { returned := true })
      else ({ s3 with SeekY := f.value }, { ch := true })
  else (s, {})

/-- The `case CM_PAGEDOWN:` (viewer3.cpp 1960-1979). -/
def pageDown (s : CViewerWindow) : CViewerWindow × NavFlags :=
  if s.SeekY < s.MaxSeekY then
    let size := max 0 (s.ViewSize - s.LastLineSize)
    ({ s with EndSelectionRow := -1,
              SeekY := if size = 0 then min s.MaxSeekY (s.SeekY + s.FirstLineSize)
                       else min s.MaxSeekY (s.SeekY + size) }, { ch := true })
  else (s, {})

/-- The `case CM_LEFT: case CM_FASTLEFT:` (viewer3.cpp 2071-2082). -/
def scrollLeft (w : World) (fast : Bool) (s : CViewerWindow) : CViewerWindow × NavFlags :=
  if s.OriginX > 0 then
    let x := s.OriginX - (if fast then w.FAST_LEFTRIGHT else 1)
    ({ s with OriginX := if x < 0 then 0 else x }, { ch := true })
  else (s, {})

/-- The `case CM_RIGHT: case CM_FASTRIGHT:` (viewer3.cpp 2084-2096). -/
def scrollRight (w : World) (fast : Bool) (s : CViewerWindow) : CViewerWindow × NavFlags :=
  let maxOX := GetMaxOriginX s (-1) false (-1)
  if s.OriginX < maxOX then
    let x := s.OriginX + (if fast then w.FAST_LEFTRIGHT else 1)
    ({ s with OriginX := if x > maxOX then maxOX else x }, { ch := true })
  else (s, {})

/-- The second `switch` of `WM_COMMAND` (viewer3.cpp 1912-2468). -/
def navSwitch (w : World) (cmd : NavCmd) (s : CViewerWindow) : CViewerWindow × NavFlags :=
  match cmd with
  | NavCmd.CM_LINEUP =>
    let u := ScrollViewLineUp w w.CM_LINEUP true s
    if u.2.ret then (u.1, {}) else (u.1, { returned := true })
  | NavCmd.CM_LINEDOWN => ((ScrollViewLineDown w s).1, {})
  | NavCmd.CM_PAGEUP => pageUp w s
  | NavCmd.CM_PAGEDOWN => pageDown s
  | NavCmd.CM_EXTSEL_FILEBEG => extSelFileBeg s
  | NavCmd.CM_FILEBEGIN => fileBegin s {}
  | NavCmd.CM_FILEEND => fileEndCommand w false s
  | NavCmd.CM_EXTSEL_FILEEND => fileEndCommand w true s
  | NavCmd.CM_LEFT => scrollLeft w false s
  | NavCmd.CM_FASTLEFT => scrollLeft w true s
  | NavCmd.CM_RIGHT => scrollRight w false s
  | NavCmd.CM_FASTRIGHT => scrollRight w true s
  | NavCmd.CM_EXTSEL_LEFT => extSelCommand w cmd s
  | NavCmd.CM_EXTSEL_RIGHT => extSelCommand w cmd s
  | NavCmd.CM_EXTSEL_HOME => extSelCommand w cmd s
  | NavCmd.CM_EXTSEL_END => extSelCommand w cmd s
  | NavCmd.CM_EXTSEL_UP => extSelCommand w cmd s
  | NavCmd.CM_EXTSEL_DOWN => extSelCommand w cmd s

/-- The end of `WM_COMMAND` after the second `switch` (viewer3.cpp 2470-2495). -/
def navFinish (w : World) (t : CViewerWindow × NavFlags) : CViewerWindow :=
  if t.2.returned ∨ t.2.skipCmd then t.1
  else if t.2.ch ∨ t.2.extSelCh then
    let s1 : CViewerWindow :=
      if t.2.extSelCh then
        { t.1 with SelectionIsFindResult := false, LastFindSeekY := -1, LastFindOffset := 0,
                   FindOffset := if t.1.EndSelection ≠ -1 then t.1.EndSelection else 0 }
      else { t.1 with ResetFindOffsetOnNextPaint := true }
    if t.2.updateView then UpdateWindow w s1 else s1
  else
    { t.1 with FindOffset := if ¬ t.1.FindDialog.Forward = true then t.1.SeekY + t.1.ViewSize
                             else t.1.SeekY }

/-- The handler of `WM_COMMAND` for a navigation command (viewer3.cpp 326-330, 820-825,
1882-1905, 1907-2496) in an enabled window. In the state that waits for the refresh the
command is skipped; the `default:` of the first `switch` does nothing, a navigation command
being no code page command. -/
def navCommand (w : World) (cmd : NavCmd) (s : CViewerWindow) : CViewerWindow :=
  if s.WaitForViewerRefresh then s
  else if s.FileName then navFinish w (navSwitch w cmd s)
  else s

/-! ## Dragging the block with the mouse -/

/-- What the handler of `WM_MOUSEMOVE` obtains from outside: the coordinates of the mouse
and what `GetOffset` returns for the corrected coordinates. -/
structure MouseMove where
  x : Int
  y : Int
  off : OffsetResult

/-- The vertical part of the handler of `WM_MOUSEMOVE` while the block is dragged
(viewer3.cpp 2871-2897): the mouse above or below the lines scrolls the view by a line with
`SendMessage`; returns the window and the corrected `y`. -/
def dragScrollY (w : World) (y : Int) (s : CViewerWindow) : CViewerWindow × Int :=
  let s1 := if y < 0 then navCommand w NavCmd.CM_LINEUP s else s
  let y1 := if y < 0 then 0 else y
  let lim := Int.tdiv s1.Height s1.CharHeight * s1.CharHeight
  let s2 := if y1 > lim then navCommand w NavCmd.CM_LINEDOWN s1 else s1
  let y2 := if y1 > lim then (if lim - 1 < 0 then 0 else lim - 1) else y1
  let rows := Int.tdiv (LineOffsetCount s2) 3
  let y3 :=
    if s2.ViewType = CViewType.vtText ∧ s2.SeekY = 0 ∧ Int.tdiv y2 s2.CharHeight ≥ rows then
      (if rows * s2.CharHeight - 1 < 0 then 0 else rows * s2.CharHeight - 1)
    else y2
  let hexRows := Int.tdiv (FileSize w - 1) 16 + 1
  let y4 :=
    if s2.ViewType = CViewType.vtHex ∧ s2.SeekY = 0 ∧ Int.tdiv y3 s2.CharHeight ≥ hexRows then
      (if hexRows * s2.CharHeight - 1 < 0 then 0 else hexRows * s2.CharHeight - 1)
    else y3
  (s2, y4)

/-- The horizontal part of the handler of `WM_MOUSEMOVE` while the block is dragged
(viewer3.cpp 2898-2912): the mouse left or right of the text scrolls the view with
`SendMessage`. -/
def dragScrollX (w : World) (x : Int) (s : CViewerWindow) : CViewerWindow :=
  let s3 := if x < BORDER_WIDTH then navCommand w NavCmd.CM_LEFT s else s
  let x1 := if x < BORDER_WIDTH then BORDER_WIDTH else x
  if x1 > s3.Width then navCommand w NavCmd.CM_RIGHT s3 else s3

/-- The handler of `WM_MOUSEMOVE` (viewer3.cpp 2864-2962) while the block is dragged. The
commands sent with `SendMessage` run before `GetOffset`. Without `MouseDrag` the handler
only maintains the tooltip of the hex view. -/
def OnMouseMove (w : World) (m : MouseMove) (s : CViewerWindow) : CViewerWindow :=
  if s.MouseDrag then
    let v := dragScrollY w m.y s
    let s4 := dragScrollX w m.x v.1
    let s5 : CViewerWindow :=
      if m.off.ret = true ∧ ¬ m.off.fatalErr = true ∧ s4.EndSelection ≠ m.off.off then
        { s4 with EndSelectionRow := Int.tdiv (min s4.Height v.2) s4.CharHeight,
                  EndSelection := m.off.off }
      else s4
    if m.off.fatalErr then FatalFileErrorOccured s5 (-1) else s5
  else s

/-- Example: `selectionWindow` in a window of 100 by 100 points that shows the eight bytes
as one line. -/
def lineWindow : CViewerWindow :=
  { selectionWindow with Width := 100, LineOffset := [0, 8, 8] }

/-- Example: a file of twelve bytes. -/
def wrapFile : World := { file := bytes "abcdefghijkl" }

/-- Example: a window that shows the twelve bytes wrapped into the lines `[0, 5)`, `[5, 10)`
and `[10, 12)`, with the bytes from 2 to 5 selected. -/
def wrapWindow : CViewerWindow :=
  { WrapText := true, LineOffset := [0, 5, 5, 5, 10, 5, 10, 12, 2], StartSelection := 2,
    EndSelection := 5, FindOffset := 5, ViewSize := 12, Width := 100, Height := 100,
    CharHeight := 10 }

/-! ## Seeking: the scrollbar thumb and Go to Offset -/

/-- What `OnVScroll` obtains from outside: whether `LOWORD(VScrollWParam)` is
`SB_THUMBPOSITION`, the position computed in floating point,
`(__int64)(ScrollScaleY * ((short)HIWORD(VScrollWParam)) + 0.5)`, and whether
`GetCapture()` is `NULL`. -/
structure VScroll where
  thumbPosition : Bool := false
  scaled : Int
  noCapture : Bool := false

/-- The arguments `offset` and `bytes` of the call of `Prepare` in `OnVScroll` for the new
`SeekY` (viewer3.cpp 83-91). -/
def vscrollRequest (SeekY : Int) : Int × Int :=
  (if SeekY > Int.tdiv VIEW_BUFFER_SIZE 6 then SeekY - Int.tdiv VIEW_BUFFER_SIZE 6 else 0,
    Int.tdiv VIEW_BUFFER_SIZE 2)

/-- The first part of `OnVScroll` (viewer3.cpp 74-124), run when `VScrollWParam` is not -1
and has changed: the window, and whether the method returned from it (`return;` after
`fatalErr || ExitTextMode`, viewer3.cpp 98-102). -/
def vscrollSeek (w : World) (v : VScroll) (s : CViewerWindow) : CViewerWindow × Bool :=
  let s1 := { s with VScrollWParamOld := s.VScrollWParam, EndSelectionRow := -1,
                     EnableSetScroll := v.thumbPosition, SeekY := min v.scaled s.MaxSeekY }
  let p := Prepare w 0 (vscrollRequest s1.SeekY).1 (vscrollRequest s1.SeekY).2
  let f : SeekResult := if ¬ p.2 = true then w.FindBegin s1.SeekY else ⟨0, true, false⟩
  let s2 := { s1 with ExitTextMode := s1.ExitTextMode || f.exitTextMode }
  let s3 := if f.fatalErr then FatalFileErrorOccured s2 (-1) else s2
  if f.fatalErr ∨ s3.ExitTextMode then ({ s3 with EnableSetScroll := true }, true)
  else
    let s4 := { s3 with SeekY := f.value }
    if s4.EnableSetScroll = true ∨ s4.SeekY ≠ s.SeekY then
      (UpdateWindow w { s4 with ResetFindOffsetOnNextPaint := true }, false)
    else
      ({ s4 with FindOffset := if ¬ s4.FindDialog.Forward = true then s4.SeekY + s4.ViewSize
                               else s4.SeekY }, false)

/-- The method `OnVScroll` (viewer3.cpp 72-132): the seek, and, unless the method has
returned from it, the block `if (GetCapture() == NULL)`. -/
def OnVScroll (w : World) (v : VScroll) (s : CViewerWindow) : CViewerWindow :=
  let r : CViewerWindow × Bool :=
    if s.VScrollWParam ≠ -1 ∧ s.VScrollWParam ≠ s.VScrollWParamOld then vscrollSeek w v s
    else (s, false)
  if r.2 then r.1
  else if v.noCapture then { r.1 with VScrollWParam := -1, EnableSetScroll := true }
  else r.1

/-- The `case CM_GOTOOFFSET:` of `WM_COMMAND` (viewer3.cpp 1786-1809); `offset` is what the
dialog returns with `IDOK`, `none` when it was cancelled. -/
def gotoOffset (w : World) (offset : Option Int) (s : CViewerWindow) : CViewerWindow :=
  if s.MouseDrag = true ∨ ¬ s.FileName = true then s
  else
    match offset with
    | none => s
    | some offset =>
      let s1 := { s with EndSelectionRow := -1, SeekY := min offset s.MaxSeekY }
      let f := w.FindBegin s1.SeekY
      let s2 := { s1 with ExitTextMode := s1.ExitTextMode || f.exitTextMode }
      let s3 := if f.fatalErr then FatalFileErrorOccured s2 (-1) else s2
      if f.fatalErr ∨ s3.ExitTextMode then s3
      else UpdateWindow w { s3 with SeekY := f.value, ResetFindOffsetOnNextPaint := true }

/-- Example: the eight-byte file when the first read of the running command fails. -/
def unreadableAtOnce : World := { file := bytes "abcdefgh", readErr := fun n => n == 0 }

/-- Example: the eight-byte file when `FindBegin` reports a read error. -/
def unindexableFile : World :=
  { file := bytes "abcdefgh", FindBegin := fun _ => ⟨0, true, false⟩ }

/-- Example: a window at the top of the eight-byte file, the scrollbar thumb being dragged
(`VScrollWParam` has changed). -/
def thumbWindow : CViewerWindow :=
  { MaxSeekY := 6, ViewSize := 2, VScrollWParam := 5, Height := 100, CharHeight := 10 }

/-- Example: a hex view at offset 64 that shows three full rows and a partial one. -/
def hexWindow : CViewerWindow :=
  { ViewType := CViewType.vtHex, SeekY := 64, MaxSeekY := 1000, ViewSize := 56,
    LastLineSize := 16, Height := 100, CharHeight := 10 }

/-! ## salamdr3.cpp: `SalPathAppend`

A C string is the list of its bytes before the terminating zero; a pointer that may be
`NULL` is an `Option`. -/

/-- The function `SalPathAppend` (salamdr3.cpp 22-51): the `BOOL` result and the contents of
the buffer `path` afterwards. The byte 92 is the backslash. -/
def SalPathAppend (path name : Option (List Nat)) (pathSize : Int) : Bool × Option (List Nat) :=
  match path, name with
  | some path, some name =>
    let name := if name.head? = some 92 then name.tail else name
    let l : Nat := if path.length > 0 ∧ path.getD (path.length - 1) 0 = 92 then path.length - 1
      else path.length
    if name ≠ [] then
      if (l : Int) + 1 + name.length < pathSize then
        (true, some (if l ≠ 0 then path.take l ++ 92 :: name else name))
      else (false, some path)
    else (true, some (path.take l))
  | _, _ => (false, path)

/-- The path `P` of the description of `SalPathAppend`: `path` minus one trailing
backslash. -/
def withoutTrailingBackslash (path : List Nat) : List Nat :=
  if path.getLast? = some 92 then path.dropLast else path

/-- The name `N` of the description of `SalPathAppend`: `name` minus one leading
backslash. -/
def withoutLeadingBackslash (name : List Nat) : List Nat :=
  match name with
  | 92 :: rest => rest
  | _ => name

/-! ## salamdr3.cpp: `CFileHistory` and `CPathHistory`

The arrays `TIndirectArray` are lists; `Detach(i)` and `Delete(i)` remove the element at
index `i`, `Insert(0, x)` puts `x` in front and `Add(x)` behind. Whether an allocation
succeeds is an input. -/

/-- The enumeration `CFileHistoryItemTypeEnum` (salamand.h). -/
inductive CFileHistoryItemTypeEnum
  | fhitView
  | fhitEdit
  | fhitOpen
  deriving DecidableEq, Repr

/-- The members of `class CFileHistoryItem` (salamand.h) without the icon; the member `Type`
is named `ItemType` here. -/
structure CFileHistoryItem where
  ItemType : CFileHistoryItemTypeEnum
  HandlerID : Nat
  FileName : List Nat
  deriving DecidableEq, Repr

/-- What `CFileHistory::AddFile` obtains from outside: the comparison of two file names made
by `CFileHistoryItem::Equal`, whether `new CFileHistoryItem` gives an item that `IsGood`,
and whether `Files.Insert` succeeds. -/
structure FileHistoryWorld where
  sameName : List Nat → List Nat → Bool := fun a b => a == b
  newIsGood : Bool := true
  insertIsGood : Bool := true

/-- Modelled from the spec: `CFileHistoryItem::Equal` is declared in salamand.h ("returns
TRUE if the object was constructed from the specified data") and defined outside src/. -/
def CFileHistoryItem.Equal (e : FileHistoryWorld) (item : CFileHistoryItem)
    (type : CFileHistoryItemTypeEnum) (handlerID : Nat) (fileName : List Nat) : Bool :=
  decide (item.ItemType = type) && decide (item.HandlerID = handlerID) &&
    e.sameName item.FileName fileName

/-- The loop `for (i = 0; i < Files.Count; i++)` of `AddFile` (salamdr3.cpp 3467-3470): the
index of the first item that is `Equal` to the data, counted from `i`. -/
def findEqual (e : FileHistoryWorld) (type : CFileHistoryItemTypeEnum) (handlerID : Nat)
    (fileName : List Nat) : List CFileHistoryItem → Nat → Option Nat
  | [], _ => none
  | item :: rest, i =>
    if item.Equal e type handlerID fileName then some i
    else findEqual e type handlerID fileName rest (i + 1)

/-- The method `CFileHistory::AddFile` (salamdr3.cpp 3462-3515): the `BOOL` result and the
array `Files` afterwards. -/
def AddFile (e : FileHistoryWorld) (type : CFileHistoryItemTypeEnum) (handlerID : Nat)
    (fileName : List Nat) (Files : List CFileHistoryItem) : Bool × List CFileHistoryItem :=
  match findEqual e type handlerID fileName Files 0 with
  | some i =>
    if i > 0 then
      match Files.get? i with
      | some item =>
        if e.insertIsGood then (true, item :: Files.eraseIdx i) else (false, Files.eraseIdx i)
      | none => (true, Files)
    else (true, Files)
  | none =>
    if ¬ e.newIsGood = true then (false, Files)
    else if ¬ e.insertIsGood = true then (false, Files)
    else
      let Files := { ItemType := type, HandlerID := handlerID, FileName := fileName } :: Files
      (true, if Files.length > 30 then Files.eraseIdx 30 else Files)

/-- Example: a file history of three items, the newest first. -/
def historyExample : List CFileHistoryItem :=
  [{ ItemType := CFileHistoryItemTypeEnum.fhitView, HandlerID := 1, FileName := bytes "a.txt" },
   { ItemType := CFileHistoryItemTypeEnum.fhitEdit, HandlerID := 2, FileName := bytes "b.txt" },
   { ItemType := CFileHistoryItemTypeEnum.fhitView, HandlerID := 1, FileName := bytes "c.txt" }]

/-- Example: the file history after "c.txt" was viewed again. -/
def historyExampleAfter : List CFileHistoryItem :=
  [{ ItemType := CFileHistoryItemTypeEnum.fhitView, HandlerID := 1, FileName := bytes "c.txt" },
   { ItemType := CFileHistoryItemTypeEnum.fhitView, HandlerID := 1, FileName := bytes "a.txt" },
   { ItemType := CFileHistoryItemTypeEnum.fhitEdit, HandlerID := 2, FileName := bytes "b.txt" }]

/-- The members of `class CPathHistoryItem` (salamand.h) that `AddPathUnique` and
`IsTheSamePath` use; the member `Type` is named `ItemType` here, the handles `HIcon` and
`PluginFS` are numbers, 0 for `NULL`, and `ArchivePathOrFSUserPart` is `none` for `NULL`. -/
structure CPathHistoryItem where
  ItemType : Int
  PathOrArchiveOrFSName : List Nat
  ArchivePathOrFSUserPart : Option (List Nat)
  HIcon : Nat := 0
  PluginFS : Nat := 0
  deriving DecidableEq, Repr

/-- The parameter `curPluginFS` when it is not `NULL`: what `GetPluginFSName()` returns and
the test `IsCurrentPath(fsNameInd, fsNameInd, userPart)`. -/
structure CPluginFSInterfaceEncapsulation where
  GetPluginFSName : List Nat
  IsCurrentPath : List Nat → Bool

/-- What the path history obtains from outside: the constants `MAX_PATH` and
`PATH_HISTORY_SIZE`, the functions `GetRootPath`, `StrICmp` and `DuplicateAmpersands`
(of a buffer and its size), whether `new CPathHistoryItem` succeeds, and whether `Paths.Add`
does. -/
structure PathHistoryWorld where
  MAX_PATH : Nat := 260
  PATH_HISTORY_SIZE : Nat := 20
  GetRootPath : List Nat → List Nat := fun p => p.take 3
  StrICmp : List Nat → List Nat → Int := fun a b => if a = b then 0 else 1
  DuplicateAmpersands : List Nat → Nat → List Nat := fun b _ => b
  newIsGood : Bool := true
  addIsGood : Bool := true

/-- The constructor `CPathHistoryItem::CPathHistoryItem` (salamdr3.cpp 1280-1345) when the
strings can be allocated. For an unknown `type` the strings stay unset. -/
def CPathHistoryItem.new (e : PathHistoryWorld) (type : Int)
    (pathOrArchiveOrFSName archivePathOrFSUserPart : List Nat) (hIcon pluginFS : Nat) :
    CPathHistoryItem :=
  if type = 0 then
    let root := e.GetRootPath pathOrArchiveOrFSName
    { ItemType := type, HIcon := hIcon, PluginFS := 0,
      PathOrArchiveOrFSName :=
        if root.length < pathOrArchiveOrFSName.length ∨ pathOrArchiveOrFSName.head? = some 92
        then (if pathOrArchiveOrFSName.getLast? = some 92 then pathOrArchiveOrFSName.dropLast
              else pathOrArchiveOrFSName)
        else root,
      ArchivePathOrFSUserPart := none }
  else if type = 1 ∨ type = 2 then
    { ItemType := type, HIcon := hIcon, PluginFS := if type = 2 then pluginFS else 0,
      PathOrArchiveOrFSName := pathOrArchiveOrFSName,
      ArchivePathOrFSUserPart := some archivePathOrFSUserPart }
  else
    { ItemType := type, HIcon := hIcon, PluginFS := 0, PathOrArchiveOrFSName := [],
      ArchivePathOrFSUserPart := none }

/-- The method `CPathHistoryItem::GetPath` (salamdr3.cpp 1374-1413): the string left in
`buffer`. -/
def CPathHistoryItem.GetPath (e : PathHistoryWorld) (item : CPathHistoryItem)
    (bufferSize : Nat) : List Nat :=
  if bufferSize = 0 then []
  else
    let l := min (item.PathOrArchiveOrFSName.length + 1) bufferSize
    let head := item.PathOrArchiveOrFSName.take (l - 1)
    if item.ItemType = 1 ∨ item.ItemType = 2 then
      let rest := bufferSize - (l - 1)
      let s := item.ArchivePathOrFSUserPart.getD []
      if s ≠ [] ∨ item.ItemType = 2 then
        let sep : List Nat := if rest ≥ 2 then [if item.ItemType = 1 then 92 else 58] else []
        let rest := if rest ≥ 2 then rest - 1 else rest
        e.DuplicateAmpersands (head ++ sep ++ s.take (min (s.length + 1) rest - 1)) rest
      else e.DuplicateAmpersands head rest
    else e.DuplicateAmpersands head bufferSize

/-- The method `CPathHistoryItem::IsTheSamePath` (salamdr3.cpp 1646-1693). -/
def CPathHistoryItem.IsTheSamePath (e : PathHistoryWorld)
    (curPluginFS : Option CPluginFSInterfaceEncapsulation) (self item : CPathHistoryItem) :
    Bool :=
  if self.ItemType = item.ItemType then
    if self.ItemType = 0 then
      decide (e.StrICmp (self.GetPath e (2 * e.MAX_PATH)) (item.GetPath e (2 * e.MAX_PATH)) = 0)
    else if self.ItemType = 1 then
      decide (e.StrICmp self.PathOrArchiveOrFSName item.PathOrArchiveOrFSName = 0 ∧
        self.ArchivePathOrFSUserPart = item.ArchivePathOrFSUserPart)
    else if self.ItemType = 2 then
      if e.StrICmp self.PathOrArchiveOrFSName item.PathOrArchiveOrFSName = 0 then
        if self.ArchivePathOrFSUserPart = item.ArchivePathOrFSUserPart then true
        else
          match curPluginFS with
          | some fs =>
            if e.StrICmp self.PathOrArchiveOrFSName fs.GetPluginFSName = 0 then
              fs.IsCurrentPath (self.ArchivePathOrFSUserPart.getD []) &&
                fs.IsCurrentPath (item.ArchivePathOrFSUserPart.getD [])
            else false
          | none => false
      else false
    else false
  else false

/-- The members of `class CPathHistory` (salamand.h). -/
structure CPathHistory where
  Paths : List CPathHistoryItem := []
  ForwardIndex : Int := -1
  Lock : Bool := false
  DontChangeForwardIndex : Bool := false
  NewItem : Option CPathHistoryItem := none
  deriving DecidableEq, Repr

/-- The loop `for (i = 0; i < Paths.Count; i++)` of `AddPathUnique` (salamdr3.cpp
2027-2049): the index of the first item with the same path as `n`, counted from `i`. -/
def findSamePath (e : PathHistoryWorld) (curPluginFS : Option CPluginFSInterfaceEncapsulation)
    (n : CPathHistoryItem) : List CPathHistoryItem → Nat → Option Nat
  | [], _ => none
  | item :: rest, i =>
    if n.IsTheSamePath e curPluginFS item then some i
    else findSamePath e curPluginFS n rest (i + 1)

/-- The loop `while (Paths.IsGood() && ForwardIndex < Paths.Count) Paths.Delete(ForwardIndex)`
(salamdr3.cpp 2055-2058). -/
def deleteForward (ForwardIndex : Nat) : Nat → List CPathHistoryItem → List CPathHistoryItem
  | 0, Paths => Paths
  | fuel + 1, Paths =>
    if ForwardIndex < Paths.length then deleteForward ForwardIndex fuel (Paths.eraseIdx ForwardIndex)
    else Paths

/-- The loop `while (Paths.IsGood() && Paths.Count > PATH_HISTORY_SIZE) Paths.Delete(0)`
(salamdr3.cpp 2061-2064). -/
def trimHistory (size : Nat) : Nat → List CPathHistoryItem → List CPathHistoryItem
  | 0, Paths => Paths
  | fuel + 1, Paths =>
    if Paths.length > size then trimHistory size fuel (Paths.eraseIdx 0) else Paths

/-- The method `CPathHistory::AddPathUnique` (salamdr3.cpp 2002-2073). Each loop deletes an
item per round, so `Paths.Count` rounds are enough. -/
def AddPathUnique (e : PathHistoryWorld) (type : Int)
    (pathOrArchiveOrFSName archivePathOrFSUserPart : List Nat) (hIcon pluginFS : Nat)
    (curPluginFS : Option CPluginFSInterfaceEncapsulation) (h : CPathHistory) : CPathHistory :=
  let n := CPathHistoryItem.new e type pathOrArchiveOrFSName archivePathOrFSUserPart hIcon
    pluginFS
  if h.Lock then { h with NewItem := if e.newIsGood then some n else none }
  else if ¬ e.newIsGood = true then h
  else
    match findSamePath e curPluginFS n h.Paths 0 with
    | some i =>
      match h.Paths.get? i with
      | some item =>
        let item := if type = 2 ∧ pluginFS ≠ 0 then { item with PluginFS := pluginFS } else item
        if i + 1 < h.Paths.length ∧ e.addIsGood = true then
          { h with Paths := h.Paths.eraseIdx i ++ [item] }
        else { h with Paths := h.Paths.set i item }
      | none => h
    | none =>
      let Paths :=
        if h.ForwardIndex ≠ -1 then deleteForward h.ForwardIndex.toNat h.Paths.length h.Paths
        else h.Paths
      let Paths := trimHistory e.PATH_HISTORY_SIZE Paths.length Paths
      { h with ForwardIndex := -1, Paths := if e.addIsGood then Paths ++ [n] else Paths }

/-- Example: a path history of the two disk paths "C:\\a" and "C:\\b", the newest last. -/
def pathsExample : CPathHistory :=
  { Paths := [{ ItemType := 0, PathOrArchiveOrFSName := bytes "C:\\a",
                ArchivePathOrFSUserPart := none },
              { ItemType := 0, PathOrArchiveOrFSName := bytes "C:\\b",
                ArchivePathOrFSUserPart := none }] }

/-- Example: the path history after "C:\\a" was added again. -/
def pathsExampleAfter : CPathHistory :=
  { Paths := [{ ItemType := 0, PathOrArchiveOrFSName := bytes "C:\\b",
                ArchivePathOrFSUserPart := none },
              { ItemType := 0, PathOrArchiveOrFSName := bytes "C:\\a",
                ArchivePathOrFSUserPart := none }] }

/-! ## pwdmngr.cpp: `ScramblePassword` and `UnscramblePassword`

A buffer is the list of its bytes; the string in it ends before the first zero byte. -/

/-- The table `ScrambleTable` (pwdmngr.cpp 57-74). -/
def ScrambleTable : List Nat :=
  [0, 223, 235, 233, 240, 185, 88, 102, 22, 130, 27, 53, 79, 125, 66, 201,
   90, 71, 51, 60, 134, 104, 172, 244, 139, 84, 91, 12, 123, 155, 237, 151,
   192, 6, 87, 32, 211, 38, 149, 75, 164, 145, 52, 200, 224, 226, 156, 50,
   136, 190, 232, 63, 129, 209, 181, 120, 28, 99, 168, 94, 198, 40, 238, 112,
   55, 217, 124, 62, 227, 30, 36, 242, 208, 138, 174, 231, 26, 54, 214, 148,
   37, 157, 19, 137, 187, 111, 228, 39, 110, 17, 197, 229, 118, 246, 153, 80,
   21, 128, 69, 117, 234, 35, 58, 67, 92, 7, 132, 189, 5, 103, 10, 15,
   252, 195, 70, 147, 241, 202, 107, 49, 20, 251, 133, 76, 204, 73, 203, 135,
   184, 78, 194, 183, 1, 121, 109, 11, 143, 144, 171, 161, 48, 205, 245, 46,
   31, 72, 169, 131, 239, 160, 25, 207, 218, 146, 43, 140, 127, 255, 81, 98,
   42, 115, 173, 142, 114, 13, 2, 219, 57, 56, 24, 126, 3, 230, 47, 215,
   9, 44, 159, 33, 249, 18, 93, 95, 29, 113, 220, 89, 97, 182, 248, 64,
   68, 34, 4, 82, 74, 196, 213, 165, 179, 250, 108, 254, 59, 14, 236, 175,
   85, 199, 83, 106, 77, 178, 167, 225, 45, 247, 163, 158, 8, 221, 61, 191,
   119, 16, 253, 105, 186, 23, 170, 100, 216, 65, 162, 122, 150, 176, 154, 193,
   206, 222, 188, 152, 210, 243, 96, 41, 86, 180, 101, 177, 166, 141, 212, 116]

/-- The string in a buffer: the bytes before the first zero (`strlen`, `strcpy`). -/
def cstr (buf : List Nat) : List Nat := buf.takeWhile (fun b => b != 0)

/-- The loop `while (p <= 0 || p > 255 || p >= '0' && p <= '9') p = (int)((double)rand() /
((double)RAND_MAX / 256.0));` (pwdmngr.cpp 95-97), started with `p = 0`: of the values that
the successive calls give, the first one that ends the loop, and the values left. Without
such a value the loop does not end. -/
def randomPadByte : List Int → Option (Nat × List Int)
  | [] => none
  | p :: rest =>
    if p ≤ 0 ∨ p > 255 ∨ (p ≥ 48 ∧ p ≤ 57) then randomPadByte rest else some (p.toNat, rest)

/-- Whether a value computed from `rand()` ends the loop that draws a padding byte. -/
def endsPadLoop (p : Int) : Bool := !decide (p ≤ 0 ∨ p > 255 ∨ (p ≥ 48 ∧ p ≤ 57))

/-- The loop `for (i = 0; i < padding; i++)` (pwdmngr.cpp 93-99): the padding bytes. -/
def fillPadding : Nat → List Int → Option (List Nat × List Int)
  | 0, rand => some ([], rand)
  | n + 1, rand =>
    match randomPadByte rand with
    | none => none
    | some (b, rand) =>
      match fillPadding n rand with
      | none => none
      | some (bs, rand) => some (b :: bs, rand)

/-- The loop `while (*s != 0)` of `ScramblePassword` (pwdmngr.cpp 105-111) over the string
in `buf`. -/
def scrambleLoop : Nat → List Nat → List Nat
  | _, [] => []
  | last, c :: s =>
    (ScrambleTable.getD ((last + c) % 255 + 1) 0) :: scrambleLoop ((last + c) % 255 + 1) s

/-- The function `ScramblePassword` (pwdmngr.cpp 82-116): the string left in `password`;
`rand` holds the values computed from the successive calls of `rand()`. `none` when the
padding loop does not end. -/
def ScramblePassword (rand : List Int) (password : List Nat) : Option (List Nat) :=
  let len := (cstr password).length
  let padding := ((len + 3) / 17) * 17 + 17 - 3 - len
  match fillPadding padding rand with
  | none => none
  | some (pad, _) =>
    some (cstr (scrambleLoop 31
      (cstr (pad ++ [48 + len % 10, 48 + (len / 10) % 10, 48 + (len / 100) % 10]
        ++ cstr password))))

/-- The loop `for (i = 0; i < 256; i++) UnscrambleTable[ScrambleTable[i]] = i;` (pwdmngr.cpp
123-126) on the table so far. -/
def initUnscrambleTable : List Nat → List Nat → Nat → List Nat
  | [], table, _ => table
  | s :: rest, table, i => initUnscrambleTable rest (table.set s i) (i + 1)

/-- The table `UnscrambleTable` after its initialisation; it starts as 256 zero bytes. -/
def UnscrambleTable : List Nat := initUnscrambleTable ScrambleTable (List.replicate 256 0) 0

/-- The value of a `char` holding the byte `b` (the type is signed). -/
def charValue (b : Nat) : Int := if b ≥ 128 then (b : Int) - 256 else b

/-- The first loop `while (*s != 0)` of `UnscramblePassword` (pwdmngr.cpp 132-141) over the
string in `password`; `(char)x` stores the low byte of `x`. -/
def unscrambleLoop : Int → List Nat → List Nat
  | _, [] => []
  | last, c :: s =>
    let x : Int := (UnscrambleTable.getD c 0 : Int) - 1 - Int.tmod last 255
    let x : Int := if x ≤ 0 then x + 255 else x
    (x % 256).toNat :: unscrambleLoop (Int.tmod (last + x) 255 + 1) s

/-- The function `UnscramblePassword` (pwdmngr.cpp 118-167): the `BOOL` result and the
string left in `password`. -/
def UnscramblePassword (password : List Nat) : Bool × List Nat :=
  let buf := cstr (unscrambleLoop 31 (cstr password))
  let s := buf.dropWhile (fun b => decide (charValue b < 48 ∨ charValue b > 57))
  if s.length ≥ 3 then
    let len : Int := (charValue (s.getD 0 0) - 48) + 10 * (charValue (s.getD 1 0) - 48)
      + 100 * (charValue (s.getD 2 0) - 48)
    let total : Int := Int.tdiv (len + 3) 17 * 17 + 17
    if len ≥ 0 ∧ total = buf.length ∧ total - ((buf.length : Int) - s.length) - 3 = len then
      (true, buf.drop (buf.length - len.toNat))
    else (false, [])
  else (false, [])

/-! ## Selecting everything, and a word or a line by double click -/

/-- The `case CM_SELECTALLTEXT:` of `WM_COMMAND` (viewer3.cpp 1694-1707). The message posted
for `Configuration.AutoCopySelection` is handled later and is no part of this handler. -/
def selectAllText (w : World) (s : CViewerWindow) : CViewerWindow :=
  if s.MouseDrag then s
  else
    UpdateWindow w { s with StartSelection := 0, EndSelection := FileSize w,
                            SelectionIsFindResult := false }

/-- What the handler of `WM_LBUTTONDBLCLK` obtains from outside: the Ctrl key
(`wholeLine`), what `GetOffset` returns, and the four flags of `Configuration` that say
what ends a line. -/
structure DblClick where
  wholeLine : Bool := false
  off : OffsetResult
  EOL_CR : Bool := true
  EOL_LF : Bool := true
  EOL_CRLF : Bool := true
  EOL_NULL : Bool := true

/-- How one of the two loops of `WM_LBUTTONDBLCLK` ends: `Prepare` failed
(`FatalFileErrorOccured(); return 0;`), `Prepare` held no byte (`return 0; // error`), or
the loop is left with the end of the selection found; `reads` counts the calls of `Prepare`
made so far. -/
inductive ScanResult
  | fatalErr
  | error
  | done (sel : Int) (reads : Nat)
  deriving DecidableEq, Repr

/-- The test `IsCharAlphaNumeric(*s) || *s == '_'` of `WM_LBUTTONDBLCLK`. -/
def wordByte (w : World) (c : Nat) : Bool := w.IsCharAlphaNumeric c || c == 95

/-- The loop `while (s > end && (IsCharAlphaNumeric(*s) || *s == '_')) s--;` (viewer3.cpp
2534-2535). The pointers `s` and `end` are given as the file offsets they stand for; the
loop makes at most `len` rounds. -/
def wordBeginScan (w : World) (e : Int) : Nat → Int → Int
  | 0, s => s
  | n + 1, s => if s > e ∧ wordByte w (byteAt w s) = true then wordBeginScan w e n (s - 1) else s

/-- The loop `while (s > end)` that looks for the beginning of a line (viewer3.cpp
2544-2565): the pointer `s` where it stops, and `breakOnCR`. -/
def lineBeginScan (w : World) (d : DblClick) (e : Int) : Nat → Int → Bool → Int × Bool
  | 0, s, b => (s, b)
  | n + 1, s, b =>
    if s > e then
      if d.EOL_CR = true ∧ byteAt w s = 13 then (s, b)
      else if byteAt w s = 10 ∧ d.EOL_LF = true then (s, b)
      else if byteAt w s = 10 ∧ d.EOL_CRLF = true ∧ s - 1 > e ∧ byteAt w (s - 1) = 13 then
        (s, b)
      else
        let b1 := if byteAt w s = 10 ∧ d.EOL_CRLF = true ∧ ¬ s - 1 > e then true else b
        if d.EOL_NULL = true ∧ byteAt w s = 0 then (s, b1)
        else lineBeginScan w d e n (s - 1) b1
    else (s, b)

/-- The first loop of `WM_LBUTTONDBLCLK`, `while (seek > 0)` (viewer3.cpp 2521-2574): the
beginning of the word or of the line, `selStart`. -/
def selStartLoop (w : World) (d : DblClick) : Nat → Int → Bool → Nat → Option ScanResult
  | 0, _, _, _ => none
  | fuel + 1, seek, breakOnCR, reads =>
    if seek > 0 then
      let p := Prepare w reads (seek - min APROX_LINE_LEN seek) (min APROX_LINE_LEN seek)
      if p.2 then some ScanResult.fatalErr
      else if p.1 = 0 then some ScanResult.error
      else
        let s := seek - 1
        let e := s - p.1
        let t : Int × Bool :=
          if ¬ d.wholeLine = true then (wordBeginScan w e p.1.toNat s, breakOnCR)
          else if breakOnCR = true ∧ s > e ∧ byteAt w s = 13 then (s + 1, breakOnCR)
          else lineBeginScan w d e p.1.toNat s false
        if t.1 ≠ e then some (ScanResult.done (seek - p.1 + (t.1 - e)) (reads + 1))
        else selStartLoop w d fuel (seek - p.1) t.2 (reads + 1)
    else some (ScanResult.done 0 reads)

/-- The loop `while (s < end && (IsCharAlphaNumeric(*s) || *s == '_')) s++;` (viewer3.cpp
2594-2595). -/
def wordEndScan (w : World) (e : Int) : Nat → Int → Int
  | 0, s => s
  | n + 1, s => if s < e ∧ wordByte w (byteAt w s) = true then wordEndScan w e n (s + 1) else s

/-- The loop `while (s < end)` that looks for the end of a line (viewer3.cpp 2617-2662):
the pointer `s` where it stops, `eol`, and `breakOnLF`. -/
def lineEndScan (w : World) (d : DblClick) (e : Int) : Nat → Int → Bool → Int × Bool × Bool
  | 0, s, b => (s, false, b)
  | n + 1, s, b =>
    if s < e then
      if d.EOL_LF = true ∧ byteAt w s = 10 then (s + 1, true, b)
      else if byteAt w s = 13 ∧ d.EOL_CRLF = true ∧ s + 1 < e ∧ byteAt w (s + 1) = 10 then
        (s + 2, true, b)
      else
        let atEnd : Bool := decide (byteAt w s = 13 ∧ d.EOL_CRLF = true ∧ ¬ s + 1 < e)
        let b1 := if atEnd then true else b
        if byteAt w s = 13 ∧ ¬ atEnd = true ∧ d.EOL_CR = true then (s + 1, true, b1)
        else if d.EOL_NULL = true ∧ byteAt w s = 0 then (s + 1, true, b1)
        else lineEndScan w d e n (s + 1) b1
    else (s, false, b)

/-- The second loop of `WM_LBUTTONDBLCLK`, `while (seek < FileSize)` (viewer3.cpp
2576-2679): the end of the word or of the line, `selEnd`. -/
def selEndLoop (w : World) (d : DblClick) : Nat → Int → Bool → Nat → Option ScanResult
  | 0, _, _, _ => none
  | fuel + 1, seek, breakOnLF, reads =>
    if seek < FileSize w then
      let p := Prepare w reads seek APROX_LINE_LEN
      if p.2 then some ScanResult.fatalErr
      else if p.1 = 0 then some ScanResult.error
      else
        let s := seek
        let e := s + p.1
        if ¬ d.wholeLine = true then
          let s1 := wordEndScan w e p.1.toNat s
          if s1 ≠ e then some (ScanResult.done (seek + p.1 - (e - s1)) (reads + 1))
          else selEndLoop w d fuel (seek + p.1) breakOnLF (reads + 1)
        else if breakOnLF = true ∧ s < e ∧ byteAt w s = 10 then
          some (ScanResult.done (seek + p.1 - (e - (s + 1))) (reads + 1))
        else
          let b1 : Bool := if breakOnLF = true ∧ ¬ d.EOL_CR = true then false else breakOnLF
          let t : Int × Bool × Bool :=
            if ¬ b1 = true then lineEndScan w d e p.1.toNat s b1 else (s, false, b1)
          if t.2.1 = true ∨ t.1 ≠ e then
            some (ScanResult.done (seek + p.1 - (e - t.1)) (reads + 1))
          else selEndLoop w d fuel (seek + p.1) t.2.2 (reads + 1)
    else some (ScanResult.done (FileSize w) reads)

/-- The handler of `WM_LBUTTONDBLCLK` (viewer3.cpp 2511-2698); `none` when a loop ran out
of fuel. Each round of the two loops consumes at least one byte, so more rounds than the
file has bytes are never needed. -/
def OnLButtonDblClk (w : World) (fuel : Nat) (d : DblClick) (s : CViewerWindow) :
    Option CViewerWindow :=
  if d.off.ret = true ∧ ¬ d.off.fatalErr = true then
    match selStartLoop w d fuel d.off.off false 0 with
    | none => none
    | some ScanResult.fatalErr => some (FatalFileErrorOccured s (-1))
    | some ScanResult.error => some s
    | some (ScanResult.done selStart reads) =>
      match selEndLoop w d fuel d.off.off false reads with
      | none => none
      | some ScanResult.fatalErr => some (FatalFileErrorOccured s (-1))
      | some ScanResult.error => some s
      | some (ScanResult.done selEnd _) =>
        some { s with StartSelection := selStart, EndSelection := selEnd,
                      SelectionIsFindResult := false }
  else if d.off.fatalErr then some (FatalFileErrorOccured s (-1))
  else some s

/-! ## Selection offsets inside the file -/

/-- The offset `x` lies in the file: `0 ≤ x ≤ FileSize`. -/
def InFile (w : World) (x : Int) : Prop := 0 ≤ x ∧ x ≤ FileSize w

instance (w : World) (x : Int) : Decidable (InFile w x) :=
  inferInstanceAs (Decidable (0 ≤ x ∧ x ≤ FileSize w))

/-- Each of `StartSelection` and `EndSelection` is unset (-1) or lies in the file. -/
def SelectionInFile (w : World) (s : CViewerWindow) : Prop :=
  (s.StartSelection = -1 ∨ InFile w s.StartSelection) ∧
  (s.EndSelection = -1 ∨ InFile w s.EndSelection)

instance (w : World) (s : CViewerWindow) : Decidable (SelectionInFile w s) :=
  inferInstanceAs (Decidable ((s.StartSelection = -1 ∨ InFile w s.StartSelection) ∧
    (s.EndSelection = -1 ∨ InFile w s.EndSelection)))

/-- What a handler that took the window from `s` to `s'` did to the selection:
`StartSelection` is what it was or an offset in the file, and `EndSelection` is what it
was, or the old `StartSelection` (the selection emptied), or an offset in the file. -/
def SelectionKept (w : World) (s s' : CViewerWindow) : Prop :=
  (s'.StartSelection = s.StartSelection ∨ InFile w s'.StartSelection) ∧
  (s'.EndSelection = s.EndSelection ∨ s'.EndSelection = s.StartSelection ∨
    InFile w s'.EndSelection)

instance (w : World) (s s' : CViewerWindow) : Decidable (SelectionKept w s s') :=
  inferInstanceAs (Decidable ((s'.StartSelection = s.StartSelection ∨
      InFile w s'.StartSelection) ∧
    (s'.EndSelection = s.EndSelection ∨ s'.EndSelection = s.StartSelection ∨
      InFile w s'.EndSelection)))

/-- The offsets held in `LineOffset`, the begin and the end of each line (the entries at
the indices `3 * k` and `3 * k + 1`), lie in the file. -/
def LinesInFile (w : World) (s : CViewerWindow) : Prop :=
  ∀ i, i < s.LineOffset.length → i % 3 ≠ 2 → InFile w (s.LineOffset.getD i 0)

instance (w : World) (s : CViewerWindow) : Decidable (LinesInFile w s) :=
  inferInstanceAs (Decidable (∀ i, i < s.LineOffset.length → i % 3 ≠ 2 →
    InFile w (s.LineOffset.getD i 0)))

/-- The commands that extend the selection to the left, to the right, to the beginning or
the end of the line, and to the beginning or the end of the file. -/
def extendsSelection (cmd : NavCmd) : Bool :=
  cmd = NavCmd.CM_EXTSEL_LEFT || cmd = NavCmd.CM_EXTSEL_RIGHT ||
  cmd = NavCmd.CM_EXTSEL_HOME || cmd = NavCmd.CM_EXTSEL_END ||
  cmd = NavCmd.CM_EXTSEL_FILEBEG || cmd = NavCmd.CM_EXTSEL_FILEEND

/-- Example: a double click with Ctrl on the byte at offset 4. -/
def lineClickAtFour : DblClick := { wholeLine := true, off := ⟨true, 4, false, false⟩ }

/-- Example: the window on the file of the two lines "ab" and "Xcd" that shows both lines,
with the "X" at 3 selected. -/
def twoLineWindow : CViewerWindow :=
  { regexpWindowAfter with Width := 100, LineOffset := [0, 2, 2, 3, 6, 3] }

/-! ## Keyboard extension of the selection, and the range of the view offset -/

/-- The eight commands that extend the selection from the keyboard: `CM_EXTSEL_LEFT`,
`_RIGHT`, `_UP`, `_DOWN`, `_HOME`, `_END`, `_FILEBEG` and `_FILEEND`. -/
def keyboardExtension (cmd : NavCmd) : Bool :=
  cmd = NavCmd.CM_EXTSEL_LEFT || cmd = NavCmd.CM_EXTSEL_RIGHT ||
  cmd = NavCmd.CM_EXTSEL_UP || cmd = NavCmd.CM_EXTSEL_DOWN ||
  cmd = NavCmd.CM_EXTSEL_HOME || cmd = NavCmd.CM_EXTSEL_END ||
  cmd = NavCmd.CM_EXTSEL_FILEBEG || cmd = NavCmd.CM_EXTSEL_FILEEND

/-- The window after the navigation commands `cmds`, sent one after the other. -/
def navCommands (w : World) (cmds : List NavCmd) (s : CViewerWindow) : CViewerWindow :=
  cmds.foldl (fun t cmd => navCommand w cmd t) s

/-- Example: `lineWindow` with the selection collapsed at offset 3. -/
def collapsedWindow : CViewerWindow := { lineWindow with EndSelection := 3 }

/-- The top of the view lies in its range: `0 ≤ SeekY ≤ MaxSeekY`. -/
def SeekYInRange (s : CViewerWindow) : Prop := 0 ≤ s.SeekY ∧ s.SeekY ≤ s.MaxSeekY

instance (s : CViewerWindow) : Decidable (SeekYInRange s) :=
  inferInstanceAs (Decidable (0 ≤ s.SeekY ∧ s.SeekY ≤ s.MaxSeekY))

/-- The commands that scroll by a line or a page or to the beginning or end of the file. -/
def scrollsVertically (cmd : NavCmd) : Bool :=
  cmd = NavCmd.CM_LINEUP || cmd = NavCmd.CM_LINEDOWN || cmd = NavCmd.CM_PAGEUP ||
  cmd = NavCmd.CM_PAGEDOWN || cmd = NavCmd.CM_FILEBEGIN || cmd = NavCmd.CM_FILEEND

/-- Example: `hexWindow` with the end of its range at offset 96. -/
def hexRangeWindow : CViewerWindow := { hexWindow with MaxSeekY := 96, FirstLineSize := 16 }

/-- Modelled from the spec: the regular-expression engine is defined outside src/. An
example of its `SearchForward` when compiled for an expression that matches the empty
string, such as "x*": the empty match at `start`. -/
def emptyMatchAt (_line : List Nat) (start : Int) : Int × Int := (start, 0)

/-- Example: the file of the two lines "ab" and "Xcd" with the engine for an expression
that matches the empty string. -/
def emptyMatchFile : World := { regexpFile with RegExpSearchForward := emptyMatchAt }

/-- Example: a window on the two-line file scrolled to the second line (`SeekY = 3`),
nothing selected, the cursor at the top of the view, set up to search for a regular
expression. -/
def scrolledWindow : CViewerWindow :=
  { regexpWindow with SeekY := 3, MaxSeekY := 3, ViewSize := 3, FindOffset := 3 }

/-! ## The bound of the file history -/

/-- The item `a` is `Equal` to the data the item `b` was constructed from. -/
def itemsEqual (e : FileHistoryWorld) (a b : CFileHistoryItem) : Bool :=
  a.Equal e b.ItemType b.HandlerID b.FileName

/-- No two items of the array are `Equal`, whichever of the two is asked. -/
def NoTwoEqual (e : FileHistoryWorld) (Files : List CFileHistoryItem) : Prop :=
  Files.Pairwise (fun a b => itemsEqual e a b = false ∧ itemsEqual e b a = false)

instance (e : FileHistoryWorld) (Files : List CFileHistoryItem) :
    Decidable (NoTwoEqual e Files) :=
  inferInstanceAs (Decidable (Files.Pairwise
    (fun a b => itemsEqual e a b = false ∧ itemsEqual e b a = false)))

/-- Example: a file history of 30 items, "a.txt" viewed by the handlers 0 to 29. -/
def fullHistory : List CFileHistoryItem :=
  (List.range 30).map (fun i =>
    { ItemType := CFileHistoryItemTypeEnum.fhitView, HandlerID := i, FileName := bytes "a.txt" })

/-! ## salamdr3.cpp: `DuplicateAmpersands`

The array `buffer` is the list of its `bufferSize` bytes. An access to an index outside the
list ends the run with `AmpResult.outside`. -/

/-- How a run of `DuplicateAmpersands` ends: with the `BOOL` result and the bytes of the
array, or with the first access to a byte outside the array, at `index`. -/
inductive AmpResult
  | done (ret : Bool) (buffer : List Nat)
  | outside (index : Int)
  deriving DecidableEq, Repr

/-- The call `strlen(buffer)`: the index of the first NUL, `none` when the array holds no
NUL (the call then reads behind the array). -/
def strlen (buffer : List Nat) : Option Nat :=
  if buffer.indexOf 0 < buffer.length then some (buffer.indexOf 0) else none

/-- The call `memmove(buffer + dst, buffer + src, n)`: `none` when `n` is negative or one of
the two ranges leaves the array. -/
def memmove (buffer : List Nat) (dst src : Nat) (n : Int) : Option (List Nat) :=
  if n < 0 ∨ dst + n > buffer.length ∨ src + n > buffer.length then none
  else some (buffer.take dst ++ (buffer.drop src).take n.toNat ++ buffer.drop (dst + n.toNat))

/-- The loop `while (*s != 0)` of `DuplicateAmpersands` (salamdr3.cpp 1436-1459); `s` is the
index `s - buffer`. -/
def ampersandLoop (bufferSize : Int) (skipFirstAmpersand : Bool) :
    Nat → List Nat → Nat → Int → Bool → Bool → Option AmpResult
  | 0, _, _, _, _, _ => none
  | fuel + 1, buffer, s, l, ret, first =>
    if ¬ s < buffer.length then some (AmpResult.outside s)
    else if buffer.getD s 0 ≠ 0 then
      if buffer.getD s 0 = 38 then
        if ¬ (skipFirstAmpersand = true ∧ first = true) then
          if l + 1 < bufferSize then
            match memmove buffer (s + 1) s (l - s + 1) with
            | none => some (AmpResult.outside buffer.length)
            | some b => ampersandLoop bufferSize skipFirstAmpersand fuel b (s + 1 + 1) (l + 1)
                ret false
          else
            match memmove buffer (s + 1) s (l - s) with
            | none => some (AmpResult.outside buffer.length)
            | some b =>
              if 0 ≤ l ∧ l < b.length then
                ampersandLoop bufferSize skipFirstAmpersand fuel (b.set l.toNat 0) (s + 1 + 1) l
                  false false
              else some (AmpResult.outside l)
        else ampersandLoop bufferSize skipFirstAmpersand fuel buffer (s + 1) l ret false
      else ampersandLoop bufferSize skipFirstAmpersand fuel buffer (s + 1) l ret first
    else some (AmpResult.done ret buffer)

/-- The function `DuplicateAmpersands` (salamdr3.cpp 1420-1461) for a `buffer` that is not
NULL; `none` when the loop ran out of fuel. -/
def DuplicateAmpersands (fuel : Nat) (buffer : List Nat) (bufferSize : Int)
    (skipFirstAmpersand : Bool) : Option AmpResult :=
  match strlen buffer with
  | none => some (AmpResult.outside buffer.length)
  | some l =>
    if (l : Int) ≥ bufferSize then some (AmpResult.done false buffer)
    else ampersandLoop bufferSize skipFirstAmpersand fuel buffer 0 l true true

/-! ## salamdr3.cpp: `SalRemovePointsFromPath`

The string `afterRoot` is the list of its bytes before the NUL; the byte at an index behind
them reads as 0. -/

/-- The loop `while (*d != 0 && *d != '.') d++;` (salamdr3.cpp 323-324); it makes at most
as many rounds as bytes stand behind `d`. -/
def skipToPoint (s : List Nat) : Nat → Nat → Nat
  | 0, d => d
  | n + 1, d => if s.getD d 0 ≠ 0 ∧ s.getD d 0 ≠ 46 then skipToPoint s n (d + 1) else d

/-- The loop `while (l > afterRoot && *(l - 1) != '\\') l--;` (salamdr3.cpp 332-333); `l` is
the index `l - afterRoot`, and the loop makes at most `l` rounds. -/
def backToSeparator (s : List Nat) : Nat → Int → Int
  | 0, l => l
  | n + 1, l => if l > 0 ∧ s.getD (l - 1).toNat 0 ≠ 92 then backToSeparator s n (l - 1) else l

/-- The loop `while (*d != 0)` of `SalRemovePointsFromPath(char*)` (salamdr3.cpp 321-361):
the `BOOL` result and the string afterwards; `d` is the index `d - afterRoot`. -/
def removePointsLoop : Nat → List Nat → Nat → Option (Bool × List Nat)
  | 0, _, _ => none
  | fuel + 1, s, d0 =>
    if s.getD d0 0 ≠ 0 then
      let d := skipToPoint s (s.length - d0) d0
      if s.getD d 0 = 46 then
        if d = 0 ∨ (d > 0 ∧ s.getD (d - 1) 0 = 92) then
          if s.getD (d + 1) 0 = 46 ∧ (s.getD (d + 2) 0 = 92 ∨ s.getD (d + 2) 0 = 0) then
            let l := backToSeparator s d ((d : Int) - 1)
            if l ≥ 0 then
              if s.getD (d + 2) 0 = 0 then removePointsLoop fuel (s.take l.toNat) l.toNat
              else removePointsLoop fuel (s.take l.toNat ++ s.drop (d + 3)) l.toNat
            else some (false, s)
          else if s.getD (d + 1) 0 = 92 ∨ s.getD (d + 1) 0 = 0 then
            if s.getD (d + 1) 0 = 0 then removePointsLoop fuel (s.take d) d
            else removePointsLoop fuel (s.take d ++ s.drop (d + 2)) d
          else removePointsLoop fuel s (d + 1)
        else removePointsLoop fuel s (d + 1)
      else removePointsLoop fuel s d
    else some (true, s)

/-- The function `SalRemovePointsFromPath(char*)` (salamdr3.cpp 318-363); `none` when the
loop ran out of fuel. -/
def SalRemovePointsFromPath (fuel : Nat) (afterRoot : List Nat) : Option (Bool × List Nat) :=
  removePointsLoop fuel afterRoot 0

/-- The components of a path, the runs of bytes between the backslashes. -/
def components : List Nat → List (List Nat)
  | [] => [[]]
  | c :: rest =>
    if c = 92 then [] :: components rest
    else
      match components rest with
      | [] => [[c]]
      | h :: t => (c :: h) :: t

/-- A component "." or ".." of the string `s` begins at the index `i`. -/
def pointAt (s : List Nat) (i : Nat) : Prop :=
  (i = 0 ∨ s.getD (i - 1) 0 = 92) ∧ s.getD i 0 = 46 ∧
  (s.getD (i + 1) 0 = 92 ∨ s.getD (i + 1) 0 = 0 ∨
    (s.getD (i + 1) 0 = 46 ∧ (s.getD (i + 2) 0 = 92 ∨ s.getD (i + 2) 0 = 0)))

instance (s : List Nat) (i : Nat) : Decidable (pointAt s i) :=
  inferInstanceAs (Decidable ((i = 0 ∨ s.getD (i - 1) 0 = 92) ∧ s.getD i 0 = 46 ∧
    (s.getD (i + 1) 0 = 92 ∨ s.getD (i + 1) 0 = 0 ∨
      (s.getD (i + 1) 0 = 46 ∧ (s.getD (i + 2) 0 = 92 ∨ s.getD (i + 2) 0 = 0)))))

/-- The string `s` with the bytes from the index `l` up to the index `k` taken out. -/
def cutOut (s : List Nat) (l k : Nat) : List Nat := s.take l ++ s.drop k

/-- Example: a double click without Ctrl on the byte at offset 13. -/
def wordClickAtThirteen : DblClick := { off := ⟨true, 13, false, false⟩ }

/-- Example: the array of four bytes that holds "ab&" and the NUL. -/
def fullAmpersandBuffer : List Nat := bytes "ab&" ++ [0]

/-- Example: the array of five bytes that holds "ab&", the NUL and one more byte. -/
def roomyAmpersandBuffer : List Nat := bytes "ab&" ++ [0, 255]

/-! ## Lemmas -/

theorem matchHere_length (w : World) (cs : Bool) :
    ∀ (pat text : List Nat), matchHere w cs pat text = true → pat.length ≤ text.length
  | [], _, _ => by simp
  | _ :: _, [], h => by simp [matchHere] at h
  | p :: ps, t :: ts, h => by
    simp only [matchHere, Bool.and_eq_true] at h
    have := matchHere_length w cs ps ts h.2
    simp only [List.length_cons]
    omega

theorem matchHere_take (w : World) (cs : Bool) :
    ∀ (pat text : List Nat) (n : Nat), pat.length ≤ n →
      matchHere w cs pat (text.take n) = matchHere w cs pat text
  | [], _, _, _ => by simp [matchHere]
  | _ :: _, [], _, _ => by simp [matchHere]
  | p :: ps, t :: ts, 0, h => by simp at h
  | p :: ps, t :: ts, n + 1, h => by
    simp only [List.take_succ_cons, matchHere]
    rw [matchHere_take w cs ps ts n (by simpa using h)]

theorem searchUp_spec (w : World) (cs : Bool) (pat text : List Nat) :
    ∀ (k i : Nat),
      (searchUp w cs pat text i k = -1 ∧
        ∀ j, i ≤ j → j < i + k → matchHere w cs pat (text.drop j) = false) ∨
      (∃ j : Nat, searchUp w cs pat text i k = (j : Int) ∧ i ≤ j ∧ j < i + k ∧
        matchHere w cs pat (text.drop j) = true ∧
        ∀ j', i ≤ j' → j' < j → matchHere w cs pat (text.drop j') = false)
  | 0, i => by
    left
    exact ⟨rfl, fun j h1 h2 => by omega⟩
  | k + 1, i => by
    by_cases hm : matchHere w cs pat (text.drop i) = true
    · right
      refine ⟨i, by simp [searchUp, hm], le_refl _, by omega, hm, fun j' h1 h2 => by omega⟩
    · have hm' : matchHere w cs pat (text.drop i) = false := by simpa using hm
      rcases searchUp_spec w cs pat text k (i + 1) with ⟨h1, h2⟩ | ⟨j, h1, h2, h3, h4, h5⟩
      · left
        refine ⟨by simp [searchUp, hm', h1], fun j hj1 hj2 => ?_⟩
        by_cases hji : j = i
        · subst hji; exact hm'
        · exact h2 j (by omega) (by omega)
      · right
        refine ⟨j, by simp [searchUp, hm', h1], by omega, by omega, h4, fun j' hj1 hj2 => ?_⟩
        by_cases hji : j' = i
        · subst hji; exact hm'
        · exact h5 j' (by omega) hj2

theorem searchDown_spec (w : World) (cs : Bool) (pat text : List Nat) :
    ∀ (k : Nat),
      (searchDown w cs pat text k = -1 ∧
        ∀ j, j < k → matchHere w cs pat (text.drop j) = false) ∨
      (∃ j : Nat, searchDown w cs pat text k = (j : Int) ∧ j < k ∧
        matchHere w cs pat (text.drop j) = true ∧
        ∀ j', j < j' → j' < k → matchHere w cs pat (text.drop j') = false)
  | 0 => by
    left
    exact ⟨rfl, fun j h => by omega⟩
  | k + 1 => by
    by_cases hm : matchHere w cs pat (text.drop k) = true
    · right
      exact ⟨k, by simp [searchDown, hm], by omega, hm, fun j' h1 h2 => by omega⟩
    · have hm' : matchHere w cs pat (text.drop k) = false := by simpa using hm
      rcases searchDown_spec w cs pat text k with ⟨h1, h2⟩ | ⟨j, h1, h2, h3, h4⟩
      · left
        refine ⟨by simp [searchDown, hm', h1], fun j hj => ?_⟩
        by_cases hjk : j = k
        · subst hjk; exact hm'
        · exact h2 j (by omega)
      · right
        refine ⟨j, by simp [searchDown, hm', h1], by omega, h3, fun j' hj1 hj2 => ?_⟩
        by_cases hjk : j' = k
        · subst hjk; exact hm'
        · exact h4 j' hj1 (by omega)

theorem chunk_length (w : World) (off len : Int) (h0 : 0 ≤ off) (h1 : 0 ≤ len)
    (h2 : off + len ≤ FileSize w) : ((chunk w off len).length : Int) = len := by
  unfold chunk FileSize at *
  simp only [List.length_take, List.length_drop]
  omega

theorem matchHere_chunk (w : World) (cs : Bool) (pat : List Nat) (off len : Int) (j : Nat)
    (h0 : 0 ≤ off) (hj : (j : Int) + pat.length ≤ len) :
    matchHere w cs pat ((chunk w off len).drop j) =
      matchHere w cs pat (w.file.drop (off + j).toNat) := by
  unfold chunk
  rw [List.drop_take, List.drop_drop, matchHere_take]
  · congr 2
    omega
  · omega

theorem occursAt_le (w : World) (cs : Bool) (pat : List Nat) (p : Int)
    (hm : 1 ≤ pat.length) (h : occursAt w cs pat p = true) :
    0 ≤ p ∧ p + pat.length ≤ FileSize w := by
  simp only [occursAt, Bool.and_eq_true, decide_eq_true_eq] at h
  have := matchHere_length w cs pat _ h.2
  simp only [List.length_drop] at this
  unfold FileSize
  omega

theorem SearchForward_chunk (w : World) (cs : Bool) (pat : List Nat) (off len : Int)
    (h0 : 0 ≤ off) (h1 : 0 ≤ len) (h2 : off + len ≤ FileSize w) :
    (SearchForward w cs pat (chunk w off len) = -1 ∧
      ∀ p, off ≤ p → p + pat.length ≤ off + len → occursAt w cs pat p = false) ∨
    (∃ p, SearchForward w cs pat (chunk w off len) = p - off ∧ off ≤ p ∧
      p + pat.length ≤ off + len ∧ occursAt w cs pat p = true ∧
      ∀ q, off ≤ q → q < p → occursAt w cs pat q = false) := by
  have hl := chunk_length w off len h0 h1 h2
  unfold SearchForward
  rcases searchUp_spec w cs pat (chunk w off len) ((chunk w off len).length + 1 - pat.length) 0
    with ⟨e, hall⟩ | ⟨j, e, _, hj, hm, hall⟩
  · left
    refine ⟨e, fun p hp1 hp2 => ?_⟩
    have := hall (p - off).toNat (by omega) (by omega)
    rw [matchHere_chunk w cs pat off len _ h0 (by omega)] at this
    have e2 : off + ((p - off).toNat : Int) = p := by omega
    rw [e2] at this
    simp [occursAt, this]
  · right
    refine ⟨off + j, by rw [e]; omega, by omega, by omega, ?_, fun q hq1 hq2 => ?_⟩
    · rw [matchHere_chunk w cs pat off len _ h0 (by omega)] at hm
      simp only [occursAt, hm, Bool.and_true, decide_eq_true_eq]
      omega
    · have := hall (q - off).toNat (by omega) (by omega)
      rw [matchHere_chunk w cs pat off len _ h0 (by omega)] at this
      have e2 : off + ((q - off).toNat : Int) = q := by omega
      rw [e2] at this
      simp [occursAt, this]

theorem SearchBackward_chunk (w : World) (cs : Bool) (pat : List Nat) (off len : Int)
    (h0 : 0 ≤ off) (h1 : 0 ≤ len) (h2 : off + len ≤ FileSize w) :
    (SearchBackward w cs pat (chunk w off len) = -1 ∧
      ∀ p, off ≤ p → p + pat.length ≤ off + len → occursAt w cs pat p = false) ∨
    (∃ p, SearchBackward w cs pat (chunk w off len) = p - off ∧ off ≤ p ∧
      p + pat.length ≤ off + len ∧ occursAt w cs pat p = true ∧
      ∀ q, p < q → q + pat.length ≤ off + len → occursAt w cs pat q = false) := by
  have hl := chunk_length w off len h0 h1 h2
  unfold SearchBackward
  rcases searchDown_spec w cs pat (chunk w off len) ((chunk w off len).length + 1 - pat.length)
    with ⟨e, hall⟩ | ⟨j, e, hj, hm, hall⟩
  · left
    refine ⟨e, fun p hp1 hp2 => ?_⟩
    have := hall (p - off).toNat (by omega)
    rw [matchHere_chunk w cs pat off len _ h0 (by omega)] at this
    have e2 : off + ((p - off).toNat : Int) = p := by omega
    rw [e2] at this
    simp [occursAt, this]
  · right
    refine ⟨off + j, by rw [e]; omega, by omega, by omega, ?_, fun q hq1 hq2 => ?_⟩
    · rw [matchHere_chunk w cs pat off len _ h0 (by omega)] at hm
      simp only [occursAt, hm, Bool.and_true, decide_eq_true_eq]
      omega
    · have := hall (q - off).toNat (by omega) (by omega)
      rw [matchHere_chunk w cs pat off len _ h0 (by omega)] at this
      have e2 : off + ((q - off).toNat : Int) = q := by omega
      rw [e2] at this
      simp [occursAt, this]

theorem Prepare_ok (w : World) (hread : ∀ n, w.readErr n = false) (reads : Nat)
    (offset bytes : Int) :
    Prepare w reads offset bytes = (max 0 (min bytes (FileSize w - offset)), false) := by
  simp [Prepare, hread]

theorem wholeWordsLiteral_ok (w : World) (hread : ∀ n, w.readErr n = false) (reads : Nat)
    (pos m : Int) (h1 : pos ≤ FileSize w) :
    (wholeWordsLiteral w reads pos m).1 = (!wholeWordAt w m pos) ∧
    (wholeWordsLiteral w reads pos m).2.1 = false := by
  unfold wholeWordsLiteral wholeWordAt
  simp only [Prepare_ok w hread]
  by_cases hp : 0 < pos
  · have e1 : max 0 (min 1 (FileSize w - (pos - 1))) = 1 := by omega
    by_cases hq : pos + m < FileSize w
    · have e2 : max 0 (min 1 (FileSize w - (pos + m))) = 1 := by omega
      simp [hp, hq, e1, e2]
    · have e2 : ¬ max 0 (min 1 (FileSize w - (pos + m))) = 1 := by omega
      simp [hp, hq, e1, e2]
  · by_cases hq : pos + m < FileSize w
    · have e2 : max 0 (min 1 (FileSize w - (pos + m))) = 1 := by omega
      simp [hp, hq, e2]
    · have e2 : ¬ max 0 (min 1 (FileSize w - (pos + m))) = 1 := by omega
      simp [hp, hq, e2]

theorem literalForward_eof (w : World) (hread : ∀ n, w.readErr n = false) (n : Nat)
    (s : CViewerWindow) (r : FindRun)
    (hlen : max 0 (min FIND_LINE_LEN (FileSize w - s.FindOffset)) < s.SearchData.val.length) :
    ∃ r', literalForward w (n + 1) s r = some (s, r') ∧ r'.found = r.found ∧
      sameFlags r r' := by
  refine ⟨{ r with reads := r.reads + 1 }, ?_, rfl, rfl, rfl, rfl, rfl⟩
  rw [literalForward]
  simp only [Prepare_ok w hread]
  have : ¬ (max 0 (min FIND_LINE_LEN (FileSize w - s.FindOffset)) ≥ s.SearchData.val.length) := by
    omega
  simp [this]

theorem literalForward_found (w : World) (hread : ∀ n, w.readErr n = false) (n : Nat)
    (s : CViewerWindow) (r : FindRun) (f : Int)
    (hlen : (s.SearchData.val.length : Int) ≤ max 0 (min FIND_LINE_LEN (FileSize w - s.FindOffset)))
    (hf : SearchForward w s.FindDialog.CaseSensitive s.SearchData.val
      (chunk w s.FindOffset (max 0 (min FIND_LINE_LEN (FileSize w - s.FindOffset)))) = f)
    (hf1 : f ≠ -1) (hpos : s.FindOffset + f ≤ FileSize w)
    (hacc : s.FindDialog.WholeWords = false ∨
      wholeWordAt w s.SearchData.val.length (s.FindOffset + f) = true) :
    ∃ r', literalForward w (n + 1) s r =
        some ({ s with StartSelection := s.FindOffset + f,
                       EndSelection := s.FindOffset + f + s.SearchData.val.length,
                       FindOffset := s.FindOffset + f + s.SearchData.val.length,
                       SelectionIsFindResult := true }, r') ∧
      r'.found = f ∧ sameFlags r r' := by
  have hw := wholeWordsLiteral_ok w hread (r.reads + 1) (s.FindOffset + f)
    s.SearchData.val.length hpos
  rw [literalForward]
  simp only [Prepare_ok w hread, hf]
  rcases hacc with hww | hww
  · refine ⟨{ r with reads := r.reads + 1, found := f }, ?_, rfl, rfl, rfl, rfl, rfl⟩
    simp [hlen, hww, hf1]
  · by_cases hb : s.FindDialog.WholeWords = true
    · refine ⟨{ r with reads := (wholeWordsLiteral w (r.reads + 1) (s.FindOffset + f)
          s.SearchData.val.length).2.2, found := f }, ?_, rfl, rfl, rfl, rfl, rfl⟩
      simp [hlen, hb, hf1, hw.1, hw.2, hww]
    · refine ⟨{ r with reads := r.reads + 1, found := f }, ?_, rfl, rfl, rfl, rfl, rfl⟩
      simp [hlen, hb, hf1]

theorem literalForward_next (w : World) (hread : ∀ n, w.readErr n = false)
    (hesc : ∀ n, w.escPoll n = false) (n : Nat)
    (s : CViewerWindow) (r : FindRun) (f : Int)
    (hlen : (s.SearchData.val.length : Int) ≤ max 0 (min FIND_LINE_LEN (FileSize w - s.FindOffset)))
    (hf : SearchForward w s.FindDialog.CaseSensitive s.SearchData.val
      (chunk w s.FindOffset (max 0 (min FIND_LINE_LEN (FileSize w - s.FindOffset)))) = f)
    (hpos : s.FindOffset + f ≤ FileSize w) (hf0 : -1 ≤ f)
    (hrej : f = -1 ∨ (s.FindDialog.WholeWords = true ∧
      wholeWordAt w s.SearchData.val.length (s.FindOffset + f) = false)) :
    ∃ r', literalForward w (n + 1) s r =
        literalForward w n
          { s with FindOffset := if f = -1 then
              s.FindOffset + (max 0 (min FIND_LINE_LEN (FileSize w - s.FindOffset)) -
                (s.SearchData.val.length - 1))
            else s.FindOffset + (f + 1) } r' ∧
      r'.found = -1 ∧ sameFlags r r' := by
  have hw := wholeWordsLiteral_ok w hread (r.reads + 1) (s.FindOffset + f)
    s.SearchData.val.length hpos
  rw [literalForward]
  simp only [Prepare_ok w hread, hf]
  by_cases hf1 : f = -1
  · refine ⟨{ r with reads := r.reads + 1, found := -1, polls := r.polls + 1 }, ?_,
      rfl, rfl, rfl, rfl, rfl⟩
    have h2 : max 0 (min FIND_LINE_LEN (FileSize w - s.FindOffset)) -
        ((s.SearchData.val.length : Int) - 1) ≥ 0 := by omega
    simp [hlen, hf1, hesc, h2]
  · rcases hrej with h | ⟨hb, hww⟩
    · exact absurd h hf1
    · refine ⟨{ r with reads := (wholeWordsLiteral w (r.reads + 1) (s.FindOffset + f)
          s.SearchData.val.length).2.2, found := -1, polls := r.polls + 1 }, ?_,
        rfl, rfl, rfl, rfl, rfl⟩
      have h2 : f + (s.SearchData.val.length : Int) - ((s.SearchData.val.length : Int) - 1) ≥ 0 := by
        omega
      have h3 : f + (s.SearchData.val.length : Int) - ((s.SearchData.val.length : Int) - 1) = f + 1 := by
        omega
      have h4 : ¬ (f + 1 < 0) := by omega
      simp [hlen, hf1, hesc, hb, hw.1, hw.2, hww, h2, h3, h4]

theorem sameFlags_trans {a b c : FindRun} (h1 : sameFlags a b) (h2 : sameFlags b c) :
    sameFlags a c :=
  ⟨h2.1.trans h1.1, h2.2.1.trans h1.2.1, h2.2.2.1.trans h1.2.2.1, h2.2.2.2.trans h1.2.2.2⟩

theorem ForwardResult_step (w : World) (s : CViewerWindow) (c c' : Int) (r r1 : FindRun)
    (res : Option (CViewerWindow × FindRun)) (hc : c ≤ c') (hr : sameFlags r r1)
    (hskip : ∀ q, c ≤ q → q < c' →
      acceptedAt w s.FindDialog.CaseSensitive s.FindDialog.WholeWords s.SearchData.val q = false)
    (h : ForwardResult w { s with FindOffset := c' } c' r1 res) :
    ForwardResult w s c r res := by
  rcases h with ⟨p, r', a1, a2, a3, a4, a5, a6⟩ | ⟨c2, r', a1, a2, a3, a4⟩
  · exact Or.inl ⟨p, r', by omega, a2, fun q hq1 hq2 => by
      by_cases hq : q < c'
      · exact hskip q hq1 hq
      · exact a3 q (by omega) hq2, a4, a5, sameFlags_trans hr a6⟩
  · exact Or.inr ⟨c2, r', fun q hq1 => by
      by_cases hq : q < c'
      · exact hskip q hq1 hq
      · exact a1 q (by omega), a2, a3, sameFlags_trans hr a4⟩

theorem literalForward_spec (w : World) (hread : ∀ n, w.readErr n = false)
    (hesc : ∀ n, w.escPoll n = false) :
    ∀ (n : Nat) (s : CViewerWindow) (r : FindRun),
      1 ≤ s.SearchData.val.length → (s.SearchData.val.length : Int) ≤ FIND_LINE_LEN →
      0 ≤ s.FindOffset → s.FindOffset ≤ FileSize w → FileSize w - s.FindOffset < n →
      r.found = -1 →
      ForwardResult w s s.FindOffset r (literalForward w n s r) := by
  intro n
  induction n with
  | zero => intro s r _ _ _ _ h; omega
  | succ n ih =>
    intro s r hm1 hm2 hc0 hc1 hfuel hfound
    have hL : FIND_LINE_LEN = 10000 := rfl
    by_cases hlen : (s.SearchData.val.length : Int) ≤
        max 0 (min FIND_LINE_LEN (FileSize w - s.FindOffset))
    · have hlen0 : (0 : Int) ≤ max 0 (min FIND_LINE_LEN (FileSize w - s.FindOffset)) := by omega
      have hlen1 : s.FindOffset + max 0 (min FIND_LINE_LEN (FileSize w - s.FindOffset)) ≤
          FileSize w := by omega
      rcases SearchForward_chunk w s.FindDialog.CaseSensitive s.SearchData.val s.FindOffset _
        hc0 hlen0 hlen1 with ⟨e, hall⟩ | ⟨p, e, hp1, hp2, hp3, hall⟩
      · -- no occurrence in the chunk
        obtain ⟨r1, e1, e2, e3⟩ := literalForward_next w hread hesc n s r (-1) hlen e
          (by omega) (by omega) (Or.inl rfl)
        simp only [if_true] at e1
        rw [e1]
        refine ForwardResult_step w s _ _ r r1 _ (by omega) e3 (fun q hq1 hq2 => ?_)
          (ih _ r1 hm1 hm2 (by simp only; omega) (by simp only; omega)
            (by simp only; omega) e2)
        simp [acceptedAt, hall q hq1 (by omega)]
      · by_cases hacc : s.FindDialog.WholeWords = false ∨
            wholeWordAt w s.SearchData.val.length (s.FindOffset + (p - s.FindOffset)) = true
        · -- the first occurrence of the chunk is taken
          obtain ⟨r1, e1, e2, e3⟩ := literalForward_found w hread n s r (p - s.FindOffset) hlen e
            (by omega) (by omega) hacc
          have ep : s.FindOffset + (p - s.FindOffset) = p := by omega
          rw [ep] at e1 hacc
          refine Or.inl ⟨p, r1, hp1, ?_, fun q hq1 hq2 => ?_, e1, by omega, e3⟩
          · rcases hacc with h | h
            · simp [acceptedAt, hp3, h]
            · simp [acceptedAt, hp3, h]
          · simp [acceptedAt, hall q hq1 hq2]
        · -- the first occurrence of the chunk is no whole word
          have hacc' : s.FindDialog.WholeWords = true ∧
              wholeWordAt w s.SearchData.val.length (s.FindOffset + (p - s.FindOffset)) = false := by
            constructor
            · cases h : s.FindDialog.WholeWords
              · exact absurd (Or.inl h) hacc
              · rfl
            · cases h : wholeWordAt w s.SearchData.val.length (s.FindOffset + (p - s.FindOffset))
              · rfl
              · exact absurd (Or.inr h) hacc
          obtain ⟨r1, e1, e2, e3⟩ := literalForward_next w hread hesc n s r (p - s.FindOffset)
            hlen e (by omega) (by omega) (Or.inr hacc')
          have hne : ¬ (p - s.FindOffset = -1) := by omega
          simp only [hne, if_false] at e1
          have ep : s.FindOffset + (p - s.FindOffset) = p := by omega
          rw [ep] at hacc'
          rw [e1]
          refine ForwardResult_step w s _ _ r r1 _ (by omega) e3 (fun q hq1 hq2 => ?_)
            (ih _ r1 hm1 hm2 (by simp only; omega) (by simp only; omega)
              (by simp only; omega) e2)
          by_cases hq : q < p
          · simp [acceptedAt, hall q hq1 hq]
          · have : q = p := by omega
            subst this
            simp [acceptedAt, hacc'.1, hacc'.2]
    · -- fewer bytes than the pattern has are left: end of file
      obtain ⟨r1, e1, e2, e3⟩ := literalForward_eof w hread n s r (by omega)
      refine Or.inr ⟨s.FindOffset, r1, fun q hq => ?_, e1, by omega, e3⟩
      cases h : occursAt w s.FindDialog.CaseSensitive s.SearchData.val q
      · simp [acceptedAt, h]
      · have := occursAt_le w _ _ q hm1 h
        omega

theorem literalBackward_begin (w : World) (n : Nat) (s : CViewerWindow) (r : FindRun)
    (hc : s.FindOffset ≤ 0) : literalBackward w (n + 1) s r = some (s, r) := by
  rw [literalBackward]
  have : ¬ (s.FindOffset > 0) := by omega
  simp [this]

theorem backward_chunk (w : World) (c off len : Int) (hc : 0 < c)
    (hoff : off = max 0 (c - FIND_LINE_LEN)) (hlen : len = c - off) (h1 : c ≤ FileSize w) :
    (if c - FIND_LINE_LEN < 0 then (0 : Int) else c - FIND_LINE_LEN) = off ∧
    (if c - FIND_LINE_LEN < 0 then FIND_LINE_LEN + (c - FIND_LINE_LEN) else FIND_LINE_LEN)
      = len ∧
    max 0 (min len (FileSize w - off)) = len := by
  have hL : FIND_LINE_LEN = 10000 := rfl
  refine ⟨?_, ?_, ?_⟩
  · split <;> omega
  · split <;> omega
  · omega

theorem literalBackward_short (w : World) (hread : ∀ n, w.readErr n = false) (n : Nat)
    (s : CViewerWindow) (r : FindRun) (off len : Int) (hc : 0 < s.FindOffset)
    (hoff : off = max 0 (s.FindOffset - FIND_LINE_LEN)) (hlen : len = s.FindOffset - off)
    (h1 : s.FindOffset ≤ FileSize w) (h2 : len < s.SearchData.val.length) :
    ∃ r', literalBackward w (n + 1) s r = some (s, r') ∧ r'.found = r.found ∧
      sameFlags r r' := by
  refine ⟨{ r with reads := r.reads + 1 }, ?_, rfl, rfl, rfl, rfl, rfl⟩
  obtain ⟨e1, e2, e3⟩ := backward_chunk w s.FindOffset off len hc hoff hlen h1
  rw [literalBackward]
  simp only [Prepare_ok w hread, e1, e2, e3]
  have : ¬ (len ≥ s.SearchData.val.length) := by omega
  simp [hc, this]

theorem literalBackward_found (w : World) (hread : ∀ n, w.readErr n = false) (n : Nat)
    (s : CViewerWindow) (r : FindRun) (off len f : Int) (hc : 0 < s.FindOffset)
    (hoff : off = max 0 (s.FindOffset - FIND_LINE_LEN)) (hlen : len = s.FindOffset - off)
    (h1 : s.FindOffset ≤ FileSize w) (h2 : (s.SearchData.val.length : Int) ≤ len)
    (hf : SearchBackward w s.FindDialog.CaseSensitive s.SearchData.val (chunk w off len) = f)
    (hf1 : f ≠ -1) (hpos : off + f ≤ FileSize w)
    (hacc : s.FindDialog.WholeWords = false ∨
      wholeWordAt w s.SearchData.val.length (off + f) = true) :
    ∃ r', literalBackward w (n + 1) s r =
        some ({ s with FindOffset := off + f, StartSelection := off + f,
                       EndSelection := off + f + s.SearchData.val.length,
                       SelectionIsFindResult := true }, r') ∧
      r'.found = f ∧ sameFlags r r' := by
  have hw := wholeWordsLiteral_ok w hread (r.reads + 1) (off + f) s.SearchData.val.length hpos
  obtain ⟨e1, e2, e3⟩ := backward_chunk w s.FindOffset off len hc hoff hlen h1
  rw [literalBackward]
  simp only [Prepare_ok w hread, e1, e2, e3, hf]
  rcases hacc with hww | hww
  · refine ⟨{ r with reads := r.reads + 1, found := f }, ?_, rfl, rfl, rfl, rfl, rfl⟩
    simp [hc, h2, hww, hf1]
  · by_cases hb : s.FindDialog.WholeWords = true
    · refine ⟨{ r with reads := (wholeWordsLiteral w (r.reads + 1) (off + f)
          s.SearchData.val.length).2.2, found := f }, ?_, rfl, rfl, rfl, rfl, rfl⟩
      simp [hc, h2, hb, hf1, hw.1, hw.2, hww]
    · refine ⟨{ r with reads := r.reads + 1, found := f }, ?_, rfl, rfl, rfl, rfl, rfl⟩
      simp [hc, h2, hb, hf1]

theorem literalBackward_next (w : World) (hread : ∀ n, w.readErr n = false)
    (hesc : ∀ n, w.escPoll n = false) (n : Nat)
    (s : CViewerWindow) (r : FindRun) (off len f : Int) (hc : 0 < s.FindOffset)
    (hoff : off = max 0 (s.FindOffset - FIND_LINE_LEN)) (hlen : len = s.FindOffset - off)
    (h1 : s.FindOffset ≤ FileSize w) (h2 : (s.SearchData.val.length : Int) ≤ len)
    (hf : SearchBackward w s.FindDialog.CaseSensitive s.SearchData.val (chunk w off len) = f)
    (hpos : off + f ≤ FileSize w) (hf2 : f + s.SearchData.val.length ≤ len)
    (hrej : f = -1 ∨ (s.FindDialog.WholeWords = true ∧
      wholeWordAt w s.SearchData.val.length (off + f) = false)) :
    ∃ r', literalBackward w (n + 1) s r =
        literalBackward w n
          { s with FindOffset := if f = -1 then off + (s.SearchData.val.length - 1)
                                 else off + f + (s.SearchData.val.length - 1) } r' ∧
      r'.found = -1 ∧ sameFlags r r' := by
  have hw := wholeWordsLiteral_ok w hread (r.reads + 1) (off + f) s.SearchData.val.length hpos
  obtain ⟨e1, e2, e3⟩ := backward_chunk w s.FindOffset off len hc hoff hlen h1
  rw [literalBackward]
  simp only [Prepare_ok w hread, e1, e2, e3, hf]
  by_cases hf1 : f = -1
  · refine ⟨{ r with reads := r.reads + 1, found := -1, polls := r.polls + 1 }, ?_,
      rfl, rfl, rfl, rfl, rfl⟩
    have h3 : ¬ (len - ((s.SearchData.val.length : Int) - 1) < 0) := by omega
    have h4 : s.FindOffset - (len - ((s.SearchData.val.length : Int) - 1)) =
        off + ((s.SearchData.val.length : Int) - 1) := by omega
    have h5 : ¬ (len + 1 < (s.SearchData.val.length : Int)) := by omega
    simp [hc, h2, hf1, hesc, h3, h4, h5]
  · rcases hrej with h' | ⟨hb, hww⟩
    · exact absurd h' hf1
    · refine ⟨{ r with reads := (wholeWordsLiteral w (r.reads + 1) (off + f)
          s.SearchData.val.length).2.2, found := -1, polls := r.polls + 1 }, ?_,
        rfl, rfl, rfl, rfl, rfl⟩
      have h3 : ¬ (len - f - ((s.SearchData.val.length : Int) - 1) < 0) := by omega
      have h4 : s.FindOffset - (len - f - ((s.SearchData.val.length : Int) - 1)) =
          off + f + ((s.SearchData.val.length : Int) - 1) := by omega
      have h5 : ¬ (len - f + 1 < (s.SearchData.val.length : Int)) := by omega
      have h6 : ¬ (len + 1 < (s.SearchData.val.length : Int) + f) := by omega
      have h7 : ¬ (len + 1 < f + (s.SearchData.val.length : Int)) := by omega
      simp [hc, h2, hf1, hesc, hb, hw.1, hw.2, hww, h3, h4, h5, h6, h7]

theorem BackwardResult_step (w : World) (s : CViewerWindow) (c c' : Int) (r r1 : FindRun)
    (res : Option (CViewerWindow × FindRun)) (hc : c' ≤ c) (hr : sameFlags r r1)
    (hskip : ∀ q, c' < q + s.SearchData.val.length → q + s.SearchData.val.length ≤ c →
      acceptedAt w s.FindDialog.CaseSensitive s.FindDialog.WholeWords s.SearchData.val q = false)
    (h : BackwardResult w { s with FindOffset := c' } c' r1 res) :
    BackwardResult w s c r res := by
  rcases h with ⟨p, r', a1, a2, a3, a4, a5, a6⟩ | ⟨c2, r', a1, a2, a3, a4⟩
  · exact Or.inl ⟨p, r', by simp only at a1; omega, a2, fun q hq1 hq2 => by
      by_cases hq : c' < q + s.SearchData.val.length
      · exact hskip q hq hq2
      · exact a3 q hq1 (by simp only; omega), a4, a5, sameFlags_trans hr a6⟩
  · exact Or.inr ⟨c2, r', fun q hq1 => by
      by_cases hq : c' < q + s.SearchData.val.length
      · exact hskip q hq hq1
      · exact a1 q (by simp only; omega), a2, a3, sameFlags_trans hr a4⟩

theorem literalBackward_spec (w : World) (hread : ∀ n, w.readErr n = false)
    (hesc : ∀ n, w.escPoll n = false) :
    ∀ (n : Nat) (s : CViewerWindow) (r : FindRun),
      1 ≤ s.SearchData.val.length → (s.SearchData.val.length : Int) ≤ FIND_LINE_LEN →
      0 ≤ s.FindOffset → s.FindOffset ≤ FileSize w → s.FindOffset < n →
      r.found = -1 →
      BackwardResult w s s.FindOffset r (literalBackward w n s r) := by
  intro n
  induction n with
  | zero => intro s r _ _ _ _ h; omega
  | succ n ih =>
    intro s r hm1 hm2 hc0 hc1 hfuel hfound
    have hL : FIND_LINE_LEN = 10000 := rfl
    by_cases hc : 0 < s.FindOffset
    · obtain ⟨off, hoff⟩ : ∃ off, off = max 0 (s.FindOffset - FIND_LINE_LEN) := ⟨_, rfl⟩
      obtain ⟨len, hlen⟩ : ∃ len, len = s.FindOffset - off := ⟨_, rfl⟩
      by_cases h2 : (s.SearchData.val.length : Int) ≤ len
      · rcases SearchBackward_chunk w s.FindDialog.CaseSensitive s.SearchData.val off len
          (by omega) (by omega) (by omega) with ⟨e, hall⟩ | ⟨p, e, hp1, hp2, hp3, hall⟩
        · -- no occurrence in the chunk
          obtain ⟨r1, e1, e2, e3⟩ := literalBackward_next w hread hesc n s r off len (-1) hc
            hoff hlen hc1 h2 e (by omega) (by omega) (Or.inl rfl)
          simp only [if_true] at e1
          rw [e1]
          refine BackwardResult_step w s _ _ r r1 _ (by omega) e3 (fun q hq1 hq2 => ?_)
            (ih _ r1 hm1 hm2 (by simp only; omega) (by simp only; omega)
              (by simp only; omega) e2)
          simp [acceptedAt, hall q (by omega) (by omega)]
        · by_cases hacc : s.FindDialog.WholeWords = false ∨
              wholeWordAt w s.SearchData.val.length (off + (p - off)) = true
          · -- the last occurrence of the chunk is taken
            obtain ⟨r1, e1, e2, e3⟩ := literalBackward_found w hread n s r off len (p - off) hc
              hoff hlen hc1 h2 e (by omega) (by omega) hacc
            have ep : off + (p - off) = p := by omega
            rw [ep] at e1 hacc
            refine Or.inl ⟨p, r1, by omega, ?_, fun q hq1 hq2 => ?_, e1, by omega, e3⟩
            · rcases hacc with h | h
              · simp [acceptedAt, hp3, h]
              · simp [acceptedAt, hp3, h]
            · simp [acceptedAt, hall q hq1 (by omega)]
          · -- the last occurrence of the chunk is no whole word
            have hacc' : s.FindDialog.WholeWords = true ∧
                wholeWordAt w s.SearchData.val.length (off + (p - off)) = false := by
              constructor
              · cases h : s.FindDialog.WholeWords
                · exact absurd (Or.inl h) hacc
                · rfl
              · cases h : wholeWordAt w s.SearchData.val.length (off + (p - off))
                · rfl
                · exact absurd (Or.inr h) hacc
            obtain ⟨r1, e1, e2, e3⟩ := literalBackward_next w hread hesc n s r off len (p - off)
              hc hoff hlen hc1 h2 e (by omega) (by omega) (Or.inr hacc')
            have hne : ¬ (p - off = -1) := by omega
            simp only [hne, if_false] at e1
            have ep : off + (p - off) = p := by omega
            rw [ep] at hacc' e1
            rw [e1]
            refine BackwardResult_step w s _ _ r r1 _ (by omega) e3 (fun q hq1 hq2 => ?_)
              (ih _ r1 hm1 hm2 (by simp only; omega) (by simp only; omega)
                (by simp only; omega) e2)
            by_cases hq : p < q
            · simp [acceptedAt, hall q hq (by omega)]
            · have : q = p := by omega
              subst this
              simp [acceptedAt, hacc'.1, hacc'.2]
      · -- the chunk before the cursor is shorter than the pattern: beginning of file
        obtain ⟨r1, e1, e2, e3⟩ := literalBackward_short w hread n s r off len hc hoff hlen hc1
          (by omega)
        refine Or.inr ⟨s.FindOffset, r1, fun q hq => ?_, e1, by omega, e3⟩
        cases h : occursAt w s.FindDialog.CaseSensitive s.SearchData.val q
        · simp [acceptedAt, h]
        · have := occursAt_le w _ _ q hm1 h
          omega
    · -- the cursor stands at the beginning of the file
      rw [literalBackward_begin w n s r (by omega)]
      refine Or.inr ⟨s.FindOffset, r, fun q hq => ?_, rfl, hfound, rfl, rfl, rfl, rfl⟩
      cases h : occursAt w s.FindDialog.CaseSensitive s.SearchData.val q
      · simp [acceptedAt, h]
      · have := occursAt_le w _ _ q hm1 h
        omega

theorem showSelectionLines_frame (w : World) :
    ∀ (n : Nat) (line lineOff : Int) (s : CViewerWindow),
      searchFields (showSelectionLines w n line lineOff s).1 = searchFields s := by
  intro n
  induction n with
  | zero => intro _ _ _; rfl
  | succ n ih =>
    intro line lineOff s
    rw [showSelectionLines]
    simp only []
    split_ifs <;> first | rfl | (rw [ih]; rfl)

theorem scrollToSelection_frame (w : World) (startSel : Int) (s : CViewerWindow)
    (r : FindRun) :
    searchFields (scrollToSelection w startSel s r).1 = searchFields s ∧
    (scrollToSelection w startSel s r).2.1.found = r.found ∧
    (scrollToSelection w startSel s r).2.1.escPressed = r.escPressed ∧
    (scrollToSelection w startSel s r).2.1.noNotFound = r.noNotFound ∧
    (scrollToSelection w startSel s r).2.1.messages = r.messages := by
  unfold scrollToSelection
  generalize w.FindBegin startSel = b
  simp only []
  split_ifs <;>
    first
    | exact ⟨rfl, rfl, rfl, rfl, rfl⟩
    | exact ⟨(showSelectionLines_frame w _ _ _ _).trans rfl, rfl, rfl, rfl, rfl⟩

theorem showSelection_frame (w : World) (s : CViewerWindow) (r : FindRun) :
    searchFields (showSelection w s r).1 = searchFields s ∧
    (showSelection w s r).2.1.found = r.found ∧
    (showSelection w s r).2.1.escPressed = r.escPressed ∧
    (showSelection w s r).2.1.noNotFound = r.noNotFound ∧
    (showSelection w s r).2.1.messages = r.messages := by
  unfold showSelection
  have h := scrollToSelection_frame w (shownSelection s).1 s r
  simp only []
  split_ifs <;> first | exact ⟨rfl, rfl, rfl, rfl, rfl⟩ | exact h

theorem showSelectionLines_abort (w : World) :
    ∀ (n : Nat) (line lineOff : Int) (s : CViewerWindow),
      (showSelectionLines w n line lineOff s).2.2.2 = true →
      (showSelectionLines w n line lineOff s).2.1 = true ∨
      (showSelectionLines w n line lineOff s).1.ExitTextMode = true := by
  intro n
  induction n with
  | zero => intro _ _ _ h; simp [showSelectionLines] at h
  | succ n ih =>
    intro line lineOff s
    rw [showSelectionLines]
    simp only []
    split_ifs with h1 h2 h3 h4 h5 h6 <;> intro h
    all_goals first
      | exact h3
      | exact h5
      | exact ih _ _ _ h
      | simp at h

theorem scrollToSelection_abort (w : World) (startSel : Int) (s : CViewerWindow)
    (r : FindRun) (h : (scrollToSelection w startSel s r).2.2 = true) :
    (scrollToSelection w startSel s r).2.1.fatalErr = true ∨
    (scrollToSelection w startSel s r).1.ExitTextMode = true := by
  revert h
  unfold scrollToSelection
  generalize w.FindBegin startSel = b
  simp only []
  split_ifs with h1 h2 h3 h4 h5 <;> intro h
  all_goals first
    | exact h2
    | exact h4
    | exact showSelectionLines_abort w _ _ _ _ (by assumption)
    | simp at h

theorem showSelection_abort (w : World) (s : CViewerWindow) (r : FindRun)
    (h : (showSelection w s r).2.2 = true) :
    (showSelection w s r).2.1.fatalErr = true ∨ (showSelection w s r).1.ExitTextMode = true := by
  revert h
  unfold showSelection
  simp only []
  split_ifs with h1 h2 <;> intro h
  · exact scrollToSelection_abort w _ s r h2
  · simp at h
  · simp at h

/-- After a match the end of the find command leaves the selection and the cursor as the
loop set them; it stores the cursor in `LastFindOffset` unless it returned from inside the
scrolling. -/
theorem finishFind_found (w : World) (old : Int) (s : CViewerWindow) (r : FindRun)
    (h1 : r.fatalErr = false) (h2 : r.escPressed = false) (h3 : r.found ≠ -1) :
    (finishFind w old s r).1.StartSelection = s.StartSelection ∧
    (finishFind w old s r).1.EndSelection = s.EndSelection ∧
    (finishFind w old s r).1.FindOffset = s.FindOffset ∧
    (finishFind w old s r).1.SelectionIsFindResult = s.SelectionIsFindResult ∧
    (finishFind w old s r).1.FindDialog = s.FindDialog ∧
    (finishFind w old s r).1.SearchData = s.SearchData ∧
    (finishFind w old s r).1.MouseDrag = s.MouseDrag ∧
    (finishFind w old s r).2.found = r.found ∧
    (finishFind w old s r).2.messages = r.messages ∧
    (finishFind w old s r).2.noNotFound = r.noNotFound ∧
    ((finishFind w old s r).2.fatalErr = false → (finishFind w old s r).1.ExitTextMode = false →
      (finishFind w old s r).1.LastFindSeekY = (finishFind w old s r).1.SeekY ∧
      (finishFind w old s r).1.LastFindOffset = s.FindOffset) := by
  have hf := showSelection_frame w s r
  have ha := showSelection_abort w s r
  unfold finishFind
  simp only [h1, h2, h3, Bool.false_eq_true, if_false]
  simp only [searchFields, Prod.mk.injEq] at hf
  obtain ⟨⟨f1, f2, f3, f4, f5, f6, f7, f8, f9⟩, f10, f11, f12, f13⟩ := hf
  by_cases hab : (showSelection w s r).2.2 = true
  · simp only [hab, if_true]
    refine ⟨f1, f2, f3, f4, f5, f6, f7, f10, f13, f12, fun e1 e2 => ?_⟩
    rcases ha hab with h | h
    · rw [h] at e1; exact absurd e1 (by simp)
    · rw [h] at e2; exact absurd e2 (by simp)
  · simp only [hab, if_false]
    exact ⟨f1, f2, f3, f4, f5, f6, f7, f10, f13, f12, fun _ _ => ⟨rfl, f3⟩⟩

/-- Without a match (or after Esc) the end of the find command empties the selection at
`StartSelection` and puts the cursor back to `oldFindOffset`. -/
theorem finishFind_notFound (w : World) (old : Int) (s : CViewerWindow) (r : FindRun)
    (h1 : r.fatalErr = false) (h2 : r.escPressed = true ∨ r.found = -1) :
    (finishFind w old s r).1 =
      { s with EndSelection := s.StartSelection, FindOffset := old,
               LastFindSeekY := s.SeekY, LastFindOffset := old } ∧
    (finishFind w old s r).2.found = -1 ∧
    (finishFind w old s r).2.messages =
      (if r.escPressed then r.messages ++ [Message.IDS_FINDTERMINATEDBYUSER]
       else if r.noNotFound then r.messages
       else r.messages ++ [if s.FindDialog.Regular then Message.IDS_FIND_NOREGEXPMATCH
                           else Message.IDS_FIND_NOMATCH]) := by
  unfold finishFind
  simp only [h1, Bool.false_eq_true, if_false]
  by_cases he : r.escPressed = true
  · simp [he]
  · have he' : r.escPressed = false := by simpa using he
    have hf : r.found = -1 := by
      rcases h2 with h | h
      · exact absurd h he
      · exact h
    by_cases hn : r.noNotFound = true
    · simp [he', hf, hn]
    · have hn' : r.noNotFound = false := by simpa using hn
      simp [he', hf, hn']

theorem adjustFindOffset_eq (forward : Bool) (s : CViewerWindow) :
    adjustFindOffset forward s = { s with FindOffset := (adjustFindOffset forward s).FindOffset } := by
  unfold adjustFindOffset
  split_ifs <;> rfl

theorem findCommand_eq (w : World) (fuel : Nat) (cmd : FindCmd) (s : CViewerWindow)
    (hstart : searchStarts w cmd s = true) :
    findCommand w fuel cmd s =
      (searchLoops w fuel (searchForward cmd (searchSetting w cmd s))
        { searchSetting w cmd s with FindOffset := startCursor w cmd s }).map
        fun t => finishFind w (oldFindOffset w cmd s) t.1 t.2 := by
  simp only [searchStarts, Bool.and_eq_true, Bool.not_eq_true'] at hstart
  unfold findCommand
  simp only [hstart.1, hstart.2, Bool.false_eq_true, if_false, if_true]
  rw [adjustFindOffset_eq]
  simp only [startCursor, searchSetting, oldFindOffset]
  cases searchLoops w fuel _ _ <;> rfl

/-- What the find command makes of the result of a forward literal loop. -/
theorem finishFind_of_ForwardResult (w : World) (old c : Int) (x : CViewerWindow)
    (res : Option (CViewerWindow × FindRun)) (hlit : x.FindDialog.Regular = false)
    (h : ForwardResult w x c {} res) :
    (∃ p s' r, c ≤ p ∧
      acceptedAt w x.FindDialog.CaseSensitive x.FindDialog.WholeWords x.SearchData.val p
        = true ∧
      (∀ q, c ≤ q → q < p →
        acceptedAt w x.FindDialog.CaseSensitive x.FindDialog.WholeWords x.SearchData.val q
          = false) ∧
      res.map (fun t => finishFind w old t.1 t.2) = some (s', r) ∧
      r.found ≠ -1 ∧ r.messages = [] ∧
      s'.StartSelection = p ∧ s'.EndSelection = p + x.SearchData.val.length ∧
      s'.FindOffset = p + x.SearchData.val.length ∧ s'.SelectionIsFindResult = true) ∨
    (∃ s' r, (∀ q, c ≤ q →
        acceptedAt w x.FindDialog.CaseSensitive x.FindDialog.WholeWords x.SearchData.val q
          = false) ∧
      res.map (fun t => finishFind w old t.1 t.2) = some (s', r) ∧ r.found = -1 ∧
      r.messages = [Message.IDS_FIND_NOMATCH] ∧
      s'.EndSelection = s'.StartSelection ∧ s'.FindOffset = old) := by
  rcases h with ⟨p, r', a1, a2, a3, a4, a5, a6, a7, a8, a9⟩ | ⟨c', r', a1, a2, a3, a4, a5, a6, a7⟩
  · left
    generalize hX : ({ x with StartSelection := p,
                              EndSelection := p + x.SearchData.val.length,
                              FindOffset := p + x.SearchData.val.length,
                              SelectionIsFindResult := true } : CViewerWindow) = X at a4
    subst a4
    obtain ⟨f1, f2, f3, f4, -, -, -, f8, f9, -, -⟩ := finishFind_found w old X r' a6 a7 a5
    refine ⟨p, (finishFind w old X r').1, (finishFind w old X r').2, a1, a2, a3, rfl,
      ?_, ?_, ?_, ?_, ?_, ?_⟩
    · rw [f8]; exact a5
    · rw [f9, a9]
    · rw [f1, ← hX]
    · rw [f2, ← hX]
    · rw [f3, ← hX]
    · rw [f4, ← hX]
  · right
    generalize hX : ({ x with FindOffset := c' } : CViewerWindow) = X at a2
    subst a2
    obtain ⟨f1, f2, f3⟩ := finishFind_notFound w old X r' a4 (Or.inr a3)
    refine ⟨(finishFind w old X r').1, (finishFind w old X r').2, a1, rfl, f2, ?_, ?_, ?_⟩
    · rw [f3, a5, a6, a7, ← hX]
      simp [hlit]
    · rw [f1]
    · rw [f1]

/-- The forward literal search of the find command, without cancellation and read error:
it selects the least accepted occurrence at or after the start cursor, or else reports
that there is no match. -/
theorem findCommand_forward_literal (w : World) (cmd : FindCmd) (s : CViewerWindow)
    (fuel : Nat) (hstart : searchStarts w cmd s = true)
    (hfwd : searchForward cmd (searchSetting w cmd s) = true)
    (hlit : (searchSetting w cmd s).FindDialog.Regular = false)
    (hgood : w.SearchDataIsGood = true)
    (hesc : ∀ n, w.escPoll n = false) (hread : ∀ n, w.readErr n = false)
    (hm : 1 ≤ (searchSetting w cmd s).SearchData.val.length)
    (hc0 : 0 ≤ startCursor w cmd s) (hc1 : startCursor w cmd s ≤ FileSize w)
    (hfuel : w.file.length < fuel) :
    (∃ p s' r, startCursor w cmd s ≤ p ∧
      acceptedAt w (searchSetting w cmd s).FindDialog.CaseSensitive
        (searchSetting w cmd s).FindDialog.WholeWords (searchSetting w cmd s).SearchData.val p
        = true ∧
      (∀ q, startCursor w cmd s ≤ q → q < p →
        acceptedAt w (searchSetting w cmd s).FindDialog.CaseSensitive
          (searchSetting w cmd s).FindDialog.WholeWords (searchSetting w cmd s).SearchData.val q
          = false) ∧
      findCommand w fuel cmd s = some (s', r) ∧ r.found ≠ -1 ∧ r.messages = [] ∧
      s'.StartSelection = p ∧
      s'.EndSelection = p + (searchSetting w cmd s).SearchData.val.length ∧
      s'.FindOffset = p + (searchSetting w cmd s).SearchData.val.length ∧
      s'.SelectionIsFindResult = true) ∨
    (∃ s' r, (∀ q, startCursor w cmd s ≤ q →
        acceptedAt w (searchSetting w cmd s).FindDialog.CaseSensitive
          (searchSetting w cmd s).FindDialog.WholeWords (searchSetting w cmd s).SearchData.val q
          = false) ∧
      findCommand w fuel cmd s = some (s', r) ∧ r.found = -1 ∧
      r.messages = [Message.IDS_FIND_NOMATCH] ∧
      s'.EndSelection = s'.StartSelection ∧ s'.FindOffset = oldFindOffset w cmd s) := by
  rw [findCommand_eq w fuel cmd s hstart]
  have hL : (FIND_TEXT_LEN : Int) ≤ FIND_LINE_LEN := by decide
  have hm2 := (searchSetting w cmd s).SearchData.property
  have hspec := literalForward_spec w hread hesc fuel
    { searchSetting w cmd s with FindOffset := startCursor w cmd s } {} hm
    (by simp only; omega) hc0 hc1 (by simp only [FileSize]; omega) rfl
  simp only [searchLoops, hlit, hgood, hfwd, Bool.false_eq_true, if_false, if_true]
  exact finishFind_of_ForwardResult w _ _ _ _ hlit hspec

/-- What the find command makes of the result of a backward literal loop. -/
theorem finishFind_of_BackwardResult (w : World) (old c : Int) (x : CViewerWindow)
    (res : Option (CViewerWindow × FindRun)) (hlit : x.FindDialog.Regular = false)
    (h : BackwardResult w x c {} res) :
    (∃ p s' r, p + x.SearchData.val.length ≤ c ∧
      acceptedAt w x.FindDialog.CaseSensitive x.FindDialog.WholeWords x.SearchData.val p
        = true ∧
      (∀ q, p < q → q + x.SearchData.val.length ≤ c →
        acceptedAt w x.FindDialog.CaseSensitive x.FindDialog.WholeWords x.SearchData.val q
          = false) ∧
      res.map (fun t => finishFind w old t.1 t.2) = some (s', r) ∧
      r.found ≠ -1 ∧ r.messages = [] ∧
      s'.StartSelection = p ∧ s'.EndSelection = p + x.SearchData.val.length ∧
      s'.FindOffset = p ∧ s'.SelectionIsFindResult = true) ∨
    (∃ s' r, (∀ q, q + x.SearchData.val.length ≤ c →
        acceptedAt w x.FindDialog.CaseSensitive x.FindDialog.WholeWords x.SearchData.val q
          = false) ∧
      res.map (fun t => finishFind w old t.1 t.2) = some (s', r) ∧ r.found = -1 ∧
      r.messages = [Message.IDS_FIND_NOMATCH] ∧
      s'.EndSelection = s'.StartSelection ∧ s'.FindOffset = old) := by
  rcases h with ⟨p, r', a1, a2, a3, a4, a5, a6, a7, a8, a9⟩ | ⟨c', r', a1, a2, a3, a4, a5, a6, a7⟩
  · left
    generalize hX : ({ x with FindOffset := p, StartSelection := p,
                              EndSelection := p + x.SearchData.val.length,
                              SelectionIsFindResult := true } : CViewerWindow) = X at a4
    subst a4
    obtain ⟨f1, f2, f3, f4, -, -, -, f8, f9, -, -⟩ := finishFind_found w old X r' a6 a7 a5
    refine ⟨p, (finishFind w old X r').1, (finishFind w old X r').2, a1, a2, a3, rfl,
      ?_, ?_, ?_, ?_, ?_, ?_⟩
    · rw [f8]; exact a5
    · rw [f9, a9]
    · rw [f1, ← hX]
    · rw [f2, ← hX]
    · rw [f3, ← hX]
    · rw [f4, ← hX]
  · right
    generalize hX : ({ x with FindOffset := c' } : CViewerWindow) = X at a2
    subst a2
    obtain ⟨f1, f2, f3⟩ := finishFind_notFound w old X r' a4 (Or.inr a3)
    refine ⟨(finishFind w old X r').1, (finishFind w old X r').2, a1, rfl, f2, ?_, ?_, ?_⟩
    · rw [f3, a5, a6, a7, ← hX]
      simp [hlit]
    · rw [f1]
    · rw [f1]

/-- The backward literal search of the find command, without cancellation and read error:
it selects the greatest accepted occurrence that ends at or before the start cursor, or
else reports that there is no match. -/
theorem findCommand_backward_literal (w : World) (cmd : FindCmd) (s : CViewerWindow)
    (fuel : Nat) (hstart : searchStarts w cmd s = true)
    (hbwd : searchForward cmd (searchSetting w cmd s) = false)
    (hlit : (searchSetting w cmd s).FindDialog.Regular = false)
    (hgood : w.SearchDataIsGood = true)
    (hesc : ∀ n, w.escPoll n = false) (hread : ∀ n, w.readErr n = false)
    (hm : 1 ≤ (searchSetting w cmd s).SearchData.val.length)
    (hc0 : 0 ≤ startCursor w cmd s) (hc1 : startCursor w cmd s ≤ FileSize w)
    (hfuel : w.file.length < fuel) :
    (∃ p s' r, p + (searchSetting w cmd s).SearchData.val.length ≤ startCursor w cmd s ∧
      acceptedAt w (searchSetting w cmd s).FindDialog.CaseSensitive
        (searchSetting w cmd s).FindDialog.WholeWords (searchSetting w cmd s).SearchData.val p
        = true ∧
      (∀ q, p < q → q + (searchSetting w cmd s).SearchData.val.length ≤ startCursor w cmd s →
        acceptedAt w (searchSetting w cmd s).FindDialog.CaseSensitive
          (searchSetting w cmd s).FindDialog.WholeWords (searchSetting w cmd s).SearchData.val q
          = false) ∧
      findCommand w fuel cmd s = some (s', r) ∧ r.found ≠ -1 ∧ r.messages = [] ∧
      s'.StartSelection = p ∧
      s'.EndSelection = p + (searchSetting w cmd s).SearchData.val.length ∧
      s'.FindOffset = p ∧ s'.SelectionIsFindResult = true) ∨
    (∃ s' r, (∀ q, q + (searchSetting w cmd s).SearchData.val.length ≤ startCursor w cmd s →
        acceptedAt w (searchSetting w cmd s).FindDialog.CaseSensitive
          (searchSetting w cmd s).FindDialog.WholeWords (searchSetting w cmd s).SearchData.val q
          = false) ∧
      findCommand w fuel cmd s = some (s', r) ∧ r.found = -1 ∧
      r.messages = [Message.IDS_FIND_NOMATCH] ∧
      s'.EndSelection = s'.StartSelection ∧ s'.FindOffset = oldFindOffset w cmd s) := by
  rw [findCommand_eq w fuel cmd s hstart]
  have hL : (FIND_TEXT_LEN : Int) ≤ FIND_LINE_LEN := by decide
  have hm2 := (searchSetting w cmd s).SearchData.property
  have hspec := literalBackward_spec w hread hesc fuel
    { searchSetting w cmd s with FindOffset := startCursor w cmd s } {} hm
    (by simp only; omega) hc0 hc1 (by simp only [FileSize] at *; omega) rfl
  simp only [searchLoops, hlit, hgood, hbwd, Bool.false_eq_true, if_false, if_true]
  exact finishFind_of_BackwardResult w _ _ _ _ hlit hspec

theorem LiteralOutcome_step (forward : Bool) (s : CViewerWindow) (c : Int)
    (r r1 : FindRun) (s' : CViewerWindow) (r' : FindRun) (hr : sameFlags r r1)
    (h : LiteralOutcome forward { s with FindOffset := c } r1 s' r') :
    LiteralOutcome forward s r s' r' := by
  rcases h with ⟨⟨c', e⟩, h2, h3, h4⟩ | ⟨p, e, h2, h3⟩
  · exact Or.inl ⟨⟨c', e⟩, h2, h3.trans hr.2.2.2, h4.trans hr.2.2.1⟩
  · exact Or.inr ⟨p, e, h2, sameFlags_trans hr h3⟩

theorem literalForward_shape (w : World) :
    ∀ (n : Nat) (s : CViewerWindow) (r : FindRun) (s' : CViewerWindow) (r' : FindRun),
      r.found = -1 → literalForward w n s r = some (s', r') →
      LiteralOutcome true s r s' r' := by
  intro n
  induction n with
  | zero => intro s r s' r' _ h; simp [literalForward] at h
  | succ n ih =>
    intro s r s' r' hf h
    rw [literalForward] at h
    simp only [] at h
    generalize Prepare w r.reads s.FindOffset FIND_LINE_LEN = p at h
    by_cases h1 : p.2 = true
    · rw [if_pos h1] at h
      obtain ⟨rfl, rfl⟩ := Prod.mk.inj (Option.some.inj h)
      exact Or.inl ⟨⟨_, rfl⟩, Or.inl rfl, rfl, rfl⟩
    · rw [if_neg h1] at h
      by_cases h2 : p.1 ≥ (s.SearchData.val.length : Int)
      · rw [if_pos h2] at h
        generalize SearchForward w s.FindDialog.CaseSensitive s.SearchData.val
          (chunk w s.FindOffset p.1) = found at h
        generalize (if found ≠ -1 ∧ s.FindDialog.WholeWords = true then
            wholeWordsLiteral w (r.reads + 1) (s.FindOffset + found) s.SearchData.val.length
          else (false, false, r.reads + 1)) = ww at h
        by_cases h3 : ww.2.1 = true
        · rw [if_pos h3] at h
          obtain ⟨rfl, rfl⟩ := Prod.mk.inj (Option.some.inj h)
          exact Or.inl ⟨⟨_, rfl⟩, Or.inl rfl, rfl, rfl⟩
        · rw [if_neg h3] at h
          by_cases h4 : ww.1 = true
          · simp only [h4, if_true, ne_eq, not_true_eq_false, if_false] at h
            split_ifs at h with h5 h6
            · obtain ⟨rfl, rfl⟩ := Prod.mk.inj (Option.some.inj h)
              exact Or.inl ⟨⟨_, rfl⟩, Or.inr (Or.inl rfl), rfl, rfl⟩
            · have hi := ih _ _ s' r' rfl h
              exact LiteralOutcome_step true s _ r _ s' r' ⟨rfl, rfl, rfl, rfl⟩ hi
            · obtain ⟨rfl, rfl⟩ := Prod.mk.inj (Option.some.inj h)
              exact Or.inl ⟨⟨_, rfl⟩, Or.inr (Or.inr rfl), rfl, rfl⟩
          · simp only [h4, Bool.false_eq_true, if_false] at h
            by_cases h5 : found = -1
            · simp only [h5, ne_eq, not_true_eq_false, if_false] at h
              split_ifs at h with h6 h7
              · obtain ⟨rfl, rfl⟩ := Prod.mk.inj (Option.some.inj h)
                exact Or.inl ⟨⟨_, rfl⟩, Or.inr (Or.inl rfl), rfl, rfl⟩
              · have hi := ih _ _ s' r' rfl h
                exact LiteralOutcome_step true s _ r _ s' r' ⟨rfl, rfl, rfl, rfl⟩ hi
              · obtain ⟨rfl, rfl⟩ := Prod.mk.inj (Option.some.inj h)
                exact Or.inl ⟨⟨_, rfl⟩, Or.inr (Or.inr rfl), rfl, rfl⟩
            · simp only [ne_eq, h5, not_false_eq_true, if_true] at h
              obtain ⟨rfl, rfl⟩ := Prod.mk.inj (Option.some.inj h)
              exact Or.inr ⟨s.FindOffset + found, rfl, h5, rfl, rfl, rfl, rfl⟩
      · rw [if_neg h2] at h
        obtain ⟨rfl, rfl⟩ := Prod.mk.inj (Option.some.inj h)
        exact Or.inl ⟨⟨_, rfl⟩, Or.inr (Or.inr hf), rfl, rfl⟩

theorem literalBackward_shape (w : World) :
    ∀ (n : Nat) (s : CViewerWindow) (r : FindRun) (s' : CViewerWindow) (r' : FindRun),
      r.found = -1 → literalBackward w n s r = some (s', r') →
      LiteralOutcome false s r s' r' := by
  intro n
  induction n with
  | zero => intro s r s' r' _ h; simp [literalBackward] at h
  | succ n ih =>
    intro s r s' r' hf h
    rw [literalBackward] at h
    simp only [] at h
    by_cases h0 : s.FindOffset > 0
    · rw [if_pos h0] at h
      generalize (if s.FindOffset - FIND_LINE_LEN < 0 then (0 : Int)
        else s.FindOffset - FIND_LINE_LEN) = off at h
      generalize Prepare w r.reads off _ = p at h
      by_cases h1 : p.2 = true
      · rw [if_pos h1] at h
        obtain ⟨rfl, rfl⟩ := Prod.mk.inj (Option.some.inj h)
        exact Or.inl ⟨⟨_, rfl⟩, Or.inl rfl, rfl, rfl⟩
      · rw [if_neg h1] at h
        by_cases h2 : p.1 ≥ (s.SearchData.val.length : Int)
        · rw [if_pos h2] at h
          generalize SearchBackward w s.FindDialog.CaseSensitive s.SearchData.val
            (chunk w off p.1) = found at h
          generalize (if found ≠ -1 ∧ s.FindDialog.WholeWords = true then
              wholeWordsLiteral w (r.reads + 1) (off + found) s.SearchData.val.length
            else (false, false, r.reads + 1)) = ww at h
          by_cases h3 : ww.2.1 = true
          · rw [if_pos h3] at h
            obtain ⟨rfl, rfl⟩ := Prod.mk.inj (Option.some.inj h)
            exact Or.inl ⟨⟨_, rfl⟩, Or.inl rfl, rfl, rfl⟩
          · rw [if_neg h3] at h
            by_cases h4 : ww.1 = true
            · simp only [h4, if_true, ne_eq, not_true_eq_false, if_false] at h
              split_ifs at h with h5 h6
              · obtain ⟨rfl, rfl⟩ := Prod.mk.inj (Option.some.inj h)
                exact Or.inl ⟨⟨_, rfl⟩, Or.inr (Or.inl rfl), rfl, rfl⟩
              · have hi := ih _ _ s' r' rfl h
                exact LiteralOutcome_step false s _ r _ s' r' ⟨rfl, rfl, rfl, rfl⟩ hi
              · obtain ⟨rfl, rfl⟩ := Prod.mk.inj (Option.some.inj h)
                exact Or.inl ⟨⟨_, rfl⟩, Or.inr (Or.inr rfl), rfl, rfl⟩
            · simp only [h4, Bool.false_eq_true, if_false] at h
              by_cases h5 : found = -1
              · simp only [h5, ne_eq, not_true_eq_false, if_false] at h
                split_ifs at h with h6 h7
                · obtain ⟨rfl, rfl⟩ := Prod.mk.inj (Option.some.inj h)
                  exact Or.inl ⟨⟨_, rfl⟩, Or.inr (Or.inl rfl), rfl, rfl⟩
                · have hi := ih _ _ s' r' rfl h
                  exact LiteralOutcome_step false s _ r _ s' r' ⟨rfl, rfl, rfl, rfl⟩ hi
                · obtain ⟨rfl, rfl⟩ := Prod.mk.inj (Option.some.inj h)
                  exact Or.inl ⟨⟨_, rfl⟩, Or.inr (Or.inr rfl), rfl, rfl⟩
              · simp only [ne_eq, h5, not_false_eq_true, if_true] at h
                obtain ⟨rfl, rfl⟩ := Prod.mk.inj (Option.some.inj h)
                exact Or.inr ⟨off + found, rfl, h5, rfl, rfl, rfl, rfl⟩
        · rw [if_neg h2] at h
          obtain ⟨rfl, rfl⟩ := Prod.mk.inj (Option.some.inj h)
          exact Or.inl ⟨⟨_, rfl⟩, Or.inr (Or.inr hf), rfl, rfl⟩
    · rw [if_neg h0] at h
      obtain ⟨rfl, rfl⟩ := Prod.mk.inj (Option.some.inj h)
      exact Or.inl ⟨⟨_, rfl⟩, Or.inr (Or.inr hf), rfl, rfl⟩

theorem regexpFindNextForward_shape (w : World) (ww : Bool) (line : List Nat)
    (lineBegin lineEnd : Int) :
    ∀ (n : Nat) (start : Int) (reads : Nat) (f fl : Int) (fe : Bool) (reads' : Nat),
      regexpFindNextForward w ww line lineBegin lineEnd n start reads
        = some (f, fl, fe, reads') →
      f ≠ -1 → ∃ start', w.RegExpSearchForward line start' = (f, fl) := by
  intro n
  induction n with
  | zero => intro _ _ _ _ _ _ h; simp [regexpFindNextForward] at h
  | succ n ih =>
    intro start reads f fl fe reads' h hf
    rw [regexpFindNextForward] at h
    simp only [] at h
    split_ifs at h with h1 h2 h3 h4
    · simp only [Option.some.injEq, Prod.mk.injEq] at h
      exact ⟨start, by rw [← h.1, ← h.2.1]⟩
    · exact ih _ _ _ _ _ _ h hf
    · simp only [Option.some.injEq, Prod.mk.injEq] at h
      exact absurd h.1.symm hf
    · simp only [Option.some.injEq, Prod.mk.injEq] at h
      exact ⟨start, by rw [← h.1, ← h.2.1]⟩
    · simp only [Option.some.injEq, Prod.mk.injEq] at h
      exact ⟨start, by rw [← h.1, ← h.2.1]⟩

theorem regexpFindNextBackward_shape (w : World) (ww : Bool) (line : List Nat)
    (lineBegin lineEnd : Int) :
    ∀ (n : Nat) (length : Int) (reads : Nat) (f fl : Int) (fe : Bool) (reads' : Nat),
      regexpFindNextBackward w ww line lineBegin lineEnd n length reads
        = some (f, fl, fe, reads') →
      f ≠ -1 → ∃ length', w.RegExpSearchBackward line length' = (f, fl) := by
  intro n
  induction n with
  | zero => intro _ _ _ _ _ _ h; simp [regexpFindNextBackward] at h
  | succ n ih =>
    intro length reads f fl fe reads' h hf
    rw [regexpFindNextBackward] at h
    simp only [] at h
    split_ifs at h with h1 h2 h3 h4
    · simp only [Option.some.injEq, Prod.mk.injEq] at h
      exact ⟨length, by rw [← h.1, ← h.2.1]⟩
    · exact ih _ _ _ _ _ _ h hf
    · simp only [Option.some.injEq, Prod.mk.injEq] at h
      exact absurd h.1.symm hf
    · simp only [Option.some.injEq, Prod.mk.injEq] at h
      exact ⟨length, by rw [← h.1, ← h.2.1]⟩
    · simp only [Option.some.injEq, Prod.mk.injEq] at h
      exact ⟨length, by rw [← h.1, ← h.2.1]⟩

theorem regexpForwardLine_shape (w : World) (fuel : Nat) (lineBegin lineEnd : Int)
    (s : CViewerWindow) (r : FindRun) (s' : CViewerWindow) (r' : FindRun) (brk : Bool)
    (hf : r.found = -1)
    (h : regexpForwardLine w fuel lineBegin lineEnd s r = some (s', r', brk)) :
    (brk = false ∧ s' = s ∧ r'.found = -1 ∧ sameFlags r r') ∨
    (brk = true ∧
      ((s' = s ∧ r'.fatalErr = true ∧ r'.messages = r.messages) ∨
       (s' = s ∧ r'.fatalErr = r.fatalErr ∧ r'.escPressed = r.escPressed ∧ r'.found ≠ -1 ∧
         r'.noNotFound = true ∧ r'.messages = r.messages ++ [Message.IDS_EMPTYMATCH]) ∨
       (s' = s ∧ r'.fatalErr = r.fatalErr ∧ r'.escPressed = r.escPressed ∧ r'.found = -1 ∧
         r'.noNotFound = true ∧ r'.messages = r.messages ++ [Message.RegExpError]) ∨
       ((∃ start foundLen, lineBegin < lineEnd ∧
          w.RegExpSearchForward (chunk w lineBegin (lineEnd - lineBegin)) start
            = (r'.found, foundLen) ∧
          r'.found ≠ -1 ∧ foundLen ≠ 0 ∧
          s' = { s with StartSelection := lineBegin + r'.found,
                        EndSelection := lineBegin + r'.found + foundLen,
                        FindOffset := lineBegin + r'.found + foundLen,
                        SelectionIsFindResult := true }) ∧
        sameFlags r r'))) := by
  unfold regexpForwardLine at h
  simp only [] at h
  by_cases h0 : lineBegin < lineEnd
  · rw [if_pos h0] at h
    generalize Prepare w r.reads lineBegin (lineEnd - lineBegin) = p at h
    by_cases h1 : p.2 = true
    · rw [if_pos h1] at h
      simp only [Option.some.injEq, Prod.mk.injEq] at h
      obtain ⟨rfl, rfl, rfl⟩ := h
      exact Or.inr ⟨rfl, Or.inl ⟨rfl, rfl, rfl⟩⟩
    · rw [if_neg h1] at h
      by_cases h2 : p.1 = lineEnd - lineBegin
      · rw [if_pos h2] at h
        by_cases h3 : w.RegExpSetLine lineBegin lineEnd = true
        · rw [if_pos h3] at h
          cases hin : regexpFindNextForward w s.FindDialog.WholeWords
              (chunk w lineBegin (lineEnd - lineBegin)) lineBegin lineEnd fuel
              (if s.FindOffset > lineBegin then s.FindOffset - lineBegin else 0)
              (r.reads + 1) with
          | none => rw [hin] at h; simp at h
          | some t =>
            obtain ⟨found, foundLen, fatalErr, reads⟩ := t
            rw [hin] at h
            simp only [] at h
            by_cases h4 : fatalErr = true
            · rw [if_pos h4] at h
              simp only [Option.some.injEq, Prod.mk.injEq] at h
              obtain ⟨rfl, rfl, rfl⟩ := h
              exact Or.inr ⟨rfl, Or.inl ⟨rfl, rfl, rfl⟩⟩
            · rw [if_neg h4] at h
              by_cases h5 : found ≠ -1
              · rw [if_pos h5] at h
                by_cases h6 : foundLen = 0
                · rw [if_pos h6] at h
                  simp only [Option.some.injEq, Prod.mk.injEq] at h
                  obtain ⟨rfl, rfl, rfl⟩ := h
                  exact Or.inr ⟨rfl, Or.inr (Or.inl ⟨rfl, rfl, rfl, h5, rfl, rfl⟩)⟩
                · rw [if_neg h6] at h
                  simp only [Option.some.injEq, Prod.mk.injEq] at h
                  obtain ⟨rfl, rfl, rfl⟩ := h
                  obtain ⟨start', hs⟩ := regexpFindNextForward_shape w _ _ _ _ _ _ _ _ _ _ _
                    hin h5
                  exact Or.inr ⟨rfl, Or.inr (Or.inr (Or.inr
                    ⟨⟨start', foundLen, h0, hs, h5, h6, rfl⟩, rfl, rfl, rfl, rfl⟩))⟩
              · rw [if_neg h5] at h
                simp only [Option.some.injEq, Prod.mk.injEq] at h
                obtain ⟨rfl, rfl, rfl⟩ := h
                exact Or.inl ⟨rfl, rfl, by simpa using h5, rfl, rfl, rfl, rfl⟩
        · rw [if_neg h3] at h
          simp only [Option.some.injEq, Prod.mk.injEq] at h
          obtain ⟨rfl, rfl, rfl⟩ := h
          exact Or.inr ⟨rfl, Or.inr (Or.inr (Or.inl ⟨rfl, rfl, rfl, hf, rfl, rfl⟩))⟩
      · rw [if_neg h2] at h
        simp only [Option.some.injEq, Prod.mk.injEq] at h
        obtain ⟨rfl, rfl, rfl⟩ := h
        exact Or.inl ⟨rfl, rfl, hf, rfl, rfl, rfl, rfl⟩
  · rw [if_neg h0] at h
    simp only [Option.some.injEq, Prod.mk.injEq] at h
    obtain ⟨rfl, rfl, rfl⟩ := h
    exact Or.inl ⟨rfl, rfl, hf, rfl, rfl, rfl, rfl⟩

theorem regexpBackwardLine_shape (w : World) (fuel : Nat) (lineBegin lineEnd : Int)
    (s : CViewerWindow) (r : FindRun) (s' : CViewerWindow) (r' : FindRun) (brk : Bool)
    (hf : r.found = -1)
    (h : regexpBackwardLine w fuel lineBegin lineEnd s r = some (s', r', brk)) :
    (brk = false ∧ s' = s ∧ r'.found = -1 ∧ sameFlags r r') ∨
    (brk = true ∧
      ((s' = s ∧ r'.fatalErr = true ∧ r'.messages = r.messages) ∨
       (s' = s ∧ r'.fatalErr = r.fatalErr ∧ r'.escPressed = r.escPressed ∧ r'.found ≠ -1 ∧
         r'.noNotFound = true ∧ r'.messages = r.messages ++ [Message.IDS_EMPTYMATCH]) ∨
       (s' = s ∧ r'.fatalErr = r.fatalErr ∧ r'.escPressed = r.escPressed ∧ r'.found = -1 ∧
         r'.noNotFound = true ∧ r'.messages = r.messages ++ [Message.RegExpError]) ∨
       ((∃ start foundLen, lineBegin < lineEnd ∧
          w.RegExpSearchBackward (chunk w lineBegin (lineEnd - lineBegin)) start
            = (r'.found, foundLen) ∧
          r'.found ≠ -1 ∧ foundLen ≠ 0 ∧
          s' = { s with StartSelection := lineBegin + r'.found,
                        EndSelection := lineBegin + r'.found + foundLen,
                        FindOffset := lineBegin + r'.found,
                        SelectionIsFindResult := true }) ∧
        sameFlags r r'))) := by
  unfold regexpBackwardLine at h
  simp only [] at h
  by_cases h0 : lineBegin < lineEnd
  · rw [if_pos h0] at h
    generalize Prepare w r.reads lineBegin (lineEnd - lineBegin) = p at h
    by_cases h1 : p.2 = true
    · rw [if_pos h1] at h
      simp only [Option.some.injEq, Prod.mk.injEq] at h
      obtain ⟨rfl, rfl, rfl⟩ := h
      exact Or.inr ⟨rfl, Or.inl ⟨rfl, rfl, rfl⟩⟩
    · rw [if_neg h1] at h
      by_cases h2 : p.1 = lineEnd - lineBegin
      · rw [if_pos h2] at h
        by_cases h3 : w.RegExpSetLine lineBegin lineEnd = true
        · rw [if_pos h3] at h
          cases hin : regexpFindNextBackward w s.FindDialog.WholeWords
              (chunk w lineBegin (lineEnd - lineBegin)) lineBegin lineEnd fuel
              (if s.FindOffset < lineEnd then s.FindOffset - lineBegin
               else lineEnd - lineBegin)
              (r.reads + 1) with
          | none => rw [hin] at h; simp at h
          | some t =>
            obtain ⟨found, foundLen, fatalErr, reads⟩ := t
            rw [hin] at h
            simp only [] at h
            by_cases h4 : fatalErr = true
            · rw [if_pos h4] at h
              simp only [Option.some.injEq, Prod.mk.injEq] at h
              obtain ⟨rfl, rfl, rfl⟩ := h
              exact Or.inr ⟨rfl, Or.inl ⟨rfl, rfl, rfl⟩⟩
            · rw [if_neg h4] at h
              by_cases h5 : found ≠ -1
              · rw [if_pos h5] at h
                by_cases h6 : foundLen = 0
                · rw [if_pos h6] at h
                  simp only [Option.some.injEq, Prod.mk.injEq] at h
                  obtain ⟨rfl, rfl, rfl⟩ := h
                  exact Or.inr ⟨rfl, Or.inr (Or.inl ⟨rfl, rfl, rfl, h5, rfl, rfl⟩)⟩
                · rw [if_neg h6] at h
                  simp only [Option.some.injEq, Prod.mk.injEq] at h
                  obtain ⟨rfl, rfl, rfl⟩ := h
                  obtain ⟨start', hs⟩ := regexpFindNextBackward_shape w _ _ _ _ _ _ _ _ _ _ _
                    hin h5
                  exact Or.inr ⟨rfl, Or.inr (Or.inr (Or.inr
                    ⟨⟨start', foundLen, h0, hs, h5, h6, rfl⟩, rfl, rfl, rfl, rfl⟩))⟩
              · rw [if_neg h5] at h
                simp only [Option.some.injEq, Prod.mk.injEq] at h
                obtain ⟨rfl, rfl, rfl⟩ := h
                exact Or.inl ⟨rfl, rfl, by simpa using h5, rfl, rfl, rfl, rfl⟩
        · rw [if_neg h3] at h
          simp only [Option.some.injEq, Prod.mk.injEq] at h
          obtain ⟨rfl, rfl, rfl⟩ := h
          exact Or.inr ⟨rfl, Or.inr (Or.inr (Or.inl ⟨rfl, rfl, rfl, hf, rfl, rfl⟩))⟩
      · rw [if_neg h2] at h
        simp only [Option.some.injEq, Prod.mk.injEq] at h
        obtain ⟨rfl, rfl, rfl⟩ := h
        exact Or.inl ⟨rfl, rfl, hf, rfl, rfl, rfl, rfl⟩
  · rw [if_neg h0] at h
    simp only [Option.some.injEq, Prod.mk.injEq] at h
    obtain ⟨rfl, rfl, rfl⟩ := h
    exact Or.inl ⟨rfl, rfl, hf, rfl, rfl, rfl, rfl⟩

theorem RegExpOutcome_step (w : World) (forward : Bool) (s : CViewerWindow)
    (r r1 : FindRun) (s' : CViewerWindow) (r' : FindRun) (hr : sameFlags r r1)
    (h : RegExpOutcome w forward s r1 s' r') : RegExpOutcome w forward s r s' r' := by
  obtain ⟨e1, e2, e3, e4⟩ := hr
  rcases h with h | h | h | h | h
  · exact Or.inl ⟨h.1, h.2.1, h.2.2.trans e4⟩
  · exact Or.inr (Or.inl ⟨h.1, h.2.1.trans e1, h.2.2.1, h.2.2.2.1.trans e3,
      h.2.2.2.2.trans e4⟩)
  · exact Or.inr (Or.inr (Or.inl ⟨h.1, h.2.1.trans e1, h.2.2.1.trans e2, h.2.2.2.1,
      h.2.2.2.2.1, by rw [h.2.2.2.2.2, e4]⟩))
  · exact Or.inr (Or.inr (Or.inr (Or.inl ⟨h.1, h.2.1.trans e1, h.2.2.1.trans e2, h.2.2.2.1,
      h.2.2.2.2.1, by rw [h.2.2.2.2.2, e4]⟩)))
  · exact Or.inr (Or.inr (Or.inr (Or.inr ⟨h.1, sameFlags_trans ⟨e1, e2, e3, e4⟩ h.2⟩)))

theorem regexpForward_shape (w : World) :
    ∀ (n : Nat) (lineBegin : Int) (s : CViewerWindow) (r : FindRun) (s' : CViewerWindow)
      (r' : FindRun), r.found = -1 → regexpForward w n lineBegin s r = some (s', r') →
      RegExpOutcome w true s r s' r' := by
  intro n
  induction n with
  | zero => intro _ s r s' r' _ h; simp [regexpForward] at h
  | succ n ih =>
    intro lineBegin s r s' r' hf h
    rw [regexpForward] at h
    simp only [] at h
    by_cases h0 : lineBegin < FileSize w
    · rw [if_pos h0] at h
      by_cases h1 : (w.FindNextEOL lineBegin (min (FileSize w) (lineBegin + FIND_LINE_LEN))).fatalErr
          = true
      · rw [if_pos h1] at h
        obtain ⟨rfl, rfl⟩ := Prod.mk.inj (Option.some.inj h)
        exact Or.inl ⟨rfl, rfl, rfl⟩
      · rw [if_neg h1] at h
        have hle : (if (w.FindNextEOL lineBegin
              (min (FileSize w) (lineBegin + FIND_LINE_LEN))).ret = true
            then (w.FindNextEOL lineBegin (min (FileSize w) (lineBegin + FIND_LINE_LEN))).first
            else min (FileSize w) (lineBegin + FIND_LINE_LEN)) = lineEndAfter w lineBegin := rfl
        rw [hle] at h
        cases hline : regexpForwardLine w (n + 1) lineBegin (lineEndAfter w lineBegin) s r with
        | none => rw [hline] at h; simp at h
        | some t =>
          obtain ⟨s1, r1, brk⟩ := t
          rw [hline] at h
          rcases regexpForwardLine_shape w _ _ _ s r s1 r1 brk hf hline with
            ⟨rfl, rfl, a1, a2⟩ | ⟨rfl, a⟩
          · simp only [] at h
            by_cases h2 : w.escPoll r1.polls = true
            · rw [if_pos h2] at h
              obtain ⟨rfl, rfl⟩ := Prod.mk.inj (Option.some.inj h)
              exact Or.inr (Or.inl ⟨rfl, a2.1, a1, a2.2.2.1, a2.2.2.2⟩)
            · rw [if_neg h2] at h
              have hi := ih _ _ { r1 with polls := r1.polls + 1 } _ _ a1 h
              exact RegExpOutcome_step w true _ r { r1 with polls := r1.polls + 1 } _ _ a2 hi
          · simp only [] at h
            obtain ⟨rfl, rfl⟩ := Prod.mk.inj (Option.some.inj h)
            rcases a with a | a | a | ⟨⟨start, foundLen, b1, b2, b3, b4, b5⟩, b6⟩
            · exact Or.inl a
            · exact Or.inr (Or.inr (Or.inl a))
            · exact Or.inr (Or.inr (Or.inr (Or.inl a)))
            · exact Or.inr (Or.inr (Or.inr (Or.inr
                ⟨⟨lineBegin, _, start, foundLen, by simp, b1, by simpa using b2, b3, b4,
                  by simpa using b5⟩, b6⟩)))
    · rw [if_neg h0] at h
      obtain ⟨rfl, rfl⟩ := Prod.mk.inj (Option.some.inj h)
      exact Or.inr (Or.inl ⟨rfl, rfl, hf, rfl, rfl⟩)

theorem regexpBackward_shape (w : World) :
    ∀ (n : Nat) (lineEnd : Int) (s : CViewerWindow) (r : FindRun) (s' : CViewerWindow)
      (r' : FindRun), r.found = -1 → regexpBackward w n lineEnd s r = some (s', r') →
      RegExpOutcome w false s r s' r' := by
  intro n
  induction n with
  | zero => intro _ s r s' r' _ h; simp [regexpBackward] at h
  | succ n ih =>
    intro lineEnd s r s' r' hf h
    rw [regexpBackward] at h
    simp only [] at h
    by_cases h0 : lineEnd > 0
    · rw [if_pos h0] at h
      by_cases h1 : (w.FindPreviousEOL lineEnd (lineEnd - FIND_LINE_LEN)).fatalErr = true
      · rw [if_pos h1] at h
        obtain ⟨rfl, rfl⟩ := Prod.mk.inj (Option.some.inj h)
        exact Or.inl ⟨rfl, rfl, rfl⟩
      · rw [if_neg h1] at h
        have hle : (if (w.FindPreviousEOL lineEnd (lineEnd - FIND_LINE_LEN)).ret = true
            then (w.FindPreviousEOL lineEnd (lineEnd - FIND_LINE_LEN)).first
            else lineEnd - FIND_LINE_LEN) = lineBeginBefore w lineEnd := rfl
        rw [hle] at h
        cases hline : regexpBackwardLine w (n + 1) (lineBeginBefore w lineEnd) lineEnd s r with
        | none => rw [hline] at h; simp at h
        | some t =>
          obtain ⟨s1, r1, brk⟩ := t
          rw [hline] at h
          rcases regexpBackwardLine_shape w _ _ _ s r s1 r1 brk hf hline with
            ⟨rfl, rfl, a1, a2⟩ | ⟨rfl, a⟩
          · simp only [] at h
            by_cases h2 : w.escPoll r1.polls = true
            · rw [if_pos h2] at h
              obtain ⟨rfl, rfl⟩ := Prod.mk.inj (Option.some.inj h)
              exact Or.inr (Or.inl ⟨rfl, a2.1, a1, a2.2.2.1, a2.2.2.2⟩)
            · rw [if_neg h2] at h
              have hi := ih _ _ { r1 with polls := r1.polls + 1 } _ _ a1 h
              exact RegExpOutcome_step w false _ r { r1 with polls := r1.polls + 1 } _ _ a2 hi
          · simp only [] at h
            obtain ⟨rfl, rfl⟩ := Prod.mk.inj (Option.some.inj h)
            rcases a with a | a | a | ⟨⟨start, foundLen, b1, b2, b3, b4, b5⟩, b6⟩
            · exact Or.inl a
            · exact Or.inr (Or.inr (Or.inl a))
            · exact Or.inr (Or.inr (Or.inr (Or.inl a)))
            · exact Or.inr (Or.inr (Or.inr (Or.inr
                ⟨⟨_, lineEnd, start, foundLen, by simp, b1, by simpa using b2, b3, b4,
                  by simpa using b5⟩, b6⟩)))
    · rw [if_neg h0] at h
      obtain ⟨rfl, rfl⟩ := Prod.mk.inj (Option.some.inj h)
      exact Or.inr (Or.inl ⟨rfl, rfl, hf, rfl, rfl⟩)

/-- F3 and Shift+F3 with a search text, in a window whose cursor was not moved back and
forth: the find command does not open the dialog and searches with the window as it is. -/
theorem searchSetting_plain (w : World) (cmd : FindCmd) (s : CViewerWindow)
    (hcmd : cmd ≠ FindCmd.CM_FINDSET) (htext : s.FindDialog.Text.val ≠ [])
    (hlast : s.LastFindSeekY = s.SeekY → s.LastFindOffset = s.FindOffset) :
    searchSetting w cmd s = s ∧ (askFindDialog w cmd (restoreFindOffset s)).2 = true := by
  have hr : restoreFindOffset s = s := by
    unfold restoreFindOffset
    split_ifs with h
    · exact absurd (hlast h.1) h.2
    · rfl
  unfold searchSetting askFindDialog
  rw [hr]
  simp [hcmd, htext]

/-- When the selection is the result of a search and the cursor stands at one of its
edges, the search starts behind the match (forward) or before it (backward). -/
theorem startCursor_after_match (w : World) (cmd : FindCmd) (s : CViewerWindow)
    (hcmd : cmd ≠ FindCmd.CM_FINDSET) (htext : s.FindDialog.Text.val ≠ [])
    (hlast : s.LastFindSeekY = s.SeekY → s.LastFindOffset = s.FindOffset)
    (hres : s.SelectionIsFindResult = true) (hsel : s.StartSelection < s.EndSelection)
    (hcur : s.FindOffset = s.StartSelection ∨ s.FindOffset = s.EndSelection) :
    startCursor w cmd s = if searchForward cmd s then s.EndSelection else s.StartSelection := by
  unfold startCursor
  rw [(searchSetting_plain w cmd s hcmd htext hlast).1]
  unfold adjustFindOffset
  have hne : s.StartSelection ≠ s.EndSelection := by omega
  rw [if_pos ⟨hne, hres, hcur⟩]
  cases searchForward cmd s
  · simp only [Bool.false_eq_true, if_false]
    omega
  · simp only [if_true]
    omega

/-- A find command that gets as far as searching has a search text. -/
theorem searchSetting_text (w : World) (cmd : FindCmd) (s : CViewerWindow)
    (hstart : searchStarts w cmd s = true) :
    (searchSetting w cmd s).FindDialog.Text.val ≠ [] ∧ (searchSetting w cmd s).MouseDrag = false := by
  simp only [searchStarts, Bool.and_eq_true, Bool.not_eq_true'] at hstart
  obtain ⟨h1, h2⟩ := hstart
  have hd : (restoreFindOffset s).MouseDrag = false := by
    unfold restoreFindOffset; split_ifs <;> exact h1
  revert h2
  unfold searchSetting askFindDialog InitFindDialog
  generalize restoreFindOffset s = x at hd ⊢
  intro h2
  split_ifs at h2 ⊢ with a1
  · cases hdlg : w.dialog with
    | none => rw [hdlg] at h2; simp at h2
    | some dlg =>
      rw [hdlg] at h2
      simp only [] at h2 ⊢
      split_ifs at h2 ⊢ <;> first | (simp at h2; done) | exact ⟨by assumption, hd⟩
  · simp only [not_or] at a1
    exact ⟨a1.2, hd⟩

/-- The state that a literal search leaves when it found a match and ran to its end: the
match is the selection, the cursor stands at its far edge in the direction of the search,
and the cursor is stored in `LastFindOffset`. -/
theorem literal_match_state (w : World) (fuel : Nat) (cmd : FindCmd)
    (s s' : CViewerWindow) (r : FindRun) (hrun : findCommand w fuel cmd s = some (s', r))
    (hstart : searchStarts w cmd s = true)
    (hlit : (searchSetting w cmd s).FindDialog.Regular = false)
    (hfound : r.found ≠ -1) (hfatal : r.fatalErr = false) (hexit : s'.ExitTextMode = false) :
    s'.EndSelection = s'.StartSelection + (searchSetting w cmd s).SearchData.val.length ∧
    s'.FindOffset = (if searchForward cmd (searchSetting w cmd s) then s'.EndSelection
                     else s'.StartSelection) ∧
    s'.SelectionIsFindResult = true ∧
    s'.FindDialog = (searchSetting w cmd s).FindDialog ∧
    s'.SearchData = (searchSetting w cmd s).SearchData ∧
    s'.MouseDrag = false ∧
    s'.LastFindSeekY = s'.SeekY ∧ s'.LastFindOffset = s'.FindOffset := by
  rw [findCommand_eq w fuel cmd s hstart] at hrun
  obtain ⟨-, hdrag⟩ := searchSetting_text w cmd s hstart
  cases hloop : searchLoops w fuel (searchForward cmd (searchSetting w cmd s))
      { searchSetting w cmd s with FindOffset := startCursor w cmd s } with
  | none => rw [hloop] at hrun; simp at hrun
  | some t =>
    obtain ⟨s2, r2⟩ := t
    rw [hloop] at hrun
    simp only [Option.map_some', Option.some.injEq] at hrun
    -- the loop ended with a match
    have hshape : LiteralOutcome (searchForward cmd (searchSetting w cmd s))
        { searchSetting w cmd s with FindOffset := startCursor w cmd s } {} s2 r2 := by
      unfold searchLoops at hloop
      simp only [hlit, Bool.false_eq_true, if_false] at hloop
      split_ifs at hloop with hg hd
      · rw [hd]; exact literalForward_shape w fuel _ _ _ _ rfl hloop
      · have hd' : searchForward cmd (searchSetting w cmd s) = false := by simpa using hd
        rw [hd']; exact literalBackward_shape w fuel _ _ _ _ rfl hloop
      · obtain ⟨rfl, rfl⟩ := Prod.mk.inj (Option.some.inj hloop)
        exact Or.inl ⟨⟨_, rfl⟩, Or.inr (Or.inr rfl), rfl, rfl⟩
    have hr2 : r2.fatalErr = false ∧ r2.escPressed = false ∧ r2.found ≠ -1 := by
      cases hfe : r2.fatalErr
      · refine ⟨rfl, ?_⟩
        by_cases hne : r2.escPressed = true ∨ r2.found = -1
        · have := (finishFind_notFound w (oldFindOffset w cmd s) s2 r2 hfe hne).2.1
          rw [hrun] at this
          exact absurd this hfound
        · simp only [not_or] at hne
          exact ⟨by simpa using hne.1, hne.2⟩
      · have : finishFind w (oldFindOffset w cmd s) s2 r2 = (FatalFileErrorOccured s2 (-1), r2) := by
          simp [finishFind, hfe]
        rw [this] at hrun
        obtain ⟨-, rfl⟩ := Prod.mk.inj hrun
        rw [hfe] at hfatal
        exact absurd hfatal (by simp)
    obtain ⟨f1, f2, f3, f4, f5, f6, f7, -, -, -, f11⟩ :=
      finishFind_found w (oldFindOffset w cmd s) s2 r2 hr2.1 hr2.2.1 hr2.2.2
    rw [hrun] at f1 f2 f3 f4 f5 f6 f7 f11
    simp only at f1 f2 f3 f4 f5 f6 f7 f11
    obtain ⟨g1, g2⟩ := f11 hfatal hexit
    rcases hshape with ⟨-, hbad, -, -⟩ | ⟨p, rfl, -, -⟩
    · rcases hbad with h | h | h
      · rw [hr2.1] at h; exact absurd h (by simp)
      · rw [hr2.2.1] at h; exact absurd h (by simp)
      · exact absurd h hr2.2.2
    · simp only at f1 f2 f3 f4 f5 f6 f7 g2
      refine ⟨by rw [f1, f2], ?_, f4, f5, f6, by rw [f7]; exact hdrag, g1, by rw [g2, f3]⟩
      rw [f1, f2, f3]

theorem searchLoops_shape (w : World) (fuel : Nat) (forward : Bool)
    (s s' : CViewerWindow) (r' : FindRun) (h : searchLoops w fuel forward s = some (s', r')) :
    SearchOutcome w forward s s' r' := by
  unfold searchLoops at h
  simp only [] at h
  by_cases hreg : s.FindDialog.Regular = true
  · rw [if_pos hreg] at h
    by_cases hfl : w.RegExpSetFlags = true
    · rw [if_pos hfl] at h
      cases forward
      · simp only [Bool.false_eq_true, if_false] at h
        by_cases h1 : (w.FindNextEOL s.FindOffset (s.FindOffset + FIND_LINE_LEN)).fatalErr = true
        · rw [if_pos h1] at h
          obtain ⟨rfl, rfl⟩ := Prod.mk.inj (Option.some.inj h)
          exact Or.inr (Or.inl ⟨hreg, Or.inl ⟨rfl, rfl, rfl⟩⟩)
        · rw [if_neg h1] at h
          exact Or.inr (Or.inl ⟨hreg, regexpBackward_shape w fuel _ s {} s' r' rfl h⟩)
      · simp only [if_true] at h
        by_cases h1 : (w.FindPreviousEOL s.FindOffset (s.FindOffset - FIND_LINE_LEN)).fatalErr
            = true
        · rw [if_pos h1] at h
          obtain ⟨rfl, rfl⟩ := Prod.mk.inj (Option.some.inj h)
          exact Or.inr (Or.inl ⟨hreg, Or.inl ⟨rfl, rfl, rfl⟩⟩)
        · rw [if_neg h1] at h
          exact Or.inr (Or.inl ⟨hreg, regexpForward_shape w fuel _ s {} s' r' rfl h⟩)
    · rw [if_neg hfl] at h
      obtain ⟨rfl, rfl⟩ := Prod.mk.inj (Option.some.inj h)
      exact Or.inr (Or.inr ⟨hreg, rfl, rfl⟩)
  · rw [if_neg hreg] at h
    have hreg' : s.FindDialog.Regular = false := by simpa using hreg
    by_cases hg : w.SearchDataIsGood = true
    · rw [if_pos hg] at h
      cases forward
      · simp only [Bool.false_eq_true, if_false] at h
        exact Or.inl ⟨hreg', literalBackward_shape w fuel s {} s' r' rfl h⟩
      · simp only [if_true] at h
        exact Or.inl ⟨hreg', literalForward_shape w fuel s {} s' r' rfl h⟩
    · rw [if_neg hg] at h
      obtain ⟨rfl, rfl⟩ := Prod.mk.inj (Option.some.inj h)
      exact Or.inl ⟨hreg', Or.inl ⟨⟨_, rfl⟩, Or.inr (Or.inr rfl), rfl, rfl⟩⟩

/-- The search itself shows none of the three message boxes of the end of the command. -/
theorem SearchOutcome_messages (w : World) (forward : Bool) (s s' : CViewerWindow)
    (r' : FindRun) (h : SearchOutcome w forward s s' r') :
    Message.IDS_FINDTERMINATEDBYUSER ∉ r'.messages ∧ Message.IDS_FIND_NOMATCH ∉ r'.messages ∧
      Message.IDS_FIND_NOREGEXPMATCH ∉ r'.messages := by
  rcases h with ⟨-, ⟨-, -, h, -⟩ | ⟨-, -, -, -, -, -, h⟩⟩ | ⟨-, h | h | h | h | ⟨-, -, -, -, h⟩⟩ |
    ⟨-, h⟩
  · rw [h]; simp
  · rw [h]; simp
  · rw [h.2.2]; simp
  · rw [h.2.2.2.2]; simp
  · rw [h.2.2.2.2.2]; simp
  · rw [h.2.2.2.2.2]; simp
  · rw [h]; simp
  · rw [h.2]; simp

/-- A search that did not end with a match selected has left the selection alone. -/
theorem SearchOutcome_selection (w : World) (forward : Bool) (s s' : CViewerWindow)
    (r' : FindRun) (h : SearchOutcome w forward s s' r')
    (hno : r'.fatalErr = true ∨ r'.escPressed = true ∨ r'.found = -1) :
    s'.StartSelection = s.StartSelection ∧ s'.EndSelection = s.EndSelection := by
  have hsucc : ∀ r0 : FindRun, r0 = {} → r'.found ≠ -1 → sameFlags r0 r' → False := by
    intro r0 hr0 hf hs
    subst hr0
    rcases hno with h | h | h
    · rw [hs.1] at h; exact absurd h (by simp)
    · rw [hs.2.1] at h; exact absurd h (by simp)
    · exact hf h
  rcases h with ⟨-, ⟨⟨c', rfl⟩, -⟩ | ⟨p, -, hf, hs⟩⟩ | ⟨-, h | h | h | h | ⟨hm, hs⟩⟩ | ⟨-, h⟩
  · exact ⟨rfl, rfl⟩
  · exact (hsucc _ rfl hf hs).elim
  · rw [h.1]; exact ⟨rfl, rfl⟩
  · rw [h.1]; exact ⟨rfl, rfl⟩
  · rw [h.1]; exact ⟨rfl, rfl⟩
  · rw [h.1]; exact ⟨rfl, rfl⟩
  · obtain ⟨_, _, _, _, -, -, -, hf, -⟩ := hm
    exact (hsucc _ rfl hf hs).elim
  · rw [h.1]; exact ⟨rfl, rfl⟩

/-- The restoring step, the dialog and the direction adjustment leave the selection
alone. -/
theorem searchSetting_selection (w : World) (cmd : FindCmd) (s : CViewerWindow) :
    (searchSetting w cmd s).StartSelection = s.StartSelection ∧
    (searchSetting w cmd s).EndSelection = s.EndSelection := by
  have hr : (restoreFindOffset s).StartSelection = s.StartSelection ∧
      (restoreFindOffset s).EndSelection = s.EndSelection := by
    unfold restoreFindOffset; split_ifs <;> exact ⟨rfl, rfl⟩
  rw [← hr.1, ← hr.2]
  unfold searchSetting askFindDialog InitFindDialog
  generalize restoreFindOffset s = x
  split_ifs
  · cases w.dialog with
    | none => exact ⟨rfl, rfl⟩
    | some dlg =>
      simp only []
      split_ifs <;> exact ⟨rfl, rfl⟩
  · exact ⟨rfl, rfl⟩

/-- A chunk is never longer than what was asked for. -/
theorem chunk_length_le (w : World) (off len : Int) (h : 0 ≤ len) :
    ((chunk w off len).length : Int) ≤ len := by
  unfold chunk
  simp only [List.length_take, List.length_drop]
  omega

/-- The match that a regular-expression loop selected lies in the line that the loop took,
when the engine returns matches inside the line and the line indexer keeps to the range it
was given. -/
theorem RegExpMatch_bounds (w : World) (forward : Bool) (s s' : CViewerWindow) (found : Int)
    (h : RegExpMatch w forward s s' found)
    (hforw : ∀ line start, (w.RegExpSearchForward line start).1 ≠ -1 →
      0 ≤ (w.RegExpSearchForward line start).1 ∧ 0 ≤ (w.RegExpSearchForward line start).2 ∧
      (w.RegExpSearchForward line start).1 + (w.RegExpSearchForward line start).2
        ≤ line.length)
    (hback : ∀ line length, (w.RegExpSearchBackward line length).1 ≠ -1 →
      0 ≤ (w.RegExpSearchBackward line length).1 ∧
      0 ≤ (w.RegExpSearchBackward line length).2 ∧
      (w.RegExpSearchBackward line length).1 + (w.RegExpSearchBackward line length).2
        ≤ line.length)
    (hnext : ∀ seek maxSeek, (w.FindNextEOL seek maxSeek).ret = true →
      (w.FindNextEOL seek maxSeek).first ≤ maxSeek)
    (hprev : ∀ seek minSeek, (w.FindPreviousEOL seek minSeek).ret = true →
      minSeek ≤ (w.FindPreviousEOL seek minSeek).first) :
    ∃ lineBegin lineEnd,
      (if forward then lineEnd = lineEndAfter w lineBegin
       else lineBegin = lineBeginBefore w lineEnd) ∧
      lineBegin ≤ s'.StartSelection ∧ s'.StartSelection < s'.EndSelection ∧
      s'.EndSelection ≤ lineEnd ∧ lineEnd - lineBegin ≤ FIND_LINE_LEN := by
  obtain ⟨lineBegin, lineEnd, start, foundLen, hline, hlt, hres, hf, hl, rfl⟩ := h
  have hlen := chunk_length_le w lineBegin (lineEnd - lineBegin) (by omega)
  have hin : 0 ≤ found ∧ 0 ≤ foundLen ∧ found + foundLen ≤ lineEnd - lineBegin := by
    cases forward
    · simp only [Bool.false_eq_true, if_false] at hres
      have := hback (chunk w lineBegin (lineEnd - lineBegin)) start
      rw [hres] at this
      have := this hf
      simp only at this
      omega
    · simp only [if_true] at hres
      have := hforw (chunk w lineBegin (lineEnd - lineBegin)) start
      rw [hres] at this
      have := this hf
      simp only at this
      omega
  have hwidth : lineEnd - lineBegin ≤ FIND_LINE_LEN := by
    cases forward
    · simp only [Bool.false_eq_true, if_false] at hline
      unfold lineBeginBefore at hline
      simp only at hline
      by_cases he : (w.FindPreviousEOL lineEnd (lineEnd - FIND_LINE_LEN)).ret = true
      · rw [if_pos he] at hline
        have := hprev _ _ he
        omega
      · rw [if_neg he] at hline
        omega
    · simp only [if_true] at hline
      unfold lineEndAfter at hline
      simp only at hline
      by_cases he : (w.FindNextEOL lineBegin
          (min (FileSize w) (lineBegin + FIND_LINE_LEN))).ret = true
      · rw [if_pos he] at hline
        have := hnext _ _ he
        omega
      · rw [if_neg he] at hline
        omega
  refine ⟨lineBegin, lineEnd, hline, ?_, ?_, ?_, hwidth⟩
  · simp only; omega
  · simp only; omega
  · simp only; omega

/-- The example engine for "X" returns its matches inside the line (forward). -/
theorem firstX_inside (line : List Nat) (start : Int) (h : (firstX line start).1 ≠ -1) :
    0 ≤ (firstX line start).1 ∧ 0 ≤ (firstX line start).2 ∧
      (firstX line start).1 + (firstX line start).2 ≤ line.length := by
  unfold firstX at h ⊢
  simp only at h ⊢
  by_cases hi : (line.drop start.toNat).indexOf 88 < (line.drop start.toNat).length
  · simp only [hi, if_true]
    simp only [List.length_drop] at hi
    omega
  · simp only [hi, if_false] at h
    exact absurd rfl h

/-- The example engine for "X" returns its matches inside the line (backward). -/
theorem lastX_inside (line : List Nat) (length : Int) (h : (lastX line length).1 ≠ -1) :
    0 ≤ (lastX line length).1 ∧ 0 ≤ (lastX line length).2 ∧
      (lastX line length).1 + (lastX line length).2 ≤ line.length := by
  unfold lastX at h ⊢
  simp only at h ⊢
  by_cases hi : ((line.take length.toNat).reverse).indexOf 88
      < ((line.take length.toNat).reverse).length
  · simp only [hi, if_true]
    simp only [List.length_reverse, List.length_take] at hi ⊢
    omega
  · simp only [hi, if_false] at h
    exact absurd rfl h

/-- The example line indexer reports an end of line only before `maxSeek`. -/
theorem lineFeedAfter_range (file : List Nat) (seek maxSeek : Int)
    (h : (lineFeedAfter file seek maxSeek).ret = true) :
    (lineFeedAfter file seek maxSeek).first ≤ maxSeek := by
  unfold lineFeedAfter at h ⊢
  simp only at h ⊢
  by_cases hi : ((file.drop seek.toNat).take (maxSeek - seek).toNat).indexOf 10
      < ((file.drop seek.toNat).take (maxSeek - seek).toNat).length
  · simp only [hi, if_true]
    simp only [List.length_take, List.length_drop] at hi
    omega
  · simp only [hi, if_false] at h
    exact absurd h (by simp)

/-- The example line indexer reports a line beginning only from `minSeek` on. -/
theorem lineFeedBefore_range (file : List Nat) (seek minSeek : Int)
    (h : (lineFeedBefore file seek minSeek).ret = true) :
    minSeek ≤ (lineFeedBefore file seek minSeek).first := by
  unfold lineFeedBefore at h ⊢
  simp only at h ⊢
  by_cases hi : (((file.take seek.toNat).drop (max minSeek 0).toNat).reverse).indexOf 10
      < (((file.take seek.toNat).drop (max minSeek 0).toNat).reverse).length
  · simp only [hi, if_true]
    simp only [List.length_reverse, List.length_drop, List.length_take] at hi
    omega
  · simp only [hi, if_false] at h ⊢
    by_cases hm : minSeek ≤ 0
    · simp only [hm, if_true]
    · simp only [hm, if_false] at h
      exact absurd h (by simp)

theorem UpdateWindow_StartSelection (w : World)
    (hP : ∀ s, (w.Paint s).StartSelection = s.StartSelection) (s : CViewerWindow) :
    (UpdateWindow w s).StartSelection = s.StartSelection := by
  unfold UpdateWindow
  split_ifs
  · rfl
  · exact hP s

theorem EnsureXVisibleInView_StartSelection (w : World) (x : Int) (p : Bool) (n : Int)
    (i : Bool) (m : Int) (s : CViewerWindow) :
    (EnsureXVisibleInView w x p n i m s).1.StartSelection = s.StartSelection := by
  unfold EnsureXVisibleInView
  simp only []
  split_ifs <;> rfl

theorem GetXFromOffsetInText_StartSelection (w : World) (o l b c e : Int)
    (s : CViewerWindow) :
    (GetXFromOffsetInText w o l b c e s).1.StartSelection = s.StartSelection := by
  unfold GetXFromOffsetInText
  simp only []
  split_ifs <;> rfl

theorem GetOffsetFromXInText_StartSelection (w : World) (x l b c e : Int)
    (s : CViewerWindow) :
    (GetOffsetFromXInText w x l b c e s).1.StartSelection = s.StartSelection := by
  unfold GetOffsetFromXInText
  simp only []
  split_ifs <;> rfl

theorem ScrollViewLineUp_StartSelection (w : World)
    (hP : ∀ s, (w.Paint s).StartSelection = s.StartSelection) (c : Int) (r : Bool)
    (s : CViewerWindow) :
    (ScrollViewLineUp w c r s).1.StartSelection = s.StartSelection := by
  unfold ScrollViewLineUp
  simp only []
  split_ifs <;> simp only [UpdateWindow_StartSelection w hP, FatalFileErrorOccured]

theorem ScrollViewLineDown_StartSelection (w : World)
    (hP : ∀ s, (w.Paint s).StartSelection = s.StartSelection) (s : CViewerWindow) :
    (ScrollViewLineDown w s).1.StartSelection = s.StartSelection := by
  unfold ScrollViewLineDown
  simp only []
  split_ifs <;> simp only [UpdateWindow_StartSelection w hP]

theorem scrollDownToEndSel_StartSelection (w : World)
    (hP : ∀ s, (w.Paint s).StartSelection = s.StartSelection) (x : Int) (s : CViewerWindow) :
    (scrollDownToEndSel w x s).StartSelection = s.StartSelection := by
  unfold scrollDownToEndSel
  simp only []
  split_ifs <;>
    simp only [UpdateWindow_StartSelection w hP, ScrollViewLineDown_StartSelection w hP,
      EnsureXVisibleInView_StartSelection]

theorem locateEndSel_StartSelection (w : World)
    (hP : ∀ s, (w.Paint s).StartSelection = s.StartSelection) (s : CViewerWindow) :
    (locateEndSel w s).1.StartSelection = s.StartSelection := by
  unfold locateEndSel
  simp only []
  split_ifs <;> simp only [UpdateWindow_StartSelection w hP, FatalFileErrorOccured]

theorem extSelScrollUp_StartSelection (w : World)
    (hP : ∀ s, (w.Paint s).StartSelection = s.StartSelection) (d : Bool) (x : Int)
    (s : CViewerWindow) :
    (extSelScrollUp w d x s).1.StartSelection = s.StartSelection := by
  unfold extSelScrollUp
  simp only []
  split_ifs <;>
    simp only [UpdateWindow_StartSelection w hP, ScrollViewLineUp_StartSelection w hP,
      EnsureXVisibleInView_StartSelection, GetXFromOffsetInText_StartSelection]

theorem extSelLeftHome_StartSelection (w : World)
    (hP : ∀ s, (w.Paint s).StartSelection = s.StartSelection) (h : Bool) (i : Int)
    (s : CViewerWindow) :
    (extSelLeftHome w h i s).1.StartSelection = s.StartSelection := by
  unfold extSelLeftHome
  simp only []
  split_ifs <;>
    simp only [extSelScrollUp_StartSelection w hP, GetXFromOffsetInText_StartSelection]

theorem extSelRightEnd_StartSelection (w : World)
    (hP : ∀ s, (w.Paint s).StartSelection = s.StartSelection) (h : Bool) (i : Int)
    (s : CViewerWindow) :
    (extSelRightEnd w h i s).1.StartSelection = s.StartSelection := by
  unfold extSelRightEnd
  simp only []
  split_ifs <;>
    simp only [scrollDownToEndSel_StartSelection w hP, GetXFromOffsetInText_StartSelection]

theorem extSelPrefX_StartSelection (w : World) (i : Int) (s : CViewerWindow) :
    (extSelPrefX w i s).1.StartSelection = s.StartSelection := by
  unfold extSelPrefX
  simp only []
  split_ifs <;> simp only [GetXFromOffsetInText_StartSelection]

theorem extSelMove_StartSelection (w : World)
    (hP : ∀ s, (w.Paint s).StartSelection = s.StartSelection) (u : Bool) (i : Int)
    (s : CViewerWindow) :
    (extSelMove w u i s).1.StartSelection = s.StartSelection := by
  unfold extSelMove
  simp only []
  split_ifs <;>
    simp only [scrollDownToEndSel_StartSelection w hP,
      GetOffsetFromXInText_StartSelection, ScrollViewLineUp_StartSelection w hP,
      UpdateWindow_StartSelection w hP, EnsureXVisibleInView_StartSelection]

theorem extSelUpDown_StartSelection (w : World)
    (hP : ∀ s, (w.Paint s).StartSelection = s.StartSelection) (u : Bool) (i : Int)
    (s : CViewerWindow) :
    (extSelUpDown w u i s).1.StartSelection = s.StartSelection := by
  unfold extSelUpDown
  simp only []
  split_ifs <;>
    simp only [extSelMove_StartSelection w hP, extSelPrefX_StartSelection]

theorem extSelFinish_StartSelection (w : World)
    (hP : ∀ s, (w.Paint s).StartSelection = s.StartSelection) (o : Int) (r : ExtSelStep) :
    (extSelFinish w o r).1.StartSelection = r.1.StartSelection := by
  unfold extSelFinish
  simp only []
  split_ifs <;>
    simp only [UpdateWindow_StartSelection w hP, EnsureXVisibleInView_StartSelection]

theorem extSelCommand_StartSelection (w : World)
    (hP : ∀ s, (w.Paint s).StartSelection = s.StartSelection) (cmd : NavCmd)
    (s : CViewerWindow) :
    (extSelCommand w cmd s).1.StartSelection = s.StartSelection := by
  unfold extSelCommand
  simp only []
  have hl : ∀ t : CViewerWindow, (locateEndSel w t).1.StartSelection = t.StartSelection :=
    locateEndSel_StartSelection w hP
  split_ifs <;> first
    | rfl
    | exact hl _
    | (rw [extSelFinish_StartSelection w hP]
       cases cmd <;>
         simp only [extSelLeftHome_StartSelection w hP, extSelRightEnd_StartSelection w hP,
           extSelUpDown_StartSelection w hP, hl])

theorem fileBegin_StartSelection (s : CViewerWindow) (f : NavFlags) :
    (fileBegin s f).1.StartSelection = s.StartSelection := by
  unfold fileBegin
  simp only []
  split_ifs <;> rfl

theorem extSelFileBeg_StartSelection (s : CViewerWindow) :
    (extSelFileBeg s).1.StartSelection = s.StartSelection := by
  unfold extSelFileBeg
  split_ifs <;> simp only [fileBegin_StartSelection]

theorem fileEnd_StartSelection (x : Int) (s : CViewerWindow) (f : NavFlags) :
    (fileEnd x s f).1.StartSelection = s.StartSelection := by
  unfold fileEnd
  simp only []
  split_ifs <;> rfl

theorem fileEndCommand_StartSelection (w : World) (ext : Bool) (s : CViewerWindow) :
    (fileEndCommand w ext s).1.StartSelection = s.StartSelection := by
  unfold fileEndCommand
  simp only []
  split_ifs <;> simp only [fileEnd_StartSelection, FatalFileErrorOccured]

theorem pageUp_StartSelection (w : World) (s : CViewerWindow) :
    (pageUp w s).1.StartSelection = s.StartSelection := by
  unfold pageUp
  by_cases h : s.SeekY > 0
  · simp only [h, if_true]
    cases s.ViewType
    · simp only []
      split_ifs <;> simp only [FatalFileErrorOccured]
    · simp only []
  · simp only [h, if_false]

theorem pageDown_StartSelection (s : CViewerWindow) :
    (pageDown s).1.StartSelection = s.StartSelection := by
  unfold pageDown
  simp only []
  split_ifs <;> rfl

theorem scrollLeft_StartSelection (w : World) (f : Bool) (s : CViewerWindow) :
    (scrollLeft w f s).1.StartSelection = s.StartSelection := by
  unfold scrollLeft
  simp only []
  split_ifs <;> rfl

theorem scrollRight_StartSelection (w : World) (f : Bool) (s : CViewerWindow) :
    (scrollRight w f s).1.StartSelection = s.StartSelection := by
  unfold scrollRight
  simp only []
  split_ifs <;> rfl

theorem navSwitch_StartSelection (w : World)
    (hP : ∀ s, (w.Paint s).StartSelection = s.StartSelection) (cmd : NavCmd)
    (s : CViewerWindow) :
    (navSwitch w cmd s).1.StartSelection = s.StartSelection := by
  unfold navSwitch
  cases cmd <;> simp only []
  · split_ifs <;> exact ScrollViewLineUp_StartSelection w hP _ _ s
  · exact ScrollViewLineDown_StartSelection w hP s
  · exact pageUp_StartSelection w s
  · exact pageDown_StartSelection s
  · exact extSelFileBeg_StartSelection s
  · exact fileBegin_StartSelection s _
  · exact fileEndCommand_StartSelection w _ s
  · exact fileEndCommand_StartSelection w _ s
  · exact scrollLeft_StartSelection w _ s
  · exact scrollLeft_StartSelection w _ s
  · exact scrollRight_StartSelection w _ s
  · exact scrollRight_StartSelection w _ s
  all_goals exact extSelCommand_StartSelection w hP _ s

theorem navFinish_StartSelection (w : World)
    (hP : ∀ s, (w.Paint s).StartSelection = s.StartSelection) (t : CViewerWindow × NavFlags) :
    (navFinish w t).StartSelection = t.1.StartSelection := by
  unfold navFinish
  simp only []
  split_ifs <;> simp only [UpdateWindow_StartSelection w hP]

theorem navCommand_StartSelection (w : World)
    (hP : ∀ s, (w.Paint s).StartSelection = s.StartSelection) (cmd : NavCmd)
    (s : CViewerWindow) :
    (navCommand w cmd s).StartSelection = s.StartSelection := by
  unfold navCommand
  split_ifs
  · rfl
  · rw [navFinish_StartSelection w hP, navSwitch_StartSelection w hP]
  · rfl

theorem dragScrollY_StartSelection (w : World)
    (hP : ∀ s, (w.Paint s).StartSelection = s.StartSelection) (y : Int) (s : CViewerWindow) :
    (dragScrollY w y s).1.StartSelection = s.StartSelection := by
  unfold dragScrollY
  simp only []
  split_ifs <;> simp only [navCommand_StartSelection w hP]

theorem dragScrollX_StartSelection (w : World)
    (hP : ∀ s, (w.Paint s).StartSelection = s.StartSelection) (x : Int) (s : CViewerWindow) :
    (dragScrollX w x s).StartSelection = s.StartSelection := by
  unfold dragScrollX
  simp only []
  split_ifs <;> simp only [navCommand_StartSelection w hP]

theorem OnMouseMove_StartSelection (w : World)
    (hP : ∀ s, (w.Paint s).StartSelection = s.StartSelection) (m : MouseMove)
    (s : CViewerWindow) :
    (OnMouseMove w m s).StartSelection = s.StartSelection := by
  unfold OnMouseMove
  simp only []
  split_ifs <;>
    simp only [dragScrollX_StartSelection w hP, dragScrollY_StartSelection w hP,
      FatalFileErrorOccured]

/-- The `for` loop of the lookup stops at the first line that passes the test. -/
theorem findEndSelLine_first (s : CViewerWindow) (k : Nat)
    (hk : 3 * (k : Int) + 3 < LineOffsetCount s)
    (hbefore : ∀ j : Nat, j < k → endSelOnLine s (3 * (j : Int)) = false)
    (hat : endSelOnLine s (3 * (k : Int)) = true) :
    ∀ (d j n : Nat), j + d = k → d < n → findEndSelLine s n (3 * (j : Int)) = k := by
  intro d
  induction d with
  | zero =>
    intro j n hj hn
    obtain ⟨n, rfl⟩ : ∃ m, n = m + 1 := ⟨n - 1, by omega⟩
    have : j = k := by omega
    subst this
    rw [findEndSelLine, if_pos hk, if_pos hat]
    exact Int.mul_tdiv_cancel_left _ (by decide)
  | succ d ih =>
    intro j n hj hn
    obtain ⟨n, rfl⟩ : ∃ m, n = m + 1 := ⟨n - 1, by omega⟩
    have hjk : j < k := by omega
    have h3 : 3 * (j : Int) + 3 < LineOffsetCount s := by omega
    rw [findEndSelLine, if_pos h3, hbefore j hjk]
    simp only [Bool.false_eq_true, if_false]
    have := ih (j + 1) n (by omega) (by omega)
    rw [show 3 * ((j + 1 : Nat) : Int) = 3 * (j : Int) + 3 by push_cast; ring] at this
    exact this

theorem findEqual_some (e : FileHistoryWorld) (t : CFileHistoryItemTypeEnum) (h : Nat)
    (f : List Nat) :
    ∀ (l : List CFileHistoryItem) (i k : Nat), findEqual e t h f l i = some k →
      i ≤ k ∧ ∃ item, l.get? (k - i) = some item ∧ item.Equal e t h f = true := by
  intro l
  induction l with
  | nil => intro i k hk; simp [findEqual] at hk
  | cons a rest ih =>
    intro i k hk
    rw [findEqual] at hk
    by_cases ha : a.Equal e t h f = true
    · rw [if_pos ha] at hk
      obtain rfl := Option.some.inj hk
      exact ⟨le_refl _, a, by simp, ha⟩
    · rw [if_neg ha] at hk
      obtain ⟨h1, item, h2, h3⟩ := ih (i + 1) k hk
      refine ⟨by omega, item, ?_, h3⟩
      obtain ⟨d, rfl⟩ : ∃ d, k = i + 1 + d := ⟨k - (i + 1), by omega⟩
      rw [show i + 1 + d - i = d + 1 by omega]
      rw [show i + 1 + d - (i + 1) = d by omega] at h2
      simpa using h2

theorem findEqual_none (e : FileHistoryWorld) (t : CFileHistoryItemTypeEnum) (h : Nat)
    (f : List Nat) :
    ∀ (l : List CFileHistoryItem) (i : Nat), findEqual e t h f l i = none →
      ∀ x ∈ l, x.Equal e t h f = false := by
  intro l
  induction l with
  | nil => intro i _ x hx; simp at hx
  | cons a rest ih =>
    intro i hk x hx
    rw [findEqual] at hk
    by_cases ha : a.Equal e t h f = true
    · rw [if_pos ha] at hk; simp at hk
    · rw [if_neg ha] at hk
      rcases List.mem_cons.mp hx with rfl | hx
      · simpa using ha
      · exact ih (i + 1) hk x hx

/-- Taking the element at index `i` out of a list and putting it in front rearranges the
list. -/
theorem cons_eraseIdx_perm {α : Type} :
    ∀ (l : List α) (i : Nat) (x : α), l.get? i = some x → (x :: l.eraseIdx i).Perm l := by
  intro l
  induction l with
  | nil => intro i x h; simp at h
  | cons a rest ih =>
    intro i x h
    cases i with
    | zero =>
      simp only [List.get?_cons_zero, Option.some.injEq] at h
      subst h
      exact List.Perm.refl _
    | succ i =>
      simp only [List.get?_cons_succ] at h
      rw [List.eraseIdx_cons_succ]
      exact (List.Perm.swap a x _).trans ((ih i x h).cons a)

/-- Putting the element at index `i` behind the others rearranges the list. -/
theorem eraseIdx_append_perm {α : Type} (l : List α) (i : Nat) (x : α)
    (h : l.get? i = some x) : (l.eraseIdx i ++ [x]).Perm l :=
  (List.perm_append_comm.trans (List.Perm.of_eq rfl)).trans (cons_eraseIdx_perm l i x h)

/-- `IsTheSamePath` does not read the member `PluginFS`. -/
theorem IsTheSamePath_PluginFS (e : PathHistoryWorld)
    (cur : Option CPluginFSInterfaceEncapsulation) (a b : CPathHistoryItem) (p q : Nat) :
    CPathHistoryItem.IsTheSamePath e cur { a with PluginFS := p } { b with PluginFS := q }
      = CPathHistoryItem.IsTheSamePath e cur a b := rfl

theorem findSamePath_some (e : PathHistoryWorld)
    (cur : Option CPluginFSInterfaceEncapsulation) (n : CPathHistoryItem) :
    ∀ (l : List CPathHistoryItem) (i k : Nat), findSamePath e cur n l i = some k →
      i ≤ k ∧ ∃ item, l.get? (k - i) = some item ∧ n.IsTheSamePath e cur item = true := by
  intro l
  induction l with
  | nil => intro i k hk; simp [findSamePath] at hk
  | cons a rest ih =>
    intro i k hk
    rw [findSamePath] at hk
    by_cases ha : n.IsTheSamePath e cur a = true
    · rw [if_pos ha] at hk
      obtain rfl := Option.some.inj hk
      exact ⟨le_refl _, a, by simp, ha⟩
    · rw [if_neg ha] at hk
      obtain ⟨h1, item, h2, h3⟩ := ih (i + 1) k hk
      refine ⟨by omega, item, ?_, h3⟩
      obtain ⟨d, rfl⟩ : ∃ d, k = i + 1 + d := ⟨k - (i + 1), by omega⟩
      rw [show i + 1 + d - i = d + 1 by omega]
      rw [show i + 1 + d - (i + 1) = d by omega] at h2
      simpa using h2

theorem findSamePath_none (e : PathHistoryWorld)
    (cur : Option CPluginFSInterfaceEncapsulation) (n : CPathHistoryItem) :
    ∀ (l : List CPathHistoryItem) (i : Nat), findSamePath e cur n l i = none →
      ∀ x ∈ l, n.IsTheSamePath e cur x = false := by
  intro l
  induction l with
  | nil => intro i _ x hx; simp at hx
  | cons a rest ih =>
    intro i hk x hx
    rw [findSamePath] at hk
    by_cases ha : n.IsTheSamePath e cur a = true
    · rw [if_pos ha] at hk; simp at hk
    · rw [if_neg ha] at hk
      rcases List.mem_cons.mp hx with rfl | hx
      · simpa using ha
      · exact ih (i + 1) hk x hx

theorem deleteForward_sublist (fi : Nat) :
    ∀ (fuel : Nat) (l : List CPathHistoryItem), (deleteForward fi fuel l).Sublist l := by
  intro fuel
  induction fuel with
  | zero => intro l; exact List.Sublist.refl _
  | succ n ih =>
    intro l
    rw [deleteForward]
    split_ifs
    · exact (ih _).trans (List.eraseIdx_sublist _ _)
    · exact List.Sublist.refl _

theorem trimHistory_sublist (size : Nat) :
    ∀ (fuel : Nat) (l : List CPathHistoryItem), (trimHistory size fuel l).Sublist l := by
  intro fuel
  induction fuel with
  | zero => intro l; exact List.Sublist.refl _
  | succ n ih =>
    intro l
    rw [trimHistory]
    split_ifs
    · exact (ih _).trans (List.eraseIdx_sublist _ _)
    · exact List.Sublist.refl _


/-- Replacing the last element is removing it and adding the new one behind. -/
theorem set_last_eq {α : Type} :
    ∀ (l : List α) (i : Nat) (y : α), i + 1 = l.length → l.set i y = l.eraseIdx i ++ [y] := by
  intro l
  induction l with
  | nil => intro i y h; simp at h
  | cons a rest ih =>
    intro i y h
    cases i with
    | zero =>
      cases rest with
      | nil => rfl
      | cons b r => simp at h
    | succ i =>
      simp only [List.set_cons_succ, List.eraseIdx_cons_succ, List.cons_append]
      rw [ih i y (by simp at h; omega)]

/-- With the item at index `i` taken out of a list of pairwise distinct paths and an item of
the same path as that one put behind, the paths are still pairwise distinct. -/
theorem pairwise_move_last (e : PathHistoryWorld) (cur : Option CPluginFSInterfaceEncapsulation)
    (hsymm : ∀ a b : CPathHistoryItem, a.IsTheSamePath e cur b = b.IsTheSamePath e cur a)
    (l : List CPathHistoryItem) (i : Nat) (item item' : CPathHistoryItem)
    (hget : l.get? i = some item)
    (hsame : ∀ x : CPathHistoryItem, x.IsTheSamePath e cur item' = x.IsTheSamePath e cur item)
    (hdist : l.Pairwise (fun a b => a.IsTheSamePath e cur b = false)) :
    (l.eraseIdx i ++ [item']).Pairwise (fun a b => a.IsTheSamePath e cur b = false) := by
  have hp : (item :: l.eraseIdx i).Pairwise (fun a b => a.IsTheSamePath e cur b = false) :=
    (List.Perm.pairwise_iff (fun {a b} hab => by rw [hsymm]; exact hab)
      (cons_eraseIdx_perm l i item hget)).mpr hdist
  rw [List.pairwise_cons] at hp
  rw [List.pairwise_append]
  refine ⟨hp.2, List.pairwise_singleton _ _, ?_⟩
  intro x hx y hy
  rw [List.mem_singleton] at hy
  subst hy
  rw [hsame, hsymm]
  exact hp.1 x hx

/-- With a symmetric `StrICmp` and no current file system, `IsTheSamePath` is symmetric. -/
theorem IsTheSamePath_symm (e : PathHistoryWorld)
    (hs : ∀ a b, e.StrICmp a b = 0 ↔ e.StrICmp b a = 0) (a b : CPathHistoryItem) :
    a.IsTheSamePath e none b = b.IsTheSamePath e none a := by
  unfold CPathHistoryItem.IsTheSamePath
  by_cases ht : a.ItemType = b.ItemType
  · rw [if_pos ht, if_pos ht.symm, ← ht]
    by_cases h0 : a.ItemType = 0
    · rw [if_pos h0, if_pos h0]
      exact decide_eq_decide.mpr (hs _ _)
    · rw [if_neg h0, if_neg h0]
      by_cases h1 : a.ItemType = 1
      · rw [if_pos h1, if_pos h1]
        exact decide_eq_decide.mpr ⟨fun h => ⟨(hs _ _).mp h.1, h.2.symm⟩,
          fun h => ⟨(hs _ _).mpr h.1, h.2.symm⟩⟩
      · rw [if_neg h1, if_neg h1]
        by_cases h2 : a.ItemType = 2
        · rw [if_pos h2, if_pos h2]
          by_cases hc : e.StrICmp a.PathOrArchiveOrFSName b.PathOrArchiveOrFSName = 0
          · rw [if_pos hc, if_pos ((hs _ _).mp hc)]
            by_cases hp : a.ArchivePathOrFSUserPart = b.ArchivePathOrFSUserPart
            · rw [if_pos hp, if_pos hp.symm]
            · rw [if_neg hp, if_neg (fun h => hp h.symm)]
          · rw [if_neg hc, if_neg (fun h => hc ((hs _ _).mpr h))]
        · rw [if_neg h2, if_neg h2]
  · rw [if_neg ht, if_neg (fun h => ht h.symm)]

set_option maxRecDepth 100000 in
/-- Every index from 1 to 255 is scrambled to a byte from 1 to 255 from which
`UnscrambleTable` gives the index back: `ScrambleTable` is a bijection on 1..255. -/
theorem UnscrambleTable_ScrambleTable :
    ∀ l : Fin 256, (l : Nat) ≠ 0 →
      1 ≤ ScrambleTable.getD l 0 ∧ ScrambleTable.getD l 0 ≤ 255 ∧
        UnscrambleTable.getD (ScrambleTable.getD l 0) 0 = l := by
  decide

theorem cstr_of_nonzero (l : List Nat) (h : ∀ b ∈ l, b ≠ 0) : cstr l = l := by
  unfold cstr
  rw [List.takeWhile_eq_self_iff]
  intro b hb
  simpa using h b hb

/-- Unscrambling what the scramble loop made of a string of non-zero bytes gives the string
back, and the scrambled string has no zero byte. -/
theorem unscrambleLoop_scrambleLoop :
    ∀ (buf : List Nat) (last : Nat), 1 ≤ last → last ≤ 255 → (∀ b ∈ buf, 1 ≤ b ∧ b ≤ 255) →
      unscrambleLoop (last : Int) (scrambleLoop last buf) = buf ∧
        ∀ b ∈ scrambleLoop last buf, b ≠ 0 := by
  intro buf
  induction buf with
  | nil => intro last _ _ _; exact ⟨rfl, by simp [scrambleLoop]⟩
  | cons c s ih =>
    intro last h1 h2 hb
    have hc := hb c (List.mem_cons_self _ _)
    have hlt : (last + c) % 255 + 1 < 256 := by omega
    have ht := UnscrambleTable_ScrambleTable ⟨(last + c) % 255 + 1, hlt⟩ (by simp)
    simp only [] at ht
    obtain ⟨t1, t2, t3⟩ := ht
    obtain ⟨i1, i2⟩ := ih ((last + c) % 255 + 1) (by omega) (by omega)
      (fun b hb' => hb b (List.mem_cons_of_mem _ hb'))
    rw [scrambleLoop]
    constructor
    · rw [unscrambleLoop]
      simp only [t3]
      have e1 : Int.tmod (last : Int) 255 = ((last % 255 : Nat) : Int) := by
        rw [Int.tmod_eq_emod (by omega) (by omega : (0 : Int) ≤ 255)]; omega
      have hx : (if ((((last + c) % 255 + 1 : Nat) : Int) - 1 - Int.tmod (last : Int) 255) ≤ 0
          then (((last + c) % 255 + 1 : Nat) : Int) - 1 - Int.tmod (last : Int) 255 + 255
          else (((last + c) % 255 + 1 : Nat) : Int) - 1 - Int.tmod (last : Int) 255)
          = (c : Int) := by
        rw [e1]
        split_ifs <;> omega
      rw [hx]
      have e2 : Int.tmod ((last : Int) + c) 255 + 1 = (((last + c) % 255 + 1 : Nat) : Int) := by
        rw [Int.tmod_eq_emod (by omega) (by omega : (0 : Int) ≤ 255)]; omega
      rw [e2, i1]
      have e3 : ((c : Int) % 256).toNat = c := by omega
      rw [e3]
    · intro b hb'
      rcases List.mem_cons.mp hb' with rfl | hb'
      · omega
      · exact i2 b hb'

theorem randomPadByte_some :
    ∀ (rand : List Int) (b : Nat) (rest : List Int), randomPadByte rand = some (b, rest) →
      1 ≤ b ∧ b ≤ 255 ∧ ¬ (48 ≤ b ∧ b ≤ 57) := by
  intro rand
  induction rand with
  | nil => intro b rest h; simp [randomPadByte] at h
  | cons p r ih =>
    intro b rest h
    rw [randomPadByte] at h
    split_ifs at h with hc
    · exact ih b rest h
    · obtain ⟨rfl, -⟩ := Prod.mk.inj (Option.some.inj h)
      omega

theorem fillPadding_some :
    ∀ (n : Nat) (rand : List Int) (pad : List Nat) (rest : List Int),
      fillPadding n rand = some (pad, rest) →
      pad.length = n ∧ ∀ b ∈ pad, 1 ≤ b ∧ b ≤ 255 ∧ ¬ (48 ≤ b ∧ b ≤ 57) := by
  intro n
  induction n with
  | zero =>
    intro rand pad rest h
    rw [fillPadding] at h
    obtain ⟨rfl, -⟩ := Prod.mk.inj (Option.some.inj h)
    exact ⟨rfl, by simp⟩
  | succ n ih =>
    intro rand pad rest h
    rw [fillPadding] at h
    cases hr : randomPadByte rand with
    | none => rw [hr] at h; simp at h
    | some t =>
      obtain ⟨b, r1⟩ := t
      rw [hr] at h
      simp only [] at h
      cases hf : fillPadding n r1 with
      | none => rw [hf] at h; simp at h
      | some u =>
        obtain ⟨bs, r2⟩ := u
        rw [hf] at h
        simp only [Option.some.injEq, Prod.mk.injEq] at h
        obtain ⟨rfl, -⟩ := h
        obtain ⟨l1, l2⟩ := ih r1 bs r2 hf
        refine ⟨by simp [l1], ?_⟩
        intro x hx
        rcases List.mem_cons.mp hx with rfl | hx
        · exact randomPadByte_some rand x r1 hr
        · exact l2 x hx

theorem randomPadByte_enough :
    ∀ (rand : List Int), 1 ≤ (rand.filter endsPadLoop).length →
      ∃ b rest, randomPadByte rand = some (b, rest) ∧
        (rand.filter endsPadLoop).length ≤ (rest.filter endsPadLoop).length + 1 := by
  intro rand
  induction rand with
  | nil => intro h; simp at h
  | cons p r ih =>
    intro h
    rw [randomPadByte]
    by_cases hc : p ≤ 0 ∨ p > 255 ∨ (p ≥ 48 ∧ p ≤ 57)
    · rw [if_pos hc]
      have hf : endsPadLoop p = false := by simp [endsPadLoop, hc]
      rw [List.filter_cons_of_neg (by simp [hf])] at h ⊢
      exact ih h
    · rw [if_neg hc]
      have hf : endsPadLoop p = true := by simp [endsPadLoop, hc]
      refine ⟨_, _, rfl, ?_⟩
      rw [List.filter_cons_of_pos hf]
      simp

theorem fillPadding_enough :
    ∀ (n : Nat) (rand : List Int), n ≤ (rand.filter endsPadLoop).length →
      ∃ t, fillPadding n rand = some t := by
  intro n
  induction n with
  | zero => intro rand _; exact ⟨_, rfl⟩
  | succ n ih =>
    intro rand h
    obtain ⟨b, rest, h1, h2⟩ := randomPadByte_enough rand (by omega)
    obtain ⟨t, ht⟩ := ih rest (by omega)
    exact ⟨(b :: t.1, t.2), by rw [fillPadding, h1]; simp only []; rw [ht]⟩

theorem dropWhile_append_of_all {α : Type} (f : α → Bool) :
    ∀ (l r : List α), (∀ x ∈ l, f x = true) → (l ++ r).dropWhile f = r.dropWhile f := by
  intro l
  induction l with
  | nil => intro r _; rfl
  | cons a t ih =>
    intro r h
    rw [List.cons_append, List.dropWhile_cons, if_pos (h a (List.mem_cons_self _ _))]
    exact ih r (fun x hx => h x (List.mem_cons_of_mem _ hx))

/-- The beginning of the file is an offset in the file. -/
theorem InFile_zero (w : World) : InFile w 0 := by
  unfold InFile FileSize
  omega

/-- The begin and the end of every line of the view lie in the file when the entries of
`LineOffset` do; an index outside `LineOffset` reads as 0. -/
theorem LinesInFile_at (w : World) (s : CViewerWindow) (h : LinesInFile w s) (k : Int) :
    InFile w (LineOffsetAt s (3 * k)) ∧ InFile w (LineOffsetAt s (3 * k + 1)) := by
  unfold LineOffsetAt
  constructor
  · by_cases hi : (3 * k).toNat < s.LineOffset.length
    · exact h _ hi (by omega)
    · rw [List.getD_eq_default _ _ (by omega)]
      exact InFile_zero w
  · by_cases hi : (3 * k + 1).toNat < s.LineOffset.length
    · exact h _ hi (by omega)
    · rw [List.getD_eq_default _ _ (by omega)]
      exact InFile_zero w

/-- A handler that keeps the selection in the sense of `SelectionKept` preserves
`SelectionInFile`. -/
theorem SelectionKept_inFile (w : World) (s s' : CViewerWindow) (h : SelectionKept w s s')
    (hs : SelectionInFile w s) : SelectionInFile w s' := by
  obtain ⟨h1, h2⟩ := h
  obtain ⟨hs1, hs2⟩ := hs
  constructor
  · rcases h1 with h1 | h1
    · rw [h1]; exact hs1
    · exact Or.inr h1
  · rcases h2 with h2 | h2 | h2
    · rw [h2]; exact hs2
    · rw [h2]; exact hs1
    · exact Or.inr h2

theorem SelectionKept_refl (w : World) (s : CViewerWindow) : SelectionKept w s s :=
  ⟨Or.inl rfl, Or.inl rfl⟩

theorem UpdateWindow_EndSelection (w : World)
    (hP : ∀ s, (w.Paint s).EndSelection = s.EndSelection) (s : CViewerWindow) :
    (UpdateWindow w s).EndSelection = s.EndSelection := by
  unfold UpdateWindow
  split_ifs
  · rfl
  · exact hP s

theorem EnsureXVisibleInView_EndSelection (w : World) (x : Int) (p : Bool) (n : Int)
    (i : Bool) (m : Int) (s : CViewerWindow) :
    (EnsureXVisibleInView w x p n i m s).1.EndSelection = s.EndSelection := by
  unfold EnsureXVisibleInView
  simp only []
  split_ifs <;> rfl

theorem GetXFromOffsetInText_EndSelection (w : World) (o l b c e : Int)
    (s : CViewerWindow) :
    (GetXFromOffsetInText w o l b c e s).1.EndSelection = s.EndSelection := by
  unfold GetXFromOffsetInText
  simp only []
  split_ifs <;> rfl

theorem ScrollViewLineUp_EndSelection (w : World)
    (hP : ∀ s, (w.Paint s).EndSelection = s.EndSelection) (c : Int) (r : Bool)
    (s : CViewerWindow) :
    (ScrollViewLineUp w c r s).1.EndSelection = s.EndSelection := by
  unfold ScrollViewLineUp
  simp only []
  split_ifs <;> simp only [UpdateWindow_EndSelection w hP, FatalFileErrorOccured]

theorem ScrollViewLineDown_EndSelection (w : World)
    (hP : ∀ s, (w.Paint s).EndSelection = s.EndSelection) (s : CViewerWindow) :
    (ScrollViewLineDown w s).1.EndSelection = s.EndSelection := by
  unfold ScrollViewLineDown
  simp only []
  split_ifs <;> simp only [UpdateWindow_EndSelection w hP]

theorem scrollDownToEndSel_EndSelection (w : World)
    (hP : ∀ s, (w.Paint s).EndSelection = s.EndSelection) (x : Int) (s : CViewerWindow) :
    (scrollDownToEndSel w x s).EndSelection = s.EndSelection := by
  unfold scrollDownToEndSel
  simp only []
  split_ifs <;>
    simp only [UpdateWindow_EndSelection w hP, ScrollViewLineDown_EndSelection w hP,
      EnsureXVisibleInView_EndSelection]

theorem locateEndSel_EndSelection (w : World)
    (hP : ∀ s, (w.Paint s).EndSelection = s.EndSelection) (s : CViewerWindow) :
    (locateEndSel w s).1.EndSelection = s.EndSelection := by
  unfold locateEndSel
  simp only []
  split_ifs <;> simp only [UpdateWindow_EndSelection w hP, FatalFileErrorOccured]

theorem extSelFinish_EndSelection (w : World)
    (hP : ∀ s, (w.Paint s).EndSelection = s.EndSelection) (o : Int) (r : ExtSelStep) :
    (extSelFinish w o r).1.EndSelection = r.1.EndSelection := by
  unfold extSelFinish
  simp only []
  split_ifs <;>
    simp only [UpdateWindow_EndSelection w hP, EnsureXVisibleInView_EndSelection]

theorem fileBegin_EndSelection (s : CViewerWindow) (f : NavFlags) :
    (fileBegin s f).1.EndSelection = s.EndSelection := by
  unfold fileBegin
  simp only []
  split_ifs <;> rfl

theorem fileEnd_EndSelection (x : Int) (s : CViewerWindow) (f : NavFlags) :
    (fileEnd x s f).1.EndSelection = s.EndSelection := by
  unfold fileEnd
  simp only []
  split_ifs <;> rfl

theorem scrollLeft_EndSelection (w : World) (f : Bool) (s : CViewerWindow) :
    (scrollLeft w f s).1.EndSelection = s.EndSelection := by
  unfold scrollLeft
  simp only []
  split_ifs <;> rfl

theorem scrollRight_EndSelection (w : World) (f : Bool) (s : CViewerWindow) :
    (scrollRight w f s).1.EndSelection = s.EndSelection := by
  unfold scrollRight
  simp only []
  split_ifs <;> rfl

theorem navFinish_EndSelection (w : World)
    (hP : ∀ s, (w.Paint s).EndSelection = s.EndSelection) (t : CViewerWindow × NavFlags) :
    (navFinish w t).EndSelection = t.1.EndSelection := by
  unfold navFinish
  simp only []
  split_ifs <;> simp only [UpdateWindow_EndSelection w hP]

/-- The four scroll commands that the dragging sends leave `EndSelection` alone. -/
theorem navCommand_scroll_EndSelection (w : World)
    (hP : ∀ s, (w.Paint s).EndSelection = s.EndSelection) (cmd : NavCmd)
    (hcmd : cmd = NavCmd.CM_LINEUP ∨ cmd = NavCmd.CM_LINEDOWN ∨ cmd = NavCmd.CM_LEFT ∨
      cmd = NavCmd.CM_RIGHT) (s : CViewerWindow) :
    (navCommand w cmd s).EndSelection = s.EndSelection := by
  unfold navCommand
  split_ifs
  · rfl
  · rw [navFinish_EndSelection w hP]
    rcases hcmd with rfl | rfl | rfl | rfl
    · unfold navSwitch
      simp only []
      split_ifs <;> exact ScrollViewLineUp_EndSelection w hP _ _ s
    · exact ScrollViewLineDown_EndSelection w hP s
    · exact scrollLeft_EndSelection w _ s
    · exact scrollRight_EndSelection w _ s
  · rfl

theorem dragScrollY_EndSelection (w : World)
    (hP : ∀ s, (w.Paint s).EndSelection = s.EndSelection) (y : Int) (s : CViewerWindow) :
    (dragScrollY w y s).1.EndSelection = s.EndSelection := by
  have hu := navCommand_scroll_EndSelection w hP NavCmd.CM_LINEUP (Or.inl rfl)
  have hd := navCommand_scroll_EndSelection w hP NavCmd.CM_LINEDOWN (Or.inr (Or.inl rfl))
  unfold dragScrollY
  simp only []
  split_ifs <;> simp only [hu, hd]

theorem dragScrollX_EndSelection (w : World)
    (hP : ∀ s, (w.Paint s).EndSelection = s.EndSelection) (x : Int) (s : CViewerWindow) :
    (dragScrollX w x s).EndSelection = s.EndSelection := by
  have hl := navCommand_scroll_EndSelection w hP NavCmd.CM_LEFT (Or.inr (Or.inr (Or.inl rfl)))
  have hr := navCommand_scroll_EndSelection w hP NavCmd.CM_RIGHT (Or.inr (Or.inr (Or.inr rfl)))
  unfold dragScrollX
  simp only []
  split_ifs <;> simp only [hl, hr]

/-- A click keeps the selection: it leaves it, empties it at its start, or starts a new one
at the offset that `GetOffset` returned. -/
theorem OnLButtonDown_SelectionKept (w : World) (c : Click) (s : CViewerWindow)
    (hoff : c.offDrag.ret = true → c.offDrag.fatalErr = false → InFile w c.offDrag.off) :
    SelectionKept w s (OnLButtonDown c s) := by
  unfold OnLButtonDown
  simp only []
  split_ifs with h1 h2 h3 h4 h5 h6 h7 h8 h9
  all_goals first
    | exact SelectionKept_refl w s
    | exact ⟨Or.inl rfl, Or.inl rfl⟩
    | exact ⟨Or.inl rfl, Or.inr (Or.inl rfl)⟩
    | skip
  have hg : InFile w c.offDrag.off := by
    rcases h6 with h | h
    · exact absurd h h7
    · exact hoff h.1 (by simpa using h.2)
  exact ⟨Or.inr hg, Or.inr (Or.inr hg)⟩

/-- Dragging keeps the selection: it moves only `EndSelection`, to the offset that
`GetOffset` returned. -/
theorem OnMouseMove_SelectionKept (w : World)
    (hP : ∀ s, (w.Paint s).StartSelection = s.StartSelection ∧
      (w.Paint s).EndSelection = s.EndSelection)
    (m : MouseMove) (s : CViewerWindow)
    (hoff : m.off.ret = true → m.off.fatalErr = false → InFile w m.off.off) :
    SelectionKept w s (OnMouseMove w m s) := by
  refine ⟨Or.inl (OnMouseMove_StartSelection w (fun s => (hP s).1) m s), ?_⟩
  have hx := dragScrollX_EndSelection w (fun s => (hP s).2)
  have hy := dragScrollY_EndSelection w (fun s => (hP s).2)
  unfold OnMouseMove
  simp only []
  split_ifs with h1 h2 h3 h4
  all_goals first
    | exact Or.inl rfl
    | exact Or.inr (Or.inr (hoff (by tauto) (by
        cases hf : m.off.fatalErr
        · rfl
        · exfalso; tauto)))
    | simp only [FatalFileErrorOccured, hx, hy, true_or]

/-- Selecting everything selects the file from 0 to `FileSize`. -/
theorem selectAllText_SelectionKept (w : World)
    (hP : ∀ s, (w.Paint s).StartSelection = s.StartSelection ∧
      (w.Paint s).EndSelection = s.EndSelection) (s : CViewerWindow) :
    SelectionKept w s (selectAllText w s) := by
  unfold selectAllText
  split_ifs
  · exact SelectionKept_refl w s
  · rw [SelectionKept, UpdateWindow_StartSelection w (fun s => (hP s).1),
      UpdateWindow_EndSelection w (fun s => (hP s).2)]
    have h0 := InFile_zero w
    exact ⟨Or.inr h0, Or.inr (Or.inr ⟨h0.2, le_refl _⟩)⟩

/-- A view scrolled up by a line without repainting starts at an offset that is not
negative, and hands back what `ZeroLineSize` wrote for the old `SeekY`. -/
theorem ScrollViewLineUp_scrolled (w : World) (c : Int) (s : CViewerWindow)
    (h : (ScrollViewLineUp w c false s).2.scrolled = true) :
    0 ≤ (ScrollViewLineUp w c false s).1.SeekY ∧
    (ScrollViewLineUp w c false s).2.first = w.ZeroLineFirst s.SeekY := by
  unfold ScrollViewLineUp at h ⊢
  by_cases h0 : s.SeekY > 0
  · rw [if_pos h0] at h ⊢
    generalize w.ZeroLineSize s.SeekY = z at h ⊢
    obtain ⟨v, fe, ex⟩ := z
    cases fe
    · simp only [Bool.false_eq_true, if_false, false_or] at h ⊢
      split_ifs at h ⊢
      all_goals exact ⟨by simp only []; omega, rfl⟩
    · simp only [true_or, if_true] at h
      exact absurd h (by simp)
  · rw [if_neg h0] at h
    exact absurd h (by simp)

/-- The part `if (scrollUp)` of `CM_EXTSEL_LEFT` and `CM_EXTSEL_HOME` leaves `EndSelection`
or moves it to the end of the line that `ZeroLineSize` found above the view. -/
theorem extSelScrollUp_EndSelection (w : World)
    (hP : ∀ s, (w.Paint s).EndSelection = s.EndSelection)
    (hZ : ∀ y, (w.ZeroLineFirst y).endOff ≤ FileSize w) (d : Bool) (x : Int)
    (s : CViewerWindow) :
    (extSelScrollUp w d x s).1.EndSelection = s.EndSelection ∨
      InFile w (extSelScrollUp w d x s).1.EndSelection := by
  have hu := ScrollViewLineUp_EndSelection w hP (-1) false s
  have hsc := ScrollViewLineUp_scrolled w (-1) s
  unfold extSelScrollUp
  generalize ScrollViewLineUp w (-1) false s = u at hu hsc ⊢
  simp only []
  split_ifs with h1 h2 h3 h4 h5 h6 h7
  all_goals simp only [UpdateWindow_EndSelection w hP, EnsureXVisibleInView_EndSelection,
    GetXFromOffsetInText_EndSelection, hu]
  all_goals first
    | exact Or.inl trivial
    | (have hz := hZ s.SeekY
       rw [← (hsc h2).2] at hz
       have h0 := (hsc h2).1
       unfold InFile
       right
       omega)

/-- The commands `CM_EXTSEL_LEFT` and `CM_EXTSEL_HOME` move `EndSelection` to an offset in
the file, when the lines of the view lie in the file. -/
theorem extSelLeftHome_EndSelection (w : World)
    (hP : ∀ s, (w.Paint s).EndSelection = s.EndSelection)
    (hZ : ∀ y, (w.ZeroLineFirst y).endOff ≤ FileSize w) (home : Bool) (i : Int)
    (s : CViewerWindow) (hL : LinesInFile w s)
    (hE : s.EndSelection = -1 ∨ InFile w s.EndSelection) :
    (extSelLeftHome w home i s).1.EndSelection = s.EndSelection ∨
      InFile w (extSelLeftHome w home i s).1.EndSelection := by
  have hb := (LinesInFile_at w s hL i).1
  have he := (LinesInFile_at w s hL (i - 1)).2
  have hs := extSelScrollUp_EndSelection w hP hZ
  unfold extSelLeftHome
  by_cases h1 : home = true ∨ s.EndSelection > LineOffsetAt s (3 * i)
  · rw [if_pos h1]
    have key : InFile w (if home = true then LineOffsetAt s (3 * i)
        else s.EndSelection - 1) := by
      unfold InFile at hb hE ⊢
      split_ifs with hh
      · exact hb
      · rcases h1 with h1 | h1
        · exact absurd h1 hh
        · omega
    simp only []
    generalize (if home = true then LineOffsetAt s (3 * i) else s.EndSelection - 1) = v
      at key ⊢
    split_ifs
    all_goals try simp only [GetXFromOffsetInText_EndSelection]
    all_goals first
      | exact Or.inr key
      | (rcases hs true (-1) { s with EndSelection := v } with h | h
         · exact Or.inr (h ▸ key)
         · exact Or.inr h)
  · rw [if_neg h1]
    have key : InFile w (if s.WrapText = true ∧
        LineOffsetAt s (3 * (i - 1) + 1) = s.EndSelection ∧
        LineOffsetAt s (3 * (i - 1) + 1) > 0 then LineOffsetAt s (3 * (i - 1) + 1) - 1
        else LineOffsetAt s (3 * (i - 1) + 1)) := by
      unfold InFile at he ⊢
      split_ifs <;> omega
    simp only []
    generalize (if s.WrapText = true ∧
        LineOffsetAt s (3 * (i - 1) + 1) = s.EndSelection ∧
        LineOffsetAt s (3 * (i - 1) + 1) > 0 then LineOffsetAt s (3 * (i - 1) + 1) - 1
        else LineOffsetAt s (3 * (i - 1) + 1)) = v at key ⊢
    split_ifs
    all_goals try simp only [GetXFromOffsetInText_EndSelection]
    all_goals first
      | exact Or.inr key
      | exact hs _ _ s

/-- The commands `CM_EXTSEL_RIGHT` and `CM_EXTSEL_END` move `EndSelection` to an offset in
the file, when the lines of the view lie in the file. -/
theorem extSelRightEnd_EndSelection (w : World)
    (hP : ∀ s, (w.Paint s).EndSelection = s.EndSelection) (toEnd : Bool) (i : Int)
    (s : CViewerWindow) (hL : LinesInFile w s)
    (hE : s.EndSelection = -1 ∨ InFile w s.EndSelection) :
    (extSelRightEnd w toEnd i s).1.EndSelection = s.EndSelection ∨
      InFile w (extSelRightEnd w toEnd i s).1.EndSelection := by
  have he := (LinesInFile_at w s hL i).2
  have hb := (LinesInFile_at w s hL (i + 1)).1
  have hn := (LinesInFile_at w s hL (i + 1)).2
  unfold extSelRightEnd
  by_cases h1 : toEnd = true ∨ s.EndSelection < LineOffsetAt s (3 * i + 1)
  · rw [if_pos h1]
    have key : InFile w (if toEnd = true then LineOffsetAt s (3 * i + 1)
        else s.EndSelection + 1) := by
      unfold InFile at he hE ⊢
      split_ifs with hh
      · exact he
      · rcases h1 with h1 | h1
        · exact absurd h1 hh
        · omega
    simp only []
    generalize (if toEnd = true then LineOffsetAt s (3 * i + 1) else s.EndSelection + 1) = v
      at key ⊢
    split_ifs
    all_goals simp only [GetXFromOffsetInText_EndSelection,
      scrollDownToEndSel_EndSelection w hP]
    all_goals exact Or.inr key
  · rw [if_neg h1]
    have key : InFile w (if s.WrapText = true ∧
        LineOffsetAt s (3 * (i + 1)) = s.EndSelection ∧
        LineOffsetAt s (3 * (i + 1)) < LineOffsetAt s (3 * (i + 1) + 1)
        then LineOffsetAt s (3 * (i + 1)) + 1 else LineOffsetAt s (3 * (i + 1))) := by
      unfold InFile at hb hn ⊢
      split_ifs <;> omega
    simp only []
    generalize (if s.WrapText = true ∧
        LineOffsetAt s (3 * (i + 1)) = s.EndSelection ∧
        LineOffsetAt s (3 * (i + 1)) < LineOffsetAt s (3 * (i + 1) + 1)
        then LineOffsetAt s (3 * (i + 1)) + 1 else LineOffsetAt s (3 * (i + 1))) = v at key ⊢
    split_ifs
    all_goals simp only [GetXFromOffsetInText_EndSelection,
      scrollDownToEndSel_EndSelection w hP]
    all_goals first
      | exact Or.inr key
      | exact Or.inl trivial

theorem UpdateWindow_LinesInFile (w : World)
    (hL : ∀ s, LinesInFile w s → LinesInFile w (w.Paint s)) (s : CViewerWindow)
    (h : LinesInFile w s) : LinesInFile w (UpdateWindow w s) := by
  unfold UpdateWindow
  split_ifs
  · exact h
  · exact hL s h

/-- Looking for the line of the selection end leaves the lines of the view in the file. -/
theorem locateEndSel_LinesInFile (w : World)
    (hL : ∀ s, LinesInFile w s → LinesInFile w (w.Paint s)) (s : CViewerWindow)
    (h : LinesInFile w s) : LinesInFile w (locateEndSel w s).1 := by
  unfold locateEndSel
  simp only []
  split_ifs
  all_goals first
    | exact h
    | exact UpdateWindow_LinesInFile w hL _ h

/-- The commands `CM_EXTSEL_LEFT`, `_RIGHT`, `_HOME` and `_END` leave `EndSelection` or move
it to an offset in the file. -/
theorem extSelCommand_EndSelection (w : World)
    (hP : ∀ s, (w.Paint s).EndSelection = s.EndSelection)
    (hL : ∀ s, LinesInFile w s → LinesInFile w (w.Paint s))
    (hZ : ∀ y, (w.ZeroLineFirst y).endOff ≤ FileSize w) (cmd : NavCmd)
    (hcmd : cmd = NavCmd.CM_EXTSEL_LEFT ∨ cmd = NavCmd.CM_EXTSEL_RIGHT ∨
      cmd = NavCmd.CM_EXTSEL_HOME ∨ cmd = NavCmd.CM_EXTSEL_END)
    (s : CViewerWindow) (hl : LinesInFile w s)
    (hE : s.EndSelection = -1 ∨ InFile w s.EndSelection) :
    (extSelCommand w cmd s).1.EndSelection = s.EndSelection ∨
      InFile w (extSelCommand w cmd s).1.EndSelection := by
  unfold extSelCommand
  simp only [if_pos hcmd]
  generalize hs0 : ({ s with EndSelectionPrefX := -1 } : CViewerWindow) = s0
  have e0 : s0.EndSelection = s.EndSelection := by rw [← hs0]
  have l0 : LinesInFile w s0 := by rw [← hs0]; exact hl
  have e1 := locateEndSel_EndSelection w hP s0
  have l1 := locateEndSel_LinesInFile w hL s0 l0
  generalize locateEndSel w s0 = l at e1 l1 ⊢
  have hE1 : l.1.EndSelection = -1 ∨ InFile w l.1.EndSelection := by
    rw [e1, e0]; exact hE
  split_ifs
  · exact Or.inl e0
  · exact Or.inl (e1.trans e0)
  · exact Or.inl (e1.trans e0)
  · rw [extSelFinish_EndSelection w hP]
    rcases hcmd with rfl | rfl | rfl | rfl
    · rcases extSelLeftHome_EndSelection w hP hZ false l.2.1 l.1 l1 hE1 with h | h
      · exact Or.inl (h.trans (e1.trans e0))
      · exact Or.inr h
    · rcases extSelRightEnd_EndSelection w hP false l.2.1 l.1 l1 hE1 with h | h
      · exact Or.inl (h.trans (e1.trans e0))
      · exact Or.inr h
    · rcases extSelLeftHome_EndSelection w hP hZ true l.2.1 l.1 l1 hE1 with h | h
      · exact Or.inl (h.trans (e1.trans e0))
      · exact Or.inr h
    · rcases extSelRightEnd_EndSelection w hP true l.2.1 l.1 l1 hE1 with h | h
      · exact Or.inl (h.trans (e1.trans e0))
      · exact Or.inr h

theorem extSelFileBeg_EndSelection (w : World) (s : CViewerWindow) :
    (extSelFileBeg s).1.EndSelection = s.EndSelection ∨
      InFile w (extSelFileBeg s).1.EndSelection := by
  unfold extSelFileBeg
  split_ifs
  all_goals first
    | exact Or.inl rfl
    | (rw [fileBegin_EndSelection]
       exact Or.inr (InFile_zero w))

theorem fileEndCommand_EndSelection (w : World) (s : CViewerWindow) :
    (fileEndCommand w true s).1.EndSelection = s.EndSelection ∨
      InFile w (fileEndCommand w true s).1.EndSelection := by
  unfold fileEndCommand
  simp only [if_true]
  split_ifs
  all_goals first
    | exact Or.inl rfl
    | (rw [fileEnd_EndSelection]
       exact Or.inr ⟨(InFile_zero w).2, le_refl _⟩)

/-- The commands that extend the selection to the left, the right, the beginning or end of
the line or of the file keep `StartSelection` and leave `EndSelection` or move it to an
offset in the file. -/
theorem navCommand_extends_SelectionKept (w : World)
    (hP : ∀ s, (w.Paint s).StartSelection = s.StartSelection ∧
      (w.Paint s).EndSelection = s.EndSelection)
    (hL : ∀ s, LinesInFile w s → LinesInFile w (w.Paint s))
    (hZ : ∀ y, (w.ZeroLineFirst y).endOff ≤ FileSize w) (cmd : NavCmd)
    (hcmd : extendsSelection cmd = true) (s : CViewerWindow) (hl : LinesInFile w s)
    (hE : SelectionInFile w s) :
    SelectionKept w s (navCommand w cmd s) := by
  refine ⟨Or.inl (navCommand_StartSelection w (fun s => (hP s).1) cmd s), ?_⟩
  have key : (navSwitch w cmd s).1.EndSelection = s.EndSelection ∨
      InFile w (navSwitch w cmd s).1.EndSelection := by
    have hx := extSelCommand_EndSelection w (fun s => (hP s).2) hL hZ
    cases cmd
    all_goals first
      | exact absurd hcmd (by decide)
      | exact extSelFileBeg_EndSelection w s
      | exact fileEndCommand_EndSelection w s
      | exact hx _ (by simp) s hl hE.2
  unfold navCommand
  split_ifs
  · exact Or.inl rfl
  · rw [navFinish_EndSelection w (fun s => (hP s).2)]
    rcases key with h | h
    · exact Or.inl h
    · exact Or.inr (Or.inr h)
  · exact Or.inl rfl

/-- What `SearchForward` returns lies inside the text. -/
theorem SearchForward_bounds (w : World) (cs : Bool) (pat text : List Nat)
    (h : SearchForward w cs pat text ≠ -1) :
    0 ≤ SearchForward w cs pat text ∧
      SearchForward w cs pat text + pat.length ≤ text.length := by
  unfold SearchForward at h ⊢
  rcases searchUp_spec w cs pat text (text.length + 1 - pat.length) 0
    with ⟨e, -⟩ | ⟨j, e, -, hj, hm, -⟩
  · exact absurd e h
  · have := matchHere_length w cs pat _ hm
    simp only [List.length_drop] at this
    rw [e]
    omega

/-- What `SearchBackward` returns lies inside the text. -/
theorem SearchBackward_bounds (w : World) (cs : Bool) (pat text : List Nat)
    (h : SearchBackward w cs pat text ≠ -1) :
    0 ≤ SearchBackward w cs pat text ∧
      SearchBackward w cs pat text + pat.length ≤ text.length := by
  unfold SearchBackward at h ⊢
  rcases searchDown_spec w cs pat text (text.length + 1 - pat.length)
    with ⟨e, -⟩ | ⟨j, e, hj, hm, -⟩
  · exact absurd e h
  · have := matchHere_length w cs pat _ hm
    simp only [List.length_drop] at this
    rw [e]
    omega

/-- A chunk that begins at `off` ends in the file. -/
theorem chunk_in_file (w : World) (off len : Int) (h0 : 0 ≤ off) :
    ((chunk w off len).length : Int) ≤ max 0 (FileSize w - off) := by
  unfold chunk FileSize
  simp only [List.length_take, List.length_drop]
  omega

/-- The forward literal loop leaves the selection or selects an occurrence in the file. -/
theorem literalForward_SelectionKept (w : World) :
    ∀ (n : Nat) (s : CViewerWindow) (r : FindRun) (s' : CViewerWindow) (r' : FindRun),
      1 ≤ s.SearchData.val.length → 0 ≤ s.FindOffset →
      literalForward w n s r = some (s', r') → SelectionKept w s s' := by
  intro n
  induction n with
  | zero => intro s r s' r' _ _ h; simp [literalForward] at h
  | succ n ih =>
    intro s r s' r' hm hc h
    rw [literalForward] at h
    simp only [] at h
    generalize Prepare w r.reads s.FindOffset FIND_LINE_LEN = p at h
    have hb := SearchForward_bounds w s.FindDialog.CaseSensitive s.SearchData.val
      (chunk w s.FindOffset p.1)
    have hk := chunk_in_file w s.FindOffset p.1 hc
    by_cases h1 : p.2 = true
    · rw [if_pos h1] at h
      obtain ⟨rfl, rfl⟩ := Prod.mk.inj (Option.some.inj h)
      exact SelectionKept_refl w _
    · rw [if_neg h1] at h
      by_cases h2 : p.1 ≥ (s.SearchData.val.length : Int)
      · rw [if_pos h2] at h
        generalize SearchForward w s.FindDialog.CaseSensitive s.SearchData.val
          (chunk w s.FindOffset p.1) = found at h hb
        generalize (if found ≠ -1 ∧ s.FindDialog.WholeWords = true then
            wholeWordsLiteral w (r.reads + 1) (s.FindOffset + found) s.SearchData.val.length
          else (false, false, r.reads + 1)) = ww at h
        by_cases h3 : ww.2.1 = true
        · rw [if_pos h3] at h
          obtain ⟨rfl, rfl⟩ := Prod.mk.inj (Option.some.inj h)
          exact SelectionKept_refl w _
        · rw [if_neg h3] at h
          by_cases h4 : ww.1 = true
          · simp only [h4, if_true, ne_eq, not_true_eq_false, if_false] at h
            split_ifs at h with h5 h6
            · obtain ⟨rfl, rfl⟩ := Prod.mk.inj (Option.some.inj h)
              exact SelectionKept_refl w _
            · have hi := ih _ _ s' r' (by exact hm) (by simp only []; omega) h; exact hi
            · obtain ⟨rfl, rfl⟩ := Prod.mk.inj (Option.some.inj h)
              exact SelectionKept_refl w _
          · simp only [h4, Bool.false_eq_true, if_false] at h
            by_cases h5 : found = -1
            · simp only [h5, ne_eq, not_true_eq_false, if_false] at h
              split_ifs at h with h6 h7
              · obtain ⟨rfl, rfl⟩ := Prod.mk.inj (Option.some.inj h)
                exact SelectionKept_refl w _
              · have hi := ih _ _ s' r' (by exact hm) (by simp only []; omega) h; exact hi
              · obtain ⟨rfl, rfl⟩ := Prod.mk.inj (Option.some.inj h)
                exact SelectionKept_refl w _
            · simp only [ne_eq, h5, not_false_eq_true, if_true] at h
              obtain ⟨rfl, rfl⟩ := Prod.mk.inj (Option.some.inj h)
              have hb' := hb h5
              unfold SelectionKept InFile
              simp only []
              refine ⟨Or.inr ⟨by omega, by omega⟩, Or.inr (Or.inr ⟨by omega, by omega⟩)⟩
      · rw [if_neg h2] at h
        obtain ⟨rfl, rfl⟩ := Prod.mk.inj (Option.some.inj h)
        exact SelectionKept_refl w _

/-- The backward literal loop leaves the selection or selects an occurrence in the file. -/
theorem literalBackward_SelectionKept (w : World) :
    ∀ (n : Nat) (s : CViewerWindow) (r : FindRun) (s' : CViewerWindow) (r' : FindRun),
      1 ≤ s.SearchData.val.length →
      literalBackward w n s r = some (s', r') → SelectionKept w s s' := by
  intro n
  induction n with
  | zero => intro s r s' r' _ h; simp [literalBackward] at h
  | succ n ih =>
    intro s r s' r' hm h
    rw [literalBackward] at h
    simp only [] at h
    by_cases h0 : s.FindOffset > 0
    · rw [if_pos h0] at h
      have hoff : 0 ≤ (if s.FindOffset - FIND_LINE_LEN < 0 then (0 : Int)
        else s.FindOffset - FIND_LINE_LEN) := by split_ifs <;> omega
      generalize (if s.FindOffset - FIND_LINE_LEN < 0 then (0 : Int)
        else s.FindOffset - FIND_LINE_LEN) = off at h hoff
      generalize Prepare w r.reads off _ = p at h
      have hb := SearchBackward_bounds w s.FindDialog.CaseSensitive s.SearchData.val
        (chunk w off p.1)
      have hk := chunk_in_file w off p.1 hoff
      by_cases h1 : p.2 = true
      · rw [if_pos h1] at h
        obtain ⟨rfl, rfl⟩ := Prod.mk.inj (Option.some.inj h)
        exact SelectionKept_refl w _
      · rw [if_neg h1] at h
        by_cases h2 : p.1 ≥ (s.SearchData.val.length : Int)
        · rw [if_pos h2] at h
          generalize SearchBackward w s.FindDialog.CaseSensitive s.SearchData.val
            (chunk w off p.1) = found at h hb
          generalize (if found ≠ -1 ∧ s.FindDialog.WholeWords = true then
              wholeWordsLiteral w (r.reads + 1) (off + found) s.SearchData.val.length
            else (false, false, r.reads + 1)) = ww at h
          by_cases h3 : ww.2.1 = true
          · rw [if_pos h3] at h
            obtain ⟨rfl, rfl⟩ := Prod.mk.inj (Option.some.inj h)
            exact SelectionKept_refl w _
          · rw [if_neg h3] at h
            by_cases h4 : ww.1 = true
            · simp only [h4, if_true, ne_eq, not_true_eq_false, if_false] at h
              split_ifs at h with h5 h6
              · obtain ⟨rfl, rfl⟩ := Prod.mk.inj (Option.some.inj h)
                exact SelectionKept_refl w _
              · have hi := ih _ _ s' r' (by exact hm) h; exact hi
              · obtain ⟨rfl, rfl⟩ := Prod.mk.inj (Option.some.inj h)
                exact SelectionKept_refl w _
            · simp only [h4, Bool.false_eq_true, if_false] at h
              by_cases h5 : found = -1
              · simp only [h5, ne_eq, not_true_eq_false, if_false] at h
                split_ifs at h with h6 h7
                · obtain ⟨rfl, rfl⟩ := Prod.mk.inj (Option.some.inj h)
                  exact SelectionKept_refl w _
                · have hi := ih _ _ s' r' (by exact hm) h; exact hi
                · obtain ⟨rfl, rfl⟩ := Prod.mk.inj (Option.some.inj h)
                  exact SelectionKept_refl w _
              · simp only [ne_eq, h5, not_false_eq_true, if_true] at h
                obtain ⟨rfl, rfl⟩ := Prod.mk.inj (Option.some.inj h)
                have hb' := hb h5
                unfold SelectionKept InFile
                simp only []
                exact ⟨Or.inr ⟨by omega, by omega⟩,
                  Or.inr (Or.inr ⟨by omega, by omega⟩)⟩
        · rw [if_neg h2] at h
          obtain ⟨rfl, rfl⟩ := Prod.mk.inj (Option.some.inj h)
          exact SelectionKept_refl w _
    · rw [if_neg h0] at h
      obtain ⟨rfl, rfl⟩ := Prod.mk.inj (Option.some.inj h)
      exact SelectionKept_refl w _

/-- The body of the forward regular-expression loop for a line that begins in the file
leaves the selection or selects a match in the file, when the engine returns its matches
inside the line. -/
theorem regexpForwardLine_SelectionKept (w : World)
    (hforw : ∀ line start, (w.RegExpSearchForward line start).1 ≠ -1 →
      0 ≤ (w.RegExpSearchForward line start).1 ∧ 0 ≤ (w.RegExpSearchForward line start).2 ∧
      (w.RegExpSearchForward line start).1 + (w.RegExpSearchForward line start).2
        ≤ line.length)
    (fuel : Nat) (lineBegin lineEnd : Int) (s : CViewerWindow) (r : FindRun)
    (s' : CViewerWindow) (r' : FindRun) (brk : Bool) (hf : r.found = -1)
    (h0 : 0 ≤ lineBegin)
    (h : regexpForwardLine w fuel lineBegin lineEnd s r = some (s', r', brk)) :
    SelectionKept w s s' := by
  rcases regexpForwardLine_shape w fuel lineBegin lineEnd s r s' r' brk hf h with
    ⟨-, rfl, -⟩ |
    ⟨-, ⟨rfl, -⟩ | ⟨rfl, -⟩ | ⟨rfl, -⟩ | ⟨⟨start, foundLen, -, b2, b3, b4, rfl⟩, -⟩⟩
  · exact SelectionKept_refl w _
  · exact SelectionKept_refl w _
  · exact SelectionKept_refl w _
  · exact SelectionKept_refl w _
  · have hk := chunk_in_file w lineBegin (lineEnd - lineBegin) h0
    have he := hforw (chunk w lineBegin (lineEnd - lineBegin)) start
    rw [b2] at he
    have he' := he b3
    simp only [] at he'
    unfold SelectionKept InFile
    simp only []
    exact ⟨Or.inr ⟨by omega, by omega⟩, Or.inr (Or.inr ⟨by omega, by omega⟩)⟩

/-- The body of the backward regular-expression loop for a line that begins in the file
leaves the selection or selects a match in the file, when the engine returns its matches
inside the line. -/
theorem regexpBackwardLine_SelectionKept (w : World)
    (hback : ∀ line length, (w.RegExpSearchBackward line length).1 ≠ -1 →
      0 ≤ (w.RegExpSearchBackward line length).1 ∧
      0 ≤ (w.RegExpSearchBackward line length).2 ∧
      (w.RegExpSearchBackward line length).1 + (w.RegExpSearchBackward line length).2
        ≤ line.length)
    (fuel : Nat) (lineBegin lineEnd : Int) (s : CViewerWindow) (r : FindRun)
    (s' : CViewerWindow) (r' : FindRun) (brk : Bool) (hf : r.found = -1)
    (h0 : 0 ≤ lineBegin)
    (h : regexpBackwardLine w fuel lineBegin lineEnd s r = some (s', r', brk)) :
    SelectionKept w s s' := by
  rcases regexpBackwardLine_shape w fuel lineBegin lineEnd s r s' r' brk hf h with
    ⟨-, rfl, -⟩ |
    ⟨-, ⟨rfl, -⟩ | ⟨rfl, -⟩ | ⟨rfl, -⟩ | ⟨⟨start, foundLen, -, b2, b3, b4, rfl⟩, -⟩⟩
  · exact SelectionKept_refl w _
  · exact SelectionKept_refl w _
  · exact SelectionKept_refl w _
  · exact SelectionKept_refl w _
  · have hk := chunk_in_file w lineBegin (lineEnd - lineBegin) h0
    have he := hback (chunk w lineBegin (lineEnd - lineBegin)) start
    rw [b2] at he
    have he' := he b3
    simp only [] at he'
    unfold SelectionKept InFile
    simp only []
    exact ⟨Or.inr ⟨by omega, by omega⟩, Or.inr (Or.inr ⟨by omega, by omega⟩)⟩

/-- The forward regular-expression loop, started at a line beginning in the file, leaves
the selection or selects a match in the file. -/
theorem regexpForward_SelectionKept (w : World)
    (hforw : ∀ line start, (w.RegExpSearchForward line start).1 ≠ -1 →
      0 ≤ (w.RegExpSearchForward line start).1 ∧ 0 ≤ (w.RegExpSearchForward line start).2 ∧
      (w.RegExpSearchForward line start).1 + (w.RegExpSearchForward line start).2
        ≤ line.length)
    (hnext : ∀ seek maxSeek, 0 ≤ seek → (w.FindNextEOL seek maxSeek).ret = true →
      0 ≤ (w.FindNextEOL seek maxSeek).second) :
    ∀ (n : Nat) (lineBegin : Int) (s : CViewerWindow) (r : FindRun) (s' : CViewerWindow)
      (r' : FindRun), r.found = -1 → 0 ≤ lineBegin →
      regexpForward w n lineBegin s r = some (s', r') → SelectionKept w s s' := by
  intro n
  induction n with
  | zero => intro _ s r s' r' _ _ h; simp [regexpForward] at h
  | succ n ih =>
    intro lineBegin s r s' r' hf h0 h
    rw [regexpForward] at h
    simp only [] at h
    by_cases hlt : lineBegin < FileSize w
    · rw [if_pos hlt] at h
      have hn := hnext lineBegin (min (FileSize w) (lineBegin + FIND_LINE_LEN)) h0
      have hL : FIND_LINE_LEN = 10000 := rfl
      generalize w.FindNextEOL lineBegin (min (FileSize w) (lineBegin + FIND_LINE_LEN)) = e
        at h hn
      by_cases h1 : e.fatalErr = true
      · rw [if_pos h1] at h
        obtain ⟨rfl, rfl⟩ := Prod.mk.inj (Option.some.inj h)
        exact SelectionKept_refl w _
      · rw [if_neg h1] at h
        cases hline : regexpForwardLine w (n + 1) lineBegin
            (if e.ret = true then e.first else min (FileSize w) (lineBegin + FIND_LINE_LEN))
            s r with
        | none => rw [hline] at h; simp at h
        | some t =>
          obtain ⟨s1, r1, brk⟩ := t
          rw [hline] at h
          have hk := regexpForwardLine_SelectionKept w hforw _ _ _ s r s1 r1 brk hf h0 hline
          rcases regexpForwardLine_shape w _ _ _ s r s1 r1 brk hf hline with
            ⟨rfl, rfl, a1, -⟩ | ⟨rfl, -⟩
          · simp only [] at h
            by_cases h2 : w.escPoll r1.polls = true
            · rw [if_pos h2] at h
              obtain ⟨rfl, rfl⟩ := Prod.mk.inj (Option.some.inj h)
              exact SelectionKept_refl w _
            · rw [if_neg h2] at h
              refine ih _ _ { r1 with polls := r1.polls + 1 } _ _ a1 ?_ h
              split_ifs with h3
              · exact hn h3
              · omega
          · simp only [] at h
            obtain ⟨rfl, rfl⟩ := Prod.mk.inj (Option.some.inj h)
            exact hk
    · rw [if_neg hlt] at h
      obtain ⟨rfl, rfl⟩ := Prod.mk.inj (Option.some.inj h)
      exact SelectionKept_refl w _

/-- The backward regular-expression loop leaves the selection or selects a match in the
file, when the line indexer puts no line beginning before the file. -/
theorem regexpBackward_SelectionKept (w : World)
    (hback : ∀ line length, (w.RegExpSearchBackward line length).1 ≠ -1 →
      0 ≤ (w.RegExpSearchBackward line length).1 ∧
      0 ≤ (w.RegExpSearchBackward line length).2 ∧
      (w.RegExpSearchBackward line length).1 + (w.RegExpSearchBackward line length).2
        ≤ line.length)
    (hprev : ∀ seek minSeek, 0 ≤ seek → (w.FindPreviousEOL seek minSeek).ret = true →
      0 ≤ (w.FindPreviousEOL seek minSeek).first)
    (htop : ∀ seek minSeek, 0 ≤ seek → minSeek < 0 →
      (w.FindPreviousEOL seek minSeek).ret = true) :
    ∀ (n : Nat) (lineEnd : Int) (s : CViewerWindow) (r : FindRun) (s' : CViewerWindow)
      (r' : FindRun), r.found = -1 →
      regexpBackward w n lineEnd s r = some (s', r') → SelectionKept w s s' := by
  intro n
  induction n with
  | zero => intro _ s r s' r' _ h; simp [regexpBackward] at h
  | succ n ih =>
    intro lineEnd s r s' r' hf h
    rw [regexpBackward] at h
    simp only [] at h
    by_cases hgt : lineEnd > 0
    · rw [if_pos hgt] at h
      have hp := hprev lineEnd (lineEnd - FIND_LINE_LEN) (by omega)
      have ht := htop lineEnd (lineEnd - FIND_LINE_LEN) (by omega)
      generalize w.FindPreviousEOL lineEnd (lineEnd - FIND_LINE_LEN) = e at h hp ht
      have h0 : 0 ≤ (if e.ret = true then e.first else lineEnd - FIND_LINE_LEN) := by
        split_ifs with h3
        · exact hp h3
        · by_contra hneg
          exact h3 (ht (by omega))
      by_cases h1 : e.fatalErr = true
      · rw [if_pos h1] at h
        obtain ⟨rfl, rfl⟩ := Prod.mk.inj (Option.some.inj h)
        exact SelectionKept_refl w _
      · rw [if_neg h1] at h
        cases hline : regexpBackwardLine w (n + 1)
            (if e.ret = true then e.first else lineEnd - FIND_LINE_LEN) lineEnd s r with
        | none => rw [hline] at h; simp at h
        | some t =>
          obtain ⟨s1, r1, brk⟩ := t
          rw [hline] at h
          have hk := regexpBackwardLine_SelectionKept w hback _ _ _ s r s1 r1 brk hf h0 hline
          rcases regexpBackwardLine_shape w _ _ _ s r s1 r1 brk hf hline with
            ⟨rfl, rfl, a1, -⟩ | ⟨rfl, -⟩
          · simp only [] at h
            by_cases h2 : w.escPoll r1.polls = true
            · rw [if_pos h2] at h
              obtain ⟨rfl, rfl⟩ := Prod.mk.inj (Option.some.inj h)
              exact SelectionKept_refl w _
            · rw [if_neg h2] at h
              exact ih _ _ { r1 with polls := r1.polls + 1 } _ _ a1 h
          · simp only [] at h
            obtain ⟨rfl, rfl⟩ := Prod.mk.inj (Option.some.inj h)
            exact hk
    · rw [if_neg hgt] at h
      obtain ⟨rfl, rfl⟩ := Prod.mk.inj (Option.some.inj h)
      exact SelectionKept_refl w _

/-- The search of the find command leaves the selection or selects a match in the file. -/
theorem searchLoops_SelectionKept (w : World)
    (hforw : ∀ line start, (w.RegExpSearchForward line start).1 ≠ -1 →
      0 ≤ (w.RegExpSearchForward line start).1 ∧ 0 ≤ (w.RegExpSearchForward line start).2 ∧
      (w.RegExpSearchForward line start).1 + (w.RegExpSearchForward line start).2
        ≤ line.length)
    (hback : ∀ line length, (w.RegExpSearchBackward line length).1 ≠ -1 →
      0 ≤ (w.RegExpSearchBackward line length).1 ∧
      0 ≤ (w.RegExpSearchBackward line length).2 ∧
      (w.RegExpSearchBackward line length).1 + (w.RegExpSearchBackward line length).2
        ≤ line.length)
    (hprev : ∀ seek minSeek, 0 ≤ seek → (w.FindPreviousEOL seek minSeek).ret = true →
      0 ≤ (w.FindPreviousEOL seek minSeek).first)
    (htop : ∀ seek minSeek, 0 ≤ seek → minSeek < 0 →
      (w.FindPreviousEOL seek minSeek).ret = true)
    (hnext : ∀ seek maxSeek, 0 ≤ seek → (w.FindNextEOL seek maxSeek).ret = true →
      0 ≤ (w.FindNextEOL seek maxSeek).second)
    (fuel : Nat) (forward : Bool) (s s' : CViewerWindow) (r' : FindRun)
    (hc : 0 ≤ s.FindOffset)
    (hm : s.FindDialog.Regular = false → 1 ≤ s.SearchData.val.length)
    (h : searchLoops w fuel forward s = some (s', r')) : SelectionKept w s s' := by
  unfold searchLoops at h
  simp only [] at h
  by_cases hreg : s.FindDialog.Regular = true
  · rw [if_pos hreg] at h
    by_cases hfl : w.RegExpSetFlags = true
    · rw [if_pos hfl] at h
      cases forward
      · simp only [Bool.false_eq_true, if_false] at h
        by_cases h1 : (w.FindNextEOL s.FindOffset (s.FindOffset + FIND_LINE_LEN)).fatalErr = true
        · rw [if_pos h1] at h
          obtain ⟨rfl, rfl⟩ := Prod.mk.inj (Option.some.inj h)
          exact SelectionKept_refl w _
        · rw [if_neg h1] at h
          exact regexpBackward_SelectionKept w hback hprev htop fuel _ s {} s' r' rfl h
      · simp only [if_true] at h
        by_cases h1 : (w.FindPreviousEOL s.FindOffset (s.FindOffset - FIND_LINE_LEN)).fatalErr
            = true
        · rw [if_pos h1] at h
          obtain ⟨rfl, rfl⟩ := Prod.mk.inj (Option.some.inj h)
          exact SelectionKept_refl w _
        · rw [if_neg h1] at h
          refine regexpForward_SelectionKept w hforw hnext fuel _ s {} s' r' rfl ?_ h
          split_ifs with h2
          · exact hprev _ _ hc h2
          · exact hc
    · rw [if_neg hfl] at h
      obtain ⟨rfl, rfl⟩ := Prod.mk.inj (Option.some.inj h)
      exact SelectionKept_refl w _
  · rw [if_neg hreg] at h
    have hm' := hm (by simpa using hreg)
    by_cases hg : w.SearchDataIsGood = true
    · rw [if_pos hg] at h
      cases forward
      · simp only [Bool.false_eq_true, if_false] at h
        exact literalBackward_SelectionKept w fuel s {} s' r' hm' h
      · simp only [if_true] at h
        exact literalForward_SelectionKept w fuel s {} s' r' hm' hc h
    · rw [if_neg hg] at h
      obtain ⟨rfl, rfl⟩ := Prod.mk.inj (Option.some.inj h)
      exact SelectionKept_refl w _

/-- The end of the find command leaves `StartSelection`, and leaves `EndSelection` or
empties the selection at its start. -/
theorem finishFind_selection (w : World) (old : Int) (s : CViewerWindow) (r : FindRun) :
    (finishFind w old s r).1.StartSelection = s.StartSelection ∧
    ((finishFind w old s r).1.EndSelection = s.EndSelection ∨
      (finishFind w old s r).1.EndSelection = s.StartSelection) := by
  cases hfe : r.fatalErr
  · by_cases hno : r.escPressed = true ∨ r.found = -1
    · rw [(finishFind_notFound w old s r hfe hno).1]
      exact ⟨rfl, Or.inr rfl⟩
    · simp only [not_or] at hno
      obtain ⟨e1, e2, -⟩ := finishFind_found w old s r hfe (by simpa using hno.1) hno.2
      exact ⟨e1, Or.inl e2⟩
  · unfold finishFind
    simp only [hfe, if_true]
    exact ⟨rfl, Or.inl rfl⟩

/-- The find command leaves the selection, empties it at its start, or selects a match in
the file. -/
theorem findCommand_SelectionKept (w : World)
    (hforw : ∀ line start, (w.RegExpSearchForward line start).1 ≠ -1 →
      0 ≤ (w.RegExpSearchForward line start).1 ∧ 0 ≤ (w.RegExpSearchForward line start).2 ∧
      (w.RegExpSearchForward line start).1 + (w.RegExpSearchForward line start).2
        ≤ line.length)
    (hback : ∀ line length, (w.RegExpSearchBackward line length).1 ≠ -1 →
      0 ≤ (w.RegExpSearchBackward line length).1 ∧
      0 ≤ (w.RegExpSearchBackward line length).2 ∧
      (w.RegExpSearchBackward line length).1 + (w.RegExpSearchBackward line length).2
        ≤ line.length)
    (hprev : ∀ seek minSeek, 0 ≤ seek → (w.FindPreviousEOL seek minSeek).ret = true →
      0 ≤ (w.FindPreviousEOL seek minSeek).first)
    (htop : ∀ seek minSeek, 0 ≤ seek → minSeek < 0 →
      (w.FindPreviousEOL seek minSeek).ret = true)
    (hnext : ∀ seek maxSeek, 0 ≤ seek → (w.FindNextEOL seek maxSeek).ret = true →
      0 ≤ (w.FindNextEOL seek maxSeek).second)
    (fuel : Nat) (cmd : FindCmd) (s s' : CViewerWindow) (r : FindRun)
    (hc : 0 ≤ startCursor w cmd s)
    (hm : (searchSetting w cmd s).FindDialog.Regular = false →
      1 ≤ (searchSetting w cmd s).SearchData.val.length)
    (h : findCommand w fuel cmd s = some (s', r)) : SelectionKept w s s' := by
  have hsel := searchSetting_selection w cmd s
  by_cases hstart : searchStarts w cmd s = true
  · rw [findCommand_eq w fuel cmd s hstart] at h
    cases hloop : searchLoops w fuel (searchForward cmd (searchSetting w cmd s))
        { searchSetting w cmd s with FindOffset := startCursor w cmd s } with
    | none => rw [hloop] at h; simp at h
    | some t =>
      obtain ⟨s2, r2⟩ := t
      rw [hloop] at h
      simp only [Option.map_some', Option.some.injEq] at h
      have hk := searchLoops_SelectionKept w hforw hback hprev htop hnext fuel _ _ s2 r2
        (by exact hc) (by exact hm) hloop
      have hfin := finishFind_selection w (oldFindOffset w cmd s) s2 r2
      rw [h] at hfin
      simp only [] at hfin
      unfold SelectionKept at hk ⊢
      simp only [] at hk
      rw [hsel.1, hsel.2] at hk
      rw [hfin.1]
      refine ⟨hk.1, ?_⟩
      rcases hfin.2 with e | e
      · rw [e]; exact hk.2
      · rw [e]
        rcases hk.1 with e1 | e1
        · exact Or.inr (Or.inl e1)
        · exact Or.inr (Or.inr e1)
  · unfold findCommand at h
    by_cases hd : s.MouseDrag = true
    · rw [if_pos hd] at h
      obtain ⟨rfl, -⟩ := Prod.mk.inj (Option.some.inj h)
      exact SelectionKept_refl w _
    · rw [if_neg hd] at h
      have hd' : s.MouseDrag = false := by simpa using hd
      simp only [searchStarts, hd', Bool.not_false, Bool.true_and] at hstart
      simp only [] at h
      rw [if_neg hstart] at h
      obtain ⟨rfl, -⟩ := Prod.mk.inj (Option.some.inj h)
      unfold searchSetting at hsel
      exact ⟨Or.inl hsel.1, Or.inl hsel.2⟩

theorem wordBeginScan_range (w : World) (e : Int) :
    ∀ (n : Nat) (s : Int), e ≤ s →
      e ≤ wordBeginScan w e n s ∧ wordBeginScan w e n s ≤ s := by
  intro n
  induction n with
  | zero => intro s h; exact ⟨h, le_refl _⟩
  | succ n ih =>
    intro s h
    rw [wordBeginScan]
    split_ifs with h1
    · have := ih (s - 1) (by omega)
      omega
    · exact ⟨h, le_refl _⟩

theorem lineBeginScan_range (w : World) (d : DblClick) (e : Int) :
    ∀ (n : Nat) (s : Int) (b : Bool), e ≤ s →
      e ≤ (lineBeginScan w d e n s b).1 ∧ (lineBeginScan w d e n s b).1 ≤ s := by
  intro n
  induction n with
  | zero => intro s b h; exact ⟨h, le_refl _⟩
  | succ n ih =>
    intro s b h
    rw [lineBeginScan]
    simp only []
    split_ifs with h1 h2 h3 h4 h5 h6
    all_goals first
      | exact ⟨h, le_refl _⟩
      | (obtain ⟨i1, i2⟩ := ih (s - 1) true (by omega); omega)
      | (obtain ⟨i1, i2⟩ := ih (s - 1) b (by omega); omega)

theorem wordEndScan_range (w : World) (e : Int) :
    ∀ (n : Nat) (s : Int), s ≤ e →
      s ≤ wordEndScan w e n s ∧ wordEndScan w e n s ≤ e := by
  intro n
  induction n with
  | zero => intro s h; exact ⟨le_refl _, h⟩
  | succ n ih =>
    intro s h
    rw [wordEndScan]
    split_ifs with h1
    · have := ih (s + 1) (by omega)
      omega
    · exact ⟨le_refl _, h⟩

theorem lineEndScan_range (w : World) (d : DblClick) (e : Int) :
    ∀ (n : Nat) (s : Int) (b : Bool), s ≤ e →
      s ≤ (lineEndScan w d e n s b).1 ∧ (lineEndScan w d e n s b).1 ≤ e := by
  intro n
  induction n with
  | zero => intro s b h; exact ⟨le_refl _, h⟩
  | succ n ih =>
    intro s b h
    rw [lineEndScan]
    simp only []
    split_ifs with h1 h2 h3 h4 h5 h6 h7
    all_goals first
      | exact ⟨le_refl _, h⟩
      | (constructor <;> simp only [] <;> omega)
      | (obtain ⟨i1, i2⟩ := ih (s + 1) true (by omega); omega)
      | (obtain ⟨i1, i2⟩ := ih (s + 1) b (by omega); omega)

/-- The first loop of the double click ends when it has more fuel than `seek`, and the
beginning of the selection that it finds lies in the file. -/
theorem selStartLoop_spec (w : World) (d : DblClick) :
    ∀ (fuel : Nat) (seek : Int) (b : Bool) (reads : Nat), 0 ≤ seek → seek ≤ FileSize w →
      (b = true → seek + 1 ≤ FileSize w) → seek < fuel →
      ∃ res, selStartLoop w d fuel seek b reads = some res ∧
        ∀ x k, res = ScanResult.done x k → InFile w x := by
  intro fuel
  induction fuel with
  | zero => intro seek b reads h0 _ _ h; exact absurd h (by omega)
  | succ n ih =>
    intro seek b reads h0 h1 hb hfuel
    rw [selStartLoop]
    by_cases hs : seek > 0
    · rw [if_pos hs]
      have hA : APROX_LINE_LEN = 1000 := rfl
      have hp : (Prepare w reads (seek - min APROX_LINE_LEN seek) (min APROX_LINE_LEN seek)).2
            = true ∨
          (Prepare w reads (seek - min APROX_LINE_LEN seek) (min APROX_LINE_LEN seek)).1
            = min APROX_LINE_LEN seek := by
        unfold Prepare
        split_ifs
        · exact Or.inl rfl
        · right
          simp only []
          omega
      generalize Prepare w reads (seek - min APROX_LINE_LEN seek) (min APROX_LINE_LEN seek) = p
        at hp
      simp only []
      by_cases hp2 : p.2 = true
      · rw [if_pos hp2]
        exact ⟨_, rfl, fun x k hx => by cases hx⟩
      · rw [if_neg hp2]
        have hp1 : p.1 = min APROX_LINE_LEN seek := by
          rcases hp with hp | hp
          · exact absurd hp hp2
          · exact hp
        rw [if_neg (by omega)]
        have hw := wordBeginScan_range w (seek - 1 - p.1) p.1.toNat (seek - 1) (by omega)
        have hl := lineBeginScan_range w d (seek - 1 - p.1) p.1.toNat (seek - 1) false
          (by omega)
        generalize wordBeginScan w (seek - 1 - p.1) p.1.toNat (seek - 1) = ws at hw
        generalize lineBeginScan w d (seek - 1 - p.1) p.1.toNat (seek - 1) false = ls at hl
        have ht : ∀ t : Int × Bool,
            t = (if ¬ d.wholeLine = true then (ws, b)
              else if b = true ∧ seek - 1 > seek - 1 - p.1 ∧ byteAt w (seek - 1) = 13 then
                (seek - 1 + 1, b)
              else ls) →
            seek - 1 - p.1 ≤ t.1 ∧ (t.1 ≤ seek - 1 ∨ (t.1 = seek ∧ b = true)) := by
          intro t ht
          split_ifs at ht
          all_goals rw [ht]
          all_goals first
            | exact ⟨hw.1, Or.inl hw.2⟩
            | exact ⟨hl.1, Or.inl hl.2⟩
            | exact ⟨by simp only []; omega, Or.inr ⟨by simp only []; omega, by tauto⟩⟩
        generalize (if ¬ d.wholeLine = true then (ws, b)
              else if b = true ∧ seek - 1 > seek - 1 - p.1 ∧ byteAt w (seek - 1) = 13 then
                (seek - 1 + 1, b)
              else ls) = t at ht
        have ht' := ht t rfl
        by_cases hne : t.1 ≠ seek - 1 - p.1
        · rw [if_pos hne]
          refine ⟨_, rfl, fun x k hx => ?_⟩
          cases hx
          unfold InFile
          rcases ht'.2 with h | ⟨h, hbt⟩
          · omega
          · have := hb hbt
            omega
        · rw [if_neg hne]
          exact ih (seek - p.1) t.2 (reads + 1) (by omega) (by omega) (fun _ => by omega)
            (by omega)
    · rw [if_neg hs]
      exact ⟨_, rfl, fun x k hx => by cases hx; exact InFile_zero w⟩

/-- The second loop of the double click ends when it has more fuel than there are bytes
after `seek`, and the end of the selection that it finds lies in the file. -/
theorem selEndLoop_spec (w : World) (d : DblClick) :
    ∀ (fuel : Nat) (seek : Int) (b : Bool) (reads : Nat), 0 ≤ seek → seek ≤ FileSize w →
      FileSize w - seek < fuel →
      ∃ res, selEndLoop w d fuel seek b reads = some res ∧
        ∀ x k, res = ScanResult.done x k → InFile w x := by
  intro fuel
  induction fuel with
  | zero => intro seek b reads _ h1 h; exact absurd h (by omega)
  | succ n ih =>
    intro seek b reads h0 h1 hfuel
    rw [selEndLoop]
    by_cases hs : seek < FileSize w
    · rw [if_pos hs]
      have hA : APROX_LINE_LEN = 1000 := rfl
      have hp : (Prepare w reads seek APROX_LINE_LEN).2 = true ∨
          (Prepare w reads seek APROX_LINE_LEN).1 = min APROX_LINE_LEN (FileSize w - seek) := by
        unfold Prepare
        split_ifs
        · exact Or.inl rfl
        · right
          simp only []
          omega
      generalize Prepare w reads seek APROX_LINE_LEN = p at hp
      simp only []
      by_cases hp2 : p.2 = true
      · rw [if_pos hp2]
        exact ⟨_, rfl, fun x k hx => by cases hx⟩
      · rw [if_neg hp2]
        have hp1 : p.1 = min APROX_LINE_LEN (FileSize w - seek) := by
          rcases hp with hp | hp
          · exact absurd hp hp2
          · exact hp
        rw [if_neg (by omega)]
        have hw := wordEndScan_range w (seek + p.1) p.1.toNat seek (by omega)
        generalize wordEndScan w (seek + p.1) p.1.toNat seek = ws at hw
        by_cases hwl : ¬ d.wholeLine = true
        · rw [if_pos hwl]
          by_cases hne : ws ≠ seek + p.1
          · rw [if_pos hne]
            refine ⟨_, rfl, fun x k hx => ?_⟩
            cases hx
            unfold InFile
            omega
          · rw [if_neg hne]
            exact ih (seek + p.1) b (reads + 1) (by omega) (by omega) (by omega)
        · rw [if_neg hwl]
          by_cases hlf : b = true ∧ seek < seek + p.1 ∧ byteAt w seek = 10
          · rw [if_pos hlf]
            refine ⟨_, rfl, fun x k hx => ?_⟩
            cases hx
            unfold InFile
            omega
          · rw [if_neg hlf]
            generalize (if b = true ∧ ¬ d.EOL_CR = true then false else b) = b1
            have hl := lineEndScan_range w d (seek + p.1) p.1.toNat seek b1 (by omega)
            generalize lineEndScan w d (seek + p.1) p.1.toNat seek b1 = ls at hl
            have ht : ∀ t : Int × Bool × Bool,
                t = (if ¬ b1 = true then ls else (seek, false, b1)) →
                seek ≤ t.1 ∧ t.1 ≤ seek + p.1 := by
              intro t ht
              split_ifs at ht
              all_goals rw [ht]
              all_goals first
                | exact hl
                | exact ⟨le_refl _, by simp only []; omega⟩
            generalize (if ¬ b1 = true then ls else (seek, false, b1)) = t at ht
            have ht' := ht t rfl
            by_cases hne : t.2.1 = true ∨ t.1 ≠ seek + p.1
            · rw [if_pos hne]
              refine ⟨_, rfl, fun x k hx => ?_⟩
              cases hx
              unfold InFile
              omega
            · rw [if_neg hne]
              exact ih (seek + p.1) t.2.2 (reads + 1) (by omega) (by omega) (by omega)
    · rw [if_neg hs]
      exact ⟨_, rfl, fun x k hx => by cases hx; exact ⟨(InFile_zero w).2, le_refl _⟩⟩

/-- A double click, given more fuel than the file has bytes, ends, and it leaves the
selection or selects a word or a line in the file. -/
theorem OnLButtonDblClk_SelectionKept (w : World) (fuel : Nat) (d : DblClick)
    (s : CViewerWindow)
    (hoff : d.off.ret = true → d.off.fatalErr = false → InFile w d.off.off)
    (hfuel : w.file.length < fuel) :
    ∃ s', OnLButtonDblClk w fuel d s = some s' ∧ SelectionKept w s s' := by
  unfold OnLButtonDblClk
  by_cases h1 : d.off.ret = true ∧ ¬ d.off.fatalErr = true
  · rw [if_pos h1]
    have hin := hoff h1.1 (by simpa using h1.2)
    unfold InFile at hin
    have hF : FileSize w = w.file.length := rfl
    obtain ⟨r1, e1, q1⟩ := selStartLoop_spec w d fuel d.off.off false 0 hin.1 hin.2
      (fun h => by cases h) (by omega)
    rw [e1]
    cases r1 with
    | fatalErr => exact ⟨_, rfl, SelectionKept_refl w s⟩
    | error => exact ⟨_, rfl, SelectionKept_refl w s⟩
    | done selStart reads =>
      simp only []
      obtain ⟨r2, e2, q2⟩ := selEndLoop_spec w d fuel d.off.off false reads hin.1 hin.2
        (by omega)
      rw [e2]
      cases r2 with
      | fatalErr => exact ⟨_, rfl, SelectionKept_refl w s⟩
      | error => exact ⟨_, rfl, SelectionKept_refl w s⟩
      | done selEnd reads2 =>
        exact ⟨_, rfl, Or.inr (q1 _ _ rfl), Or.inr (Or.inr (q2 _ _ rfl))⟩
  · rw [if_neg h1]
    split_ifs
    · exact ⟨_, rfl, SelectionKept_refl w s⟩
    · exact ⟨_, rfl, SelectionKept_refl w s⟩

/-- The example line indexer puts no line beginning before the file. -/
theorem lineFeedBefore_nonneg (file : List Nat) (seek minSeek : Int) (_h0 : 0 ≤ seek)
    (h : (lineFeedBefore file seek minSeek).ret = true) :
    0 ≤ (lineFeedBefore file seek minSeek).first := by
  unfold lineFeedBefore at h ⊢
  simp only at h ⊢
  by_cases hi : (((file.take seek.toNat).drop (max minSeek 0).toNat).reverse).indexOf 10
      < (((file.take seek.toNat).drop (max minSeek 0).toNat).reverse).length
  · simp only [hi, if_true]
    simp only [List.length_reverse, List.length_drop, List.length_take] at hi
    omega
  · simp only [hi, if_false] at h ⊢
    by_cases hm : minSeek ≤ 0
    · simp only [hm, if_true, le_refl]
    · simp only [hm, if_false] at h
      exact absurd h (by simp)

/-- The example line indexer finds the beginning of the file when it is in reach. -/
theorem lineFeedBefore_top (file : List Nat) (seek minSeek : Int) (_h0 : 0 ≤ seek)
    (h : minSeek < 0) : (lineFeedBefore file seek minSeek).ret = true := by
  unfold lineFeedBefore
  simp only
  split_ifs with h1 h2
  · rfl
  · rfl
  · exact absurd (by omega) h2

/-- The example line indexer puts the beginning of the next line behind `seek`. -/
theorem lineFeedAfter_next (file : List Nat) (seek maxSeek : Int) (h0 : 0 ≤ seek)
    (_h : (lineFeedAfter file seek maxSeek).ret = true) :
    0 ≤ (lineFeedAfter file seek maxSeek).second := by
  unfold lineFeedAfter
  simp only
  split_ifs with h1
  · simp only []
    omega
  · exact le_refl _

theorem UpdateWindow_SeekY (w : World)
    (hP : ∀ s, (w.Paint s).SeekY = s.SeekY ∧ (w.Paint s).MaxSeekY = s.MaxSeekY)
    (s : CViewerWindow) :
    (UpdateWindow w s).SeekY = s.SeekY ∧ (UpdateWindow w s).MaxSeekY = s.MaxSeekY := by
  unfold UpdateWindow
  split_ifs
  · exact ⟨rfl, rfl⟩
  · exact hP s

/-- Scrolling down by a line keeps `SeekY` in its range, and returns `TRUE` exactly when
it changed `SeekY`. -/
theorem ScrollViewLineDown_SeekY (w : World)
    (hP : ∀ s, (w.Paint s).SeekY = s.SeekY ∧ (w.Paint s).MaxSeekY = s.MaxSeekY)
    (s : CViewerWindow) (hs : SeekYInRange s) (hf : 0 ≤ s.FirstLineSize) :
    (ScrollViewLineDown w s).1.MaxSeekY = s.MaxSeekY ∧
    SeekYInRange (ScrollViewLineDown w s).1 ∧
    ((ScrollViewLineDown w s).2 = true ↔ (ScrollViewLineDown w s).1.SeekY ≠ s.SeekY) := by
  have hu1 : ∀ t, (UpdateWindow w t).SeekY = t.SeekY := fun t => (UpdateWindow_SeekY w hP t).1
  have hu2 : ∀ t, (UpdateWindow w t).MaxSeekY = t.MaxSeekY :=
    fun t => (UpdateWindow_SeekY w hP t).2
  unfold SeekYInRange at hs ⊢
  unfold ScrollViewLineDown
  simp only []
  split_ifs with h1 h2
  all_goals simp only [hu1, hu2, ne_eq, Bool.false_eq_true, false_iff, true_iff, not_not,
    true_and]
  all_goals first
    | exact ⟨⟨by omega, by omega⟩, fun h => h1.2 h.symm⟩
    | exact ⟨⟨by omega, by omega⟩, by omega⟩
    | exact ⟨hs, trivial⟩

/-- Scrolling up by a line keeps `SeekY` in its range. -/
theorem ScrollViewLineUp_SeekY (w : World)
    (hP : ∀ s, (w.Paint s).SeekY = s.SeekY ∧ (w.Paint s).MaxSeekY = s.MaxSeekY)
    (hZ : ∀ y, 0 ≤ (w.ZeroLineSize y).value) (c : Int) (r : Bool)
    (s : CViewerWindow) (hs : SeekYInRange s) :
    (ScrollViewLineUp w c r s).1.MaxSeekY = s.MaxSeekY ∧
    SeekYInRange (ScrollViewLineUp w c r s).1 := by
  have hu1 : ∀ t, (UpdateWindow w t).SeekY = t.SeekY := fun t => (UpdateWindow_SeekY w hP t).1
  have hu2 : ∀ t, (UpdateWindow w t).MaxSeekY = t.MaxSeekY :=
    fun t => (UpdateWindow_SeekY w hP t).2
  have hz := hZ s.SeekY
  unfold SeekYInRange at hs ⊢
  unfold ScrollViewLineUp
  by_cases h0 : s.SeekY > 0
  · rw [if_pos h0]
    generalize w.ZeroLineSize s.SeekY = z at hz
    generalize w.ZeroLineFirst s.SeekY = fl
    simp only []
    split_ifs
    all_goals simp only [hu1, hu2, FatalFileErrorOccured]
    all_goals exact ⟨trivial, by omega, by omega⟩
  · rw [if_neg h0]
    exact ⟨rfl, hs⟩

theorem pageDown_SeekY (s : CViewerWindow) (hs : SeekYInRange s) (hf : 0 ≤ s.FirstLineSize) :
    (pageDown s).1.MaxSeekY = s.MaxSeekY ∧ SeekYInRange (pageDown s).1 := by
  unfold SeekYInRange at hs ⊢
  unfold pageDown
  simp only []
  split_ifs
  all_goals first
    | exact ⟨rfl, hs⟩
    | exact ⟨rfl, by simp only []; omega, by simp only []; omega⟩

theorem pageUp_hex_SeekY (w : World) (s : CViewerWindow) (hs : SeekYInRange s)
    (hx : s.ViewType = CViewType.vtHex) :
    (pageUp w s).1.MaxSeekY = s.MaxSeekY ∧ SeekYInRange (pageUp w s).1 := by
  unfold SeekYInRange at hs ⊢
  unfold pageUp
  by_cases h : s.SeekY > 0
  · simp only [h, if_true, hx]
    split_ifs
    all_goals exact ⟨trivial, by omega, by omega⟩
  · simp only [h, if_false]
    exact ⟨trivial, hs⟩

theorem fileBegin_SeekY (s : CViewerWindow) (f : NavFlags) (hs : SeekYInRange s) :
    (fileBegin s f).1.MaxSeekY = s.MaxSeekY ∧ SeekYInRange (fileBegin s f).1 := by
  unfold SeekYInRange at hs ⊢
  unfold fileBegin
  simp only []
  split_ifs
  all_goals exact ⟨rfl, by simp only []; omega, by simp only []; omega⟩

theorem fileEnd_SeekY (x : Int) (s : CViewerWindow) (f : NavFlags) (hs : SeekYInRange s) :
    (fileEnd x s f).1.MaxSeekY = s.MaxSeekY ∧ SeekYInRange (fileEnd x s f).1 := by
  unfold SeekYInRange at hs ⊢
  unfold fileEnd
  simp only []
  split_ifs
  all_goals exact ⟨rfl, by simp only []; omega, by simp only []; omega⟩

theorem navFinish_SeekY (w : World)
    (hP : ∀ s, (w.Paint s).SeekY = s.SeekY ∧ (w.Paint s).MaxSeekY = s.MaxSeekY)
    (t : CViewerWindow × NavFlags) :
    (navFinish w t).SeekY = t.1.SeekY ∧ (navFinish w t).MaxSeekY = t.1.MaxSeekY := by
  have hu1 : ∀ t, (UpdateWindow w t).SeekY = t.SeekY := fun t => (UpdateWindow_SeekY w hP t).1
  have hu2 : ∀ t, (UpdateWindow w t).MaxSeekY = t.MaxSeekY :=
    fun t => (UpdateWindow_SeekY w hP t).2
  unfold navFinish
  simp only []
  split_ifs
  all_goals simp only [hu1, hu2, and_self]

/-- One iteration of the forward literal loop leaves the loop or moves the cursor forward
by at least one byte. -/
theorem literalForward_step (w : World) (s : CViewerWindow) (r : FindRun)
    (hm : 1 ≤ s.SearchData.val.length) :
    (∃ res, ∀ fuel, literalForward w (fuel + 1) s r = some res) ∨
    (∃ s2 r2, s.FindOffset + 1 ≤ s2.FindOffset ∧ s2.FindOffset ≤ FileSize w ∧
      s2.SearchData = s.SearchData ∧
      ∀ fuel, literalForward w (fuel + 1) s r = literalForward w fuel s2 r2) := by
  have hpv : (Prepare w r.reads s.FindOffset FIND_LINE_LEN).2 = true ∨
      (Prepare w r.reads s.FindOffset FIND_LINE_LEN).1
        = max 0 (min FIND_LINE_LEN (FileSize w - s.FindOffset)) := by
    unfold Prepare
    split_ifs
    · exact Or.inl rfl
    · exact Or.inr rfl
  generalize hp : Prepare w r.reads s.FindOffset FIND_LINE_LEN = p at hpv
  have hb := SearchForward_bounds w s.FindDialog.CaseSensitive s.SearchData.val
    (chunk w s.FindOffset p.1)
  have hk := chunk_length_le w s.FindOffset p.1
  generalize hfd : SearchForward w s.FindDialog.CaseSensitive s.SearchData.val
    (chunk w s.FindOffset p.1) = found at hb
  generalize hww : (if found ≠ -1 ∧ s.FindDialog.WholeWords = true then
      wholeWordsLiteral w (r.reads + 1) (s.FindOffset + found) s.SearchData.val.length
    else (false, false, r.reads + 1)) = ww
  by_cases h1 : p.2 = true
  · exact Or.inl ⟨_, fun fuel => by
      rw [literalForward.eq_2]
      simp only [hp]
      rw [if_pos h1]⟩
  · by_cases h2 : p.1 ≥ (s.SearchData.val.length : Int)
    · by_cases h3 : ww.2.1 = true
      · exact Or.inl ⟨_, fun fuel => by
          rw [literalForward.eq_2]
          simp only [hp, hfd, hww]
          rw [if_neg h1, if_pos h2, if_pos h3]⟩
      · by_cases h4 : ww.1 = true
        · have hpv' : p.1 = max 0 (min FIND_LINE_LEN (FileSize w - s.FindOffset)) :=
            hpv.resolve_left h1
          have hk' := hk (by omega)
          have hfound : found ≠ -1 := by
            intro hneg
            rw [if_neg (by simp [hneg])] at hww
            rw [← hww] at h4
            exact absurd h4 (by simp)
          have hb' := hb hfound
          by_cases h5 : w.escPoll r.polls = true
          · exact Or.inl ⟨_, fun fuel => by
              rw [literalForward.eq_2]
              simp only [hp, hfd, hww]
              rw [if_neg h1, if_pos h2, if_neg h3]
              simp only [h4, if_true, ne_eq, not_true_eq_false, if_false]
              rw [if_pos (by omega), if_pos h5]⟩
          · exact Or.inr ⟨{ s with FindOffset := s.FindOffset +
                (found + s.SearchData.val.length - ((s.SearchData.val.length : Int) - 1)) },
              _, by simp only []; omega, by simp only []; omega, rfl, fun fuel => by
              rw [literalForward.eq_2]
              simp only [hp, hfd, hww]
              rw [if_neg h1, if_pos h2, if_neg h3]
              simp only [h4, if_true, ne_eq, not_true_eq_false, if_false]
              rw [if_pos (by omega), if_neg h5]⟩
        · have hpv' : p.1 = max 0 (min FIND_LINE_LEN (FileSize w - s.FindOffset)) :=
            hpv.resolve_left h1
          by_cases h5 : found = -1
          · by_cases h6 : w.escPoll r.polls = true
            · exact Or.inl ⟨_, fun fuel => by
                rw [literalForward.eq_2]
                simp only [hp, hfd, hww]
                rw [if_neg h1, if_pos h2, if_neg h3]
                simp only [h4, Bool.false_eq_true, if_false, h5, ne_eq, not_true_eq_false]
                rw [if_pos (by omega), if_pos h6]⟩
            · exact Or.inr ⟨{ s with FindOffset := s.FindOffset +
                  (p.1 - ((s.SearchData.val.length : Int) - 1)) },
                _, by simp only []; omega, by simp only []; omega, rfl, fun fuel => by
                rw [literalForward.eq_2]
                simp only [hp, hfd, hww]
                rw [if_neg h1, if_pos h2, if_neg h3]
                simp only [h4, Bool.false_eq_true, if_false, h5, ne_eq, not_true_eq_false]
                rw [if_pos (by omega), if_neg h6]⟩
          · exact Or.inl ⟨_, fun fuel => by
              rw [literalForward.eq_2]
              simp only [hp, hfd, hww]
              rw [if_neg h1, if_pos h2, if_neg h3]
              simp only [h4, Bool.false_eq_true, if_false, ne_eq, h5, not_false_eq_true, if_true]
              rfl⟩
    · exact Or.inl ⟨_, fun fuel => by
        rw [literalForward.eq_2]
        simp only [hp]
        rw [if_neg h1, if_neg h2]⟩

/-- One iteration of the backward literal loop leaves the loop or moves the cursor back by
at least one byte. -/
theorem literalBackward_step (w : World) (s : CViewerWindow) (r : FindRun)
    (hm : 1 ≤ s.SearchData.val.length) :
    (∃ res, ∀ fuel, literalBackward w (fuel + 1) s r = some res) ∨
    (∃ s2 r2, s2.FindOffset + 1 ≤ s.FindOffset ∧ 0 ≤ s2.FindOffset ∧
      s2.SearchData = s.SearchData ∧
      ∀ fuel, literalBackward w (fuel + 1) s r = literalBackward w fuel s2 r2) := by
  have hL : FIND_LINE_LEN = 10000 := rfl
  by_cases h0 : s.FindOffset > 0
  · have hoff : (if s.FindOffset - FIND_LINE_LEN < 0 then (0 : Int)
        else s.FindOffset - FIND_LINE_LEN) = max 0 (s.FindOffset - FIND_LINE_LEN) := by
      split_ifs <;> omega
    have hlen : (if s.FindOffset - FIND_LINE_LEN < 0
        then FIND_LINE_LEN + (s.FindOffset - FIND_LINE_LEN) else FIND_LINE_LEN)
        = min FIND_LINE_LEN s.FindOffset := by
      split_ifs <;> omega
    have hpv : (Prepare w r.reads (max 0 (s.FindOffset - FIND_LINE_LEN))
          (min FIND_LINE_LEN s.FindOffset)).2 = true ∨
        (Prepare w r.reads (max 0 (s.FindOffset - FIND_LINE_LEN))
          (min FIND_LINE_LEN s.FindOffset)).1 ≤ min FIND_LINE_LEN s.FindOffset := by
      unfold Prepare
      split_ifs
      · exact Or.inl rfl
      · right
        simp only []
        omega
    generalize hp : Prepare w r.reads (max 0 (s.FindOffset - FIND_LINE_LEN))
      (min FIND_LINE_LEN s.FindOffset) = p at hpv
    have hb := SearchBackward_bounds w s.FindDialog.CaseSensitive s.SearchData.val
      (chunk w (max 0 (s.FindOffset - FIND_LINE_LEN)) p.1)
    have hk := chunk_length_le w (max 0 (s.FindOffset - FIND_LINE_LEN)) p.1
    generalize hfd : SearchBackward w s.FindDialog.CaseSensitive s.SearchData.val
      (chunk w (max 0 (s.FindOffset - FIND_LINE_LEN)) p.1) = found at hb
    generalize hww : (if found ≠ -1 ∧ s.FindDialog.WholeWords = true then
        wholeWordsLiteral w (r.reads + 1) (max 0 (s.FindOffset - FIND_LINE_LEN) + found)
          s.SearchData.val.length
      else (false, false, r.reads + 1)) = ww
    by_cases h1 : p.2 = true
    · exact Or.inl ⟨_, fun fuel => by
        rw [literalBackward.eq_2]
        simp only [hoff, hlen, hp]
        rw [if_pos h0, if_pos h1]⟩
    · have hpv' : p.1 ≤ min FIND_LINE_LEN s.FindOffset := hpv.resolve_left h1
      by_cases h2 : p.1 ≥ (s.SearchData.val.length : Int)
      · have hk' := hk (by omega)
        by_cases h3 : ww.2.1 = true
        · exact Or.inl ⟨_, fun fuel => by
            rw [literalBackward.eq_2]
            simp only [hoff, hlen, hp, hfd, hww]
            rw [if_pos h0, if_neg h1, if_pos h2, if_pos h3]⟩
        · by_cases h4 : ww.1 = true
          · have hfound : found ≠ -1 := by
              intro hneg
              rw [if_neg (by simp [hneg])] at hww
              rw [← hww] at h4
              exact absurd h4 (by simp)
            have hb' := hb hfound
            by_cases h5 : w.escPoll r.polls = true
            · exact Or.inl ⟨_, fun fuel => by
                rw [literalBackward.eq_2]
                simp only [hoff, hlen, hp, hfd, hww]
                rw [if_pos h0, if_neg h1, if_pos h2, if_neg h3]
                simp only [h4, if_true, ne_eq, not_true_eq_false, if_false]
                rw [if_pos (by omega), if_pos h5]⟩
            · exact Or.inr ⟨{ s with FindOffset := s.FindOffset -
                  (p.1 - found - ((s.SearchData.val.length : Int) - 1)) },
                _, by simp only []; omega, by simp only []; omega, rfl, fun fuel => by
                rw [literalBackward.eq_2]
                simp only [hoff, hlen, hp, hfd, hww]
                rw [if_pos h0, if_neg h1, if_pos h2, if_neg h3]
                simp only [h4, if_true, ne_eq, not_true_eq_false, if_false]
                rw [if_pos (by omega), if_neg h5]⟩
          · by_cases h5 : found = -1
            · by_cases h6 : w.escPoll r.polls = true
              · exact Or.inl ⟨_, fun fuel => by
                  rw [literalBackward.eq_2]
                  simp only [hoff, hlen, hp, hfd, hww]
                  rw [if_pos h0, if_neg h1, if_pos h2, if_neg h3]
                  simp only [h4, Bool.false_eq_true, if_false, h5, ne_eq, not_true_eq_false]
                  rw [if_pos (by omega), if_pos h6]⟩
              · exact Or.inr ⟨{ s with FindOffset := s.FindOffset -
                    (p.1 - ((s.SearchData.val.length : Int) - 1)) },
                  _, by simp only []; omega, by simp only []; omega, rfl, fun fuel => by
                  rw [literalBackward.eq_2]
                  simp only [hoff, hlen, hp, hfd, hww]
                  rw [if_pos h0, if_neg h1, if_pos h2, if_neg h3]
                  simp only [h4, Bool.false_eq_true, if_false, h5, ne_eq, not_true_eq_false]
                  rw [if_pos (by omega), if_neg h6]⟩
            · exact Or.inl ⟨_, fun fuel => by
                rw [literalBackward.eq_2]
                simp only [hoff, hlen, hp, hfd, hww]
                rw [if_pos h0, if_neg h1, if_pos h2, if_neg h3]
                simp only [h4, Bool.false_eq_true, if_false, ne_eq, h5, not_false_eq_true,
                  if_true]
                rfl⟩
      · exact Or.inl ⟨_, fun fuel => by
          rw [literalBackward.eq_2]
          simp only [hoff, hlen, hp]
          rw [if_pos h0, if_neg h1, if_neg h2]⟩
  · exact Or.inl ⟨_, fun fuel => by
      rw [literalBackward.eq_2]
      simp only []
      rw [if_neg h0]⟩

/-- The forward literal loop ends when it has more fuel than there are bytes behind the
cursor. -/
theorem literalForward_ends (w : World) :
    ∀ (fuel : Nat) (s : CViewerWindow) (r : FindRun), 1 ≤ s.SearchData.val.length →
      s.FindOffset ≤ FileSize w → FileSize w - s.FindOffset < fuel →
      ∃ res, literalForward w fuel s r = some res := by
  intro fuel
  induction fuel with
  | zero => intro s r _ h1 h2; exact absurd h2 (by omega)
  | succ n ih =>
    intro s r hm h1 h2
    rcases literalForward_step w s r hm with ⟨res, h⟩ | ⟨s2, r2, a1, a2, a3, h⟩
    · exact ⟨res, h n⟩
    · rw [h n]
      exact ih s2 r2 (by rw [a3]; exact hm) a2 (by omega)

/-- The backward literal loop ends when it has more fuel than there are bytes before the
cursor. -/
theorem literalBackward_ends (w : World) :
    ∀ (fuel : Nat) (s : CViewerWindow) (r : FindRun), 1 ≤ s.SearchData.val.length →
      0 ≤ s.FindOffset → s.FindOffset < fuel →
      ∃ res, literalBackward w fuel s r = some res := by
  intro fuel
  induction fuel with
  | zero => intro s r _ h1 h2; exact absurd h2 (by omega)
  | succ n ih =>
    intro s r hm h1 h2
    rcases literalBackward_step w s r hm with ⟨res, h⟩ | ⟨s2, r2, a1, a2, a3, h⟩
    · exact ⟨res, h n⟩
    · rw [h n]
      exact ih s2 r2 (by rw [a3]; exact hm) a2 (by omega)

theorem findEqual_eq_none (e : FileHistoryWorld) (t : CFileHistoryItemTypeEnum) (h : Nat)
    (f : List Nat) :
    ∀ (l : List CFileHistoryItem) (i : Nat), (∀ x ∈ l, x.Equal e t h f = false) →
      findEqual e t h f l i = none := by
  intro l
  induction l with
  | nil => intro i _; rfl
  | cons a rest ih =>
    intro i hx
    rw [findEqual, if_neg (by simp [hx a (List.mem_cons_self _ _)])]
    exact ih (i + 1) (fun x hm => hx x (List.mem_cons_of_mem _ hm))

/-- When the comparison of names does not depend on the order of its arguments, `Equal`
does not depend on which of two items is asked. -/
theorem itemsEqual_comm (e : FileHistoryWorld)
    (hsymm : ∀ a b, e.sameName a b = e.sameName b a) (a b : CFileHistoryItem) :
    itemsEqual e a b = itemsEqual e b a := by
  unfold itemsEqual CFileHistoryItem.Equal
  rw [hsymm a.FileName b.FileName]
  congr 1
  congr 1
  · exact decide_eq_decide.mpr eq_comm
  · exact decide_eq_decide.mpr eq_comm

theorem NoTwoEqual_perm (e : FileHistoryWorld) (l l' : List CFileHistoryItem)
    (hp : l.Perm l') (h : NoTwoEqual e l) : NoTwoEqual e l' :=
  List.Pairwise.perm h hp (fun hab => ⟨hab.2, hab.1⟩)

theorem NoTwoEqual_eraseIdx (e : FileHistoryWorld) (l : List CFileHistoryItem) (i : Nat)
    (h : NoTwoEqual e l) : NoTwoEqual e (l.eraseIdx i) :=
  List.Pairwise.sublist (List.eraseIdx_sublist l i) h

theorem NoTwoEqual_cons (e : FileHistoryWorld)
    (hsymm : ∀ a b, e.sameName a b = e.sameName b a) (t : CFileHistoryItemTypeEnum)
    (h : Nat) (f : List Nat) (l : List CFileHistoryItem)
    (hx : ∀ x ∈ l, x.Equal e t h f = false) (hd : NoTwoEqual e l) :
    NoTwoEqual e ({ ItemType := t, HandlerID := h, FileName := f } :: l) := by
  unfold NoTwoEqual
  rw [List.pairwise_cons]
  refine ⟨fun y hy => ?_, hd⟩
  have h1 : itemsEqual e y { ItemType := t, HandlerID := h, FileName := f } = false := hx y hy
  exact ⟨by rw [itemsEqual_comm e hsymm]; exact h1, h1⟩

/-- A string without NUL reads as 0 exactly behind its end. -/
theorem getD_zero_iff (s : List Nat) (hz : ∀ c ∈ s, c ≠ 0) (i : Nat) :
    s.getD i 0 = 0 ↔ s.length ≤ i := by
  constructor
  · intro h
    by_contra hlt
    have hi : i < s.length := by omega
    rw [List.getD_eq_getElem s 0 hi] at h
    exact hz _ (List.getElem_mem hi) h
  · intro h
    exact List.getD_eq_default s 0 h

theorem skipToPoint_spec (s : List Nat) :
    ∀ (n d : Nat), d ≤ s.length → s.length ≤ d + n →
      d ≤ skipToPoint s n d ∧ skipToPoint s n d ≤ s.length ∧
      (∀ j, d ≤ j → j < skipToPoint s n d → s.getD j 0 ≠ 46) ∧
      (s.getD (skipToPoint s n d) 0 = 0 ∨ s.getD (skipToPoint s n d) 0 = 46) := by
  intro n
  induction n with
  | zero =>
    intro d h1 h2
    simp only [skipToPoint]
    exact ⟨le_refl _, h1, fun j h3 h4 => by omega, Or.inl (List.getD_eq_default s 0 (by omega))⟩
  | succ n ih =>
    intro d h1 h2
    rw [skipToPoint]
    by_cases hc : s.getD d 0 ≠ 0 ∧ s.getD d 0 ≠ 46
    · rw [if_pos hc]
      have hd : d < s.length := by
        by_contra hge
        exact hc.1 (List.getD_eq_default s 0 (by omega))
      obtain ⟨i1, i2, i3, i4⟩ := ih (d + 1) hd (by omega)
      refine ⟨by omega, i2, fun j h3 h4 => ?_, i4⟩
      by_cases hj : j = d
      · rw [hj]; exact hc.2
      · exact i3 j (by omega) h4
    · rw [if_neg hc]
      refine ⟨le_refl _, h1, fun j h3 h4 => by omega, ?_⟩
      by_cases h0 : s.getD d 0 = 0
      · exact Or.inl h0
      · by_cases h46 : s.getD d 0 = 46
        · exact Or.inr h46
        · exact absurd ⟨h0, h46⟩ hc

theorem backToSeparator_spec (s : List Nat) :
    ∀ (n : Nat) (l : Int), 0 ≤ l → l ≤ n →
      0 ≤ backToSeparator s n l ∧ backToSeparator s n l ≤ l ∧
      (backToSeparator s n l = 0 ∨ s.getD (backToSeparator s n l - 1).toNat 0 = 92) := by
  intro n
  induction n with
  | zero =>
    intro l h1 h2
    simp only [backToSeparator]
    exact ⟨h1, le_refl _, Or.inl (by omega)⟩
  | succ n ih =>
    intro l h1 h2
    rw [backToSeparator]
    by_cases hc : l > 0 ∧ s.getD (l - 1).toNat 0 ≠ 92
    · rw [if_pos hc]
      obtain ⟨i1, i2, i3⟩ := ih (l - 1) (by omega) (by omega)
      exact ⟨i1, by omega, i3⟩
    · rw [if_neg hc]
      refine ⟨h1, le_refl _, ?_⟩
      by_cases h0 : l > 0
      · right
        by_contra h92
        exact hc ⟨h0, h92⟩
      · left; omega

theorem getD_cutOut (s : List Nat) (l k : Nat) (hl : l ≤ s.length) (j : Nat) :
    (cutOut s l k).getD j 0 = if j < l then s.getD j 0 else s.getD (k + (j - l)) 0 := by
  unfold cutOut
  simp only [List.getD_eq_getElem?_getD]
  by_cases hj : j < l
  · rw [if_pos hj, List.getElem?_append_left (by rw [List.length_take]; omega),
      List.getElem?_take_of_lt hj]
  · rw [if_neg hj, List.getElem?_append_right (by rw [List.length_take]; omega),
      List.length_take, List.getElem?_drop, Nat.min_eq_left hl]

theorem length_cutOut (s : List Nat) (l k : Nat) (hl : l ≤ s.length) :
    (cutOut s l k).length = l + (s.length - k) := by
  unfold cutOut
  rw [List.length_append, List.length_take, List.length_drop, Nat.min_eq_left hl]

theorem cutOut_nonzero (s : List Nat) (l k : Nat) (hz : ∀ c ∈ s, c ≠ 0) :
    ∀ c ∈ cutOut s l k, c ≠ 0 := by
  intro c hc
  unfold cutOut at hc
  rcases List.mem_append.mp hc with h | h
  · exact hz c (List.mem_of_mem_take h)
  · exact hz c (List.mem_of_mem_drop h)

/-- Taking bytes out of the string from the beginning of a component on makes no
component "." or ".." in front of it. -/
theorem cutOut_pointAt (s : List Nat) (l k : Nat) (hl : l ≤ s.length)
    (hs : l = 0 ∨ s.getD (l - 1) 0 = 92) (i : Nat) (hi : i < l)
    (hp : pointAt (cutOut s l k) i) : pointAt s i := by
  unfold pointAt at hp ⊢
  rw [getD_cutOut s l k hl, getD_cutOut s l k hl, getD_cutOut s l k hl,
    getD_cutOut s l k hl, if_pos hi, if_pos (by omega : i - 1 < l)] at hp
  obtain ⟨hp1, hp2, hp3⟩ := hp
  have hl92 : s.getD (l - 1) 0 = 92 := by
    rcases hs with h | h
    · omega
    · exact h
  by_cases h1 : i + 1 < l
  · rw [if_pos h1] at hp3
    refine ⟨hp1, hp2, ?_⟩
    rcases hp3 with h | h | ⟨h, h2⟩
    · exact Or.inl h
    · exact Or.inr (Or.inl h)
    · by_cases h3 : i + 2 < l
      · rw [if_pos h3] at h2
        exact Or.inr (Or.inr ⟨h, h2⟩)
      · have : i + 1 = l - 1 := by omega
        rw [this, hl92] at h
        omega
  · have : i = l - 1 := by omega
    rw [this, hl92] at hp2
    omega

/-- The loop of `SalRemovePointsFromPath` ends when the fuel exceeds twice the length of
the string less `d`; no component "." or ".." is left when it returns TRUE, and the
string begins with ".." when it returns FALSE. -/
theorem removePointsLoop_spec :
    ∀ (fuel : Nat) (s : List Nat) (d : Nat), (∀ c ∈ s, c ≠ 0) → d ≤ s.length →
      (∀ i, i < d → ¬ pointAt s i) → 2 * s.length < fuel + d →
      ∃ ret out, removePointsLoop fuel s d = some (ret, out) ∧ out.length ≤ s.length ∧
        (∀ c ∈ out, c ≠ 0) ∧ (ret = true → ∀ i, ¬ pointAt out i) ∧
        (ret = false → out.getD 0 0 = 46 ∧ out.getD 1 0 = 46 ∧
          (out.getD 2 0 = 92 ∨ out.getD 2 0 = 0)) := by
  intro fuel
  induction fuel with
  | zero => intro s d _ hd _ hm; omega
  | succ fuel ih =>
    intro s d hz hd hinv hm
    rw [removePointsLoop]
    by_cases h0 : s.getD d 0 ≠ 0
    · rw [if_pos h0]
      simp only []
      have hdlt : d < s.length := by
        by_contra hge
        exact h0 (List.getD_eq_default s 0 (by omega))
      obtain ⟨k1, k2, k3, k4⟩ := skipToPoint_spec s (s.length - d) d hd (by omega)
      generalize skipToPoint s (s.length - d) d = d1 at k1 k2 k3 k4 ⊢
      have hinv1 : ∀ i, i < d1 → ¬ pointAt s i := by
        intro i hi hp
        by_cases hid : i < d
        · exact hinv i hid hp
        · exact k3 i (by omega) hi hp.2.1
      by_cases h46 : s.getD d1 0 = 46
      · rw [if_pos h46]
        have hd1 : d1 < s.length := by
          by_contra hge
          rw [List.getD_eq_default s 0 (by omega)] at h46
          omega
        by_cases hst : d1 = 0 ∨ (d1 > 0 ∧ s.getD (d1 - 1) 0 = 92)
        · rw [if_pos hst]
          have hs : d1 = 0 ∨ s.getD (d1 - 1) 0 = 92 := by
            rcases hst with h | h
            · exact Or.inl h
            · exact Or.inr h.2
          by_cases hdd : s.getD (d1 + 1) 0 = 46 ∧
              (s.getD (d1 + 2) 0 = 92 ∨ s.getD (d1 + 2) 0 = 0)
          · rw [if_pos hdd]
            have hd2 : d1 + 1 < s.length := by
              by_contra hge
              rw [List.getD_eq_default s 0 (by omega)] at hdd
              omega
            by_cases hz1 : d1 = 0
            · subst hz1
              have hl : backToSeparator s 0 (((0 : Nat) : Int) - 1) = -1 := rfl
              rw [hl, if_neg (by omega)]
              exact ⟨false, s, rfl, le_refl _, hz, fun h => Bool.noConfusion h,
                fun _ => ⟨h46, hdd.1, hdd.2⟩⟩
            · obtain ⟨b1, b2, b3⟩ := backToSeparator_spec s d1 ((d1 : Int) - 1) (by omega)
                (by omega)
              generalize backToSeparator s d1 ((d1 : Int) - 1) = l at b1 b2 b3 ⊢
              rw [if_pos (by omega)]
              obtain ⟨L, rfl⟩ : ∃ L : Nat, l = (L : Int) := ⟨l.toNat, by omega⟩
              simp only [Int.toNat_ofNat] at b3 ⊢
              have hL : L ≤ s.length := by omega
              have hsL : L = 0 ∨ s.getD (L - 1) 0 = 92 := by
                rcases b3 with h | h
                · left; omega
                · right
                  rw [show ((L : Int) - 1).toNat = L - 1 by omega] at h
                  exact h
              have key : ∀ hlen : d1 + 3 ≤ s.length ∨ s.length = d1 + 2,
                  ∃ ret out, removePointsLoop fuel (cutOut s L (d1 + 3)) L = some (ret, out) ∧
                    out.length ≤ s.length ∧ (∀ c ∈ out, c ≠ 0) ∧
                    (ret = true → ∀ i, ¬ pointAt out i) ∧
                    (ret = false → out.getD 0 0 = 46 ∧ out.getD 1 0 = 46 ∧
                      (out.getD 2 0 = 92 ∨ out.getD 2 0 = 0)) := by
                intro hlen
                have hcl := length_cutOut s L (d1 + 3) hL
                obtain ⟨ret, out, e1, e2, e3, e4, e5⟩ := ih (cutOut s L (d1 + 3)) L
                  (cutOut_nonzero s L (d1 + 3) hz) (by rw [hcl]; omega)
                  (fun i hi hp => hinv1 i (by omega) (cutOut_pointAt s L (d1 + 3) hL hsL i hi hp))
                  (by rw [hcl]; omega)
                exact ⟨ret, out, e1, by rw [hcl] at e2; omega, e3, e4, e5⟩
              by_cases hend : s.getD (d1 + 2) 0 = 0
              · rw [if_pos hend]
                have hlen : s.length ≤ d1 + 2 := (getD_zero_iff s hz (d1 + 2)).mp hend
                have hcut : s.take L = cutOut s L (d1 + 3) := by
                  unfold cutOut
                  rw [List.drop_eq_nil_of_le (by omega), List.append_nil]
                rw [hcut]
                exact key (Or.inr (by omega))
              · rw [if_neg hend]
                have hlen : d1 + 2 < s.length := by
                  by_contra hge
                  exact hend (List.getD_eq_default s 0 (by omega))
                exact key (Or.inl (by omega))
          · rw [if_neg hdd]
            by_cases hp1 : s.getD (d1 + 1) 0 = 92 ∨ s.getD (d1 + 1) 0 = 0
            · rw [if_pos hp1]
              have key : ∃ ret out, removePointsLoop fuel (cutOut s d1 (d1 + 2)) d1
                    = some (ret, out) ∧
                    out.length ≤ s.length ∧ (∀ c ∈ out, c ≠ 0) ∧
                    (ret = true → ∀ i, ¬ pointAt out i) ∧
                    (ret = false → out.getD 0 0 = 46 ∧ out.getD 1 0 = 46 ∧
                      (out.getD 2 0 = 92 ∨ out.getD 2 0 = 0)) := by
                have hcl := length_cutOut s d1 (d1 + 2) (by omega)
                obtain ⟨ret, out, e1, e2, e3, e4, e5⟩ := ih (cutOut s d1 (d1 + 2)) d1
                  (cutOut_nonzero s d1 (d1 + 2) hz) (by rw [hcl]; omega)
                  (fun i hi hp => hinv1 i hi
                    (cutOut_pointAt s d1 (d1 + 2) (by omega) hs i hi hp))
                  (by rw [hcl]; omega)
                exact ⟨ret, out, e1, by rw [hcl] at e2; omega, e3, e4, e5⟩
              by_cases hend : s.getD (d1 + 1) 0 = 0
              · rw [if_pos hend]
                have hlen : s.length ≤ d1 + 1 := (getD_zero_iff s hz (d1 + 1)).mp hend
                have hcut : s.take d1 = cutOut s d1 (d1 + 2) := by
                  unfold cutOut
                  rw [List.drop_eq_nil_of_le (by omega), List.append_nil]
                rw [hcut]
                exact key
              · rw [if_neg hend]
                exact key
            · rw [if_neg hp1]
              refine ih s (d1 + 1) hz (by omega) (fun i hi hp => ?_) (by omega)
              by_cases hid : i < d1
              · exact hinv1 i hid hp
              · have hi1 : i = d1 := by omega
                subst hi1
                rcases hp.2.2 with h | h | h
                · exact hp1 (Or.inl h)
                · exact hp1 (Or.inr h)
                · exact hdd h
        · rw [if_neg hst]
          refine ih s (d1 + 1) hz (by omega) (fun i hi hp => ?_) (by omega)
          by_cases hid : i < d1
          · exact hinv1 i hid hp
          · have hi1 : i = d1 := by omega
            subst hi1
            apply hst
            rcases hp.1 with h | h
            · exact Or.inl h
            · by_cases hz1 : i = 0
              · exact Or.inl hz1
              · exact Or.inr ⟨by omega, h⟩
      · rw [if_neg h46]
        have hd1 : s.length ≤ d1 := by
          rcases k4 with h | h
          · exact (getD_zero_iff s hz d1).mp h
          · exact absurd h h46
        exact ih s d1 hz k2 hinv1 (by omega)
    · rw [if_neg h0]
      have hlen : s.length ≤ d := (getD_zero_iff s hz d).mp (not_not.mp h0)
      refine ⟨true, s, rfl, le_refl _, hz, fun _ i hp => ?_, fun h => Bool.noConfusion h⟩
      by_cases hid : i < d
      · exact hinv i hid hp
      · have := hp.2.1
        rw [List.getD_eq_default s 0 (by omega)] at this
        omega

theorem components_ne_nil : ∀ s : List Nat, components s ≠ [] := by
  intro s
  cases s with
  | nil => simp [components]
  | cons c rest =>
    rw [components]
    split_ifs
    · simp
    · split <;> simp

/-- The first component stands at the beginning of the string and ends at its end or in
front of a backslash. -/
theorem components_head :
    ∀ (s h : List Nat) (t : List (List Nat)), components s = h :: t →
      h.length ≤ s.length ∧ (∀ j, j < h.length → s.getD j 0 = h.getD j 0) ∧
      (h.length = s.length ∨ s.getD h.length 0 = 92) := by
  intro s
  induction s with
  | nil =>
    intro h t e
    simp only [components, List.cons.injEq] at e
    obtain ⟨rfl, _⟩ := e
    exact ⟨le_refl _, fun j hj => by simp at hj, Or.inl rfl⟩
  | cons c rest ih =>
    intro h t e
    rw [components] at e
    by_cases hc : c = 92
    · rw [if_pos hc] at e
      simp only [List.cons.injEq] at e
      obtain ⟨rfl, _⟩ := e
      exact ⟨by simp, fun j hj => by simp at hj, Or.inr (by simp [hc])⟩
    · rw [if_neg hc] at e
      cases hr : components rest with
      | nil => exact absurd hr (components_ne_nil rest)
      | cons h1 t1 =>
        rw [hr] at e
        simp only [List.cons.injEq] at e
        obtain ⟨rfl, _⟩ := e
        obtain ⟨i1, i2, i3⟩ := ih h1 t1 hr
        refine ⟨by simp only [List.length_cons]; omega, fun j hj => ?_, ?_⟩
        · cases j with
          | zero => simp
          | succ j =>
            simp only [List.getD_cons_succ]
            exact i2 j (by simp only [List.length_cons] at hj; omega)
        · simp only [List.length_cons, List.getD_cons_succ]
          rcases i3 with h | h
          · exact Or.inl (by omega)
          · exact Or.inr h

/-- Each further component stands behind a backslash and ends at the end of the string or
in front of a backslash. -/
theorem components_tail :
    ∀ (s h : List Nat) (t : List (List Nat)), components s = h :: t → ∀ comp ∈ t,
      ∃ i, 0 < i ∧ s.getD (i - 1) 0 = 92 ∧ i + comp.length ≤ s.length ∧
        (∀ j, j < comp.length → s.getD (i + j) 0 = comp.getD j 0) ∧
        (i + comp.length = s.length ∨ s.getD (i + comp.length) 0 = 92) := by
  intro s
  induction s with
  | nil =>
    intro h t e comp hm
    simp only [components, List.cons.injEq] at e
    obtain ⟨_, rfl⟩ := e
    simp at hm
  | cons c rest ih =>
    intro h t e comp hm
    have shift : ∀ i, 0 < i → rest.getD (i - 1) 0 = 92 → i + comp.length ≤ rest.length →
        (∀ j, j < comp.length → rest.getD (i + j) 0 = comp.getD j 0) →
        (i + comp.length = rest.length ∨ rest.getD (i + comp.length) 0 = 92) →
        ∃ i, 0 < i ∧ (c :: rest).getD (i - 1) 0 = 92 ∧ i + comp.length ≤ (c :: rest).length ∧
          (∀ j, j < comp.length → (c :: rest).getD (i + j) 0 = comp.getD j 0) ∧
          (i + comp.length = (c :: rest).length ∨ (c :: rest).getD (i + comp.length) 0 = 92) := by
      intro i h1 h2 h3 h4 h5
      refine ⟨i + 1, by omega, ?_, by simp only [List.length_cons]; omega, fun j hj => ?_, ?_⟩
      · obtain ⟨k, rfl⟩ : ∃ k, i = k + 1 := ⟨i - 1, by omega⟩
        simpa using h2
      · rw [show i + 1 + j = (i + j) + 1 by omega, List.getD_cons_succ]
        exact h4 j hj
      · rw [show i + 1 + comp.length = (i + comp.length) + 1 by omega, List.getD_cons_succ]
        simp only [List.length_cons]
        rcases h5 with h | h
        · exact Or.inl (by omega)
        · exact Or.inr h
    rw [components] at e
    cases hr : components rest with
    | nil => exact absurd hr (components_ne_nil rest)
    | cons h1 t1 =>
      rw [hr] at e
      by_cases hc : c = 92
      · rw [if_pos hc] at e
        simp only [List.cons.injEq] at e
        obtain ⟨_, rfl⟩ := e
        rcases List.mem_cons.mp hm with rfl | hm1
        · obtain ⟨i1, i2, i3⟩ := components_head rest comp t1 hr
          refine ⟨1, by omega, by simp [hc], by simp only [List.length_cons]; omega,
            fun j hj => ?_, ?_⟩
          · rw [show 1 + j = j + 1 by omega, List.getD_cons_succ]
            exact i2 j hj
          · rw [show 1 + comp.length = comp.length + 1 by omega, List.getD_cons_succ]
            simp only [List.length_cons]
            rcases i3 with h | h
            · exact Or.inl (by omega)
            · exact Or.inr h
        · obtain ⟨i, h1, h2, h3, h4, h5⟩ := ih h1 t1 hr comp hm1
          exact shift i h1 h2 h3 h4 h5
      · rw [if_neg hc] at e
        simp only [List.cons.injEq] at e
        obtain ⟨_, rfl⟩ := e
        obtain ⟨i, h1, h2, h3, h4, h5⟩ := ih h1 t1 hr comp hm
        exact shift i h1 h2 h3 h4 h5

/-- Where each component of a string stands. -/
theorem components_mem (s comp : List Nat) (hm : comp ∈ components s) :
    ∃ i, (i = 0 ∨ s.getD (i - 1) 0 = 92) ∧ i + comp.length ≤ s.length ∧
      (∀ j, j < comp.length → s.getD (i + j) 0 = comp.getD j 0) ∧
      (i + comp.length = s.length ∨ s.getD (i + comp.length) 0 = 92) := by
  cases hr : components s with
  | nil => exact absurd hr (components_ne_nil s)
  | cons h t =>
    rw [hr] at hm
    rcases List.mem_cons.mp hm with rfl | hm1
    · obtain ⟨i1, i2, i3⟩ := components_head s comp t hr
      exact ⟨0, Or.inl rfl, by omega, fun j hj => by rw [Nat.zero_add]; exact i2 j hj,
        by rw [Nat.zero_add]; exact i3⟩
    · obtain ⟨i, h1, h2, h3, h4, h5⟩ := components_tail s h t hr comp hm1
      exact ⟨i, Or.inr h2, h3, h4, h5⟩

/-- A string in which no component "." or ".." begins at any index has no component "."
or "..". -/
theorem no_point_components (s : List Nat) (h : ∀ i, ¬ pointAt s i) :
    [46] ∉ components s ∧ [46, 46] ∉ components s := by
  constructor
  · intro hm
    obtain ⟨i, h1, h2, h3, h4⟩ := components_mem s [46] hm
    refine h i ⟨h1, ?_, ?_⟩
    · have := h3 0 (by simp)
      simpa using this
    · simp only [List.length_singleton] at h4 h2
      rcases h4 with h5 | h5
      · exact Or.inr (Or.inl (List.getD_eq_default s 0 (by omega)))
      · exact Or.inl h5
  · intro hm
    obtain ⟨i, h1, h2, h3, h4⟩ := components_mem s [46, 46] hm
    have e0 := h3 0 (by simp)
    have e1 := h3 1 (by simp)
    simp only [List.length_cons, List.length_nil] at h4 h2
    refine h i ⟨h1, by simpa using e0, Or.inr (Or.inr ⟨by simpa using e1, ?_⟩)⟩
    rcases h4 with h5 | h5
    · exact Or.inr (List.getD_eq_default s 0 (by omega))
    · exact Or.inl h5

/-- A string that begins with "..", at its end or in front of a backslash, has ".." as
its first component. -/
theorem components_head_points (s : List Nat) (hz : ∀ c ∈ s, c ≠ 0)
    (h0 : s.getD 0 0 = 46) (h1 : s.getD 1 0 = 46)
    (h2 : s.getD 2 0 = 92 ∨ s.getD 2 0 = 0) : (components s).head? = some [46, 46] := by
  cases s with
  | nil => simp at h0
  | cons a t =>
    cases t with
    | nil => simp at h1
    | cons b r =>
      simp only [List.getD_cons_zero, List.getD_cons_succ] at h0 h1 h2
      subst h0 h1
      cases r with
      | nil => rfl
      | cons c r1 =>
        simp only [List.getD_cons_zero] at h2
        rcases h2 with h | h
        · subst h
          simp [components]
        · exact absurd h (hz c (by simp))

/-- The scan to the left stops on the first byte that is no byte of a word, or at the end
of what was read. -/
theorem wordBeginScan_word (w : World) (e : Int) :
    ∀ (n : Nat) (s : Int), e ≤ s → s - e ≤ n →
      e ≤ wordBeginScan w e n s ∧ wordBeginScan w e n s ≤ s ∧
      (∀ x, wordBeginScan w e n s < x → x ≤ s → wordByte w (byteAt w x) = true) ∧
      (wordBeginScan w e n s ≠ e → wordByte w (byteAt w (wordBeginScan w e n s)) = false) := by
  intro n
  induction n with
  | zero =>
    intro s h hn
    simp only [wordBeginScan]
    exact ⟨h, le_refl _, fun x h1 h2 => by omega, fun h1 => absurd (by omega : s = e) h1⟩
  | succ n ih =>
    intro s h hn
    rw [wordBeginScan]
    by_cases h1 : s > e ∧ wordByte w (byteAt w s) = true
    · rw [if_pos h1]
      obtain ⟨i1, i2, i3, i4⟩ := ih (s - 1) (by omega) (by omega)
      refine ⟨i1, by omega, fun x hx1 hx2 => ?_, i4⟩
      by_cases hxs : x = s
      · rw [hxs]; exact h1.2
      · exact i3 x hx1 (by omega)
    · rw [if_neg h1]
      refine ⟨h, le_refl _, fun x hx1 hx2 => by omega, fun hne => ?_⟩
      by_contra hw
      exact h1 ⟨by omega, by simpa using hw⟩

/-- The scan to the right stops on the first byte that is no byte of a word, or at the end
of what was read. -/
theorem wordEndScan_word (w : World) (e : Int) :
    ∀ (n : Nat) (s : Int), s ≤ e → e - s ≤ n →
      s ≤ wordEndScan w e n s ∧ wordEndScan w e n s ≤ e ∧
      (∀ x, s ≤ x → x < wordEndScan w e n s → wordByte w (byteAt w x) = true) ∧
      (wordEndScan w e n s ≠ e → wordByte w (byteAt w (wordEndScan w e n s)) = false) := by
  intro n
  induction n with
  | zero =>
    intro s h hn
    simp only [wordEndScan]
    exact ⟨le_refl _, h, fun x h1 h2 => by omega, fun h1 => absurd (by omega : s = e) h1⟩
  | succ n ih =>
    intro s h hn
    rw [wordEndScan]
    by_cases h1 : s < e ∧ wordByte w (byteAt w s) = true
    · rw [if_pos h1]
      obtain ⟨i1, i2, i3, i4⟩ := ih (s + 1) (by omega) (by omega)
      refine ⟨by omega, i2, fun x hx1 hx2 => ?_, i4⟩
      by_cases hxs : x = s
      · rw [hxs]; exact h1.2
      · exact i3 x (by omega) hx2
    · rw [if_neg h1]
      refine ⟨le_refl _, h, fun x hx1 hx2 => by omega, fun hne => ?_⟩
      by_contra hw
      exact h1 ⟨by omega, by simpa using hw⟩

/-- The first loop of the double click without Ctrl, when no read fails: it ends with the
beginning of the run of word bytes that ends in front of `seek`. -/
theorem selStartLoop_word (w : World) (d : DblClick) (hr : ∀ n, w.readErr n = false)
    (hwl : d.wholeLine = false) :
    ∀ (fuel : Nat) (seek : Int) (b : Bool) (reads : Nat), 0 ≤ seek → seek ≤ FileSize w →
      seek < fuel →
      ∃ x k, selStartLoop w d fuel seek b reads = some (ScanResult.done x k) ∧
        0 ≤ x ∧ x ≤ seek ∧ (∀ y, x ≤ y → y < seek → wordByte w (byteAt w y) = true) ∧
        (0 < x → wordByte w (byteAt w (x - 1)) = false) := by
  intro fuel
  induction fuel with
  | zero => intro seek b reads h0 _ h; exact absurd h (by omega)
  | succ n ih =>
    intro seek b reads h0 h1 hfuel
    rw [selStartLoop]
    by_cases hs : seek > 0
    · rw [if_pos hs]
      have hA : APROX_LINE_LEN = 1000 := rfl
      have hp : Prepare w reads (seek - min APROX_LINE_LEN seek) (min APROX_LINE_LEN seek)
          = (min APROX_LINE_LEN seek, false) := by
        unfold Prepare
        rw [hr reads]
        simp only [Bool.false_eq_true, if_false, Prod.mk.injEq, and_true]
        omega
      rw [hp]
      simp only [Bool.false_eq_true, if_false]
      generalize hlen : min APROX_LINE_LEN seek = len
      have hl1 : 1 ≤ len := by omega
      have hl2 : len ≤ seek := by omega
      rw [if_neg (by omega)]
      simp only [hwl, Bool.false_eq_true, not_false_eq_true, if_true]
      obtain ⟨w1, w2, w3, w4⟩ := wordBeginScan_word w (seek - 1 - len) len.toNat (seek - 1)
        (by omega) (by omega)
      generalize wordBeginScan w (seek - 1 - len) len.toNat (seek - 1) = ws at w1 w2 w3 w4 ⊢
      by_cases hne : ws ≠ seek - 1 - len
      · rw [if_pos hne]
        refine ⟨_, _, rfl, by omega, by omega, fun y hy1 hy2 => w3 y (by omega) (by omega),
          fun _ => ?_⟩
        rw [show seek - len + (ws - (seek - 1 - len)) - 1 = ws by omega]
        exact w4 hne
      · rw [if_neg hne]
        have hws : ws = seek - 1 - len := not_not.mp hne
        obtain ⟨x, k, e1, e2, e3, e4, e5⟩ := ih (seek - len) b (reads + 1) (by omega)
          (by omega) (by omega)
        refine ⟨x, k, e1, e2, by omega, fun y hy1 hy2 => ?_, e5⟩
        by_cases hy : y < seek - len
        · exact e4 y hy1 hy
        · exact w3 y (by omega) (by omega)
    · rw [if_neg hs]
      exact ⟨0, reads, rfl, le_refl _, h0, fun y hy1 hy2 => by omega, fun h => by omega⟩

/-- The second loop of the double click without Ctrl, when no read fails: it ends with
the end of the run of word bytes that begins at `seek`. -/
theorem selEndLoop_word (w : World) (d : DblClick) (hr : ∀ n, w.readErr n = false)
    (hwl : d.wholeLine = false) :
    ∀ (fuel : Nat) (seek : Int) (b : Bool) (reads : Nat), 0 ≤ seek → seek ≤ FileSize w →
      FileSize w - seek < fuel →
      ∃ x k, selEndLoop w d fuel seek b reads = some (ScanResult.done x k) ∧
        seek ≤ x ∧ x ≤ FileSize w ∧
        (∀ y, seek ≤ y → y < x → wordByte w (byteAt w y) = true) ∧
        (x < FileSize w → wordByte w (byteAt w x) = false) := by
  intro fuel
  induction fuel with
  | zero => intro seek b reads _ h1 h; exact absurd h (by omega)
  | succ n ih =>
    intro seek b reads h0 h1 hfuel
    rw [selEndLoop]
    by_cases hs : seek < FileSize w
    · rw [if_pos hs]
      have hA : APROX_LINE_LEN = 1000 := rfl
      have hp : Prepare w reads seek APROX_LINE_LEN
          = (min APROX_LINE_LEN (FileSize w - seek), false) := by
        unfold Prepare
        rw [hr reads]
        simp only [Bool.false_eq_true, if_false, Prod.mk.injEq, and_true]
        omega
      rw [hp]
      simp only [Bool.false_eq_true, if_false]
      generalize hlen : min APROX_LINE_LEN (FileSize w - seek) = len
      have hl1 : 1 ≤ len := by omega
      have hl2 : seek + len ≤ FileSize w := by omega
      rw [if_neg (by omega), if_pos (by rw [hwl]; exact Bool.false_ne_true)]
      obtain ⟨w1, w2, w3, w4⟩ := wordEndScan_word w (seek + len) len.toNat seek
        (by omega) (by omega)
      generalize wordEndScan w (seek + len) len.toNat seek = ws at w1 w2 w3 w4 ⊢
      by_cases hne : ws ≠ seek + len
      · rw [if_pos hne]
        rw [show seek + len - (seek + len - ws) = ws by omega]
        exact ⟨_, _, rfl, w1, by omega, w3, fun _ => w4 hne⟩
      · rw [if_neg hne]
        have hws : ws = seek + len := not_not.mp hne
        obtain ⟨x, k, e1, e2, e3, e4, e5⟩ := ih (seek + len) b (reads + 1) (by omega)
          (by omega) (by omega)
        refine ⟨x, k, e1, by omega, e3, fun y hy1 hy2 => ?_, e5⟩
        by_cases hy : y < seek + len
        · exact w3 y hy1 (by omega)
        · exact e4 y (by omega) hy2
    · rw [if_neg hs]
      exact ⟨FileSize w, reads, rfl, h1, le_refl _, fun y hy1 hy2 => by omega,
        fun h => by omega⟩

/-- The loop of `AddFile` stops at the first item that is `Equal` to the data: the items in
front of the index it returns are not. -/
theorem findEqual_first (e : FileHistoryWorld) (t : CFileHistoryItemTypeEnum) (h : Nat)
    (f : List Nat) :
    ∀ (l : List CFileHistoryItem) (i k : Nat), findEqual e t h f l i = some k →
      ∀ j y, j < k - i → l.get? j = some y → y.Equal e t h f = false := by
  intro l
  induction l with
  | nil => intro i k hk; simp [findEqual] at hk
  | cons a rest ih =>
    intro i k hk j y hj hy
    rw [findEqual] at hk
    by_cases ha : a.Equal e t h f = true
    · rw [if_pos ha] at hk
      obtain rfl := Option.some.inj hk
      omega
    · rw [if_neg ha] at hk
      cases j with
      | zero =>
        simp only [List.get?_cons_zero, Option.some.injEq] at hy
        subst hy
        simpa using ha
      | succ j =>
        simp only [List.get?_cons_succ] at hy
        exact ih (i + 1) k hk j y (by omega) hy

/-- C1. Forward literal search (find command, pattern not a regular expression, whole words
off, no cancellation, no read error), for every file, every pattern of length `1 ≤ m`
(`m < FIND_TEXT_LEN` by the type of the search text) and every start cursor `c` with
`0 ≤ c ≤ FileSize`: if `p` is the least offset `≥ c` at which the pattern occurs, the
command selects it (`StartSelection = p`, `EndSelection = FindOffset = p + m`); if the
pattern does not occur at or after `c`, the command reports that there is no match. Chunk
boundaries play no role in the statement. -/
theorem forward_literal_search_selects_first_occurrence (w : World) (cmd : FindCmd)
    (s : CViewerWindow) (fuel : Nat) (hstart : searchStarts w cmd s = true)
    (hfwd : searchForward cmd (searchSetting w cmd s) = true)
    (hlit : (searchSetting w cmd s).FindDialog.Regular = false)
    (hww : (searchSetting w cmd s).FindDialog.WholeWords = false)
    (hgood : w.SearchDataIsGood = true)
    (hesc : ∀ n, w.escPoll n = false) (hread : ∀ n, w.readErr n = false)
    (hm : 1 ≤ (searchSetting w cmd s).SearchData.val.length)
    (hc0 : 0 ≤ startCursor w cmd s) (hc1 : startCursor w cmd s ≤ FileSize w)
    (hfuel : w.file.length < fuel) :
    (∀ p, startCursor w cmd s ≤ p →
      occursAt w (searchSetting w cmd s).FindDialog.CaseSensitive
        (searchSetting w cmd s).SearchData.val p = true →
      (∀ q, startCursor w cmd s ≤ q → q < p →
        occursAt w (searchSetting w cmd s).FindDialog.CaseSensitive
          (searchSetting w cmd s).SearchData.val q = false) →
      ∃ s' r, findCommand w fuel cmd s = some (s', r) ∧ r.found ≠ -1 ∧ r.messages = [] ∧
        s'.StartSelection = p ∧
        s'.EndSelection = p + (searchSetting w cmd s).SearchData.val.length ∧
        s'.FindOffset = p + (searchSetting w cmd s).SearchData.val.length) ∧
    ((∀ p, startCursor w cmd s ≤ p →
      occursAt w (searchSetting w cmd s).FindDialog.CaseSensitive
        (searchSetting w cmd s).SearchData.val p = false) →
      ∃ s' r, findCommand w fuel cmd s = some (s', r) ∧ r.found = -1 ∧
        r.messages = [Message.IDS_FIND_NOMATCH]) := by
  have hacc : ∀ q, acceptedAt w (searchSetting w cmd s).FindDialog.CaseSensitive
      (searchSetting w cmd s).FindDialog.WholeWords (searchSetting w cmd s).SearchData.val q =
      occursAt w (searchSetting w cmd s).FindDialog.CaseSensitive
        (searchSetting w cmd s).SearchData.val q := by
    intro q; simp [acceptedAt, hww]
  have h := findCommand_forward_literal w cmd s fuel hstart hfwd hlit hgood hesc hread hm
    hc0 hc1 hfuel
  simp only [hacc] at h
  constructor
  · intro p hp1 hp2 hp3
    rcases h with ⟨p', s', r, a1, a2, a3, a4, a5, a6, a7, a8, a9, -⟩ | ⟨s', r, a1, -⟩
    · have e : p' = p := by
        by_contra hne
        rcases lt_or_gt_of_ne hne with hlt | hgt
        · rw [hp3 p' a1 hlt] at a2; exact absurd a2 (by simp)
        · rw [a3 p hp1 hgt] at hp2; exact absurd hp2 (by simp)
      subst e
      exact ⟨s', r, a4, a5, a6, a7, a8, a9⟩
    · rw [a1 p hp1] at hp2; exact absurd hp2 (by simp)
  · intro hnone
    rcases h with ⟨p', s', r, a1, a2, -⟩ | ⟨s', r, -, a2, a3, a4, -⟩
    · rw [hnone p' a1] at a2; exact absurd a2 (by simp)
    · exact ⟨s', r, a2, a3, a4⟩

/-- Witness for C1: in "abcXYZdefXYZghi" the forward search for "XYZ" from offset 0 selects
the occurrence at offset 3. -/
theorem forward_literal_search_witness :
    (findCommand symmetryFile 16 FindCmd.CM_FINDNEXT symmetryWindow).map
      (fun t => (t.1.StartSelection, t.1.EndSelection, t.1.FindOffset, t.2.messages)) =
      some (3, 6, 6, []) := by
  obtain ⟨s', r, h1, -, h3, h4, h5, h6⟩ :=
    (forward_literal_search_selects_first_occurrence symmetryFile FindCmd.CM_FINDNEXT
      symmetryWindow 16 (by decide) (by decide) (by decide) (by decide) (by decide)
      (fun _ => rfl) (fun _ => rfl) (by decide) (by decide) (by decide) (by decide)).1
      3 (by decide) (by decide) (by
        intro q h1 h2
        have h0 : (0 : Int) ≤ q := h1
        interval_cases q <;> decide)
  rw [h1]
  simp only [Option.map_some', h3, h4, h5, h6]
  decide

/-- C2. Backward literal search (whole words off, no cancellation, no read error), for every
file, every pattern of length `1 ≤ m` and every start cursor `c` with `0 ≤ c ≤ FileSize`:
if `p` is the greatest offset with `p + m ≤ c` at which the pattern occurs, the command
selects it (`FindOffset = StartSelection = p`, `EndSelection = p + m`); if no occurrence
ends at or before `c`, the command reports that there is no match. Chunk boundaries play
no role in the statement. -/
theorem backward_literal_search_selects_last_occurrence (w : World) (cmd : FindCmd)
    (s : CViewerWindow) (fuel : Nat) (hstart : searchStarts w cmd s = true)
    (hbwd : searchForward cmd (searchSetting w cmd s) = false)
    (hlit : (searchSetting w cmd s).FindDialog.Regular = false)
    (hww : (searchSetting w cmd s).FindDialog.WholeWords = false)
    (hgood : w.SearchDataIsGood = true)
    (hesc : ∀ n, w.escPoll n = false) (hread : ∀ n, w.readErr n = false)
    (hm : 1 ≤ (searchSetting w cmd s).SearchData.val.length)
    (hc0 : 0 ≤ startCursor w cmd s) (hc1 : startCursor w cmd s ≤ FileSize w)
    (hfuel : w.file.length < fuel) :
    (∀ p, p + (searchSetting w cmd s).SearchData.val.length ≤ startCursor w cmd s →
      occursAt w (searchSetting w cmd s).FindDialog.CaseSensitive
        (searchSetting w cmd s).SearchData.val p = true →
      (∀ q, p < q → q + (searchSetting w cmd s).SearchData.val.length ≤ startCursor w cmd s →
        occursAt w (searchSetting w cmd s).FindDialog.CaseSensitive
          (searchSetting w cmd s).SearchData.val q = false) →
      ∃ s' r, findCommand w fuel cmd s = some (s', r) ∧ r.found ≠ -1 ∧ r.messages = [] ∧
        s'.FindOffset = p ∧ s'.StartSelection = p ∧
        s'.EndSelection = p + (searchSetting w cmd s).SearchData.val.length) ∧
    ((∀ p, p + (searchSetting w cmd s).SearchData.val.length ≤ startCursor w cmd s →
      occursAt w (searchSetting w cmd s).FindDialog.CaseSensitive
        (searchSetting w cmd s).SearchData.val p = false) →
      ∃ s' r, findCommand w fuel cmd s = some (s', r) ∧ r.found = -1 ∧
        r.messages = [Message.IDS_FIND_NOMATCH]) := by
  have hacc : ∀ q, acceptedAt w (searchSetting w cmd s).FindDialog.CaseSensitive
      (searchSetting w cmd s).FindDialog.WholeWords (searchSetting w cmd s).SearchData.val q =
      occursAt w (searchSetting w cmd s).FindDialog.CaseSensitive
        (searchSetting w cmd s).SearchData.val q := by
    intro q; simp [acceptedAt, hww]
  have h := findCommand_backward_literal w cmd s fuel hstart hbwd hlit hgood hesc hread hm
    hc0 hc1 hfuel
  simp only [hacc] at h
  constructor
  · intro p hp1 hp2 hp3
    rcases h with ⟨p', s', r, a1, a2, a3, a4, a5, a6, a7, a8, a9, -⟩ | ⟨s', r, a1, -⟩
    · have e : p' = p := by
        by_contra hne
        rcases lt_or_gt_of_ne hne with hlt | hgt
        · rw [a3 p hlt hp1] at hp2; exact absurd hp2 (by simp)
        · rw [hp3 p' hgt a1] at a2; exact absurd a2 (by simp)
      subst e
      exact ⟨s', r, a4, a5, a6, a9, a7, a8⟩
    · rw [a1 p hp1] at hp2; exact absurd hp2 (by simp)
  · intro hnone
    rcases h with ⟨p', s', r, a1, a2, -⟩ | ⟨s', r, -, a2, a3, a4, -⟩
    · rw [hnone p' a1] at a2; exact absurd a2 (by simp)
    · exact ⟨s', r, a2, a3, a4⟩

/-- Witness for C2: in "abcXYZdefXYZghi" the backward search for "XYZ" from the end of the
file (offset 15) selects the occurrence at offset 9. -/
theorem backward_literal_search_witness :
    (findCommand symmetryFile 16 FindCmd.CM_FINDPREV
        { symmetryWindow with FindOffset := 15, LastFindOffset := 15 }).map
      (fun t => (t.1.StartSelection, t.1.EndSelection, t.1.FindOffset, t.2.messages)) =
      some (9, 12, 9, []) := by
  obtain ⟨s', r, h1, -, h3, h4, h5, h6⟩ :=
    (backward_literal_search_selects_last_occurrence symmetryFile FindCmd.CM_FINDPREV
      { symmetryWindow with FindOffset := 15, LastFindOffset := 15 } 16
      (by decide) (by decide) (by decide) (by decide) (by decide)
      (fun _ => rfl) (fun _ => rfl) (by decide) (by decide) (by decide) (by decide)).1
      9 (by decide) (by decide) (by
        intro q h1 h2
        have h0 : q + 3 ≤ 15 := h2
        have h3 : q ≤ 12 := by omega
        have h4 : 10 ≤ q := h1
        interval_cases q <;> decide)
  rw [h1]
  simp only [Option.map_some', h3, h4, h5, h6]
  decide

/-- C3. Whole-word literal search (no cancellation, no read error, pattern of length
`1 ≤ m`, start cursor in `[0, FileSize]`). In either direction a selected occurrence `p`
satisfies the whole-word condition: the byte at `p - 1` (when `p > 0`) and the byte at
`p + m` (when `p + m < FileSize`) are neither alphanumeric nor `_`. A forward search
selects the least occurrence at or after the cursor that satisfies the condition, skipping
the occurrences that do not, and reports that there is no match when there is none. -/
theorem whole_word_search_accepts_only_whole_words (w : World) (cmd : FindCmd)
    (s : CViewerWindow) (fuel : Nat) (hstart : searchStarts w cmd s = true)
    (hlit : (searchSetting w cmd s).FindDialog.Regular = false)
    (hww : (searchSetting w cmd s).FindDialog.WholeWords = true)
    (hgood : w.SearchDataIsGood = true)
    (hesc : ∀ n, w.escPoll n = false) (hread : ∀ n, w.readErr n = false)
    (hm : 1 ≤ (searchSetting w cmd s).SearchData.val.length)
    (hc0 : 0 ≤ startCursor w cmd s) (hc1 : startCursor w cmd s ≤ FileSize w)
    (hfuel : w.file.length < fuel) :
    (∀ s' r, findCommand w fuel cmd s = some (s', r) → r.found ≠ -1 →
      occursAt w (searchSetting w cmd s).FindDialog.CaseSensitive
        (searchSetting w cmd s).SearchData.val s'.StartSelection = true ∧
      wholeWordAt w (searchSetting w cmd s).SearchData.val.length s'.StartSelection = true ∧
      s'.EndSelection = s'.StartSelection + (searchSetting w cmd s).SearchData.val.length) ∧
    (searchForward cmd (searchSetting w cmd s) = true →
      (∀ p, startCursor w cmd s ≤ p →
        occursAt w (searchSetting w cmd s).FindDialog.CaseSensitive
          (searchSetting w cmd s).SearchData.val p = true →
        wholeWordAt w (searchSetting w cmd s).SearchData.val.length p = true →
        (∀ q, startCursor w cmd s ≤ q → q < p →
          occursAt w (searchSetting w cmd s).FindDialog.CaseSensitive
            (searchSetting w cmd s).SearchData.val q = true →
          wholeWordAt w (searchSetting w cmd s).SearchData.val.length q = false) →
        ∃ s' r, findCommand w fuel cmd s = some (s', r) ∧ r.found ≠ -1 ∧ r.messages = [] ∧
          s'.StartSelection = p ∧
          s'.EndSelection = p + (searchSetting w cmd s).SearchData.val.length ∧
          s'.FindOffset = p + (searchSetting w cmd s).SearchData.val.length) ∧
      ((∀ p, startCursor w cmd s ≤ p →
          occursAt w (searchSetting w cmd s).FindDialog.CaseSensitive
            (searchSetting w cmd s).SearchData.val p = true →
          wholeWordAt w (searchSetting w cmd s).SearchData.val.length p = false) →
        ∃ s' r, findCommand w fuel cmd s = some (s', r) ∧ r.found = -1 ∧
          r.messages = [Message.IDS_FIND_NOMATCH])) := by
  have hacc : ∀ q, acceptedAt w (searchSetting w cmd s).FindDialog.CaseSensitive
      (searchSetting w cmd s).FindDialog.WholeWords (searchSetting w cmd s).SearchData.val q =
      (occursAt w (searchSetting w cmd s).FindDialog.CaseSensitive
        (searchSetting w cmd s).SearchData.val q &&
       wholeWordAt w (searchSetting w cmd s).SearchData.val.length q) := by
    intro q; simp [acceptedAt, hww]
  refine ⟨fun s' r hres hfound => ?_, fun hfwd => ?_⟩
  · cases hdir : searchForward cmd (searchSetting w cmd s)
    · have h := findCommand_backward_literal w cmd s fuel hstart hdir hlit hgood hesc hread hm
        hc0 hc1 hfuel
      simp only [hacc, Bool.and_eq_true] at h
      rcases h with ⟨p, s2, r2, -, a2, -, a4, -, -, a7, a8, -⟩ | ⟨s2, r2, -, a2, a3, -⟩
      · rw [a4] at hres
        obtain ⟨rfl, rfl⟩ := Prod.mk.inj (Option.some.inj hres)
        rw [a7, a8]
        exact ⟨a2.1, a2.2, rfl⟩
      · rw [a2] at hres
        obtain ⟨rfl, rfl⟩ := Prod.mk.inj (Option.some.inj hres)
        exact absurd a3 hfound
    · have h := findCommand_forward_literal w cmd s fuel hstart hdir hlit hgood hesc hread hm
        hc0 hc1 hfuel
      simp only [hacc, Bool.and_eq_true] at h
      rcases h with ⟨p, s2, r2, -, a2, -, a4, -, -, a7, a8, -⟩ | ⟨s2, r2, -, a2, a3, -⟩
      · rw [a4] at hres
        obtain ⟨rfl, rfl⟩ := Prod.mk.inj (Option.some.inj hres)
        rw [a7, a8]
        exact ⟨a2.1, a2.2, rfl⟩
      · rw [a2] at hres
        obtain ⟨rfl, rfl⟩ := Prod.mk.inj (Option.some.inj hres)
        exact absurd a3 hfound
  · have h := findCommand_forward_literal w cmd s fuel hstart hfwd hlit hgood hesc hread hm
      hc0 hc1 hfuel
    simp only [hacc] at h
    constructor
    · intro p hp1 hp2 hp2' hp3
      rcases h with ⟨p', s', r, a1, a2, a3, a4, a5, a6, a7, a8, a9, -⟩ | ⟨s', r, a1, -⟩
      · have e : p' = p := by
          by_contra hne
          rcases lt_or_gt_of_ne hne with hlt | hgt
          · simp only [Bool.and_eq_true] at a2
            rw [hp3 p' a1 hlt a2.1] at a2
            exact absurd a2.2 (by simp)
          · have := a3 p hp1 hgt
            rw [hp2, hp2'] at this
            exact absurd this (by simp)
        subst e
        exact ⟨s', r, a4, a5, a6, a7, a8, a9⟩
      · have := a1 p hp1
        rw [hp2, hp2'] at this
        exact absurd this (by simp)
    · intro hnone
      rcases h with ⟨p', s', r, a1, a2, -⟩ | ⟨s', r, -, a2, a3, a4, -⟩
      · simp only [Bool.and_eq_true] at a2
        rw [hnone p' a1 a2.1] at a2
        exact absurd a2.2 (by simp)
      · exact ⟨s', r, a2, a3, a4⟩

/-- Witness for C3: the forward search for the whole word "cat" from offset 0 in
"concatenate cat scatter" selects the bytes from 12 to 15, and the forward search that
follows reports that there is no match. -/
theorem whole_word_search_witness :
    (findCommand wholeWordFile 24 FindCmd.CM_FINDNEXT wholeWordWindow).map
      (fun t => (t.1.StartSelection, t.1.EndSelection, t.2.messages)) = some (12, 15, []) ∧
    ((findCommand wholeWordFile 24 FindCmd.CM_FINDNEXT wholeWordWindow).bind
      (fun t => findCommand wholeWordFile 24 FindCmd.CM_FINDNEXT t.1)).map
      (fun t => t.2.messages) = some [Message.IDS_FIND_NOMATCH] := by
  constructor
  · obtain ⟨s', r, h1, -, h3, h4, h5, -⟩ :=
      ((whole_word_search_accepts_only_whole_words wholeWordFile FindCmd.CM_FINDNEXT
        wholeWordWindow 24 (by decide) (by decide) (by decide) (by decide)
        (fun _ => rfl) (fun _ => rfl) (by decide) (by decide) (by decide) (by decide)).2
        (by decide)).1 12 (by decide) (by decide) (by decide) (by
          intro q h1 h2
          have h0 : (0 : Int) ≤ q := h1
          interval_cases q <;> decide)
    rw [h1]
    simp only [Option.map_some', h3, h4, h5]
    decide
  · decide

/-- C4, counterexample. In "abcXYZdefXYZghi" the forward search for "XYZ" from offset 0
selects the match at offset 3; the backward search that follows immediately starts before
that match, finds nothing, reports that there is no match and leaves the selection empty at
offset 3, with the cursor back at 6. It does not select the match at offset 3 again. -/
theorem direction_toggle_counterexample :
    (findCommand symmetryFile 16 FindCmd.CM_FINDNEXT symmetryWindow).map
      (fun t => (t.1.StartSelection, t.1.EndSelection, t.1.FindOffset,
        t.1.SelectionIsFindResult, t.2.messages)) = some (3, 6, 6, true, []) ∧
    ((findCommand symmetryFile 16 FindCmd.CM_FINDNEXT symmetryWindow).bind
      (fun t => findCommand symmetryFile 16 FindCmd.CM_FINDPREV t.1)).map
      (fun t => (t.1.StartSelection, t.1.EndSelection, t.1.FindOffset, t.2.found,
        t.2.messages)) = some (3, 3, 6, -1, [Message.IDS_FIND_NOMATCH]) := by
  constructor <;> decide

/-- C4, amended. After a search whose match `[S, E)` is still the selection
(`SelectionIsFindResult`, cursor at one edge of the match), repeating the literal search at
once (no cancellation, no read error) starts at the far edge of the match in the direction
of the search and so does not select that match again: a backward search selects the
greatest accepted occurrence that ends at or before `S`, a forward search the least
accepted occurrence at or after `E`, and each reports that there is no match when there is
no such occurrence. -/
theorem direction_toggle_searches_from_other_edge (w : World) (cmd : FindCmd)
    (s : CViewerWindow) (fuel : Nat) (hdrag : s.MouseDrag = false)
    (hcmd : cmd ≠ FindCmd.CM_FINDSET) (htext : s.FindDialog.Text.val ≠ [])
    (hlast : s.LastFindSeekY = s.SeekY → s.LastFindOffset = s.FindOffset)
    (hres : s.SelectionIsFindResult = true) (hsel : s.StartSelection < s.EndSelection)
    (hcur : s.FindOffset = s.StartSelection ∨ s.FindOffset = s.EndSelection)
    (hlit : s.FindDialog.Regular = false) (hgood : w.SearchDataIsGood = true)
    (hesc : ∀ n, w.escPoll n = false) (hread : ∀ n, w.readErr n = false)
    (hm : 1 ≤ s.SearchData.val.length)
    (h0 : 0 ≤ s.StartSelection) (h1 : s.EndSelection ≤ FileSize w)
    (hfuel : w.file.length < fuel) :
    (searchForward cmd s = false →
      (∃ p s' r, findCommand w fuel cmd s = some (s', r) ∧ r.found ≠ -1 ∧
        s'.StartSelection = p ∧ s'.EndSelection = p + s.SearchData.val.length ∧
        s'.FindOffset = p ∧ p + s.SearchData.val.length ≤ s.StartSelection ∧
        acceptedAt w s.FindDialog.CaseSensitive s.FindDialog.WholeWords s.SearchData.val p
          = true ∧
        ∀ q, p < q → q + s.SearchData.val.length ≤ s.StartSelection →
          acceptedAt w s.FindDialog.CaseSensitive s.FindDialog.WholeWords s.SearchData.val q
            = false) ∨
      (∃ s' r, findCommand w fuel cmd s = some (s', r) ∧ r.found = -1 ∧
        r.messages = [Message.IDS_FIND_NOMATCH] ∧
        ∀ q, q + s.SearchData.val.length ≤ s.StartSelection →
          acceptedAt w s.FindDialog.CaseSensitive s.FindDialog.WholeWords s.SearchData.val q
            = false)) ∧
    (searchForward cmd s = true →
      (∃ p s' r, findCommand w fuel cmd s = some (s', r) ∧ r.found ≠ -1 ∧
        s'.StartSelection = p ∧ s'.EndSelection = p + s.SearchData.val.length ∧
        s'.FindOffset = p + s.SearchData.val.length ∧ s.EndSelection ≤ p ∧
        acceptedAt w s.FindDialog.CaseSensitive s.FindDialog.WholeWords s.SearchData.val p
          = true ∧
        ∀ q, s.EndSelection ≤ q → q < p →
          acceptedAt w s.FindDialog.CaseSensitive s.FindDialog.WholeWords s.SearchData.val q
            = false) ∨
      (∃ s' r, findCommand w fuel cmd s = some (s', r) ∧ r.found = -1 ∧
        r.messages = [Message.IDS_FIND_NOMATCH] ∧
        ∀ q, s.EndSelection ≤ q →
          acceptedAt w s.FindDialog.CaseSensitive s.FindDialog.WholeWords s.SearchData.val q
            = false)) := by
  obtain ⟨hset, hask⟩ := searchSetting_plain w cmd s hcmd htext hlast
  have hstart : searchStarts w cmd s = true := by simp [searchStarts, hdrag, hask]
  have hc := startCursor_after_match w cmd s hcmd htext hlast hres hsel hcur
  constructor
  · intro hdir
    rw [hdir] at hc
    simp only [Bool.false_eq_true, if_false] at hc
    have h := findCommand_backward_literal w cmd s fuel hstart (by rw [hset]; exact hdir)
      (by rw [hset]; exact hlit) hgood hesc hread (by rw [hset]; exact hm)
      (by rw [hc]; exact h0) (by rw [hc]; omega) hfuel
    rw [hset, hc] at h
    rcases h with ⟨p, s', r, a1, a2, a3, a4, a5, -, a7, a8, a9, -⟩ | ⟨s', r, a1, a2, a3, a4, -⟩
    · exact Or.inl ⟨p, s', r, a4, a5, a7, a8, a9, a1, a2, a3⟩
    · exact Or.inr ⟨s', r, a2, a3, a4, a1⟩
  · intro hdir
    rw [hdir] at hc
    simp only [if_true] at hc
    have h := findCommand_forward_literal w cmd s fuel hstart (by rw [hset]; exact hdir)
      (by rw [hset]; exact hlit) hgood hesc hread (by rw [hset]; exact hm)
      (by rw [hc]; omega) (by rw [hc]; exact h1) hfuel
    rw [hset, hc] at h
    rcases h with ⟨p, s', r, a1, a2, a3, a4, a5, -, a7, a8, a9, -⟩ | ⟨s', r, a1, a2, a3, a4, -⟩
    · exact Or.inl ⟨p, s', r, a4, a5, a7, a8, a9, a1, a2, a3⟩
    · exact Or.inr ⟨s', r, a2, a3, a4, a1⟩


/-- Witness for C4 (amended): the window that the forward search for "XYZ" in
"abcXYZdefXYZghi" leaves behind satisfies the hypotheses, and the backward search from it
reports that there is no match. -/
theorem direction_toggle_witness :
    (findCommand symmetryFile 16 FindCmd.CM_FINDNEXT symmetryWindow).map Prod.fst
      = some symmetryWindowAfter ∧
    (findCommand symmetryFile 16 FindCmd.CM_FINDPREV symmetryWindowAfter).map
      (fun t => t.2.messages) = some [Message.IDS_FIND_NOMATCH] := by
  refine ⟨by decide, ?_⟩
  rcases (direction_toggle_searches_from_other_edge symmetryFile FindCmd.CM_FINDPREV
    symmetryWindowAfter 16 (by decide) (by decide) (by decide) (by decide) (by decide)
    (by decide) (by decide) (by decide) (by decide) (fun _ => rfl) (fun _ => rfl)
    (by decide) (by decide) (by decide) (by decide)).1 (by decide) with
    ⟨p, s', r, -, -, -, -, -, h6, h7, -⟩ | ⟨s', r, h1, -, h3, -⟩
  · have hp : p + 3 ≤ 3 := h6
    have hp0 : 0 ≤ p := by
      simp only [acceptedAt, occursAt, Bool.and_eq_true, decide_eq_true_eq] at h7
      exact h7.1.1
    have : p = 0 := by omega
    subst this
    exact absurd h7 (by decide)
  · rw [h1]
    simp only [Option.map_some', h3]

/-- C5. Let a literal search have found a match and run to its end, leaving the window `s`
with the selection `[S, E)`, `E = S + m`, `m ≥ 1`. Repeating the search from `s` (F3 or
Shift+F3, no cancellation, no read error) does not select that match again: a repeated
forward search selects a match that starts at or after `E`, a repeated backward search
selects a match that ends at or before `S`, or else the search reports that there is no
match. This holds whatever the direction of the first search was, so in particular when
the search is repeated in the same direction. -/
theorem repeated_search_does_not_select_same_match
    (w0 : World) (fuel0 : Nat) (cmd0 : FindCmd) (s0 s : CViewerWindow) (r0 : FindRun)
    (hrun0 : findCommand w0 fuel0 cmd0 s0 = some (s, r0))
    (hstart0 : searchStarts w0 cmd0 s0 = true)
    (hlit : (searchSetting w0 cmd0 s0).FindDialog.Regular = false)
    (hfound0 : r0.found ≠ -1) (hfatal0 : r0.fatalErr = false)
    (hexit0 : s.ExitTextMode = false)
    (hm : 1 ≤ (searchSetting w0 cmd0 s0).SearchData.val.length)
    (w : World) (fuel : Nat) (cmd : FindCmd) (hcmd : cmd ≠ FindCmd.CM_FINDSET)
    (hgood : w.SearchDataIsGood = true)
    (hesc : ∀ n, w.escPoll n = false) (hread : ∀ n, w.readErr n = false)
    (h0 : 0 ≤ s.StartSelection) (h1 : s.EndSelection ≤ FileSize w)
    (hfuel : w.file.length < fuel) :
    ∃ s' r, findCommand w fuel cmd s = some (s', r) ∧
      ((r.found ≠ -1 ∧ r.messages = [] ∧
        s'.EndSelection = s'.StartSelection + s.SearchData.val.length ∧
        (if searchForward cmd s then s.EndSelection ≤ s'.StartSelection
         else s'.EndSelection ≤ s.StartSelection)) ∨
       (r.found = -1 ∧ r.messages = [Message.IDS_FIND_NOMATCH])) := by
  obtain ⟨e1, e2, e3, e4, e5, e6, e7, e8⟩ :=
    literal_match_state w0 fuel0 cmd0 s0 s r0 hrun0 hstart0 hlit hfound0 hfatal0 hexit0
  obtain ⟨t1, -⟩ := searchSetting_text w0 cmd0 s0 hstart0
  have htext : s.FindDialog.Text.val ≠ [] := by rw [e4]; exact t1
  have hlast : s.LastFindSeekY = s.SeekY → s.LastFindOffset = s.FindOffset := fun _ => e8
  have hm' : 1 ≤ s.SearchData.val.length := by rw [e5]; exact hm
  have hsel : s.StartSelection < s.EndSelection := by rw [e1]; omega
  have hcur : s.FindOffset = s.StartSelection ∨ s.FindOffset = s.EndSelection := by
    rw [e2]; split_ifs
    · exact Or.inr rfl
    · exact Or.inl rfl
  have hlit' : s.FindDialog.Regular = false := by rw [e4]; exact hlit
  obtain ⟨hset, hask⟩ := searchSetting_plain w cmd s hcmd htext hlast
  have hstart : searchStarts w cmd s = true := by simp [searchStarts, e6, hask]
  have hc := startCursor_after_match w cmd s hcmd htext hlast e3 hsel hcur
  cases hd : searchForward cmd s
  · rw [hd] at hc
    simp only [Bool.false_eq_true, if_false] at hc
    have h := findCommand_backward_literal w cmd s fuel hstart (by rw [hset]; exact hd)
      (by rw [hset]; exact hlit') hgood hesc hread (by rw [hset]; exact hm')
      (by rw [hc]; exact h0) (by rw [hc]; omega) hfuel
    rw [hset, hc] at h
    rcases h with ⟨p, s', r, a1, -, -, a4, a5, a6, a7, a8, -⟩ | ⟨s', r, -, a2, a3, a4, -⟩
    · refine ⟨s', r, a4, Or.inl ⟨a5, a6, by rw [a8, a7], ?_⟩⟩
      simp only [Bool.false_eq_true, if_false]
      rw [a8]; exact a1
    · exact ⟨s', r, a2, Or.inr ⟨a3, a4⟩⟩
  · rw [hd] at hc
    simp only [if_true] at hc
    have h := findCommand_forward_literal w cmd s fuel hstart (by rw [hset]; exact hd)
      (by rw [hset]; exact hlit') hgood hesc hread (by rw [hset]; exact hm')
      (by rw [hc]; omega) (by rw [hc]; exact h1) hfuel
    rw [hset, hc] at h
    rcases h with ⟨p, s', r, a1, -, -, a4, a5, a6, a7, a8, -⟩ | ⟨s', r, -, a2, a3, a4, -⟩
    · refine ⟨s', r, a4, Or.inl ⟨a5, a6, by rw [a8, a7], ?_⟩⟩
      simp only [if_true]
      rw [a7]; exact a1
    · exact ⟨s', r, a2, Or.inr ⟨a3, a4⟩⟩

/-- Witness for C5: in "abcXYZdefXYZghi" the forward search for "XYZ" from offset 0 leaves
the window `symmetryWindowAfter` with the match at offset 3 selected; the forward search
repeated from there selects the match at offset 9. -/
theorem repeated_search_witness :
    (∃ s' r, findCommand symmetryFile 16 FindCmd.CM_FINDNEXT symmetryWindowAfter
        = some (s', r) ∧
      ((r.found ≠ -1 ∧ r.messages = [] ∧
        s'.EndSelection = s'.StartSelection + symmetryWindowAfter.SearchData.val.length ∧
        (if searchForward FindCmd.CM_FINDNEXT symmetryWindowAfter
         then symmetryWindowAfter.EndSelection ≤ s'.StartSelection
         else s'.EndSelection ≤ symmetryWindowAfter.StartSelection)) ∨
       (r.found = -1 ∧ r.messages = [Message.IDS_FIND_NOMATCH]))) ∧
    (findCommand symmetryFile 16 FindCmd.CM_FINDNEXT symmetryWindowAfter).map
      (fun t => (t.1.StartSelection, t.1.EndSelection, t.2.messages)) = some (9, 12, []) :=
  ⟨repeated_search_does_not_select_same_match symmetryFile 16 FindCmd.CM_FINDNEXT
      symmetryWindow symmetryWindowAfter { found := 3, reads := 1 }
      (by decide) (by decide) (by decide) (by decide) (by decide) (by decide) (by decide)
      symmetryFile 16 FindCmd.CM_FINDNEXT (by decide) (by decide)
      (fun _ => rfl) (fun _ => rfl) (by decide) (by decide) (by decide),
    by decide⟩

/-- C6. When the find command ends with the message that there is no match
(`IDS_FIND_NOMATCH`, `IDS_FIND_NOREGEXPMATCH`) or that the user terminated the search
(`IDS_FINDTERMINATEDBYUSER`), the cursor `FindOffset` has the value `oldFindOffset` that it
had when the search was entered, before the direction adjustment: for every world (file,
keyboard, read errors, line indexer, regular-expression engine), every pattern, both
directions, and however many chunks or lines were scanned. -/
theorem unsuccessful_search_restores_cursor (w : World) (fuel : Nat) (cmd : FindCmd)
    (s s' : CViewerWindow) (r : FindRun)
    (hrun : findCommand w fuel cmd s = some (s', r))
    (hstart : searchStarts w cmd s = true)
    (hend : Message.IDS_FINDTERMINATEDBYUSER ∈ r.messages ∨
      Message.IDS_FIND_NOMATCH ∈ r.messages ∨ Message.IDS_FIND_NOREGEXPMATCH ∈ r.messages) :
    s'.FindOffset = oldFindOffset w cmd s := by
  rw [findCommand_eq w fuel cmd s hstart] at hrun
  cases hloop : searchLoops w fuel (searchForward cmd (searchSetting w cmd s))
      { searchSetting w cmd s with FindOffset := startCursor w cmd s } with
  | none => rw [hloop] at hrun; simp at hrun
  | some t =>
    obtain ⟨s2, r2⟩ := t
    rw [hloop] at hrun
    simp only [Option.map_some', Option.some.injEq] at hrun
    obtain ⟨m1, m2, m3⟩ := SearchOutcome_messages w _ _ s2 r2 (searchLoops_shape w _ _ _ _ _ hloop)
    have hnot : ¬ (Message.IDS_FINDTERMINATEDBYUSER ∈ r2.messages ∨
        Message.IDS_FIND_NOMATCH ∈ r2.messages ∨ Message.IDS_FIND_NOREGEXPMATCH ∈ r2.messages) := by
      rintro (h | h | h)
      · exact m1 h
      · exact m2 h
      · exact m3 h
    cases hfe : r2.fatalErr
    · by_cases hne : r2.escPressed = true ∨ r2.found = -1
      · have := (finishFind_notFound w (oldFindOffset w cmd s) s2 r2 hfe hne).1
        rw [hrun] at this
        simp only at this
        rw [this]
      · simp only [not_or] at hne
        have := (finishFind_found w (oldFindOffset w cmd s) s2 r2 hfe (by simpa using hne.1)
          hne.2).2.2.2.2.2.2.2.2.1
        rw [hrun] at this
        simp only at this
        rw [this] at hend
        exact absurd hend hnot
    · have : finishFind w (oldFindOffset w cmd s) s2 r2 = (FatalFileErrorOccured s2 (-1), r2) := by
        simp [finishFind, hfe]
      rw [this] at hrun
      obtain ⟨-, rfl⟩ := Prod.mk.inj hrun
      exact absurd hend hnot

/-- Witness for C6: a forward search for "zz" in "abcdefgh" from offset 2 scans one chunk,
moves the cursor to 7 and is then terminated by Esc; the cursor is back at 2. -/
theorem unsuccessful_search_witness :
    findCommand cancelledFile 9 FindCmd.CM_FINDNEXT selectionWindow
      = some (selectionWindowAfter, cancelledRun) ∧
    selectionWindowAfter.FindOffset
      = oldFindOffset cancelledFile FindCmd.CM_FINDNEXT selectionWindow ∧
    oldFindOffset cancelledFile FindCmd.CM_FINDNEXT selectionWindow = 2 :=
  ⟨by decide,
   unsuccessful_search_restores_cursor cancelledFile 9 FindCmd.CM_FINDNEXT selectionWindow
     selectionWindowAfter cancelledRun (by decide) (by decide) (Or.inl (by decide)),
   by decide⟩

/-- C7, counterexample. With the bytes from 3 to 6 selected, a forward search for "zz" in
"abcdefgh" that the user terminates with Esc leaves `StartSelection = 3` and
`EndSelection = 3`: the prior selection is collapsed, not left untouched. -/
theorem cancelled_search_counterexample :
    (selectionWindow.StartSelection, selectionWindow.EndSelection) = (3, 6) ∧
    (findCommand cancelledFile 9 FindCmd.CM_FINDNEXT selectionWindow).map
      (fun t => (t.1.StartSelection, t.1.EndSelection, t.2.escPressed, t.2.messages)) =
      some (3, 3, true, [Message.IDS_FINDTERMINATEDBYUSER]) := by
  constructor <;> decide

/-- C7, amended. When the user terminates the search (`IDS_FINDTERMINATEDBYUSER`), for
every world and every prior selection, `StartSelection` keeps its value and `EndSelection`
is set to `StartSelection`: an empty prior selection is left as it was, a non-empty one
(forward or backward) is collapsed to the empty selection at its `StartSelection`. -/
theorem cancelled_search_collapses_selection (w : World) (fuel : Nat) (cmd : FindCmd)
    (s s' : CViewerWindow) (r : FindRun)
    (hrun : findCommand w fuel cmd s = some (s', r))
    (hstart : searchStarts w cmd s = true)
    (hend : Message.IDS_FINDTERMINATEDBYUSER ∈ r.messages) :
    s'.StartSelection = s.StartSelection ∧ s'.EndSelection = s.StartSelection := by
  rw [findCommand_eq w fuel cmd s hstart] at hrun
  cases hloop : searchLoops w fuel (searchForward cmd (searchSetting w cmd s))
      { searchSetting w cmd s with FindOffset := startCursor w cmd s } with
  | none => rw [hloop] at hrun; simp at hrun
  | some t =>
    obtain ⟨s2, r2⟩ := t
    rw [hloop] at hrun
    simp only [Option.map_some', Option.some.injEq] at hrun
    have hshape := searchLoops_shape w _ _ _ _ _ hloop
    obtain ⟨m1, -, -⟩ := SearchOutcome_messages w _ _ s2 r2 hshape
    cases hfe : r2.fatalErr
    · by_cases hne : r2.escPressed = true ∨ r2.found = -1
      · obtain ⟨e1, -, -⟩ := finishFind_notFound w (oldFindOffset w cmd s) s2 r2 hfe hne
        obtain ⟨g1, -⟩ := SearchOutcome_selection w _ _ s2 r2 hshape (Or.inr hne)
        rw [hrun] at e1
        simp only at e1 g1
        rw [e1]
        simp only
        rw [g1, (searchSetting_selection w cmd s).1]
        exact ⟨rfl, rfl⟩
      · simp only [not_or] at hne
        have := (finishFind_found w (oldFindOffset w cmd s) s2 r2 hfe (by simpa using hne.1)
          hne.2).2.2.2.2.2.2.2.2.1
        rw [hrun] at this
        simp only at this
        rw [this] at hend
        exact absurd hend m1
    · have : finishFind w (oldFindOffset w cmd s) s2 r2 = (FatalFileErrorOccured s2 (-1), r2) := by
        simp [finishFind, hfe]
      rw [this] at hrun
      obtain ⟨-, rfl⟩ := Prod.mk.inj hrun
      exact absurd hend m1

/-- Witness for C7 (amended): the search for "zz" in "abcdefgh" terminated by Esc, started
with the bytes from 3 to 6 selected, leaves the selection empty at offset 3. -/
theorem cancelled_search_witness :
    findCommand cancelledFile 9 FindCmd.CM_FINDNEXT selectionWindow
      = some (selectionWindowAfter, cancelledRun) ∧
    (selectionWindowAfter.StartSelection = selectionWindow.StartSelection ∧
      selectionWindowAfter.EndSelection = selectionWindow.StartSelection) ∧
    selectionWindow.StartSelection = 3 :=
  ⟨by decide,
   cancelled_search_collapses_selection cancelledFile 9 FindCmd.CM_FINDNEXT selectionWindow
     selectionWindowAfter cancelledRun (by decide) (by decide) (by decide),
   by decide⟩

/-- C8, the code at the failing input. A forward search for "zz" in "abcdefgh" enters the
loop with the cursor at 2 (`oldFindOffset`), scans the first chunk without a match and moves
the cursor to 7; the second `Prepare` fails. The handler hands the window with
`FindOffset = 7` to `FatalFileErrorOccured` and returns what that leaves: the cursor is not
put back to 2 by the handler, `FindOffset = 7` remains, and `LastFindOffset` is not updated
either. -/
theorem read_error_leaves_cursor_advanced :
    oldFindOffset unreadableFile FindCmd.CM_FINDNEXT selectionWindow = 2 ∧
    findCommand unreadableFile 9 FindCmd.CM_FINDNEXT selectionWindow =
      some (FatalFileErrorOccured { selectionWindow with FindOffset := 7 } (-1),
        { fatalErr := true, reads := 2, polls := 1 }) ∧
    (findCommand unreadableFile 9 FindCmd.CM_FINDNEXT selectionWindow).map
      (fun t => (t.2.fatalErr, t.2.reads, t.1.WaitForViewerRefresh, t.1.FindOffset,
        t.1.LastFindOffset)) = some (true, 2, true, 7, 2) := by
  refine ⟨?_, ?_, ?_⟩ <;> decide

/-- C9. A regular-expression search never selects a match that spans a line boundary.
Whenever the find command, searching for a regular expression in either direction, ends
with a match (`found ≠ -1`, no read error, no message box), the selection is non-empty and
lies in one line taken by the loop: `lineBegin ≤ StartSelection < EndSelection ≤ lineEnd`,
where `lineEnd` is what `FindNextEOL` delimits from `lineBegin` (forward) or `lineBegin` is
what `FindPreviousEOL` delimits from `lineEnd` (backward), and
`lineEnd - lineBegin ≤ FIND_LINE_LEN`. Assumed of the code outside viewer3.cpp: the engine
returns a match inside the line given to `SetLine`, and the line indexer reports an end of
line at most at `maxSeek` and a line beginning at least at `minSeek`. -/
theorem regexp_match_lies_in_one_line (w : World) (fuel : Nat) (cmd : FindCmd)
    (s s' : CViewerWindow) (r : FindRun)
    (hrun : findCommand w fuel cmd s = some (s', r))
    (hstart : searchStarts w cmd s = true)
    (hreg : (searchSetting w cmd s).FindDialog.Regular = true)
    (hfound : r.found ≠ -1) (hfatal : r.fatalErr = false) (hmsg : r.messages = [])
    (hforw : ∀ line start, (w.RegExpSearchForward line start).1 ≠ -1 →
      0 ≤ (w.RegExpSearchForward line start).1 ∧ 0 ≤ (w.RegExpSearchForward line start).2 ∧
      (w.RegExpSearchForward line start).1 + (w.RegExpSearchForward line start).2
        ≤ line.length)
    (hback : ∀ line length, (w.RegExpSearchBackward line length).1 ≠ -1 →
      0 ≤ (w.RegExpSearchBackward line length).1 ∧
      0 ≤ (w.RegExpSearchBackward line length).2 ∧
      (w.RegExpSearchBackward line length).1 + (w.RegExpSearchBackward line length).2
        ≤ line.length)
    (hnext : ∀ seek maxSeek, (w.FindNextEOL seek maxSeek).ret = true →
      (w.FindNextEOL seek maxSeek).first ≤ maxSeek)
    (hprev : ∀ seek minSeek, (w.FindPreviousEOL seek minSeek).ret = true →
      minSeek ≤ (w.FindPreviousEOL seek minSeek).first) :
    ∃ lineBegin lineEnd,
      (if searchForward cmd (searchSetting w cmd s) then lineEnd = lineEndAfter w lineBegin
       else lineBegin = lineBeginBefore w lineEnd) ∧
      lineBegin ≤ s'.StartSelection ∧ s'.StartSelection < s'.EndSelection ∧
      s'.EndSelection ≤ lineEnd ∧ lineEnd - lineBegin ≤ FIND_LINE_LEN := by
  rw [findCommand_eq w fuel cmd s hstart] at hrun
  cases hloop : searchLoops w fuel (searchForward cmd (searchSetting w cmd s))
      { searchSetting w cmd s with FindOffset := startCursor w cmd s } with
  | none => rw [hloop] at hrun; simp at hrun
  | some t =>
    obtain ⟨s2, r2⟩ := t
    rw [hloop] at hrun
    simp only [Option.map_some', Option.some.injEq] at hrun
    have hshape := searchLoops_shape w _ _ _ _ _ hloop
    cases hfe : r2.fatalErr
    · by_cases hne : r2.escPressed = true ∨ r2.found = -1
      · have := (finishFind_notFound w (oldFindOffset w cmd s) s2 r2 hfe hne).2.1
        rw [hrun] at this
        exact absurd this hfound
      · simp only [not_or] at hne
        obtain ⟨e1, e2, -, -, -, -, -, -, e9, -⟩ :=
          finishFind_found w (oldFindOffset w cmd s) s2 r2 hfe (by simpa using hne.1) hne.2
        rw [hrun] at e1 e2 e9
        simp only at e1 e2 e9
        rw [hmsg] at e9
        rcases hshape with ⟨h, -⟩ | ⟨-, h | h | h | h | ⟨hm, -⟩⟩ | ⟨-, -, h⟩
        · rw [hreg] at h; exact absurd h (by simp)
        · rw [h.2.1] at hfe; exact absurd hfe (by simp)
        · exact absurd h.2.2.1 hne.2
        · rw [h.2.2.2.2.2] at e9; exact absurd e9 (by simp)
        · exact absurd h.2.2.2.1 hne.2
        · rw [e1, e2]
          exact RegExpMatch_bounds w _ _ s2 r2.found hm hforw hback hnext hprev
        · rw [h] at e9; exact absurd e9 (by simp)
    · have : finishFind w (oldFindOffset w cmd s) s2 r2 = (FatalFileErrorOccured s2 (-1), r2) := by
        simp [finishFind, hfe]
      rw [this] at hrun
      obtain ⟨-, rfl⟩ := Prod.mk.inj hrun
      rw [hfe] at hfatal
      exact absurd hfatal (by simp)

/-- Witness for C9: in the file of the two lines "ab" and "Xcd" the forward search for the
regular expression "X" from offset 0 selects the bytes from 3 to 4, inside the second
line. -/
theorem regexp_match_witness :
    findCommand regexpFile 9 FindCmd.CM_FINDNEXT regexpWindow
      = some (regexpWindowAfter, { found := 0, reads := 2, polls := 1 }) ∧
    ∃ lineBegin lineEnd,
      (if searchForward FindCmd.CM_FINDNEXT
          (searchSetting regexpFile FindCmd.CM_FINDNEXT regexpWindow)
       then lineEnd = lineEndAfter regexpFile lineBegin
       else lineBegin = lineBeginBefore regexpFile lineEnd) ∧
      lineBegin ≤ regexpWindowAfter.StartSelection ∧
      regexpWindowAfter.StartSelection < regexpWindowAfter.EndSelection ∧
      regexpWindowAfter.EndSelection ≤ lineEnd ∧ lineEnd - lineBegin ≤ FIND_LINE_LEN :=
  ⟨by decide,
   regexp_match_lies_in_one_line regexpFile 9 FindCmd.CM_FINDNEXT regexpWindow
     regexpWindowAfter { found := 0, reads := 2, polls := 1 } (by decide) (by decide)
     (by decide) (by decide) (by decide) (by decide) firstX_inside lastX_inside
     (lineFeedAfter_range _) (lineFeedBefore_range _)⟩

/-- C10, counterexample. With the bytes from 3 to 6 selected, a left click without Shift on
offset 4, released without moving, leaves `StartSelection = EndSelection = 3`; with the
block dragged backward (from 6 to 3) it leaves `StartSelection = EndSelection = 6`. Neither
end is set to the clicked offset 4; only the cursor `FindOffset` is. -/
theorem click_inside_selection_counterexample :
    clickAtFour.offLeftMost.off = 4 ∧ clickAtFour.offDrag.off = 4 ∧
    (selectionWindow.StartSelection, selectionWindow.EndSelection) = (3, 6) ∧
    ((OnLButtonUp (OnLButtonDown clickAtFour selectionWindow)).StartSelection,
      (OnLButtonUp (OnLButtonDown clickAtFour selectionWindow)).EndSelection,
      (OnLButtonUp (OnLButtonDown clickAtFour selectionWindow)).FindOffset) = (3, 3, 4) ∧
    (backwardSelectionWindow.StartSelection, backwardSelectionWindow.EndSelection) = (6, 3) ∧
    ((OnLButtonUp (OnLButtonDown clickAtFour backwardSelectionWindow)).StartSelection,
      (OnLButtonUp (OnLButtonDown clickAtFour backwardSelectionWindow)).EndSelection,
      (OnLButtonUp (OnLButtonDown clickAtFour backwardSelectionWindow)).FindOffset)
      = (6, 6, 4) := by
  decide

/-- C10, amended. A left click without Shift, released without moving, while a non-empty
selection exists (forward or backward) leaves the selection empty. When the clicked offset
lies outside the block `[min, max)` (or, in hex mode, on an end of the block and not on a
hex digit), both ends are set to the clicked offset, the one of the second `GetOffset`
call, and the button release puts the cursor there. When it lies inside the block,
`StartSelection` keeps its value, `EndSelection` is set to `StartSelection`, and the cursor
`FindOffset` is set to the clicked offset. Assumed: no block was being dragged, `GetOffset`
succeeds, the selection is not too big and the selected text can be read. -/
theorem click_without_shift_empties_selection (c : Click) (s : CViewerWindow)
    (hshift : c.shiftPressed = false) (hmoved : c.moved = false)
    (hblock : s.StartSelection ≠ s.EndSelection) (hdrag : s.MouseDrag = false)
    (hoff1 : c.offLeftMost.ret = true ∧ c.offLeftMost.fatalErr = false)
    (hoff2 : c.offDrag.ret = true ∧ c.offDrag.fatalErr = false)
    (hbig : c.notTooBig = true ∧ c.msgBoxDisplayed = false)
    (htext : c.textFatalErr = false) :
    (OnLButtonUp (OnLButtonDown c s)).StartSelection
      = (OnLButtonUp (OnLButtonDown c s)).EndSelection ∧
    (min s.StartSelection s.EndSelection ≤ c.offLeftMost.off ∧
        c.offLeftMost.off < max s.StartSelection s.EndSelection ∧
        (s.ViewType ≠ CViewType.vtHex ∨
          (c.offLeftMost.off ≠ s.StartSelection ∧ c.offLeftMost.off ≠ s.EndSelection) ∨
          c.offLeftMost.onHexNum = true) →
      (OnLButtonUp (OnLButtonDown c s)).StartSelection = s.StartSelection ∧
      (OnLButtonUp (OnLButtonDown c s)).FindOffset = c.offLeftMost.off) ∧
    (¬ (min s.StartSelection s.EndSelection ≤ c.offLeftMost.off ∧
        c.offLeftMost.off < max s.StartSelection s.EndSelection ∧
        (s.ViewType ≠ CViewType.vtHex ∨
          (c.offLeftMost.off ≠ s.StartSelection ∧ c.offLeftMost.off ≠ s.EndSelection) ∨
          c.offLeftMost.onHexNum = true)) →
      (OnLButtonUp (OnLButtonDown c s)).StartSelection = c.offDrag.off ∧
      (OnLButtonUp (OnLButtonDown c s)).FindOffset
        = if c.offDrag.off ≠ -1 then c.offDrag.off else 0) := by
  have hin : (¬ c.shiftPressed = true ∧ s.StartSelection ≠ s.EndSelection ∧
        (c.offLeftMost.off ≥ s.StartSelection ∨ c.offLeftMost.off ≥ s.EndSelection) ∧
        (c.offLeftMost.off < s.StartSelection ∨ c.offLeftMost.off < s.EndSelection) ∧
        (s.ViewType ≠ CViewType.vtHex ∨
          (c.offLeftMost.off ≠ s.StartSelection ∧ c.offLeftMost.off ≠ s.EndSelection) ∨
          c.offLeftMost.onHexNum = true)) ↔
      (min s.StartSelection s.EndSelection ≤ c.offLeftMost.off ∧
        c.offLeftMost.off < max s.StartSelection s.EndSelection ∧
        (s.ViewType ≠ CViewType.vtHex ∨
          (c.offLeftMost.off ≠ s.StartSelection ∧ c.offLeftMost.off ≠ s.EndSelection) ∨
          c.offLeftMost.onHexNum = true)) := by
    constructor
    · rintro ⟨-, -, h1, h2, h3⟩
      exact ⟨by omega, by omega, h3⟩
    · rintro ⟨h1, h2, h3⟩
      exact ⟨by simp [hshift], hblock, by omega, by omega, h3⟩
  by_cases hc : min s.StartSelection s.EndSelection ≤ c.offLeftMost.off ∧
        c.offLeftMost.off < max s.StartSelection s.EndSelection ∧
        (s.ViewType ≠ CViewType.vtHex ∨
          (c.offLeftMost.off ≠ s.StartSelection ∧ c.offLeftMost.off ≠ s.EndSelection) ∨
          c.offLeftMost.onHexNum = true)
  · have e : OnLButtonDown c s =
        { s with LastFindSeekY := -1, FindOffset := c.offLeftMost.off,
                 EndSelection := s.StartSelection } := by
      unfold OnLButtonDown
      simp only []
      rw [if_pos (Or.inr ⟨hoff1.1, by simp [hoff1.2]⟩), if_pos (hin.2 hc),
        if_pos ⟨hbig.1, by simp [hbig.2]⟩, if_neg (by simp [htext]),
        if_pos (by simp [hmoved])]
    rw [e]
    simp only [OnLButtonUp, hdrag, Bool.false_eq_true, if_false]
    exact ⟨trivial, fun _ => ⟨trivial, trivial⟩, fun h => absurd hc h⟩
  · have e : OnLButtonDown c s =
        { s with MouseDrag := true, SelectionIsFindResult := false,
                 ChangingSelWithShiftKey := false, StartSelection := c.offDrag.off,
                 EndSelection := c.offDrag.off,
                 EndSelectionRow := Int.tdiv c.y s.CharHeight } := by
      unfold OnLButtonDown
      simp only []
      rw [if_pos (Or.inr ⟨hoff1.1, by simp [hoff1.2]⟩), if_neg (fun h => hc (hin.1 h)),
        if_pos (Or.inr ⟨hoff2.1, by simp [hoff2.2]⟩), if_neg (by simp [hshift])]
    rw [e]
    simp only [OnLButtonUp, ReleaseMouseDrag, if_true]
    exact ⟨trivial, fun h => absurd h hc, fun _ => ⟨trivial, trivial⟩⟩

/-- Witness for C10 (amended): the click on offset 4 inside the block from 3 to 6 leaves the
selection empty at 3 and the cursor at 4; the click on offset 7 outside the block leaves the
selection empty at 7 and the cursor at 7. -/
theorem click_without_shift_witness :
    ((OnLButtonUp (OnLButtonDown clickAtFour selectionWindow)).StartSelection
        = (OnLButtonUp (OnLButtonDown clickAtFour selectionWindow)).EndSelection ∧
      (OnLButtonUp (OnLButtonDown clickAtFour selectionWindow)).StartSelection = 3 ∧
      (OnLButtonUp (OnLButtonDown clickAtFour selectionWindow)).FindOffset = 4) ∧
    ((OnLButtonUp (OnLButtonDown clickAtSeven selectionWindow)).StartSelection
        = (OnLButtonUp (OnLButtonDown clickAtSeven selectionWindow)).EndSelection ∧
      (OnLButtonUp (OnLButtonDown clickAtSeven selectionWindow)).StartSelection = 7 ∧
      (OnLButtonUp (OnLButtonDown clickAtSeven selectionWindow)).FindOffset = 7) :=
  have h := click_without_shift_empties_selection clickAtFour selectionWindow (by decide)
    (by decide) (by decide) (by decide) (by decide) (by decide) (by decide) (by decide)
  have k := click_without_shift_empties_selection clickAtSeven selectionWindow (by decide)
    (by decide) (by decide) (by decide) (by decide) (by decide) (by decide) (by decide)
  ⟨⟨h.1, h.2.1 (by decide)⟩, ⟨k.1, k.2.2 (by decide)⟩⟩

/-- C11. Extending a selection moves only the active end. For every world whose repaint
(`WM_PAINT`, run by `UpdateWindow`) leaves `StartSelection` alone, `StartSelection` has the
same value before and after: the handler of `WM_MOUSEMOVE` (dragging the block, the scroll
commands it sends included), a Shift+click on a window that has a selection start
(`StartSelection ≠ -1`), and every navigation command of `WM_COMMAND`, among them
`CM_EXTSEL_LEFT`, `_RIGHT`, `_UP`, `_DOWN`, `_HOME`, `_END`, `_FILEBEG` and `_FILEEND`, on
every path, the skipped ones and the ones that end in `FatalFileErrorOccured` included. -/
theorem selection_extension_pins_StartSelection (w : World)
    (hP : ∀ s, (w.Paint s).StartSelection = s.StartSelection) :
    (∀ (m : MouseMove) (s : CViewerWindow),
      (OnMouseMove w m s).StartSelection = s.StartSelection) ∧
    (∀ (c : Click) (s : CViewerWindow), c.shiftPressed = true → s.StartSelection ≠ -1 →
      (OnLButtonDown c s).StartSelection = s.StartSelection) ∧
    (∀ (cmd : NavCmd) (s : CViewerWindow),
      (navCommand w cmd s).StartSelection = s.StartSelection) := by
  refine ⟨OnMouseMove_StartSelection w hP, ?_, navCommand_StartSelection w hP⟩
  intro c s hc hs
  unfold OnLButtonDown
  simp only [hc, hs, ne_eq, not_false_eq_true, and_self, true_or, if_true, not_true_eq_false,
    false_and, if_false, true_and]

/-- Witness for C11: with the bytes from 3 to 6 selected in the one-line view of "abcdefgh",
`CM_EXTSEL_RIGHT` moves `EndSelection` to 7 and leaves `StartSelection` at 3. -/
theorem selection_extension_witness :
    (navCommand cancelledFile NavCmd.CM_EXTSEL_RIGHT lineWindow).StartSelection
      = lineWindow.StartSelection ∧
    lineWindow.StartSelection = 3 ∧
    (navCommand cancelledFile NavCmd.CM_EXTSEL_RIGHT lineWindow).EndSelection = 7 :=
  ⟨(selection_extension_pins_StartSelection cancelledFile (fun _ => rfl)).2.2
      NavCmd.CM_EXTSEL_RIGHT lineWindow, by decide, by decide⟩

/-- C12. Selection offsets stay within `[0, FileSize]`. For each of the handlers that
assign `StartSelection` or `EndSelection` (a click, dragging, `CM_SELECTALLTEXT`, a double
click, the find command, and the extension of the selection to the left, the right, the
beginning or end of the line and the beginning or end of the file): if each of the two
offsets is unset (-1) or within `[0, FileSize]` before, so it is afterwards
(`SelectionInFile`), and an offset that the handler changed is within `[0, FileSize]`,
unless it is `EndSelection` set to the old `StartSelection` (`SelectionKept`). The double
click is shown to end when it has more fuel than the file has bytes; the find command is
taken when it ends. Assumed: `GetOffset` returns offsets in the file; the begin and end
offsets in `LineOffset` lie in the file, also after a repaint; the repaint leaves the
selection alone; the line end that `ZeroLineSize` reports is not behind the file; `Prepare`
reports no more bytes than remain in the file (the model of `Prepare`); the
regular-expression engine returns its matches inside the line; the line indexer reports no
negative line beginning and finds the beginning of the file when it is in reach; the search
starts at a cursor that is not negative and, for a literal search, with a pattern that is
not empty. -/
theorem selection_offsets_stay_in_file (w : World)
    (hP : ∀ s, (w.Paint s).StartSelection = s.StartSelection ∧
      (w.Paint s).EndSelection = s.EndSelection)
    (hL : ∀ s, LinesInFile w s → LinesInFile w (w.Paint s))
    (hZ : ∀ y, (w.ZeroLineFirst y).endOff ≤ FileSize w)
    (hforw : ∀ line start, (w.RegExpSearchForward line start).1 ≠ -1 →
      0 ≤ (w.RegExpSearchForward line start).1 ∧ 0 ≤ (w.RegExpSearchForward line start).2 ∧
      (w.RegExpSearchForward line start).1 + (w.RegExpSearchForward line start).2
        ≤ line.length)
    (hback : ∀ line length, (w.RegExpSearchBackward line length).1 ≠ -1 →
      0 ≤ (w.RegExpSearchBackward line length).1 ∧
      0 ≤ (w.RegExpSearchBackward line length).2 ∧
      (w.RegExpSearchBackward line length).1 + (w.RegExpSearchBackward line length).2
        ≤ line.length)
    (hprev : ∀ seek minSeek, 0 ≤ seek → (w.FindPreviousEOL seek minSeek).ret = true →
      0 ≤ (w.FindPreviousEOL seek minSeek).first)
    (htop : ∀ seek minSeek, 0 ≤ seek → minSeek < 0 →
      (w.FindPreviousEOL seek minSeek).ret = true)
    (hnext : ∀ seek maxSeek, 0 ≤ seek → (w.FindNextEOL seek maxSeek).ret = true →
      0 ≤ (w.FindNextEOL seek maxSeek).second) :
    (∀ (c : Click) (s : CViewerWindow),
      (c.offDrag.ret = true → c.offDrag.fatalErr = false → InFile w c.offDrag.off) →
      SelectionInFile w s →
      SelectionInFile w (OnLButtonDown c s) ∧ SelectionKept w s (OnLButtonDown c s)) ∧
    (∀ (m : MouseMove) (s : CViewerWindow),
      (m.off.ret = true → m.off.fatalErr = false → InFile w m.off.off) →
      SelectionInFile w s →
      SelectionInFile w (OnMouseMove w m s) ∧ SelectionKept w s (OnMouseMove w m s)) ∧
    (∀ s : CViewerWindow, SelectionInFile w s →
      SelectionInFile w (selectAllText w s) ∧ SelectionKept w s (selectAllText w s)) ∧
    (∀ (fuel : Nat) (d : DblClick) (s : CViewerWindow),
      (d.off.ret = true → d.off.fatalErr = false → InFile w d.off.off) →
      w.file.length < fuel → SelectionInFile w s →
      ∃ s', OnLButtonDblClk w fuel d s = some s' ∧ SelectionInFile w s' ∧
        SelectionKept w s s') ∧
    (∀ (fuel : Nat) (cmd : FindCmd) (s s' : CViewerWindow) (r : FindRun),
      0 ≤ startCursor w cmd s →
      ((searchSetting w cmd s).FindDialog.Regular = false →
        1 ≤ (searchSetting w cmd s).SearchData.val.length) →
      findCommand w fuel cmd s = some (s', r) → SelectionInFile w s →
      SelectionInFile w s' ∧ SelectionKept w s s') ∧
    (∀ (cmd : NavCmd) (s : CViewerWindow), extendsSelection cmd = true →
      LinesInFile w s → SelectionInFile w s →
      SelectionInFile w (navCommand w cmd s) ∧ SelectionKept w s (navCommand w cmd s)) := by
  refine ⟨?_, ?_, ?_, ?_, ?_, ?_⟩
  · intro c s hoff hs
    have hk := OnLButtonDown_SelectionKept w c s hoff
    exact ⟨SelectionKept_inFile w _ _ hk hs, hk⟩
  · intro m s hoff hs
    have hk := OnMouseMove_SelectionKept w hP m s hoff
    exact ⟨SelectionKept_inFile w _ _ hk hs, hk⟩
  · intro s hs
    have hk := selectAllText_SelectionKept w hP s
    exact ⟨SelectionKept_inFile w _ _ hk hs, hk⟩
  · intro fuel d s hoff hfuel hs
    obtain ⟨s', e, hk⟩ := OnLButtonDblClk_SelectionKept w fuel d s hoff hfuel
    exact ⟨s', e, SelectionKept_inFile w _ _ hk hs, hk⟩
  · intro fuel cmd s s' r hc hm h hs
    have hk := findCommand_SelectionKept w hforw hback hprev htop hnext fuel cmd s s' r hc hm h
    exact ⟨SelectionKept_inFile w _ _ hk hs, hk⟩
  · intro cmd s hcmd hl hs
    have hk := navCommand_extends_SelectionKept w hP hL hZ cmd hcmd s hl hs
    exact ⟨SelectionKept_inFile w _ _ hk hs, hk⟩

/-- Witness for C12: in the file of the two lines "ab" and "Xcd" (6 bytes), selecting
everything selects the bytes from 0 to 6, a double click with Ctrl at offset 4 selects the
second line, from 3 to 6, the forward search for the regular expression "X" selects the
bytes from 3 to 4, and `CM_EXTSEL_END` then moves the selection end to 6. -/
theorem selection_offsets_witness :
    (SelectionInFile regexpFile (selectAllText regexpFile regexpWindow) ∧
      (selectAllText regexpFile regexpWindow).StartSelection = 0 ∧
      (selectAllText regexpFile regexpWindow).EndSelection = 6) ∧
    (∃ s', OnLButtonDblClk regexpFile 7 lineClickAtFour regexpWindow = some s' ∧
      SelectionInFile regexpFile s' ∧ s'.StartSelection = 3 ∧ s'.EndSelection = 6) ∧
    (findCommand regexpFile 9 FindCmd.CM_FINDNEXT regexpWindow
        = some (regexpWindowAfter, { found := 0, reads := 2, polls := 1 }) ∧
      SelectionInFile regexpFile regexpWindowAfter) ∧
    (SelectionInFile regexpFile (navCommand regexpFile NavCmd.CM_EXTSEL_END twoLineWindow) ∧
      (navCommand regexpFile NavCmd.CM_EXTSEL_END twoLineWindow).StartSelection = 3 ∧
      (navCommand regexpFile NavCmd.CM_EXTSEL_END twoLineWindow).EndSelection = 6) :=
  have h := selection_offsets_stay_in_file regexpFile (fun _ => ⟨rfl, rfl⟩) (fun _ h => h)
    (fun _ => (by decide : (-1 : Int) ≤ FileSize regexpFile)) firstX_inside lastX_inside
    (lineFeedBefore_nonneg _) (lineFeedBefore_top _) (lineFeedAfter_next _)
  ⟨⟨(h.2.2.1 regexpWindow (by decide)).1, by decide, by decide⟩,
   (by
     obtain ⟨s', e, hs, -⟩ := h.2.2.2.1 7 lineClickAtFour regexpWindow (fun _ _ => by decide)
       (by decide) (by decide)
     have e2 : OnLButtonDblClk regexpFile 7 lineClickAtFour regexpWindow
         = some { regexpWindow with StartSelection := 3, EndSelection := 6 } := by decide
     refine ⟨s', e, hs, ?_⟩
     rw [e2] at e
     cases e
     exact ⟨rfl, rfl⟩),
   ⟨by decide,
    (h.2.2.2.2.1 9 FindCmd.CM_FINDNEXT regexpWindow regexpWindowAfter
      { found := 0, reads := 2, polls := 1 } (by decide) (by decide) (by decide)
      (by decide)).1⟩,
   ⟨(h.2.2.2.2.2 NavCmd.CM_EXTSEL_END twoLineWindow (by decide) (by decide) (by decide)).1,
    by decide, by decide⟩⟩

/-- C13. Wrap-mode boundary asymmetry. In wrap mode, let `EndSelection` be the wrap join of
the visible lines `k` and `k + 1` (the end of line `k` and the beginning of line `k + 1`),
both non-empty, line `k + 1` not being the last triple of `LineOffset`, in a `LineOffset`
whose lines are in order (begin ≤ end ≤ begin of the next line). Then the line on which the
Shift-navigation commands locate the selection end, `endSelLineIndex`, is `k` for a forward
selection and `k + 1` for a backward one, and the view is not moved. -/
theorem wrap_join_line_of_selection_end (w : World) (s : CViewerWindow) (k : Nat)
    (hwrap : s.WrapText = true)
    (hend : LineOffsetAt s (3 * (k : Int) + 1) = s.EndSelection)
    (hbegin : LineOffsetAt s (3 * ((k : Int) + 1)) = s.EndSelection)
    (hupper : LineOffsetAt s (3 * (k : Int)) < s.EndSelection)
    (hlower : s.EndSelection < LineOffsetAt s (3 * ((k : Int) + 1) + 1))
    (hlast : 3 * ((k : Int) + 1) + 3 < LineOffsetCount s)
    (horder : ∀ j : Nat, 3 * (j : Int) + 3 < LineOffsetCount s →
      LineOffsetAt s (3 * (j : Int)) ≤ LineOffsetAt s (3 * (j : Int) + 1) ∧
      LineOffsetAt s (3 * (j : Int) + 1) ≤ LineOffsetAt s (3 * (j : Int) + 3)) :
    (s.StartSelection < s.EndSelection → locateEndSel w s = (s, (k : Int), false)) ∧
    (s.StartSelection > s.EndSelection → locateEndSel w s = (s, (k : Int) + 1, false)) := by
  have hmono : ∀ d j : Nat, j + d = k →
      LineOffsetAt s (3 * (j : Int)) ≤ LineOffsetAt s (3 * (k : Int)) := by
    intro d
    induction d with
    | zero => intro j hj; have : j = k := by omega
              subst this; exact le_refl _
    | succ d ih =>
      intro j hj
      have h1 := horder j (by omega)
      have h2 := ih (j + 1) (by omega)
      rw [show 3 * ((j + 1 : Nat) : Int) = 3 * (j : Int) + 3 by push_cast; ring] at h2
      omega
  have hbefore : ∀ j : Nat, j < k → endSelOnLine s (3 * (j : Int)) = false := by
    intro j hj
    have h1 := horder j (by omega)
    have h2 := hmono (k - (j + 1)) (j + 1) (by omega)
    rw [show 3 * ((j + 1 : Nat) : Int) = 3 * (j : Int) + 3 by push_cast; ring] at h2
    unfold endSelOnLine
    rw [decide_eq_false_iff_not]
    rintro ⟨-, h | ⟨-, -, h⟩⟩ <;> omega
  have hk1 := horder k (by omega)
  have hk2 := horder (k + 1) (by push_cast; omega)
  rw [show 3 * ((k + 1 : Nat) : Int) = 3 * ((k : Int) + 1) by push_cast; ring] at hk2
  have e3 : 3 * (k : Int) + 3 = 3 * ((k : Int) + 1) := by ring
  have hlen : (s.LineOffset.length : Int) = LineOffsetCount s := rfl
  constructor
  · intro hdir
    have hat : endSelOnLine s (3 * (k : Int)) = true := by
      unfold endSelOnLine
      rw [decide_eq_true_iff]
      exact ⟨Or.inl hupper, Or.inr ⟨hwrap, hdir, hend.symm⟩⟩
    have hf := findEndSelLine_first s k (by omega) hbefore hat k 0 s.LineOffset.length
      (by omega) (by omega)
    have hv : endSelLineInView s = (k : Int) := by
      unfold endSelLineInView
      simp only [Nat.cast_zero, mul_zero] at hf
      simp only [hf]
      rw [if_neg (by omega)]
    unfold locateEndSel
    rw [hv, if_neg (by omega)]
  · intro hdir
    have hbefore' : ∀ j : Nat, j < k + 1 → endSelOnLine s (3 * (j : Int)) = false := by
      intro j hj
      by_cases hjk : j < k
      · exact hbefore j hjk
      · have : j = k := by omega
        subst this
        unfold endSelOnLine
        rw [decide_eq_false_iff_not]
        rintro ⟨-, h | ⟨-, h, -⟩⟩
        · rw [e3] at h
          omega
        · omega
    have hat : endSelOnLine s (3 * ((k + 1 : Nat) : Int)) = true := by
      rw [show 3 * ((k + 1 : Nat) : Int) = 3 * ((k : Int) + 1) by push_cast; ring]
      unfold endSelOnLine
      rw [decide_eq_true_iff]
      exact ⟨Or.inr ⟨hbegin.symm, Or.inl (by omega)⟩, Or.inl (by omega)⟩
    have hf := findEndSelLine_first s (k + 1) (by push_cast; omega) hbefore' hat (k + 1) 0
      s.LineOffset.length (by omega) (by omega)
    have hv : endSelLineInView s = (k : Int) + 1 := by
      unfold endSelLineInView
      simp only [Nat.cast_zero, mul_zero] at hf
      simp only [hf]
      rw [if_neg (by push_cast; omega)]
      push_cast
      rfl
    unfold locateEndSel
    rw [hv, if_neg (by omega)]

/-- Witness for C13: in the wrapped view of the twelve bytes whose lines are `[0, 5)`,
`[5, 10)` and `[10, 12)`, the selection end 5 is the join of the lines 0 and 1; the forward
block from 2 to 5 has its end on line 0, the backward block from 8 to 5 on line 1. -/
theorem wrap_join_witness :
    locateEndSel wrapFile wrapWindow = (wrapWindow, 0, false) ∧
    locateEndSel wrapFile { wrapWindow with StartSelection := 8 }
      = ({ wrapWindow with StartSelection := 8 }, 1, false) :=
  ⟨(wrap_join_line_of_selection_end wrapFile wrapWindow 0 (by decide) (by decide) (by decide)
      (by decide) (by decide) (by decide)
      (fun j hj => by
        have hc : LineOffsetCount wrapWindow = 9 := by decide
        rw [hc] at hj
        have : j < 2 := by omega
        interval_cases j <;> decide)).1 (by decide),
   (wrap_join_line_of_selection_end wrapFile { wrapWindow with StartSelection := 8 } 0
      (by decide) (by decide) (by decide) (by decide) (by decide) (by decide)
      (fun j hj => by
        have hc : LineOffsetCount { wrapWindow with StartSelection := 8 } = 9 := by decide
        rw [hc] at hj
        have : j < 2 := by omega
        interval_cases j <;> decide)).2 (by decide)⟩

/-- C14, counterexample. With the view at `SeekY = 0`, a thumb seek to offset 4 whose
`Prepare` fails, and a Go to Offset 4 whose `FindBegin` fails, both end in the state that
waits for the refresh with `SeekY = 4`: the prior position 0 is not kept. -/
theorem seek_error_counterexample :
    thumbWindow.SeekY = 0 ∧
    ((OnVScroll unreadableAtOnce { scaled := 4 } thumbWindow).SeekY,
      (OnVScroll unreadableAtOnce { scaled := 4 } thumbWindow).WaitForViewerRefresh)
      = (4, true) ∧
    ((gotoOffset unindexableFile (some 4) thumbWindow).SeekY,
      (gotoOffset unindexableFile (some 4) thumbWindow).WaitForViewerRefresh) = (4, true) := by
  decide

/-- C14, amended. A fatal read error while the viewport is being repositioned leaves `SeekY`
at the requested position: if `Prepare` or `FindBegin` reports `fatalErr` during a thumb
seek (`OnVScroll`) or during `CM_GOTOOFFSET`, the handler has already set `SeekY` to the
target limited by `MaxSeekY`, calls `FatalFileErrorOccured`, which records that position as
`LastSeekY`, and returns without putting the old value back. -/
theorem seek_error_leaves_requested_position (w : World) (s : CViewerWindow) :
    (∀ v : VScroll, s.VScrollWParam ≠ -1 → s.VScrollWParam ≠ s.VScrollWParamOld →
      ((Prepare w 0 (vscrollRequest (min v.scaled s.MaxSeekY)).1
          (vscrollRequest (min v.scaled s.MaxSeekY)).2).2 = true ∨
        (w.FindBegin (min v.scaled s.MaxSeekY)).fatalErr = true) →
      (OnVScroll w v s).SeekY = min v.scaled s.MaxSeekY ∧
      (OnVScroll w v s).LastSeekY = min v.scaled s.MaxSeekY ∧
      (OnVScroll w v s).WaitForViewerRefresh = true) ∧
    (∀ offset : Int, s.MouseDrag = false → s.FileName = true →
      (w.FindBegin (min offset s.MaxSeekY)).fatalErr = true →
      (gotoOffset w (some offset) s).SeekY = min offset s.MaxSeekY ∧
      (gotoOffset w (some offset) s).LastSeekY = min offset s.MaxSeekY ∧
      (gotoOffset w (some offset) s).WaitForViewerRefresh = true) := by
  constructor
  · intro v h1 h2 herr
    have hf : (if ¬ (Prepare w 0 (vscrollRequest (min v.scaled s.MaxSeekY)).1
          (vscrollRequest (min v.scaled s.MaxSeekY)).2).2 = true
        then w.FindBegin (min v.scaled s.MaxSeekY) else (⟨0, true, false⟩ : SeekResult)).fatalErr
        = true := by
      by_cases hp : (Prepare w 0 (vscrollRequest (min v.scaled s.MaxSeekY)).1
          (vscrollRequest (min v.scaled s.MaxSeekY)).2).2 = true
      · rw [if_neg (not_not.mpr hp)]
      · rw [if_pos hp]
        rcases herr with h | h
        · exact absurd h hp
        · exact h
    unfold OnVScroll vscrollSeek
    simp only [h1, h2, ne_eq, not_false_eq_true, and_self, if_true, hf, true_or,
      FatalFileErrorOccured]
  · intro offset h1 h2 herr
    unfold gotoOffset
    simp only [h1, h2, Bool.false_eq_true, not_true_eq_false, or_self, if_false, herr, true_or,
      if_true, FatalFileErrorOccured, and_self]

/-- Witness for C14 (amended): the failing thumb seek and the failing Go to Offset of the
counterexample end with `SeekY = LastSeekY = 4`. -/
theorem seek_error_witness :
    ((OnVScroll unreadableAtOnce { scaled := 4 } thumbWindow).SeekY
        = min 4 thumbWindow.MaxSeekY ∧
      (OnVScroll unreadableAtOnce { scaled := 4 } thumbWindow).LastSeekY
        = min 4 thumbWindow.MaxSeekY ∧
      (OnVScroll unreadableAtOnce { scaled := 4 } thumbWindow).WaitForViewerRefresh = true) ∧
    ((gotoOffset unindexableFile (some 4) thumbWindow).SeekY = min 4 thumbWindow.MaxSeekY ∧
      (gotoOffset unindexableFile (some 4) thumbWindow).LastSeekY = min 4 thumbWindow.MaxSeekY ∧
      (gotoOffset unindexableFile (some 4) thumbWindow).WaitForViewerRefresh = true) :=
  ⟨(seek_error_leaves_requested_position unreadableAtOnce thumbWindow).1 { scaled := 4 }
      (by decide) (by decide) (Or.inl (by decide)),
   (seek_error_leaves_requested_position unindexableFile thumbWindow).2 4 (by decide)
      (by decide) (by decide)⟩

/-- C15. Whenever `CFileHistory::AddFile(type, handlerID, fileName)` returns `TRUE`: the
item at index 0 is `Equal` to the data and the items behind it are old items in their old
order. If an `Equal` item existed before, the first such item, at index `i`, was pulled to
the top: the new array is that item followed by the old array without its index `i`, a
rearrangement of the old one of the same length. Otherwise the new array is a new item
made from the data followed by the old array, as a whole when it held fewer than 30 items
and without its item at index 29 (index 30 after the insertion) when it held 30 or more.
Assumed of `Equal`, which is outside src/: a file name compares equal to itself. -/
theorem AddFile_pulls_or_inserts_at_top (e : FileHistoryWorld) (t : CFileHistoryItemTypeEnum)
    (h : Nat) (f : List Nat) (Files Files' : List CFileHistoryItem)
    (hname : e.sameName f f = true) (hret : AddFile e t h f Files = (true, Files')) :
    (∃ item rest, Files' = item :: rest ∧ item.Equal e t h f = true ∧ rest.Sublist Files) ∧
    ((∃ x ∈ Files, x.Equal e t h f = true) →
      Files'.length = Files.length ∧ Files'.Perm Files ∧
      ∃ i item, Files.get? i = some item ∧ item.Equal e t h f = true ∧
        (∀ j y, j < i → Files.get? j = some y → y.Equal e t h f = false) ∧
        Files' = item :: Files.eraseIdx i) ∧
    ((∀ x ∈ Files, x.Equal e t h f = false) →
      Files'.head? = some { ItemType := t, HandlerID := h, FileName := f } ∧
      Files' = { ItemType := t, HandlerID := h, FileName := f } ::
        (if Files.length < 30 then Files else Files.eraseIdx 29)) := by
  unfold AddFile at hret
  cases hfind : findEqual e t h f Files 0 with
  | some i =>
    rw [hfind] at hret
    obtain ⟨-, item, hget, heq⟩ := findEqual_some e t h f Files 0 i hfind
    simp only [Nat.sub_zero] at hget
    have hfirst : ∀ j y, j < i → Files.get? j = some y → y.Equal e t h f = false :=
      fun j y hj hy => findEqual_first e t h f Files 0 i hfind j y (by omega) hy
    have hnot : ¬ ∀ x ∈ Files, x.Equal e t h f = false := by
      intro hall
      have := hall item (List.get?_mem hget)
      rw [heq] at this
      exact absurd this (by simp)
    by_cases hi : i > 0
    · simp only [hi, if_true, hget] at hret
      by_cases hins : e.insertIsGood = true
      · simp only [hins, if_true, Prod.mk.injEq, true_and] at hret
        subst hret
        have hperm : (item :: Files.eraseIdx i).Perm Files :=
          cons_eraseIdx_perm Files i item hget
        exact ⟨⟨item, _, rfl, heq, List.eraseIdx_sublist _ _⟩,
          fun _ => ⟨hperm.length_eq, hperm, i, item, hget, heq, hfirst, rfl⟩,
          fun hall => absurd hall hnot⟩
      · simp [hins] at hret
    · have hi0 : i = 0 := by omega
      subst hi0
      simp only [gt_iff_lt, lt_self_iff_false, if_false, Prod.mk.injEq, true_and] at hret
      subst hret
      cases Files with
      | nil => simp at hget
      | cons a rest =>
        simp only [List.get?_cons_zero, Option.some.injEq] at hget
        subst hget
        exact ⟨⟨a, rest, rfl, heq, List.sublist_cons_self _ _⟩,
          fun _ => ⟨rfl, List.Perm.refl _, 0, a, rfl, heq, fun j y hj _ => by omega, rfl⟩,
          fun hall => absurd hall hnot⟩
  | none =>
    rw [hfind] at hret
    have hall := findEqual_none e t h f Files 0 hfind
    have hno : ¬ ∃ x ∈ Files, x.Equal e t h f = true := by
      rintro ⟨x, hx, hxe⟩
      rw [hall x hx] at hxe
      exact absurd hxe (by simp)
    have hnew : CFileHistoryItem.Equal e { ItemType := t, HandlerID := h, FileName := f } t h f
        = true := by
      simp [CFileHistoryItem.Equal, hname]
    by_cases hn : e.newIsGood = true
    · by_cases hins : e.insertIsGood = true
      · simp only [hn, hins, not_true_eq_false, if_false, Prod.mk.injEq, true_and] at hret
        subst hret
        by_cases hlen : (({ ItemType := t, HandlerID := h, FileName := f } : CFileHistoryItem)
            :: Files).length > 30
        · rw [if_pos hlen]
          have hl : ¬ Files.length < 30 := by
            simp only [List.length_cons] at hlen
            omega
          refine ⟨⟨_, Files.eraseIdx 29, by simp [List.eraseIdx_cons_succ], hnew,
            List.eraseIdx_sublist _ _⟩, fun hex => absurd hex hno,
            fun _ => ⟨by simp, ?_⟩⟩
          rw [if_neg hl, List.eraseIdx_cons_succ]
        · rw [if_neg hlen]
          have hl : Files.length < 30 := by
            simp only [List.length_cons] at hlen
            omega
          exact ⟨⟨_, Files, rfl, hnew, List.Sublist.refl _⟩, fun hex => absurd hex hno,
            fun _ => ⟨rfl, by rw [if_pos hl]⟩⟩
      · simp [hn, hins] at hret
    · simp [hn] at hret

/-- Witness for C15: viewing "c.txt" again pulls its item from index 2 to the top of the
history of three items, and opening "d.txt", which the history does not hold, puts a new
item in front of the three. -/
theorem AddFile_witness :
    AddFile {} CFileHistoryItemTypeEnum.fhitView 1 (bytes "c.txt") historyExample
      = (true, historyExampleAfter) ∧
    (historyExampleAfter.length = historyExample.length ∧
      historyExampleAfter.Perm historyExample ∧
      ∃ i item, historyExample.get? i = some item ∧
        item.Equal {} CFileHistoryItemTypeEnum.fhitView 1 (bytes "c.txt") = true ∧
        (∀ j y, j < i → historyExample.get? j = some y →
          y.Equal {} CFileHistoryItemTypeEnum.fhitView 1 (bytes "c.txt") = false) ∧
        historyExampleAfter = item :: historyExample.eraseIdx i) ∧
    AddFile {} CFileHistoryItemTypeEnum.fhitOpen 3 (bytes "d.txt") historyExample
      = (true, { ItemType := CFileHistoryItemTypeEnum.fhitOpen, HandlerID := 3,
                 FileName := bytes "d.txt" } :: historyExample) ∧
    ({ ItemType := CFileHistoryItemTypeEnum.fhitOpen, HandlerID := 3,
       FileName := bytes "d.txt" } :: historyExample
      = { ItemType := CFileHistoryItemTypeEnum.fhitOpen, HandlerID := 3,
          FileName := bytes "d.txt" } ::
        (if historyExample.length < 30 then historyExample
         else historyExample.eraseIdx 29)) :=
  ⟨by decide,
   (AddFile_pulls_or_inserts_at_top {} CFileHistoryItemTypeEnum.fhitView 1 (bytes "c.txt")
     historyExample historyExampleAfter (by decide) (by decide)).2.1 (by decide),
   by decide,
   ((AddFile_pulls_or_inserts_at_top {} CFileHistoryItemTypeEnum.fhitOpen 3 (bytes "d.txt")
     historyExample _ (by decide) (by decide)).2.2 (by decide)).2⟩

/-- C16. `CPathHistory::AddPathUnique` adds a path only if it is not yet present. For every
unlocked history whose entries are pairwise distinct under `IsTheSamePath`, when the two
allocations succeed: afterwards the entries are still pairwise distinct, the last (newest)
entry has the same path as the given one, and when the path was present before, the number
of entries is unchanged. Of `IsTheSamePath` as an equivalence relation the proof uses that
it is symmetric and that the new item has the same path as itself. -/
theorem AddPathUnique_keeps_paths_distinct (e : PathHistoryWorld) (type : Int)
    (path part : List Nat) (hIcon pluginFS : Nat)
    (cur : Option CPluginFSInterfaceEncapsulation) (h : CPathHistory)
    (hlock : h.Lock = false) (hnew : e.newIsGood = true) (hadd : e.addIsGood = true)
    (hsymm : ∀ a b : CPathHistoryItem, a.IsTheSamePath e cur b = b.IsTheSamePath e cur a)
    (hrefl : (CPathHistoryItem.new e type path part hIcon pluginFS).IsTheSamePath e cur
      (CPathHistoryItem.new e type path part hIcon pluginFS) = true)
    (hdist : h.Paths.Pairwise (fun a b => a.IsTheSamePath e cur b = false)) :
    (AddPathUnique e type path part hIcon pluginFS cur h).Paths.Pairwise
        (fun a b => a.IsTheSamePath e cur b = false) ∧
    (∃ last, (AddPathUnique e type path part hIcon pluginFS cur h).Paths.getLast? = some last ∧
      (CPathHistoryItem.new e type path part hIcon pluginFS).IsTheSamePath e cur last = true) ∧
    ((∃ x ∈ h.Paths,
        (CPathHistoryItem.new e type path part hIcon pluginFS).IsTheSamePath e cur x = true) →
      (AddPathUnique e type path part hIcon pluginFS cur h).Paths.length = h.Paths.length) := by
  unfold AddPathUnique
  simp only []
  rw [if_neg (by rw [hlock]; simp), if_neg (by rw [hnew]; simp)]
  simp only [hadd, and_true, if_true]
  generalize CPathHistoryItem.new e type path part hIcon pluginFS = n at hrefl ⊢
  cases hfind : findSamePath e cur n h.Paths 0 with
  | some i =>
    obtain ⟨-, item, hget, hsame⟩ := findSamePath_some e cur n h.Paths 0 i hfind
    simp only [Nat.sub_zero] at hget
    simp only [hget]
    have hlt : i < h.Paths.length := by
      by_contra hcon
      rw [List.get?_eq_none.mpr (by omega)] at hget
      exact absurd hget (by simp)
    generalize hitem : (if type = 2 ∧ pluginFS ≠ 0 then { item with PluginFS := pluginFS }
      else item) = item'
    have hi' : ∀ x : CPathHistoryItem,
        x.IsTheSamePath e cur item' = x.IsTheSamePath e cur item := by
      intro x
      rw [← hitem]
      split_ifs
      · exact IsTheSamePath_PluginFS e cur x item x.PluginFS pluginFS
      · rfl
    have hres : (if i + 1 < h.Paths.length then
          ({ h with Paths := h.Paths.eraseIdx i ++ [item'] } : CPathHistory)
        else { h with Paths := h.Paths.set i item' }).Paths = h.Paths.eraseIdx i ++ [item'] := by
      split_ifs with hc
      · rfl
      · exact set_last_eq h.Paths i item' (by omega)
    rw [hres]
    refine ⟨pairwise_move_last e cur hsymm h.Paths i item item' hget hi' hdist,
      ⟨item', by simp, by rw [hi']; exact hsame⟩, fun _ => ?_⟩
    rw [List.length_append, List.length_eraseIdx, if_pos hlt, List.length_singleton]
    omega
  | none =>
    have hall := findSamePath_none e cur n h.Paths 0 hfind
    simp only []
    generalize hP : trimHistory e.PATH_HISTORY_SIZE
      (if h.ForwardIndex ≠ -1 then deleteForward h.ForwardIndex.toNat h.Paths.length h.Paths
        else h.Paths).length
      (if h.ForwardIndex ≠ -1 then deleteForward h.ForwardIndex.toNat h.Paths.length h.Paths
        else h.Paths) = P
    have hsub : P.Sublist h.Paths := by
      rw [← hP]
      refine (trimHistory_sublist _ _ _).trans ?_
      split_ifs
      · exact deleteForward_sublist _ _ _
      · exact List.Sublist.refl _
    refine ⟨?_, ⟨n, by simp, hrefl⟩, ?_⟩
    · rw [List.pairwise_append]
      refine ⟨hdist.sublist hsub, List.pairwise_singleton _ _, ?_⟩
      intro x hx y hy
      rw [List.mem_singleton] at hy
      subst hy
      rw [hsymm]
      exact hall x (hsub.subset hx)
    · rintro ⟨x, hx, hxe⟩
      rw [hall x hx] at hxe
      exact absurd hxe (by simp)

/-- Witness for C16: adding the disk path "C:\\a" again to the history of "C:\\a" and "C:\\b"
moves its entry behind the other one; two entries remain. -/
theorem AddPathUnique_witness :
    AddPathUnique {} 0 (bytes "C:\\a") [] 0 0 none pathsExample = pathsExampleAfter ∧
    pathsExampleAfter.Paths.Pairwise
      (fun a b => a.IsTheSamePath {} none b = false) ∧
    (∃ last, pathsExampleAfter.Paths.getLast? = some last ∧
      (CPathHistoryItem.new {} 0 (bytes "C:\\a") [] 0 0).IsTheSamePath {} none last = true) ∧
    pathsExampleAfter.Paths.length = pathsExample.Paths.length :=
  have e : AddPathUnique {} 0 (bytes "C:\\a") [] 0 0 none pathsExample = pathsExampleAfter := by
    decide
  have t := AddPathUnique_keeps_paths_distinct {} 0 (bytes "C:\\a") [] 0 0 none pathsExample
    (by decide) (by decide) (by decide)
    (IsTheSamePath_symm {} (fun a b => by
      show (if a = b then (0 : Int) else 1) = 0 ↔ (if b = a then (0 : Int) else 1) = 0
      by_cases h : a = b
      · rw [if_pos h, if_pos h.symm]
      · rw [if_neg h, if_neg (fun k => h k.symm)]))
    (by decide) (by decide)
  ⟨e, e ▸ t.1, e ▸ t.2.1, e ▸ t.2.2 ⟨_, List.mem_cons_self _ _, by decide⟩⟩

/-- C17. Password scrambling round-trips: for every password `p` shorter than 1000 bytes and
made of non-zero bytes, and for every sequence of values drawn from `rand()` that has the
17 values needed at most to end the padding loop, `ScramblePassword` returns a string from
which `UnscramblePassword` returns `TRUE` and exactly `p`. -/
theorem scramble_round_trip (p : List Nat) (rand : List Int) (hlen : p.length < 1000)
    (hp : ∀ b ∈ p, 1 ≤ b ∧ b ≤ 255) (hrand : 17 ≤ (rand.filter endsPadLoop).length) :
    ∃ buf, ScramblePassword rand p = some buf ∧ UnscramblePassword buf = (true, p) := by
  have hcp : cstr p = p := cstr_of_nonzero p (fun b hb => by have := hp b hb; omega)
  obtain ⟨⟨pad, r⟩, hfill⟩ := fillPadding_enough
    (((p.length + 3) / 17) * 17 + 17 - 3 - p.length) rand (by omega)
  obtain ⟨hpl, hpb⟩ := fillPadding_some _ _ _ _ hfill
  generalize hd0 : 48 + p.length % 10 = d0 at *
  generalize hd1 : 48 + (p.length / 10) % 10 = d1 at *
  generalize hd2 : 48 + (p.length / 100) % 10 = d2 at *
  have hbuf : ∀ b ∈ pad ++ [d0, d1, d2] ++ p, 1 ≤ b ∧ b ≤ 255 := by
    intro b hb
    simp only [List.mem_append, List.mem_cons, List.mem_singleton, List.not_mem_nil,
      or_false] at hb
    rcases hb with (hb | rfl | rfl | rfl) | hb
    · have := hpb b hb; omega
    · omega
    · omega
    · omega
    · exact hp b hb
  have hcb : cstr (pad ++ [d0, d1, d2] ++ p) = pad ++ [d0, d1, d2] ++ p :=
    cstr_of_nonzero _ (fun b hb => by have := hbuf b hb; omega)
  obtain ⟨hround, hnz⟩ := unscrambleLoop_scrambleLoop (pad ++ [d0, d1, d2] ++ p) 31
    (by decide) (by decide) hbuf
  have hco := cstr_of_nonzero _ hnz
  refine ⟨scrambleLoop 31 (pad ++ [d0, d1, d2] ++ p), ?_, ?_⟩
  · unfold ScramblePassword
    simp only [hcp, hfill, hd0, hd1, hd2, hcb, hco]
  · unfold UnscramblePassword
    have h31 : ((31 : Nat) : Int) = 31 := rfl
    rw [hco, ← h31, hround, hcb]
    have hdrop : (pad ++ [d0, d1, d2] ++ p).dropWhile
        (fun b => decide (charValue b < 48 ∨ charValue b > 57)) = d0 :: d1 :: d2 :: p := by
      rw [List.append_assoc, dropWhile_append_of_all]
      · have : decide (charValue d0 < 48 ∨ charValue d0 > 57) = false := by
          rw [decide_eq_false_iff_not]
          unfold charValue
          split_ifs <;> omega
        simp only [List.cons_append, List.nil_append, List.dropWhile_cons, this,
          Bool.false_eq_true, if_false]
      · intro x hx
        have := hpb x hx
        rw [decide_eq_true_iff]
        unfold charValue
        split_ifs <;> omega
    simp only [hdrop]
    have c0 : charValue d0 = d0 := by unfold charValue; split_ifs <;> omega
    have c1 : charValue d1 = d1 := by unfold charValue; split_ifs <;> omega
    have c2 : charValue d2 = d2 := by unfold charValue; split_ifs <;> omega
    have hl3 : (d0 :: d1 :: d2 :: p).length ≥ 3 := by simp
    have hlenv : ((d0 : Int) - 48) + 10 * ((d1 : Int) - 48) + 100 * ((d2 : Int) - 48)
        = (p.length : Int) := by omega
    have htot : Int.tdiv ((p.length : Int) + 3) 17 * 17 + 17
        = (((p.length + 3) / 17 * 17 + 17 : Nat) : Int) := by
      rw [Int.tdiv_eq_ediv (by omega) (by omega : (0 : Int) ≤ 17)]
      omega
    have hblen : (pad ++ [d0, d1, d2] ++ p).length = (p.length + 3) / 17 * 17 + 17 := by
      simp only [List.length_append, List.length_cons, List.length_nil, hpl]
      omega
    have hk : (p.length + 3) / 17 * 17 + 17 - (p.length : Int).toNat
        = (pad ++ [d0, d1, d2]).length := by
      simp only [List.length_append, List.length_cons, List.length_nil, hpl]
      omega
    rw [if_pos hl3]
    simp only [List.getD_cons_zero, List.getD_cons_succ, c0, c1, c2, hlenv, htot, hblen,
      List.length_cons]
    rw [if_pos ⟨by omega, trivial, by push_cast; omega⟩, hk, List.drop_left]

/-- Witness for C17: the password "secret" with padding bytes drawn from a sequence in which
the values 0, 50 and 301 are rejected. -/
theorem scramble_round_trip_witness :
    ∃ buf, ScramblePassword [200, 0, 50, 301, 65, 66, 67, 68, 69, 70, 71, 72, 73, 200, 201, 202,
        203, 204, 205, 206, 207, 208] (bytes "secret") = some buf ∧
      UnscramblePassword buf = (true, bytes "secret") :=
  scramble_round_trip (bytes "secret") [200, 0, 50, 301, 65, 66, 67, 68, 69, 70, 71, 72, 73, 200,
    201, 202, 203, 204, 205, 206, 207, 208] (by decide) (by decide) (by decide)

/-- C18. `SalPathAppend(path, name, pathSize)` with `P` the path minus one trailing backslash
and `N` the name minus one leading backslash: if `N` is empty it returns `TRUE` and `path`
becomes `P`; else if `len(P) + 1 + len(N) < pathSize` it returns `TRUE` and `path` becomes
`P`, a backslash and `N` (just `N` when `P` is empty); otherwise it returns `FALSE` and
`path` is unchanged. In every case the resulting string is shorter than `pathSize` if the
input path was. -/
theorem SalPathAppend_spec (path name : List Nat) (pathSize : Int) :
    SalPathAppend (some path) (some name) pathSize =
      (if withoutLeadingBackslash name = [] then (true, some (withoutTrailingBackslash path))
       else if ((withoutTrailingBackslash path).length : Int) + 1
           + (withoutLeadingBackslash name).length < pathSize then
         (true, some (if withoutTrailingBackslash path = [] then withoutLeadingBackslash name
           else withoutTrailingBackslash path ++ 92 :: withoutLeadingBackslash name))
       else (false, some path)) ∧
    ∀ q, (SalPathAppend (some path) (some name) pathSize).2 = some q →
      (path.length : Int) < pathSize → (q.length : Int) < pathSize := by
  have hN : (if name.head? = some 92 then name.tail else name) = withoutLeadingBackslash name := by
    unfold withoutLeadingBackslash
    cases name with
    | nil => simp
    | cons a t =>
      by_cases ha : a = 92
      · subst ha; simp
      · simp only [List.head?_cons, Option.some.injEq, ha, if_false]
        split
        · rename_i h; exact absurd (List.cons.inj h).1 ha
        · rfl
  have hP : path.take (if path.length > 0 ∧ path.getD (path.length - 1) 0 = 92
      then path.length - 1 else path.length) = withoutTrailingBackslash path := by
    unfold withoutTrailingBackslash
    rcases List.eq_nil_or_concat path with rfl | ⟨init, a, rfl⟩
    · simp
    · simp only [List.concat_eq_append]
      have h1 : (init ++ [a]).getD ((init ++ [a]).length - 1) 0 = a := by
        simp [List.getD_eq_getElem?_getD]
      rw [h1]
      by_cases ha : a = 92
      · subst ha; simp
      · simp [ha]
  have hl : ((if path.length > 0 ∧ path.getD (path.length - 1) 0 = 92
      then path.length - 1 else path.length : Nat)) = (withoutTrailingBackslash path).length := by
    rw [← hP, List.length_take]
    split_ifs <;> omega
  have hle : (withoutTrailingBackslash path).length ≤ path.length := by
    rw [← hP, List.length_take]; omega
  have hmain : SalPathAppend (some path) (some name) pathSize =
      (if withoutLeadingBackslash name = [] then (true, some (withoutTrailingBackslash path))
       else if ((withoutTrailingBackslash path).length : Int) + 1
           + (withoutLeadingBackslash name).length < pathSize then
         (true, some (if withoutTrailingBackslash path = [] then withoutLeadingBackslash name
           else withoutTrailingBackslash path ++ 92 :: withoutLeadingBackslash name))
       else (false, some path)) := by
    unfold SalPathAppend
    simp only [hN]
    generalize (if path.length > 0 ∧ path.getD (path.length - 1) 0 = 92
      then path.length - 1 else path.length : Nat) = l at hP hl ⊢
    rw [hP]
    subst hl
    by_cases h1 : withoutLeadingBackslash name = []
    · simp [h1]
    · simp only [h1, ne_eq, not_false_eq_true, if_true, if_false]
      by_cases h2 : ((withoutTrailingBackslash path).length : Int) + 1
          + (withoutLeadingBackslash name).length < pathSize
      · simp only [h2, if_true]
        by_cases h3 : withoutTrailingBackslash path = []
        · simp [h3]
        · have : (withoutTrailingBackslash path).length ≠ 0 := by
            simpa [List.length_eq_zero] using h3
          simp [h3, this]
      · simp only [h2, if_false]
  refine ⟨hmain, ?_⟩
  intro q hq hlt
  rw [hmain] at hq
  split_ifs at hq with h1 h2 h3
  · simp only [Option.some.injEq] at hq; subst hq; omega
  · simp only [Option.some.injEq] at hq; subst hq; omega
  · simp only [Option.some.injEq] at hq; subst hq
    simp only [List.length_append, List.length_cons]
    push_cast
    omega
  · simp only [Option.some.injEq] at hq; subst hq; exact hlt

/-- Witness for C18: appending "\\file.txt" to "C:\\dir\\" in a buffer of 260 bytes gives
"C:\\dir\\file.txt", which is shorter than 260. -/
theorem SalPathAppend_witness :
    SalPathAppend (some (bytes "C:\\dir\\")) (some (bytes "\\file.txt")) 260
      = (true, some (bytes "C:\\dir\\file.txt")) ∧
    ((bytes "C:\\dir\\file.txt").length : Int) < 260 :=
  ⟨by decide,
   (SalPathAppend_spec (bytes "C:\\dir\\") (bytes "\\file.txt") 260).2 _ (by decide)
     (by decide)⟩

/-- C19. Hex rows stay 16-aligned under page-up: in the hex view, for every `SeekY > 0` that
is a multiple of 16 and every `ViewSize` and `LastLineSize`, `CM_PAGEUP` sets `SeekY` to a
multiple of 16 with `0 ≤ SeekY < old SeekY` that is at least 16 lower than the old one
unless it is 0. -/
theorem hex_page_up_keeps_rows_aligned (w : World) (s : CViewerWindow)
    (hhex : s.ViewType = CViewType.vtHex) (hpos : s.SeekY > 0) (halign : s.SeekY % 16 = 0) :
    (pageUp w s).1.SeekY % 16 = 0 ∧ 0 ≤ (pageUp w s).1.SeekY ∧
      (pageUp w s).1.SeekY < s.SeekY ∧
      ((pageUp w s).1.SeekY ≤ s.SeekY - 16 ∨ (pageUp w s).1.SeekY = 0) := by
  have hmod : ∀ len : Int, (if Int.tmod len 16 ≠ 0 then len + (16 - Int.tmod len 16)
      else len) % 16 = 0 := by
    intro len
    rcases le_total 0 len with h | h
    · rw [Int.tmod_eq_emod h (by decide)]
      split_ifs <;> omega
    · have e : Int.tmod len 16 = len + 16 * ((-len) / 16) := by
        have h2 : len.tdiv 16 = -((-len) / 16) := by
          rw [← Int.tdiv_eq_ediv (by omega) (by decide), ← Int.neg_tdiv, neg_neg]
        rw [Int.tmod_def, h2]
        ring
      rw [e]
      split_ifs <;> omega
  unfold pageUp
  simp only [hpos, if_true, hhex]
  have := hmod (s.ViewSize - s.LastLineSize)
  generalize (if Int.tmod (s.ViewSize - s.LastLineSize) 16 ≠ 0
    then s.ViewSize - s.LastLineSize + (16 - Int.tmod (s.ViewSize - s.LastLineSize) 16)
    else s.ViewSize - s.LastLineSize) = len at this ⊢
  omega

/-- Witness for C19: the hex view at offset 64 with three full rows shown pages up to
offset 16. -/
theorem hex_page_up_witness :
    ((pageUp symmetryFile hexWindow).1.SeekY % 16 = 0 ∧
      0 ≤ (pageUp symmetryFile hexWindow).1.SeekY ∧
      (pageUp symmetryFile hexWindow).1.SeekY < hexWindow.SeekY ∧
      ((pageUp symmetryFile hexWindow).1.SeekY ≤ hexWindow.SeekY - 16 ∨
        (pageUp symmetryFile hexWindow).1.SeekY = 0)) ∧
    (pageUp symmetryFile hexWindow).1.SeekY = 16 :=
  ⟨hex_page_up_keeps_rows_aligned symmetryFile hexWindow (by decide) (by decide) (by decide),
   by decide⟩

/-- C20, counterexample. For a thumb seek to `SeekY = 100000` the call of `Prepare` asks
for 30000 bytes from offset 90000: the requested region ends at 120000, two sixths of the
buffer behind `SeekY`, not at `SeekY + 5 * VIEW_BUFFER_SIZE / 6 = 150000`. -/
theorem thumb_seek_request_counterexample :
    vscrollRequest 100000 = (90000, 30000) ∧
    (vscrollRequest 100000).1 + (vscrollRequest 100000).2 = 120000 ∧
    (100000 : Int) + Int.tdiv (5 * VIEW_BUFFER_SIZE) 6 = 150000 := by
  decide

/-- C20, amended. When a thumb seek moves the viewport to `SeekY`, the region requested
from the buffer starts one sixth of `VIEW_BUFFER_SIZE` before `SeekY`, at
`max(0, SeekY - VIEW_BUFFER_SIZE / 6)`, and is half a buffer long (`Prepare` reads only half
the buffer): it ends two sixths behind `SeekY` when `SeekY > VIEW_BUFFER_SIZE / 6`. -/
theorem thumb_seek_request (SeekY : Int) :
    (vscrollRequest SeekY).1 = max 0 (SeekY - Int.tdiv VIEW_BUFFER_SIZE 6) ∧
    (vscrollRequest SeekY).2 = Int.tdiv VIEW_BUFFER_SIZE 2 ∧
    (vscrollRequest SeekY).1 + (vscrollRequest SeekY).2
      = max (Int.tdiv VIEW_BUFFER_SIZE 2) (SeekY + 2 * Int.tdiv VIEW_BUFFER_SIZE 6) := by
  unfold vscrollRequest
  have h6 : Int.tdiv VIEW_BUFFER_SIZE 6 = 10000 := by decide
  have h2 : Int.tdiv VIEW_BUFFER_SIZE 2 = 30000 := by decide
  simp only [h6, h2]
  split_ifs <;> refine ⟨?_, trivial, ?_⟩ <;> omega

/-- C21. The literal search loops terminate without cancellation. For every world (also one
in which Esc is never pressed and no read fails), every window and every pattern of length
`m ≥ 1`: one iteration of the forward loop either leaves the loop or goes on with
`FindOffset` increased by at least 1 and not behind the file (also after a whole-word
rejection), one iteration of the backward loop either leaves the loop or goes on with
`FindOffset` decreased by at least 1 and not negative, and a search started at a cursor in
`[0, FileSize]` has ended after at most `FileSize + 1` iterations, in either direction. -/
theorem literal_search_terminates (w : World) (s : CViewerWindow) (r : FindRun)
    (hm : 1 ≤ s.SearchData.val.length) :
    ((∃ res, ∀ fuel, literalForward w (fuel + 1) s r = some res) ∨
      (∃ s2 r2, s.FindOffset + 1 ≤ s2.FindOffset ∧ s2.FindOffset ≤ FileSize w ∧
        s2.SearchData = s.SearchData ∧
        ∀ fuel, literalForward w (fuel + 1) s r = literalForward w fuel s2 r2)) ∧
    ((∃ res, ∀ fuel, literalBackward w (fuel + 1) s r = some res) ∨
      (∃ s2 r2, s2.FindOffset + 1 ≤ s.FindOffset ∧ 0 ≤ s2.FindOffset ∧
        s2.SearchData = s.SearchData ∧
        ∀ fuel, literalBackward w (fuel + 1) s r = literalBackward w fuel s2 r2)) ∧
    (0 ≤ s.FindOffset → s.FindOffset ≤ FileSize w →
      (∃ res, literalForward w (w.file.length + 1) s r = some res) ∧
      (∃ res, literalBackward w (w.file.length + 1) s r = some res)) := by
  have hf := literalForward_step w s r hm
  have hb := literalBackward_step w s r hm
  refine ⟨hf, hb, fun h0 h1 => ⟨?_, ?_⟩⟩
  · exact literalForward_ends w (w.file.length + 1) s r hm h1
      (by unfold FileSize at *; push_cast; omega)
  · exact literalBackward_ends w (w.file.length + 1) s r hm h0
      (by unfold FileSize at *; push_cast; omega)

/-- Witness for C21: in "abcXYZdefXYZghi" (15 bytes) the search for "XYZ" from offset 0
ends within 16 iterations in both directions. -/
theorem literal_search_terminates_witness :
    (∃ res, literalForward symmetryFile 16 symmetryWindow {} = some res) ∧
    (∃ res, literalBackward symmetryFile 16 symmetryWindow {} = some res) :=
  (literal_search_terminates symmetryFile symmetryWindow {} (by decide)).2.2
    (by decide) (by decide)

/-- C22. An empty regular-expression match is not left without effect on the view. In the
file of the two lines "ab" and "Xcd", with the view scrolled to the second line
(`SeekY = 3`), nothing selected and the cursor at 3, the forward search for an expression
that matches the empty string shows `IDS_EMPTYMATCH` and keeps `StartSelection`,
`EndSelection` and `FindOffset`, but it leaves `found ≠ -1`, so the end of the command
takes the branch of a match and scrolls the view to the beginning of the file
(`SeekY = 0`) and sets `ScrollToSelection`. -/
theorem empty_match_scrolls_view :
    scrolledWindow.SeekY = 3 ∧
    findCommand emptyMatchFile 9 FindCmd.CM_FINDNEXT scrolledWindow
      = some ({ scrolledWindow with SeekY := 0, ScrollToSelection := true,
                                    LastFindSeekY := 0, LastFindOffset := 3 },
              { found := 0, noNotFound := true, reads := 1,
                messages := [Message.IDS_EMPTYMATCH] }) := by
  decide

/-- C23. The empty selection is a terminal state for keyboard extension. Whenever
`StartSelection = EndSelection` (unset or collapsed), each of `CM_EXTSEL_LEFT`, `_RIGHT`,
`_UP`, `_DOWN`, `_HOME`, `_END`, `_FILEBEG` and `_FILEEND` is skipped and leaves
`StartSelection`, `EndSelection`, `FindOffset`, `SeekY` and `OriginX` unchanged; hence no
sequence of these commands grows the selection again. -/
theorem empty_selection_is_terminal (w : World) (s : CViewerWindow)
    (h : s.StartSelection = s.EndSelection) :
    (∀ cmd, keyboardExtension cmd = true →
      (navCommand w cmd s).StartSelection = s.StartSelection ∧
      (navCommand w cmd s).EndSelection = s.EndSelection ∧
      (navCommand w cmd s).FindOffset = s.FindOffset ∧
      (navCommand w cmd s).SeekY = s.SeekY ∧ (navCommand w cmd s).OriginX = s.OriginX) ∧
    (∀ cmds : List NavCmd, (∀ cmd ∈ cmds, keyboardExtension cmd = true) →
      (navCommands w cmds s).StartSelection = s.StartSelection ∧
      (navCommands w cmds s).EndSelection = s.EndSelection ∧
      (navCommands w cmds s).FindOffset = s.FindOffset ∧
      (navCommands w cmds s).SeekY = s.SeekY ∧ (navCommands w cmds s).OriginX = s.OriginX) := by
  have one : ∀ (t : CViewerWindow) (cmd : NavCmd), t.StartSelection = t.EndSelection →
      keyboardExtension cmd = true →
      (navCommand w cmd t).StartSelection = t.StartSelection ∧
      (navCommand w cmd t).EndSelection = t.EndSelection ∧
      (navCommand w cmd t).FindOffset = t.FindOffset ∧
      (navCommand w cmd t).SeekY = t.SeekY ∧ (navCommand w cmd t).OriginX = t.OriginX := by
    intro t cmd ht hcmd
    unfold navCommand
    split_ifs
    · exact ⟨rfl, rfl, rfl, rfl, rfl⟩
    · cases cmd
      all_goals first
        | exact absurd hcmd (by decide)
        | simp [navSwitch, navFinish, extSelCommand, extSelFileBeg, fileEndCommand, ht]
    · exact ⟨rfl, rfl, rfl, rfl, rfl⟩
  refine ⟨fun cmd hcmd => one s cmd h hcmd, ?_⟩
  intro cmds
  unfold navCommands
  induction cmds generalizing s with
  | nil => intro _; exact ⟨rfl, rfl, rfl, rfl, rfl⟩
  | cons c rest ih =>
    intro hall
    have h1 := one s c h (hall c (List.mem_cons_self _ _))
    have h2 := ih (navCommand w c s) (by rw [h1.1, h1.2.1]; exact h)
      (fun x hx => hall x (List.mem_cons_of_mem _ hx))
    simp only [List.foldl_cons]
    rw [h2.1, h2.2.1, h2.2.2.1, h2.2.2.2.1, h2.2.2.2.2]
    exact h1

/-- Witness for C23: with the selection collapsed at offset 3 in the one-line view of
"abcdefgh", `CM_EXTSEL_RIGHT` leaves both ends at 3. -/
theorem empty_selection_witness :
    collapsedWindow.StartSelection = 3 ∧
    (navCommand cancelledFile NavCmd.CM_EXTSEL_RIGHT collapsedWindow).StartSelection = 3 ∧
    (navCommand cancelledFile NavCmd.CM_EXTSEL_RIGHT collapsedWindow).EndSelection = 3 :=
  have h := (empty_selection_is_terminal cancelledFile collapsedWindow (by decide)).1
    NavCmd.CM_EXTSEL_RIGHT (by decide)
  ⟨by decide, h.1, h.2.1⟩

/-- C24: the file history stays bounded and free of duplicates. When the array holds at
most 30 items, no two of them `Equal` (the comparison of names taken symmetric), then after
`AddFile`, whatever it returns, the array holds at most 30 items, no two of them `Equal`;
and when it holds 30 items, none `Equal` to the data, and the new item and the insertion
succeed, `AddFile` returns TRUE and leaves the new item in front of the old array without
its last item, the one with the highest index. -/
theorem AddFile_keeps_history_bounded (e : FileHistoryWorld) (t : CFileHistoryItemTypeEnum)
    (h : Nat) (f : List Nat) (Files : List CFileHistoryItem)
    (hsymm : ∀ a b, e.sameName a b = e.sameName b a)
    (hlen : Files.length ≤ 30) (hd : NoTwoEqual e Files) :
    (AddFile e t h f Files).2.length ≤ 30 ∧
    NoTwoEqual e (AddFile e t h f Files).2 ∧
    (Files.length = 30 → (∀ x ∈ Files, x.Equal e t h f = false) →
      e.newIsGood = true → e.insertIsGood = true →
      AddFile e t h f Files
        = (true, { ItemType := t, HandlerID := h, FileName := f } :: Files.dropLast)) := by
  refine ⟨?_, ?_, ?_⟩
  · unfold AddFile
    cases hfe : findEqual e t h f Files 0 with
    | some i =>
      simp only []
      by_cases hi : i > 0
      · rw [if_pos hi]
        cases hg : Files.get? i with
        | none => exact hlen
        | some item =>
          have hlt : i < Files.length := by
            rw [List.get?_eq_some] at hg
            exact hg.1
          simp only []
          by_cases hins : e.insertIsGood = true
          · rw [if_pos hins]
            simp only [List.length_cons, List.length_eraseIdx, if_pos hlt]
            omega
          · rw [if_neg hins]
            simp only [List.length_eraseIdx, if_pos hlt]
            omega
      · rw [if_neg hi]; exact hlen
    | none =>
      simp only []
      by_cases hn : e.newIsGood = true
      · rw [if_neg (not_not.mpr hn)]
        by_cases hins : e.insertIsGood = true
        · rw [if_neg (not_not.mpr hins)]
          simp only []
          split_ifs with hl
          · rw [List.length_eraseIdx]
            simp only [List.length_cons] at hl ⊢
            split_ifs <;> omega
          · simpa using hl
        · rw [if_pos hins]; exact hlen
      · rw [if_pos hn]; exact hlen
  · unfold AddFile
    cases hfe : findEqual e t h f Files 0 with
    | some i =>
      simp only []
      by_cases hi : i > 0
      · rw [if_pos hi]
        cases hg : Files.get? i with
        | none => exact hd
        | some item =>
          simp only []
          by_cases hins : e.insertIsGood = true
          · rw [if_pos hins]
            exact NoTwoEqual_perm e _ _ (cons_eraseIdx_perm Files i item hg).symm hd
          · rw [if_neg hins]
            exact NoTwoEqual_eraseIdx e _ _ hd
      · rw [if_neg hi]; exact hd
    | none =>
      simp only []
      by_cases hn : e.newIsGood = true
      · rw [if_neg (not_not.mpr hn)]
        by_cases hins : e.insertIsGood = true
        · rw [if_neg (not_not.mpr hins)]
          simp only []
          have hc := NoTwoEqual_cons e hsymm t h f Files (findEqual_none e t h f Files 0 hfe) hd
          split_ifs
          · exact NoTwoEqual_eraseIdx e _ _ hc
          · exact hc
        · rw [if_pos hins]; exact hd
      · rw [if_pos hn]; exact hd
  · intro h30 hx hn hins
    unfold AddFile
    rw [findEqual_eq_none e t h f Files 0 hx]
    simp only []
    rw [if_neg (not_not.mpr hn), if_neg (not_not.mpr hins)]
    simp only [List.length_cons, h30]
    rw [if_pos (by omega), List.eraseIdx_cons_succ,
      List.dropLast_eq_eraseIdx (show 29 + 1 = Files.length by omega)]

/-- C24, witness: a 31st file added to the history of 30 items; the item of the handler 29,
the last one, is dropped. -/
theorem AddFile_bounded_witness :
    fullHistory.length = 30 ∧ NoTwoEqual {} fullHistory ∧
    (AddFile {} CFileHistoryItemTypeEnum.fhitEdit 7 (bytes "b.txt") fullHistory).2.length = 30 ∧
    NoTwoEqual {}
      (AddFile {} CFileHistoryItemTypeEnum.fhitEdit 7 (bytes "b.txt") fullHistory).2 ∧
    AddFile {} CFileHistoryItemTypeEnum.fhitEdit 7 (bytes "b.txt") fullHistory
      = (true, { ItemType := CFileHistoryItemTypeEnum.fhitEdit, HandlerID := 7,
                 FileName := bytes "b.txt" } :: fullHistory.dropLast) :=
  have hsymm : ∀ a b : List Nat, ({} : FileHistoryWorld).sameName a b
      = ({} : FileHistoryWorld).sameName b a := fun a b => by
    show (a == b) = (b == a)
    exact BEq.comm
  have hl : fullHistory.length = 30 := by simp [fullHistory]
  have hd : NoTwoEqual {} fullHistory := by
    unfold NoTwoEqual fullHistory
    rw [List.pairwise_map]
    refine List.Pairwise.imp ?_ (List.pairwise_lt_range 30)
    intro a b hab
    simp [itemsEqual, CFileHistoryItem.Equal]
    omega
  have hx : ∀ x ∈ fullHistory,
      x.Equal {} CFileHistoryItemTypeEnum.fhitEdit 7 (bytes "b.txt") = false := by
    intro x hx
    simp only [fullHistory, List.mem_map] at hx
    obtain ⟨i, _, rfl⟩ := hx
    simp [CFileHistoryItem.Equal]
  have h := AddFile_keeps_history_bounded {} CFileHistoryItemTypeEnum.fhitEdit 7
    (bytes "b.txt") fullHistory hsymm (le_of_eq hl) hd
  have he := h.2.2 hl hx rfl rfl
  ⟨hl, hd, by rw [he]; simp [hl], h.2.1, he⟩

/-- C25: `DuplicateAmpersands` on the array of four bytes "ab&" with the NUL, the string
filling the array and ending in '&' (`bufferSize` 4, `skipFirstAmpersand` FALSE): the
branch that truncates leaves `s` behind the NUL and the test of the loop reads the byte at
index 4, outside the array. With one byte more the same string is doubled to "ab&&" and
TRUE is returned. -/
theorem DuplicateAmpersands_reads_behind_buffer :
    strlen fullAmpersandBuffer = some 3 ∧
    DuplicateAmpersands 8 fullAmpersandBuffer 4 false = some (AmpResult.outside 4) ∧
    DuplicateAmpersands 8 roomyAmpersandBuffer 5 false
      = some (AmpResult.done true (bytes "ab&&" ++ [0])) := by
  decide

/-- C26: `SalRemovePointsFromPath` normalises completely. For every string (its bytes
without the NUL) the loop ends, with fuel above twice the length of the string; the
resulting string is not longer than the input; when TRUE is returned no component between
the backslashes of the resulting string is "." or ".."; and when FALSE is returned the
first component of what is left is "..", with no component in front of it to cancel. -/
theorem SalRemovePointsFromPath_normalises (afterRoot : List Nat)
    (hz : ∀ c ∈ afterRoot, c ≠ 0) (fuel : Nat) (hf : 2 * afterRoot.length < fuel) :
    ∃ ret out, SalRemovePointsFromPath fuel afterRoot = some (ret, out) ∧
      out.length ≤ afterRoot.length ∧
      (ret = true → bytes "." ∉ components out ∧ bytes ".." ∉ components out) ∧
      (ret = false → (components out).head? = some (bytes "..")) := by
  obtain ⟨ret, out, e1, e2, e3, e4, e5⟩ := removePointsLoop_spec fuel afterRoot 0 hz
    (Nat.zero_le _) (fun i hi => absurd hi (Nat.not_lt_zero i)) (by omega)
  refine ⟨ret, out, e1, e2, fun h => no_point_components out (e4 h), fun h => ?_⟩
  obtain ⟨p0, p1, p2⟩ := e5 h
  exact components_head_points out e3 p0 p1 p2

/-- C26, witness: "a\.\b\..\c" becomes "a\c" with TRUE, and "a\..\..\b" ends with FALSE
and "..\b" left. -/
theorem SalRemovePointsFromPath_witness :
    (∀ c ∈ bytes "a\\.\\b\\..\\c", c ≠ 0) ∧ 2 * (bytes "a\\.\\b\\..\\c").length < 21 ∧
    (∃ ret out, SalRemovePointsFromPath 21 (bytes "a\\.\\b\\..\\c") = some (ret, out) ∧
      out.length ≤ (bytes "a\\.\\b\\..\\c").length ∧
      (ret = true → bytes "." ∉ components out ∧ bytes ".." ∉ components out) ∧
      (ret = false → (components out).head? = some (bytes ".."))) ∧
    SalRemovePointsFromPath 21 (bytes "a\\.\\b\\..\\c") = some (true, bytes "a\\c") ∧
    SalRemovePointsFromPath 21 (bytes "a\\..\\..\\b") = some (false, bytes "..\\b") :=
  ⟨by decide, by decide,
   SalRemovePointsFromPath_normalises (bytes "a\\.\\b\\..\\c") (by decide) 21 (by decide),
   by decide, by decide⟩

/-- C27: a double click without Ctrl selects the maximal run of word bytes around the
clicked offset. When no read fails, `GetOffset` gives an offset `off` with
`0 ≤ off ≤ FileSize`, and the fuel exceeds the size of the file, the handler ends with
`StartSelection ≤ off ≤ EndSelection`, both in the file; each byte in
`[StartSelection, EndSelection)` is a word byte; the byte at `StartSelection - 1` (when
`StartSelection > 0`) and the byte at `EndSelection` (when `EndSelection < FileSize`) are
no word bytes. The file has any size, so the run may reach over any number of the chunks
of `APROX_LINE_LEN` bytes. -/
theorem double_click_selects_word (w : World) (hr : ∀ n, w.readErr n = false)
    (d : DblClick) (s : CViewerWindow) (fuel : Nat)
    (hret : d.off.ret = true) (hfe : d.off.fatalErr = false) (hwl : d.wholeLine = false)
    (h0 : 0 ≤ d.off.off) (h1 : d.off.off ≤ FileSize w) (hfuel : w.file.length < fuel) :
    ∃ s', OnLButtonDblClk w fuel d s = some s' ∧
      0 ≤ s'.StartSelection ∧ s'.StartSelection ≤ d.off.off ∧
      d.off.off ≤ s'.EndSelection ∧ s'.EndSelection ≤ FileSize w ∧
      (∀ x, s'.StartSelection ≤ x → x < s'.EndSelection → wordByte w (byteAt w x) = true) ∧
      (0 < s'.StartSelection → wordByte w (byteAt w (s'.StartSelection - 1)) = false) ∧
      (s'.EndSelection < FileSize w → wordByte w (byteAt w s'.EndSelection) = false) := by
  have hF : FileSize w = w.file.length := rfl
  obtain ⟨x, k, e1, a1, a2, a3, a4⟩ := selStartLoop_word w d hr hwl fuel d.off.off false 0
    h0 h1 (by omega)
  obtain ⟨y, k2, e2, b1, b2, b3, b4⟩ := selEndLoop_word w d hr hwl fuel d.off.off false k
    h0 h1 (by omega)
  unfold OnLButtonDblClk
  rw [if_pos ⟨hret, by rw [hfe]; exact Bool.false_ne_true⟩, e1]
  simp only []
  rw [e2]
  refine ⟨_, rfl, a1, a2, b1, b2, fun z hz1 hz2 => ?_, a4, b4⟩
  by_cases hz : z < d.off.off
  · exact a3 z hz1 hz
  · exact b3 z (by omega) hz2

/-- C27, witness: in "concatenate cat scatter" a double click on the "a" of "cat", at
offset 13, selects the bytes 12 to 15. -/
theorem double_click_word_witness :
    (∃ s', OnLButtonDblClk wholeWordFile 24 wordClickAtThirteen wholeWordWindow = some s' ∧
      0 ≤ s'.StartSelection ∧ s'.StartSelection ≤ 13 ∧
      13 ≤ s'.EndSelection ∧ s'.EndSelection ≤ FileSize wholeWordFile ∧
      (∀ x, s'.StartSelection ≤ x → x < s'.EndSelection →
        wordByte wholeWordFile (byteAt wholeWordFile x) = true) ∧
      (0 < s'.StartSelection →
        wordByte wholeWordFile (byteAt wholeWordFile (s'.StartSelection - 1)) = false) ∧
      (s'.EndSelection < FileSize wholeWordFile →
        wordByte wholeWordFile (byteAt wholeWordFile s'.EndSelection) = false)) ∧
    OnLButtonDblClk wholeWordFile 24 wordClickAtThirteen wholeWordWindow
      = some { wholeWordWindow with StartSelection := 12, EndSelection := 15 } :=
  ⟨double_click_selects_word wholeWordFile (fun _ => rfl) wordClickAtThirteen wholeWordWindow
     24 rfl rfl rfl (by decide) (by decide) (by decide),
   by decide⟩

/-- C28. The top-of-view offset stays in range. If `0 ≤ SeekY ≤ MaxSeekY` holds before, it
holds after `ScrollViewLineDown`, `ScrollViewLineUp`, page-down, page-up in the hex view,
file-begin and file-end, both for the functions and for the commands `CM_LINEDOWN`,
`CM_LINEUP`, `CM_PAGEDOWN`, `CM_PAGEUP` (hex view), `CM_FILEBEGIN` and `CM_FILEEND` as a
whole, for every `FirstLineSize ≥ 0`, every `ViewSize` and `LastLineSize`, and every
non-negative size returned by `ZeroLineSize`; and `ScrollViewLineDown` returns `TRUE`
exactly when it changed `SeekY`. Assumed of the repaint run by `UpdateWindow`: it leaves
`SeekY` and `MaxSeekY` alone. -/
theorem SeekY_stays_in_range (w : World)
    (hP : ∀ s, (w.Paint s).SeekY = s.SeekY ∧ (w.Paint s).MaxSeekY = s.MaxSeekY)
    (hZ : ∀ y, 0 ≤ (w.ZeroLineSize y).value)
    (s : CViewerWindow) (hs : SeekYInRange s) (hf : 0 ≤ s.FirstLineSize) :
    SeekYInRange (ScrollViewLineDown w s).1 ∧
    ((ScrollViewLineDown w s).2 = true ↔ (ScrollViewLineDown w s).1.SeekY ≠ s.SeekY) ∧
    (∀ (repeatCmd : Int) (repaint : Bool),
      SeekYInRange (ScrollViewLineUp w repeatCmd repaint s).1) ∧
    SeekYInRange (pageDown s).1 ∧
    (s.ViewType = CViewType.vtHex → SeekYInRange (pageUp w s).1) ∧
    (∀ f : NavFlags, SeekYInRange (fileBegin s f).1) ∧
    (∀ (newOriginX : Int) (f : NavFlags), SeekYInRange (fileEnd newOriginX s f).1) ∧
    (∀ cmd : NavCmd, scrollsVertically cmd = true →
      (cmd = NavCmd.CM_PAGEUP → s.ViewType = CViewType.vtHex) →
      SeekYInRange (navCommand w cmd s)) := by
  have hd := ScrollViewLineDown_SeekY w hP s hs hf
  have hu := ScrollViewLineUp_SeekY w hP hZ
  refine ⟨hd.2.1, hd.2.2, fun c r => (hu c r s hs).2, (pageDown_SeekY s hs hf).2,
    fun hx => (pageUp_hex_SeekY w s hs hx).2, fun f => (fileBegin_SeekY s f hs).2,
    fun x f => (fileEnd_SeekY x s f hs).2, ?_⟩
  intro cmd hcmd hhex
  have key : (navSwitch w cmd s).1.MaxSeekY = s.MaxSeekY ∧
      SeekYInRange (navSwitch w cmd s).1 := by
    cases cmd
    all_goals first
      | exact absurd hcmd (by decide)
      | exact ⟨hd.1, hd.2.1⟩
      | exact pageDown_SeekY s hs hf
      | exact pageUp_hex_SeekY w s hs (hhex rfl)
      | exact fileBegin_SeekY s _ hs
      | exact fileEnd_SeekY _ s _ hs
      | (unfold navSwitch
         simp only []
         split_ifs <;> exact hu _ _ s hs)
  unfold navCommand
  split_ifs
  · exact hs
  · have hn := navFinish_SeekY w hP (navSwitch w cmd s)
    unfold SeekYInRange at key ⊢
    rw [hn.1, hn.2]
    exact key.2
  · exact hs

/-- Witness for C28: in the hex view at offset 64 with `MaxSeekY = 96`, `CM_PAGEUP` moves
the view to offset 16 and `CM_FILEEND` to offset 96, both in the range. -/
theorem SeekY_range_witness :
    SeekYInRange hexRangeWindow ∧
    SeekYInRange (navCommand cancelledFile NavCmd.CM_PAGEUP hexRangeWindow) ∧
    (navCommand cancelledFile NavCmd.CM_PAGEUP hexRangeWindow).SeekY = 16 ∧
    SeekYInRange (navCommand cancelledFile NavCmd.CM_FILEEND hexRangeWindow) ∧
    (navCommand cancelledFile NavCmd.CM_FILEEND hexRangeWindow).SeekY = 96 :=
  have h := (SeekY_stays_in_range cancelledFile (fun _ => ⟨rfl, rfl⟩)
    (fun _ => (by decide : (0 : Int) ≤ 0)) hexRangeWindow (by decide)
    (by decide)).2.2.2.2.2.2.2
  ⟨by decide, h NavCmd.CM_PAGEUP (by decide) (fun _ => by decide), by decide,
   h NavCmd.CM_FILEEND (by decide) (fun h => by cases h), by decide⟩

end Viewer
